import Mathlib

/-!
# Lowering of `vector.contract`: embedding of `LowerVectorContract.cpp`

The rewrite patterns of `mlir/lib/Dialect/Vector/Transforms/LowerVectorContract.cpp`
are embedded as pure functions over an explicit rewriter state.

* A `Value` is the SSA value produced by an operation, written as the term of its
  defining operation (operands are values again); the null handle `Value()` of the
  C++ code is `Value.null`.
* A `PatternRewriter` is the list of operations created so far, in creation order.
  Every `XOp::create(rewriter, ...)` of the source appends one entry.
* `FailureOr` and `LogicalResult` are the two result types of the patterns.
* `denote` assigns to a value over integer elements the function from index
  lists to machine integers (reduced modulo `2 ^ width`).
-/

namespace LowerVectorContract

/-! ## Attributes and types -/

/-- Iterator kind of one domain label (`vector::IteratorType`). -/
inductive IteratorType where
  | parallel
  | reduction
  deriving DecidableEq

/-- Source: `isParallelIterator`. -/
def isParallelIterator (it : IteratorType) : Bool :=
  decide (it = IteratorType.parallel)

/-- Source: `isReductionIterator`. -/
def isReductionIterator (it : IteratorType) : Bool :=
  decide (it = IteratorType.reduction)

/-- Combining kinds named by the source (`vector::CombiningKind`). -/
inductive CombiningKind where
  | ADD | MUL | MINUI | MINSI | MINNUMF | MAXUI | MAXSI | MAXNUMF
  | AND | OR | XOR | MAXIMUMF | MINIMUMF
  deriving DecidableEq

/-- Modelled from the spec: the declaration of `vector::VectorContractLowering` is
outside the given sources; section 6 lists the selectable strategies `OuterProduct`,
`Dot`, `ParallelArith` and one further value under which only peeling applies. -/
inductive VectorContractLowering where
  | Dot | Peeling | OuterProduct | ParallelArith
  deriving DecidableEq

/-- Element types: `IntegerType` of a width, `IndexType`, `FloatType` of a width. -/
inductive ElementType where
  | integer (width : Nat)
  | index
  | float (width : Nat)
  deriving DecidableEq

/-- The test `isa<IntegerType>(t)`. -/
def ElementType.isInteger : ElementType → Bool
  | .integer _ => true
  | _ => false

/-- The test `t.isIntOrIndex()`. -/
def ElementType.isIntOrIndex : ElementType → Bool
  | .integer _ => true
  | .index => true
  | .float _ => false

/-- The test `isa<FloatType>(t)`. -/
def ElementType.isFloat : ElementType → Bool
  | .float _ => true
  | _ => false

/-- Bit width used for `index` elements when a value is evaluated. -/
def indexBitwidth : Nat := 64

/-- Bit width of an integer-like element type; floating point has none here. -/
def ElementType.intWidth? : ElementType → Option Nat
  | .integer w => some w
  | .index => some indexBitwidth
  | .float _ => none

/-- A `VectorType`: extents, per-axis scalable flags, element type. -/
structure VectorType where
  shape : List Nat
  scalableDims : List Bool
  elementType : ElementType
  deriving DecidableEq

/-- Source: `VectorType::getRank`. -/
def VectorType.getRank (t : VectorType) : Nat := t.shape.length

/-- Source: `VectorType::getDimSize`; the C++ accessor asserts `i < rank`. -/
def VectorType.getDimSize (t : VectorType) (i : Nat) : Nat := t.shape.getD i 0

/-- Source: `VectorType::Builder(type).dropDim(i)`. -/
def VectorType.dropDim (t : VectorType) (i : Nat) : VectorType :=
  { shape := t.shape.eraseIdx i, scalableDims := t.scalableDims.eraseIdx i,
    elementType := t.elementType }

/-- Source: `VectorType::clone(elementType)`. -/
def VectorType.clone (t : VectorType) (e : ElementType) : VectorType :=
  { shape := t.shape, scalableDims := t.scalableDims, elementType := e }

/-- Source: `VectorType::allDimsScalable`. -/
def VectorType.allDimsScalable (t : VectorType) : Bool :=
  !t.scalableDims.isEmpty && t.scalableDims.all id

/-- An MLIR `Type` as far as the lowering looks at it; `null` is the null handle. -/
inductive MlirType where
  | null
  | scalar (e : ElementType)
  | vector (v : VectorType)
  deriving DecidableEq

/-- The conversion `dyn_cast<VectorType>(t)`. -/
def MlirType.dynCastVector : MlirType → Option VectorType
  | .vector v => some v
  | _ => none

/-- The test `isa<VectorType>(t)`. -/
def MlirType.isVector : MlirType → Bool
  | .vector _ => true
  | _ => false

/-- Source: `getElementTypeOrSelf`, as an element type when there is one. -/
def MlirType.elementType? : MlirType → Option ElementType
  | .null => none
  | .scalar e => some e
  | .vector v => some v.elementType

/-- Shape of a type: a scalar has the empty shape. -/
def MlirType.shape : MlirType → List Nat
  | .vector v => v.shape
  | _ => []

/-- An index map of a contraction. The verifier of `vector.contract` admits only
projected permutations without symbols, so a map is its domain size together with
the label (dimension position) of each result. -/
structure AffineMap where
  numDims : Nat
  results : List Nat
  deriving DecidableEq

/-- Source: `AffineMap::getNumResults`. -/
def AffineMap.getNumResults (m : AffineMap) : Nat := m.results.length

/-- Source: `AffineMap::getNumDims`. -/
def AffineMap.getNumDims (m : AffineMap) : Nat := m.numDims

/-- Source: `AffineMap::getDimPosition`; the C++ accessor asserts `i < numResults`. -/
def AffineMap.getDimPosition (m : AffineMap) (i : Nat) : Nat := m.results.getD i 0

/-- Modelled from the spec: `AffineMap::inferFromExprList` is outside the given
sources; every inferred map has as domain size one more than the largest label
that occurs in any of the lists (section 4.1: the maps share one label domain). -/
def inferFromExprList (l : List (List Nat)) : List AffineMap :=
  let numDims := (l.flatten.map (· + 1)).foldl max 0
  l.map (fun exprs => { numDims := numDims, results := exprs })

/-- The binary `arith` operations created by the lowering. -/
inductive ArithBinOp where
  | addi | addf | muli | mulf
  | minui | minsi | maxui | maxsi | andi | ori | xori
  | minnumf | maxnumf | minimumf | maximumf
  deriving DecidableEq

/-! ## Values and operations -/

/-- An SSA value, written as the term of the operation that defines it. -/
inductive Value where
  /-- The null handle `Value()`. -/
  | null
  /-- A value defined outside the rewritten operation. -/
  | arg (n : Nat) (ty : MlirType)
  /-- The operation `arith.constant` with the zero attribute of `ty`. -/
  | constantZero (ty : MlirType)
  /-- A binary `arith` operation. -/
  | binary (op : ArithBinOp) (x y : Value)
  /-- The operation `arith.select`. -/
  | select (cond t f : Value)
  /-- The operation `arith.extf` to type `ty`. -/
  | extf (ty : MlirType) (v : Value)
  /-- The operation `arith.extsi` to type `ty`. -/
  | extsi (ty : MlirType) (v : Value)
  /-- The operation `vector.fma`. -/
  | fma (x y acc : Value)
  /-- The operation `vector.transpose`. -/
  | transpose (v : Value) (perm : List Nat)
  /-- The operation `vector.extract` at static position `pos`. -/
  | extract (v : Value) (pos : List Nat)
  /-- The operation `vector.insert` of `src` into `dst` at static position `pos`. -/
  | insert (src dst : Value) (pos : List Nat)
  /-- The operation `vector.broadcast` to `ty`. -/
  | broadcast (ty : VectorType) (v : Value)
  /-- The operation `vector.outerproduct` with result type `ty`. -/
  | outerproduct (ty : MlirType) (lhs rhs acc : Value) (kind : CombiningKind)
  /-- The operation `vector.reduction`; `acc` is null when absent. -/
  | reduction (kind : CombiningKind) (v acc : Value)
  /-- The operation `vector.contract`. -/
  | contract (lhs rhs acc : Value) (maps : List AffineMap)
      (iters : List IteratorType) (kind : CombiningKind)
  /-- The operation `vector.mask` with mask `m` around the operation defining `inner`. -/
  | mask (m : Value) (inner : Value)
  deriving DecidableEq

/-- The test `if (v)` on a value handle. -/
def Value.isNull : Value → Bool
  | .null => true
  | _ => false

/-- Source: `Value::getType`. The result type of each operation is the one its
builder infers or is given; the null value is given the null type. -/
def Value.getType : Value → MlirType
  | .null => .null
  | .arg _ ty => ty
  | .constantZero ty => ty
  | .binary _ x _ => x.getType
  | .select _ t _ => t.getType
  | .extf ty _ => ty
  | .extsi ty _ => ty
  | .fma x _ _ => x.getType
  | .transpose v perm =>
      match v.getType with
      | .vector vt =>
          .vector { shape := perm.map (fun p => vt.shape.getD p 0),
                    scalableDims := perm.map (fun p => vt.scalableDims.getD p false),
                    elementType := vt.elementType }
      | _ => .null
  | .extract v pos =>
      match v.getType with
      | .vector vt =>
          if pos.length < vt.shape.length then
            .vector { shape := vt.shape.drop pos.length,
                      scalableDims := vt.scalableDims.drop pos.length,
                      elementType := vt.elementType }
          else if pos.length = vt.shape.length then .scalar vt.elementType
          else .null
      | _ => .null
  | .insert _ dst _ => dst.getType
  | .broadcast ty _ => .vector ty
  | .outerproduct ty _ _ _ _ => ty
  | .reduction _ v _ =>
      match v.getType with
      | .vector vt => .scalar vt.elementType
      | _ => .null
  | .contract _ _ acc _ _ _ => acc.getType
  | .mask _ inner => inner.getType

/-- The rewriter: the operations created so far, oldest first. -/
structure PatternRewriter where
  ops : List Value
  deriving DecidableEq

/-- Any `XOp::create(rewriter, loc, ...)`: record the operation, return its result. -/
def PatternRewriter.create (rewriter : PatternRewriter) (op : Value) :
    Value × PatternRewriter :=
  (op, { ops := rewriter.ops ++ [op] })

/-- Source: `FailureOr<T>`. -/
inductive FailureOr (α : Type) where
  | failure
  | success (value : α)
  deriving DecidableEq

/-- Source: `succeeded(result)`. -/
def FailureOr.succeeded {α : Type} : FailureOr α → Bool
  | .success _ => true
  | .failure => false

/-- Source: `failed(result)`. -/
def FailureOr.failed {α : Type} : FailureOr α → Bool
  | .success _ => false
  | .failure => true

/-- Source: `LogicalResult`. -/
inductive LogicalResult where
  | success
  | failure
  deriving DecidableEq

/-- Source: `failed(result)` on a `LogicalResult`. -/
def LogicalResult.failed : LogicalResult → Bool
  | .success => false
  | .failure => true

/-- The contraction offered to a pattern. `acc` is a nullable handle, as the source
tests it; `maskingOp` is the mask of the enclosing `vector.mask`, null when the
contraction is not masked. -/
structure ContractionOp where
  lhs : Value
  rhs : Value
  acc : Value
  indexingMaps : List AffineMap
  iteratorTypes : List IteratorType
  kind : CombiningKind
  resultType : MlirType
  maskingOp : Value
  deriving DecidableEq

/-- Source: `ContractionOp::getLhsType`, `cast<VectorType>(getLhs().getType())`;
a non-vector operand (excluded by the operation's verifier) yields the empty type. -/
def ContractionOp.getLhsType (op : ContractionOp) : VectorType :=
  match op.lhs.getType with
  | .vector vt => vt
  | _ => { shape := [], scalableDims := [], elementType := .index }

/-- Source: `ContractionOp::getRhsType`. -/
def ContractionOp.getRhsType (op : ContractionOp) : VectorType :=
  match op.rhs.getType with
  | .vector vt => vt
  | _ => { shape := [], scalableDims := [], elementType := .index }

/-- Source: `ContractionOp::getAccType`. -/
def ContractionOp.getAccType (op : ContractionOp) : MlirType := op.acc.getType

/-- Source: `MaskableOpInterface::isMasked`. -/
def ContractionOp.isMasked (op : ContractionOp) : Bool := !op.maskingOp.isNull

/-- Source: `FilterConstraintType`. -/
abbrev FilterConstraintType := ContractionOp → LogicalResult

/-- Source: `defaultFilter` of each pattern class. -/
def defaultFilter : FilterConstraintType := fun _ => LogicalResult.success

/-! ## Denotation of integer values -/

/-- The elements of a tensor value: a function of the index list. -/
abbrev Elem := List Nat → Int

/-- Signed reading of a `w`-bit machine integer. -/
def toSigned (w : Nat) (x : Int) : Int :=
  if x % 2 ^ w < 2 ^ (w - 1) then x % 2 ^ w else x % 2 ^ w - 2 ^ w

/-- Modelled from the spec: the `arith` dialect is outside the given sources;
integer operations act on `w`-bit machine integers (results modulo `2 ^ w`),
floating-point operations are given no integer meaning. -/
def ArithBinOp.evalInt? (w : Nat) : ArithBinOp → Option (Int → Int → Int)
  | .addi => some (fun a b => (a + b) % 2 ^ w)
  | .muli => some (fun a b => (a * b) % 2 ^ w)
  | .minui => some (fun a b => min (a % 2 ^ w) (b % 2 ^ w))
  | .maxui => some (fun a b => max (a % 2 ^ w) (b % 2 ^ w))
  | .minsi => some (fun a b => if toSigned w a ≤ toSigned w b then a % 2 ^ w else b % 2 ^ w)
  | .maxsi => some (fun a b => if toSigned w a ≤ toSigned w b then b % 2 ^ w else a % 2 ^ w)
  | .andi => some (fun a b => Int.ofNat (Nat.land (a % 2 ^ w).toNat (b % 2 ^ w).toNat))
  | .ori => some (fun a b => Int.ofNat (Nat.lor (a % 2 ^ w).toNat (b % 2 ^ w).toNat))
  | .xori => some (fun a b => Int.ofNat (Nat.xor (a % 2 ^ w).toNat (b % 2 ^ w).toNat))
  | _ => none

/-- The integer `arith` operation that combines two values under a combining kind
(the choice made by `makeArithReduction` for integer operands). -/
def CombiningKind.intOp? : CombiningKind → Option ArithBinOp
  | .ADD => some .addi
  | .MUL => some .muli
  | .MINUI => some .minui
  | .MINSI => some .minsi
  | .MAXUI => some .maxui
  | .MAXSI => some .maxsi
  | .AND => some .andi
  | .OR => some .ori
  | .XOR => some .xori
  | _ => none

/-- Combination of two `w`-bit integers under a combining kind. -/
def CombiningKind.evalInt? (w : Nat) (kind : CombiningKind) : Option (Int → Int → Int) :=
  match kind.intOp? with
  | some op => op.evalInt? w
  | none => none

/-- Modelled from the spec: `vector.transpose` is outside the given sources; result
axis `j` is source axis `perm[j]`, so the source index at axis `d` is the result
index at the position of `d` in `perm`. -/
def transposeIndex (perm : List Nat) (idx : List Nat) : List Nat :=
  (List.range perm.length).map (fun d => idx.getD (perm.indexOf d) 0)

/-- Modelled from the spec: `vector.broadcast` is outside the given sources; leading
axes are added and source axes of extent 1 are stretched (glossary: broadcast). -/
def broadcastIndex (srcShape : List Nat) (dstRank : Nat) (idx : List Nat) : List Nat :=
  List.zipWith (fun s i => if s = 1 then 0 else i) srcShape
    (idx.drop (dstRank - srcShape.length))

/-- Modelled from the spec: the operations of the `vector` and `arith` dialects are
outside the given sources. Their integer meaning follows the glossary: extract and
insert address leading axes, an outer product combines `lhs[i] * rhs[rest]` with the
accumulator, a horizontal reduction collapses all lanes of a rank-1 value.
Floating-point operations, nested contractions and masked regions are given no
denotation. `env n` is the content of the outside value `arg n`. -/
def denote (env : Nat → Elem) : Value → Option Elem
  | .null => none
  | .arg n _ => some (env n)
  | .constantZero _ => some (fun _ => 0)
  | .binary op x y =>
      match denote env x, denote env y, x.getType.elementType? with
      | some fx, some fy, some e =>
          match e.intWidth? with
          | some w =>
              match op.evalInt? w with
              | some g => some (fun idx => g (fx idx) (fy idx))
              | none => none
          | none => none
      | _, _, _ => none
  | .select cond t f =>
      match denote env cond, denote env t, denote env f with
      | some fc, some ft, some ff => some (fun idx => if fc idx ≠ 0 then ft idx else ff idx)
      | _, _, _ => none
  | .extf _ _ => none
  | .extsi ty v =>
      match denote env v, v.getType.elementType?, ty.elementType? with
      | some fv, some (.integer ws), some (.integer wd) =>
          some (fun idx => toSigned ws (fv idx) % 2 ^ wd)
      | _, _, _ => none
  | .fma _ _ _ => none
  | .transpose v perm =>
      match denote env v with
      | some fv => some (fun idx => fv (transposeIndex perm idx))
      | none => none
  | .extract v pos =>
      match denote env v with
      | some fv => some (fun idx => fv (pos ++ idx))
      | none => none
  | .insert src dst pos =>
      match denote env src, denote env dst with
      | some fs, some fd =>
          some (fun idx => if pos.isPrefixOf idx then fs (idx.drop pos.length) else fd idx)
      | _, _ => none
  | .broadcast ty v =>
      match denote env v with
      | some fv => some (fun idx => fv (broadcastIndex v.getType.shape ty.shape.length idx))
      | none => none
  | .outerproduct ty lhs rhs acc kind =>
      match denote env lhs, denote env rhs, ty.elementType? with
      | some fl, some fr, some e =>
          match e.intWidth? with
          | some w =>
              if acc.isNull then
                some (fun idx => (fl (idx.take 1) * fr (idx.drop 1)) % 2 ^ w)
              else
                match denote env acc, kind.evalInt? w with
                | some fa, some g =>
                    some (fun idx => g ((fl (idx.take 1) * fr (idx.drop 1)) % 2 ^ w) (fa idx))
                | _, _ => none
          | none => none
      | _, _, _ => none
  | .reduction kind v acc =>
      match denote env v, v.getType with
      | some fv, .vector vt =>
          match vt.elementType.intWidth?, kind, vt.shape with
          | some w, .ADD, [n] =>
              let s := ((List.range n).map (fun k => fv [k])).sum
              if acc.isNull then some (fun _ => s % 2 ^ w)
              else
                match denote env acc with
                | some fa => some (fun _ => (s + fa []) % 2 ^ w)
                | none => none
          | _, _, _ => none
      | _, _ => none
  | .contract _ _ _ _ _ _ => none
  | .mask _ _ => none

/-! ## Helpers outside the given sources -/

/-- Modelled from the spec: `vector::maskOperation` is outside the given sources; with
a null mask the operation itself is returned, otherwise a masking wrapper pairing the
mask with the operation is created (glossary: masking wrapper). -/
def maskOperation (rewriter : PatternRewriter) (maskableOp : Value) (mask : Value) :
    Value × PatternRewriter :=
  if mask.isNull then (maskableOp, rewriter)
  else rewriter.create (.mask mask maskableOp)

/-- Narrowing of an extent to the C++ type `int` (32-bit two's complement). -/
def toInt32 (n : Nat) : Int := ((n : Int) + 2 ^ 31) % 2 ^ 32 - 2 ^ 31

/-- Narrowing of an extent to the C++ type `unsigned` (32 bits). -/
def toUInt32 (n : Nat) : Nat := n % 2 ^ 32

/-! ## `UnrolledOuterProductGenerator` -/

/-- Source: `struct UnrolledOuterProductGenerator`, with the members of its base
`StructuredGenerator` that the source reads (`iterators`, `maps`). -/
structure UnrolledOuterProductGenerator where
  iterators : List IteratorType
  maps : List AffineMap
  kind : CombiningKind
  lhs : Value
  rhs : Value
  res : Value
  mask : Value
  lhsType : VectorType

/-- Source: the constructor `UnrolledOuterProductGenerator(b, op)`. -/
def UnrolledOuterProductGenerator.new (op : ContractionOp) : UnrolledOuterProductGenerator :=
  { iterators := op.iteratorTypes, maps := op.indexingMaps, kind := op.kind,
    lhs := op.lhs, rhs := op.rhs, res := op.acc,
    mask := if op.isMasked then op.maskingOp else .null,
    lhsType := op.getLhsType }

/-- Modelled from the spec: `StructuredGenerator::iters` is outside the given sources;
the iterator kinds must equal the given list, position by position (section 4.1). -/
def UnrolledOuterProductGenerator.iters (g : UnrolledOuterProductGenerator)
    (its : List IteratorType) : Bool :=
  decide (its = g.iterators)

/-- Modelled from the spec: `StructuredGenerator::layout` is outside the given sources;
the triple of maps must literally equal the enumerated pattern (section 4.1). -/
def UnrolledOuterProductGenerator.layout (g : UnrolledOuterProductGenerator)
    (l : List (List Nat)) : Bool :=
  decide (g.maps = inferFromExprList l)

/-- Source: `UnrolledOuterProductGenerator::t`. -/
def UnrolledOuterProductGenerator.t (v : Value) (perm : List Nat)
    (rewriter : PatternRewriter) : Value × PatternRewriter :=
  if v.isNull then (v, rewriter)
  else rewriter.create (.transpose v perm)

/-- Source: `UnrolledOuterProductGenerator::promote`. -/
def UnrolledOuterProductGenerator.promote (v : Value) (dstElementType : ElementType)
    (rewriter : PatternRewriter) : Value × PatternRewriter :=
  let vecType := v.getType.dynCastVector
  let elementType : MlirType :=
    match vecType with
    | some vt => .scalar vt.elementType
    | none => v.getType
  if elementType = .scalar dstElementType then (v, rewriter)
  else
    let promotedType : MlirType :=
      match vecType with
      | some vt => .vector (vt.clone dstElementType)
      | none => .scalar dstElementType
    if dstElementType.isFloat then rewriter.create (.extf promotedType v)
    else rewriter.create (.extsi promotedType v)

/-- One iteration `k` of the loop of `outerProd`, on the running `res`. -/
def UnrolledOuterProductGenerator.outerProdStep (g : UnrolledOuterProductGenerator)
    (lhs rhs : Value) (resElementType : ElementType) (maybeMask : Option Value)
    (st : Value × PatternRewriter) (k : Nat) : Value × PatternRewriter :=
  let a := st.2.create (.extract lhs [k])
  let b := a.2.create (.extract rhs [k])
  let pa := promote a.1 resElementType b.2
  let pb := promote b.1 resElementType pa.2
  let em : Value × PatternRewriter :=
    match maybeMask with
    | some m => if m.isNull then (.null, pb.2) else pb.2.create (.extract m [k])
    | none => (.null, pb.2)
  let outerProdOp := em.2.create (.outerproduct st.1.getType pa.1 pb.1 st.1 g.kind)
  maskOperation outerProdOp.2 outerProdOp.1 em.1

/-- Source: `UnrolledOuterProductGenerator::outerProd`. The parameter `reductionSize`
has the C++ type `int`. A `res` that is not vector-typed (for which the source's
`cast<VectorType>` has no defined result) is reported as failure. -/
def UnrolledOuterProductGenerator.outerProd (g : UnrolledOuterProductGenerator)
    (lhs rhs res : Value) (_lhsType : VectorType) (reductionSize : Int)
    (maybeMask : Option Value) (rewriter : PatternRewriter) :
    FailureOr Value × PatternRewriter :=
  if !g.mask.isNull && maybeMask.isNone then (.failure, rewriter)
  else
    match res.getType with
    | .vector resTy =>
        let st := (List.range reductionSize.toNat).foldl
          (g.outerProdStep lhs rhs resTy.elementType maybeMask) (res, rewriter)
        (.success st.1, st.2)
    | _ => (.failure, rewriter)

/-- Source: `UnrolledOuterProductGenerator::getReductionSize`. The source asserts that
the returned extent is positive. -/
def UnrolledOuterProductGenerator.getReductionSize (vecType : VectorType)
    (reductionDim : Nat) : Option Nat :=
  if vecType.scalableDims.getD reductionDim false then none
  else some (vecType.getDimSize reductionDim)

/-- The guard `if (layout(l)) if (auto reductionSize = getReductionSize(lhsType, d))`
shared by all branches of `matmat`, `matvec` and `tmatvec`. -/
def UnrolledOuterProductGenerator.branch (g : UnrolledOuterProductGenerator)
    (l : List (List Nat)) (reductionDim : Nat) : Option Nat :=
  if g.layout l then getReductionSize g.lhsType reductionDim else none

/-- Source: `UnrolledOuterProductGenerator::matmat`; `bindDims` gives `m, n, k` the
labels `0, 1, 2`. -/
def UnrolledOuterProductGenerator.matmat (g : UnrolledOuterProductGenerator)
    (rewriter : PatternRewriter) : FailureOr Value × PatternRewriter :=
  if !g.iters [.parallel, .parallel, .reduction] then (.failure, rewriter)
  else
    let m := 0
    let n := 1
    let k := 2
    match g.branch [[m, k], [k, n], [m, n]] 1 with
    | some reductionSize =>
        let tLhs := t g.lhs [1, 0] rewriter
        let tMask := t g.mask [2, 0, 1] tLhs.2
        g.outerProd tLhs.1 g.rhs g.res g.lhsType (toInt32 reductionSize) (some tMask.1) tMask.2
    | none =>
    match g.branch [[m, k], [n, k], [m, n]] 1 with
    | some reductionSize =>
        let tLhs := t g.lhs [1, 0] rewriter
        let tRhs := t g.rhs [1, 0] tLhs.2
        let tMask := t g.mask [2, 0, 1] tRhs.2
        g.outerProd tLhs.1 tRhs.1 g.res g.lhsType (toInt32 reductionSize) (some tMask.1) tMask.2
    | none =>
    match g.branch [[k, m], [k, n], [m, n]] 0 with
    | some reductionSize =>
        let tMask := t g.mask [2, 0, 1] rewriter
        g.outerProd g.lhs g.rhs g.res g.lhsType (toInt32 reductionSize) (some tMask.1) tMask.2
    | none =>
    match g.branch [[k, m], [n, k], [m, n]] 0 with
    | some reductionSize =>
        let tRhs := t g.rhs [1, 0] rewriter
        let tMask := t g.mask [2, 0, 1] tRhs.2
        g.outerProd g.lhs tRhs.1 g.res g.lhsType (toInt32 reductionSize) (some tMask.1) tMask.2
    | none =>
    match g.branch [[m, k], [k, n], [n, m]] 1 with
    | some reductionSize =>
        let tLhs := t g.lhs [1, 0] rewriter
        let tMask := t g.mask [2, 0, 1] tLhs.2
        g.outerProd g.rhs tLhs.1 g.res g.lhsType (toInt32 reductionSize) (some tMask.1) tMask.2
    | none =>
    match g.branch [[m, k], [n, k], [n, m]] 1 with
    | some reductionSize =>
        let tRhs := t g.rhs [1, 0] rewriter
        let tLhs := t g.lhs [1, 0] tRhs.2
        let tMask := t g.mask [2, 0, 1] tLhs.2
        g.outerProd tRhs.1 tLhs.1 g.res g.lhsType (toInt32 reductionSize) (some tMask.1) tMask.2
    | none =>
    match g.branch [[k, m], [k, n], [n, m]] 0 with
    | some reductionSize =>
        let tMask := t g.mask [2, 0, 1] rewriter
        g.outerProd g.rhs g.lhs g.res g.lhsType (toInt32 reductionSize) (some tMask.1) tMask.2
    | none =>
    match g.branch [[k, m], [n, k], [n, m]] 0 with
    | some reductionSize =>
        let tRhs := t g.rhs [1, 0] rewriter
        let tMask := t g.mask [2, 0, 1] tRhs.2
        g.outerProd tRhs.1 g.lhs g.res g.lhsType (toInt32 reductionSize) (some tMask.1) tMask.2
    | none => (.failure, rewriter)

/-- Source: `UnrolledOuterProductGenerator::matvec`; `bindDims` gives `m, k` the
labels `0, 1`. -/
def UnrolledOuterProductGenerator.matvec (g : UnrolledOuterProductGenerator)
    (rewriter : PatternRewriter) : FailureOr Value × PatternRewriter :=
  if !g.iters [.parallel, .reduction] then (.failure, rewriter)
  else
    let m := 0
    let k := 1
    match g.branch [[m, k], [k], [m]] 1 with
    | some reductionSize =>
        let tLhs := t g.lhs [1, 0] rewriter
        let tMask := t g.mask [1, 0] tLhs.2
        g.outerProd tLhs.1 g.rhs g.res g.lhsType (toInt32 reductionSize) (some tMask.1) tMask.2
    | none =>
    match g.branch [[k, m], [k], [m]] 0 with
    | some reductionSize =>
        let tMask := t g.mask [1, 0] rewriter
        g.outerProd g.lhs g.rhs g.res g.lhsType (toInt32 reductionSize) (some tMask.1) tMask.2
    | none =>
    match g.branch [[k], [m, k], [m]] 0 with
    | some reductionSize =>
        let tRhs := t g.rhs [1, 0] rewriter
        let tMask := t g.mask [1, 0] tRhs.2
        g.outerProd tRhs.1 g.lhs g.res g.lhsType (toInt32 reductionSize) (some tMask.1) tMask.2
    | none =>
    match g.branch [[k], [k, m], [m]] 0 with
    | some reductionSize =>
        let tMask := t g.mask [1, 0] rewriter
        g.outerProd g.rhs g.lhs g.res g.lhsType (toInt32 reductionSize) (some tMask.1) tMask.2
    | none => (.failure, rewriter)

/-- Source: `UnrolledOuterProductGenerator::tmatvec`; `bindDims` gives `k, m` the
labels `0, 1`. -/
def UnrolledOuterProductGenerator.tmatvec (g : UnrolledOuterProductGenerator)
    (rewriter : PatternRewriter) : FailureOr Value × PatternRewriter :=
  if !g.iters [.reduction, .parallel] then (.failure, rewriter)
  else
    let k := 0
    let m := 1
    match g.branch [[m, k], [k], [m]] 1 with
    | some reductionSize =>
        let tLhs := t g.lhs [1, 0] rewriter
        g.outerProd tLhs.1 g.rhs g.res g.lhsType (toInt32 reductionSize) (some g.mask) tLhs.2
    | none =>
    match g.branch [[k, m], [k], [m]] 0 with
    | some reductionSize =>
        g.outerProd g.lhs g.rhs g.res g.lhsType (toInt32 reductionSize) (some g.mask) rewriter
    | none =>
    match g.branch [[k], [m, k], [m]] 0 with
    | some reductionSize =>
        let tRhs := t g.rhs [1, 0] rewriter
        g.outerProd tRhs.1 g.lhs g.res g.lhsType (toInt32 reductionSize) (some g.mask) tRhs.2
    | none =>
    match g.branch [[k], [k, m], [m]] 0 with
    | some reductionSize =>
        g.outerProd g.rhs g.lhs g.res g.lhsType (toInt32 reductionSize) (some g.mask) rewriter
    | none => (.failure, rewriter)

/-- Source: `class ContractionOpToOuterProductOpLowering` (its two data members). -/
structure ContractionOpToOuterProductOpLowering where
  vectorContractLowering : VectorContractLowering
  filter : FilterConstraintType

/-- Source: the constructor of `ContractionOpToOuterProductOpLowering`, which stores
the given constraint. -/
def ContractionOpToOuterProductOpLowering.new (vectorContractLowering : VectorContractLowering)
    (constraint : FilterConstraintType) : ContractionOpToOuterProductOpLowering :=
  { vectorContractLowering := vectorContractLowering, filter := constraint }

/-- Source: `ContractionOpToOuterProductOpLowering::matchAndRewriteMaskableOp`. -/
def ContractionOpToOuterProductOpLowering.matchAndRewriteMaskableOp
    (self : ContractionOpToOuterProductOpLowering) (op : ContractionOp) (_maskOp : Value)
    (rewriter : PatternRewriter) : FailureOr Value × PatternRewriter :=
  if self.vectorContractLowering ≠ .OuterProduct then (.failure, rewriter)
  else if (self.filter op).failed then (.failure, rewriter)
  else
    let e := UnrolledOuterProductGenerator.new op
    let matmatRes := e.matmat rewriter
    if matmatRes.1.succeeded then matmatRes
    else
      let matvecRes := e.matvec matmatRes.2
      if matvecRes.1.succeeded then matvecRes
      else e.tmatvec matvecRes.2

/-! ## `ContractionOpToDotLowering` -/

/-- Source: `createAdd`. -/
def createAdd (x y : Value) (isInt : Bool) (rewriter : PatternRewriter) :
    Value × PatternRewriter :=
  if isInt then rewriter.create (.binary .addi x y)
  else rewriter.create (.binary .addf x y)

/-- Source: `createMul`. -/
def createMul (x y : Value) (isInt : Bool) (rewriter : PatternRewriter) :
    Value × PatternRewriter :=
  if isInt then rewriter.create (.binary .muli x y)
  else rewriter.create (.binary .mulf x y)

/-- Source: `class ContractionOpToDotLowering` (its two data members). -/
structure ContractionOpToDotLowering where
  vectorContractLowering : VectorContractLowering
  filter : FilterConstraintType

/-- Source: the constructor of `ContractionOpToDotLowering`; it initialises `filter`
with `defaultFilter`, whatever constraint is passed. -/
def ContractionOpToDotLowering.new (vectorContractLowering : VectorContractLowering)
    (_constraint : FilterConstraintType) : ContractionOpToDotLowering :=
  { vectorContractLowering := vectorContractLowering, filter := defaultFilter }

/-- The read `iteratorTypes[i]`; a position beyond the end has no value (the C++
accessor asserts). -/
def iteratorAt (iteratorTypes : List IteratorType) (i : Nat) : Option IteratorType :=
  iteratorTypes[i]?

/-- Short-circuit conjunction `a && b` over reads that may be out of range: `b` is
evaluated only when `a` is true. -/
def andThen (a : Option Bool) (b : Unit → Option Bool) : Option Bool :=
  match a with
  | none => none
  | some false => some false
  | some true => b ()

/-- The test `isParallelIterator(iteratorTypes[0]) && isParallelIterator(iteratorTypes[1])
&& isReductionIterator(iteratorTypes[2])` of the dot lowering. -/
def dotIsMatmat (iteratorTypes : List IteratorType) : Option Bool :=
  andThen ((iteratorAt iteratorTypes 0).map isParallelIterator) fun _ =>
  andThen ((iteratorAt iteratorTypes 1).map isParallelIterator) fun _ =>
  (iteratorAt iteratorTypes 2).map isReductionIterator

/-- The test `isParallelIterator(iteratorTypes[0]) && isReductionIterator(iteratorTypes[1])`
of the dot lowering. -/
def dotIsMatvec (iteratorTypes : List IteratorType) : Option Bool :=
  andThen ((iteratorAt iteratorTypes 0).map isParallelIterator) fun _ =>
  (iteratorAt iteratorTypes 1).map isReductionIterator

/-- First half of `ContractionOpToDotLowering::matchAndRewriteMaskableOp` (after the
three guards): the layout chain that makes the reduction axis innermost. Returns the
operands to use as `lhs` and `rhs`, or nothing where the source returns failure.
`bindDims` gives `m, n, k` the labels `0, 1, 2`. An iterator read out of range is
reported as failure. -/
def ContractionOpToDotLowering.normalize (op : ContractionOp) (rewriter : PatternRewriter) :
    Option (Value × Value) × PatternRewriter :=
  let perm : List Nat := [1, 0]
  let lhs := op.lhs
  let rhs := op.rhs
  let m := 0
  let n := 1
  let k := 2
  let maps := op.indexingMaps
  match dotIsMatmat op.iteratorTypes with
  | none => (none, rewriter)
  | some true =>
      if maps = inferFromExprList [[m, k], [k, n], [m, n]] then
        let rhs1 := rewriter.create (.transpose rhs perm)
        (some (lhs, rhs1.1), rhs1.2)
      else if maps = inferFromExprList [[m, k], [n, k], [m, n]] then
        (some (lhs, rhs), rewriter)
      else if maps = inferFromExprList [[k, m], [k, n], [m, n]] then
        let lhs1 := rewriter.create (.transpose lhs perm)
        let rhs1 := lhs1.2.create (.transpose rhs perm)
        (some (lhs1.1, rhs1.1), rhs1.2)
      else if maps = inferFromExprList [[k, m], [n, k], [m, n]] then
        let lhs1 := rewriter.create (.transpose lhs perm)
        (some (lhs1.1, rhs), lhs1.2)
      else if maps = inferFromExprList [[m, k], [k, n], [n, m]] then
        let tmp := lhs
        let lhs1 := rewriter.create (.transpose rhs perm)
        (some (lhs1.1, tmp), lhs1.2)
      else if maps = inferFromExprList [[m, k], [n, k], [n, m]] then
        (some (rhs, lhs), rewriter)
      else if maps = inferFromExprList [[k, m], [k, n], [n, m]] then
        let tmp := lhs
        let lhs1 := rewriter.create (.transpose rhs perm)
        let rhs1 := lhs1.2.create (.transpose tmp perm)
        (some (lhs1.1, rhs1.1), rhs1.2)
      else if maps = inferFromExprList [[k, m], [n, k], [n, m]] then
        let tmp := rhs
        let rhs1 := rewriter.create (.transpose lhs perm)
        (some (tmp, rhs1.1), rhs1.2)
      else (none, rewriter)
  | some false =>
      match dotIsMatvec op.iteratorTypes with
      | none => (none, rewriter)
      | some true =>
          if maps = inferFromExprList [[m, n], [n], [m]] then
            (some (lhs, rhs), rewriter)
          else if maps = inferFromExprList [[n, m], [n], [m]] then
            let lhs1 := rewriter.create (.transpose lhs perm)
            (some (lhs1.1, rhs), lhs1.2)
          else if maps = inferFromExprList [[n], [m, n], [m]] then
            (some (rhs, lhs), rewriter)
          else if maps = inferFromExprList [[n], [n, m], [m]] then
            let lhs1 := rewriter.create (.transpose rhs perm)
            (some (lhs1.1, lhs), lhs1.2)
          else (none, rewriter)
      | some false => (none, rewriter)

/-- Loop state of the dot lowering: the running `res`, the cache `extractedCols`
and the rewriter. -/
structure DotLoopState where
  res : Value
  extractedCols : List Value
  rewriter : PatternRewriter

/-- Body of the inner loop `for (unsigned c = 0; c < dstColumns; ++c)` of the dot
lowering, in row `r` whose extracted lhs row is `rowLhs`. -/
def ContractionOpToDotLowering.columnStep (rhs : Value) (rank : Nat) (isInt : Bool) (r : Nat)
    (rowLhs : Value) (st : DotLoopState) (c : Nat) : DotLoopState :=
  let st1 : DotLoopState :=
    if r = 0 then
      let colRhs : Value × PatternRewriter :=
        if rank = 1 then (rhs, st.rewriter) else st.rewriter.create (.extract rhs [c])
      { res := st.res, extractedCols := st.extractedCols ++ [colRhs.1], rewriter := colRhs.2 }
    else st
  let extractedColRhs := st1.extractedCols.getD c .null
  let product := createMul rowLhs extractedColRhs isInt st1.rewriter
  let sum := product.2.create (.reduction .ADD product.1 .null)
  let pos : List Nat := if rank = 1 then [r] else [r, c]
  let ins := sum.2.create (.insert sum.1 st1.res pos)
  { res := ins.1, extractedCols := st1.extractedCols, rewriter := ins.2 }

/-- Body of the outer loop `for (unsigned r = 0; r < dstRows; ++r)` of the dot
lowering. -/
def ContractionOpToDotLowering.rowStep (lhs rhs : Value) (rank : Nat) (isInt : Bool)
    (dstColumns : Nat) (st : DotLoopState) (r : Nat) : DotLoopState :=
  let rowLhs := st.rewriter.create (.extract lhs [r])
  (List.range dstColumns).foldl (columnStep rhs rank isInt r rowLhs.1)
    { res := st.res, extractedCols := st.extractedCols, rewriter := rowLhs.2 }

/-- Second half of `ContractionOpToDotLowering::matchAndRewriteMaskableOp`: the
unrolled grid of dot products on the normalised operands and the final accumulator
add. `dstRows` and `dstColumns` have the C++ type `unsigned`. A result type that is
not a vector (for which the source's `cast<VectorType>` has no defined result) is
reported as failure. -/
def ContractionOpToDotLowering.emitGrid (op : ContractionOp) (lhs rhs : Value)
    (rewriter : PatternRewriter) : FailureOr Value × PatternRewriter :=
  match op.resultType with
  | .vector dstType =>
      let rank := dstType.getRank
      let dstRows := toUInt32 (dstType.shape.getD 0 0)
      let dstColumns := if rank = 1 then 1 else toUInt32 (dstType.shape.getD 1 0)
      let res := rewriter.create (.constantZero (.vector dstType))
      let isInt := dstType.elementType.isInteger
      let st := (List.range dstRows).foldl (rowStep lhs rhs rank isInt dstColumns)
        { res := res.1, extractedCols := [], rewriter := res.2 }
      if !op.acc.isNull then
        let sum := createAdd st.res op.acc isInt st.rewriter
        (.success sum.1, sum.2)
      else (.success st.res, st.rewriter)
  | _ => (.failure, rewriter)

/-- Source: `ContractionOpToDotLowering::matchAndRewriteMaskableOp`. -/
def ContractionOpToDotLowering.matchAndRewriteMaskableOp (self : ContractionOpToDotLowering)
    (op : ContractionOp) (maskOp : Value) (rewriter : PatternRewriter) :
    FailureOr Value × PatternRewriter :=
  if !maskOp.isNull then (.failure, rewriter)
  else if (self.filter op).failed then (.failure, rewriter)
  else if self.vectorContractLowering ≠ .Dot then (.failure, rewriter)
  else
    match normalize op rewriter with
    | (some (lhs, rhs), rewriter1) => emitGrid op lhs rhs rewriter1
    | (none, rewriter1) => (.failure, rewriter1)

/-! ## `createContractArithOp` and `ContractOpToElementwise` -/

/-- Modelled from the spec: `vector::selectPassthru` is outside the given sources; with
a mask, inactive lanes keep the pass-through value by a lane-wise select, without a
mask the new value is returned (sections 4.4 and 4.6). -/
def selectPassthru (rewriter : PatternRewriter) (mask newValue passthru : Value) :
    Value × PatternRewriter :=
  if mask.isNull then (newValue, rewriter)
  else rewriter.create (.select mask newValue passthru)

/-- The `arith` operation of a combining kind on integer (`true`) or floating-point
(`false`) operands; the source of `makeArithReduction` has no case for the others. -/
def CombiningKind.arithOp? (kind : CombiningKind) (isInt : Bool) : Option ArithBinOp :=
  match kind, isInt with
  | .ADD, true => some .addi
  | .ADD, false => some .addf
  | .MUL, true => some .muli
  | .MUL, false => some .mulf
  | .MINUI, true => some .minui
  | .MINSI, true => some .minsi
  | .MAXUI, true => some .maxui
  | .MAXSI, true => some .maxsi
  | .AND, true => some .andi
  | .OR, true => some .ori
  | .XOR, true => some .xori
  | .MINNUMF, false => some .minnumf
  | .MAXNUMF, false => some .maxnumf
  | .MINIMUMF, false => some .minimumf
  | .MAXIMUMF, false => some .maximumf
  | _, _ => none

/-- Modelled from the spec: `vector::makeArithReduction` is outside the given sources;
the combine step applies the operator of the combining kind to the new value and the
accumulator, chosen by the integer or floating-point element type, and respects the
mask by select-passthrough (sections 4.4 and 4.6). A kind without an operator for the
element types yields the null value. -/
def makeArithReduction (rewriter : PatternRewriter) (kind : CombiningKind)
    (v1 acc mask : Value) : Value × PatternRewriter :=
  let isInt : Option Bool :=
    match v1.getType.elementType?, acc.getType.elementType? with
    | some t1, some tAcc =>
        if t1.isIntOrIndex && tAcc.isIntOrIndex then some true
        else if t1.isFloat && tAcc.isFloat then some false
        else none
    | _, _ => none
  match isInt with
  | some i =>
      match kind.arithOp? i with
      | some aop =>
          let result := rewriter.create (.binary aop v1 acc)
          selectPassthru result.2 mask result.1 acc
      | none => (.null, rewriter)
  | none => (.null, rewriter)

/-- Tail of `createContractArithOp` once `mul` is created: without an accumulator the
product is returned, otherwise the combine step `makeArithReduction`. -/
def createContractArithOp.combine (mul : Value × PatternRewriter) (acc : Value)
    (kind : CombiningKind) (mask : Value) : Option Value × PatternRewriter :=
  if acc.isNull then (some mul.1, mul.2)
  else
    let red := makeArithReduction mul.2 kind mul.1 acc mask
    (some red.1, red.2)

/-- Source: `createContractArithOp`. -/
def createContractArithOp (x y acc : Value) (kind : CombiningKind)
    (rewriter : PatternRewriter) (isInt : Bool) (mask : Value) :
    Option Value × PatternRewriter :=
  if isInt then
    if kind = .MINNUMF ∨ kind = .MAXNUMF ∨ kind = .MINIMUMF ∨ kind = .MAXIMUMF then
      (none, rewriter)
    else
      createContractArithOp.combine (rewriter.create (.binary .muli x y)) acc kind mask
  else
    if kind = .AND ∨ kind = .MINUI ∨ kind = .MINSI ∨ kind = .MAXUI ∨ kind = .MAXSI ∨
        kind = .OR ∨ kind = .XOR then
      (none, rewriter)
    else if !acc.isNull && acc.getType.isVector && decide (kind = .ADD) then
      let fma := rewriter.create (.fma x y acc)
      let fma1 := if !mask.isNull then selectPassthru fma.2 mask fma.1 acc else fma
      (some fma1.1, fma1.2)
    else
      createContractArithOp.combine (rewriter.create (.binary .mulf x y)) acc kind mask

/-- Source: `getReductionIndex`. A label beyond the iterator list (excluded by the
verifier) counts as parallel. -/
def getReductionIndex (map : AffineMap) (iteratorTypes : List IteratorType) : List Nat :=
  (List.range map.getNumResults).filter
    (fun i => isReductionIterator (iteratorTypes.getD (map.getDimPosition i) .parallel))

/-- Source: `getDimPosition` (the static helper on a map and a label). -/
def getDimPosition (map : AffineMap) (dim : Nat) : Option Nat :=
  (List.range map.getNumResults).find? (fun i => map.getDimPosition i == dim)

/-- Conversion of an integer to the C++ type `unsigned` (32 bits). -/
def wrapUInt32 (z : Int) : Nat := (z % 2 ^ 32).toNat

/-- Source: `class ContractOpToElementwise` (its two data members). -/
structure ContractOpToElementwise where
  vectorContractLowering : VectorContractLowering
  filter : FilterConstraintType

/-- Source: the constructor of `ContractOpToElementwise`; it initialises `filter`
with `defaultFilter`, whatever constraint is passed. -/
def ContractOpToElementwise.new (vectorContractLowering : VectorContractLowering)
    (_constraint : FilterConstraintType) : ContractOpToElementwise :=
  { vectorContractLowering := vectorContractLowering, filter := defaultFilter }

/-- The lists `(dims, transpose)` the elementwise lowering builds for one operand. -/
abbrev OperandPlan := List Nat × List Nat

/-- One operand's share of the body of the loop
`for (unsigned i = 0; i < numParallelDims; i++)` of the elementwise lowering. The sum
`numDimToBroadcast + *dim` adds two `unsigned` values and so is taken modulo `2 ^ 32`
before it is stored in the `int64_t` list. -/
def ContractOpToElementwise.planStep (map accMap : AffineMap) (numDimToBroadcast : Nat)
    (resultShape : List Nat) (plan : OperandPlan) (i : Nat) : OperandPlan :=
  match getDimPosition map (accMap.getDimPosition i) with
  | some dim => (plan.1, plan.2 ++ [toUInt32 (numDimToBroadcast + dim)])
  | none =>
      let dims := plan.1 ++ [resultShape.getD i 0]
      (dims, plan.2 ++ [dims.length - 1])

/-- The lists `(dims, transpose)` of one operand after the loop over the result
axes; the transposition starts with the operand's reduction axes, whose entries
`numDimToBroadcast + dim` are sums in `int64_t` (`dim` is an `int64_t`). -/
def ContractOpToElementwise.plan (map accMap : AffineMap) (reductionDims : List Nat)
    (numParallelDims numDimToBroadcast : Nat) (resultShape : List Nat) : OperandPlan :=
  (List.range numParallelDims).foldl (planStep map accMap numDimToBroadcast resultShape)
    ([], reductionDims.map (fun dim => numDimToBroadcast + dim))

/-- The number `numParallelDims - (map.getNumResults() - reductionDims.size())`
stored in an `unsigned`. -/
def ContractOpToElementwise.numDimToBroadcast (map : AffineMap) (reductionDims : List Nat)
    (numParallelDims : Nat) : Nat :=
  wrapUInt32 ((numParallelDims : Int) - ((map.getNumResults : Int) - (reductionDims.length : Int)))

/-- The step `if (!dims.empty()) { dims.append(shape); newV = BroadcastOp::create(...) }`.
`VectorType::get(dims, elementType)` has no scalable axes. -/
def ContractOpToElementwise.broadcastOperand (v : Value) (dims shape : List Nat)
    (elementType : ElementType) (rewriter : PatternRewriter) : Value × PatternRewriter :=
  if !dims.isEmpty then
    let dims1 := dims ++ shape
    rewriter.create (.broadcast
      { shape := dims1, scalableDims := List.replicate dims1.length false,
        elementType := elementType } v)
  else (v, rewriter)

/-- Source: `ContractOpToElementwise::matchAndRewriteMaskableOp`. The source builds the
lists of both operands in one loop; here each operand's lists are folded separately
(`plan`), the operations are created in the source's order. -/
def ContractOpToElementwise.matchAndRewriteMaskableOp (self : ContractOpToElementwise)
    (contractOp : ContractionOp) (maskOp : Value) (rewriter : PatternRewriter) :
    FailureOr Value × PatternRewriter :=
  if !maskOp.isNull then (.failure, rewriter)
  else if (self.filter contractOp).failed then (.failure, rewriter)
  else if self.vectorContractLowering ≠ .ParallelArith then (.failure, rewriter)
  else
    let lhsShape := contractOp.getLhsType.shape
    let rhsShape := contractOp.getRhsType.shape
    let lhsMap := contractOp.indexingMaps.getD 0 ⟨0, []⟩
    let rhsMap := contractOp.indexingMaps.getD 1 ⟨0, []⟩
    let lhsReductionDims := getReductionIndex lhsMap contractOp.iteratorTypes
    let rhsReductionDims := getReductionIndex rhsMap contractOp.iteratorTypes
    if lhsReductionDims.any (fun dim => lhsShape.getD dim 0 ≠ 1) then (.failure, rewriter)
    else if rhsReductionDims.any (fun dim => rhsShape.getD dim 0 ≠ 1) then (.failure, rewriter)
    else
      let accMap := contractOp.indexingMaps.getD 2 ⟨0, []⟩
      let numParallelDims := accMap.getNumResults
      let numLhsDimToBroadcast := numDimToBroadcast lhsMap lhsReductionDims numParallelDims
      let numRhsDimToBroadcast := numDimToBroadcast rhsMap rhsReductionDims numParallelDims
      let lhsPlan := plan lhsMap accMap lhsReductionDims numParallelDims numLhsDimToBroadcast
        contractOp.resultType.shape
      let rhsPlan := plan rhsMap accMap rhsReductionDims numParallelDims numRhsDimToBroadcast
        contractOp.resultType.shape
      let newLhs := broadcastOperand contractOp.lhs lhsPlan.1 lhsShape
        contractOp.getLhsType.elementType rewriter
      let newRhs := broadcastOperand contractOp.rhs rhsPlan.1 rhsShape
        contractOp.getRhsType.elementType newLhs.2
      let isInt := contractOp.getLhsType.elementType.isIntOrIndex
      let tLhs := newRhs.2.create (.transpose newLhs.1 lhsPlan.2)
      let tRhs := tLhs.2.create (.transpose newRhs.1 rhsPlan.2)
      let lhsOffsets := List.replicate lhsReductionDims.length 0
      let rhsOffsets := List.replicate rhsReductionDims.length 0
      let eLhs := tRhs.2.create (.extract tLhs.1 lhsOffsets)
      let eRhs := eLhs.2.create (.extract tRhs.1 rhsOffsets)
      let result := createContractArithOp eLhs.1 eRhs.1 contractOp.acc contractOp.kind
        eRhs.2 isInt .null
      match result.1 with
      | some v => (.success v, result.2)
      | none => (.failure, result.2)

/-! ## Concrete inputs used to instantiate the theorems -/

/-- The type `vector<r x c x i8>` without scalable axes. -/
def i8Matrix (r c : Nat) : MlirType :=
  .vector { shape := [r, c], scalableDims := [false, false], elementType := .integer 8 }

/-- The type `vector<n x i8>` without scalable axes. -/
def i8Vector (n : Nat) : MlirType :=
  .vector { shape := [n], scalableDims := [false], elementType := .integer 8 }

/-- Contents of the outside values used in the instances: value `n` holds
`n + 1 + 3 * i + j` at index `[i, j]` (an index list is read as digits in base 3). -/
def sampleEnv : Nat → Elem :=
  fun n idx => (n : Int) + 1 + idx.foldl (fun s i => 3 * s + (i : Int)) 0

/-- A row-major `2x3` by `3x2` matrix multiply on `i8` with an accumulator. -/
def sampleMatmat : ContractionOp :=
  { lhs := .arg 0 (i8Matrix 2 3), rhs := .arg 1 (i8Matrix 3 2), acc := .arg 2 (i8Matrix 2 2),
    indexingMaps := inferFromExprList [[0, 2], [2, 1], [0, 1]],
    iteratorTypes := [.parallel, .parallel, .reduction],
    kind := .ADD, resultType := i8Matrix 2 2, maskingOp := .null }

/-! ## Reference semantics (section 8 of the specification) -/

/-- The operand index an index map selects at an iteration point. -/
def AffineMap.apply (m : AffineMap) (point : List Nat) : List Nat :=
  m.results.map (fun d => point.getD d 0)

/-- The eight matmat layouts enumerated by `UnrolledOuterProductGenerator::matmat`
(labels `m = 0`, `n = 1`, `k = 2`). -/
def matmatLayouts : List (List (List Nat)) :=
  [ [[0, 2], [2, 1], [0, 1]], [[0, 2], [1, 2], [0, 1]],
    [[2, 0], [2, 1], [0, 1]], [[2, 0], [1, 2], [0, 1]],
    [[0, 2], [2, 1], [1, 0]], [[0, 2], [1, 2], [1, 0]],
    [[2, 0], [2, 1], [1, 0]], [[2, 0], [1, 2], [1, 0]] ]

/-- Reference contraction in the words of section 8.1: the naive triple loop, at
iteration point `(i, j, k)` for `k < R`, summing `lhs * rhs` indexed by the lhs and
rhs maps and combining into `acc` at the index given by the result map; on `w`-bit
integers. -/
def referenceMatmat (maps : List AffineMap) (R w : Nat) (lhs rhs acc : Elem)
    (i j : Nat) : Int :=
  let lhsMap := maps.getD 0 ⟨0, []⟩
  let rhsMap := maps.getD 1 ⟨0, []⟩
  let resMap := maps.getD 2 ⟨0, []⟩
  (acc (resMap.apply [i, j, 0]) +
    ((List.range R).map
      (fun k => lhs (lhsMap.apply [i, j, k]) * rhs (rhsMap.apply [i, j, k]))).sum) % 2 ^ w

/-! ## The branches of the outer-product generator as a table -/

open UnrolledOuterProductGenerator

/-- Which value a branch passes to `outerProd`: an operand of the contraction, as it
is or transposed by `t`. -/
inductive OperandUse where
  | lhs | rhs | lhsT | rhsT
  deriving DecidableEq

/-- One branch of `matmat`, `matvec` or `tmatvec`, as a table row: the iterator kinds
and label lists it tests, the lhs axis handed to `getReductionSize`, the two values
handed to `outerProd`, the order in which operands are transposed, and the
permutation applied to the mask (`none`: the mask is passed as it is). -/
structure LayoutEntry where
  iters : List IteratorType
  layout : List (List Nat)
  reductionDim : Nat
  first : OperandUse
  second : OperandUse
  transposed : List OperandUse
  maskPerm : Option (List Nat)
  deriving DecidableEq

/-- The value returned by `t`: the transposed value, or the null value itself. -/
def tValue (v : Value) (perm : List Nat) : Value :=
  if v.isNull then v else .transpose v perm

/-- The value an `OperandUse` stands for. -/
def OperandUse.value (g : UnrolledOuterProductGenerator) : OperandUse → Value
  | .lhs => g.lhs
  | .rhs => g.rhs
  | .lhsT => tValue g.lhs [1, 0]
  | .rhsT => tValue g.rhs [1, 0]

/-- The sixteen branches of `matmat`, `matvec` and `tmatvec`, in source order. -/
def outerProductTable : List LayoutEntry :=
  [ ⟨[.parallel, .parallel, .reduction], [[0, 2], [2, 1], [0, 1]], 1, .lhsT, .rhs, [.lhsT], some [2, 0, 1]⟩,
    ⟨[.parallel, .parallel, .reduction], [[0, 2], [1, 2], [0, 1]], 1, .lhsT, .rhsT, [.lhsT, .rhsT], some [2, 0, 1]⟩,
    ⟨[.parallel, .parallel, .reduction], [[2, 0], [2, 1], [0, 1]], 0, .lhs, .rhs, [], some [2, 0, 1]⟩,
    ⟨[.parallel, .parallel, .reduction], [[2, 0], [1, 2], [0, 1]], 0, .lhs, .rhsT, [.rhsT], some [2, 0, 1]⟩,
    ⟨[.parallel, .parallel, .reduction], [[0, 2], [2, 1], [1, 0]], 1, .rhs, .lhsT, [.lhsT], some [2, 0, 1]⟩,
    ⟨[.parallel, .parallel, .reduction], [[0, 2], [1, 2], [1, 0]], 1, .rhsT, .lhsT, [.rhsT, .lhsT], some [2, 0, 1]⟩,
    ⟨[.parallel, .parallel, .reduction], [[2, 0], [2, 1], [1, 0]], 0, .rhs, .lhs, [], some [2, 0, 1]⟩,
    ⟨[.parallel, .parallel, .reduction], [[2, 0], [1, 2], [1, 0]], 0, .rhsT, .lhs, [.rhsT], some [2, 0, 1]⟩,
    ⟨[.parallel, .reduction], [[0, 1], [1], [0]], 1, .lhsT, .rhs, [.lhsT], some [1, 0]⟩,
    ⟨[.parallel, .reduction], [[1, 0], [1], [0]], 0, .lhs, .rhs, [], some [1, 0]⟩,
    ⟨[.parallel, .reduction], [[1], [0, 1], [0]], 0, .rhsT, .lhs, [.rhsT], some [1, 0]⟩,
    ⟨[.parallel, .reduction], [[1], [1, 0], [0]], 0, .rhs, .lhs, [], some [1, 0]⟩,
    ⟨[.reduction, .parallel], [[1, 0], [0], [1]], 1, .lhsT, .rhs, [.lhsT], none⟩,
    ⟨[.reduction, .parallel], [[0, 1], [0], [1]], 0, .lhs, .rhs, [], none⟩,
    ⟨[.reduction, .parallel], [[0], [1, 0], [1]], 0, .rhsT, .lhs, [.rhsT], none⟩,
    ⟨[.reduction, .parallel], [[0], [0, 1], [1]], 0, .rhs, .lhs, [], none⟩ ]

/-- What the branch described by a table row does once its tests on iterator kinds
and maps have passed. -/
def LayoutEntry.run (e : LayoutEntry) (g : UnrolledOuterProductGenerator)
    (rewriter : PatternRewriter) : FailureOr Value × PatternRewriter :=
  match getReductionSize g.lhsType e.reductionDim with
  | none => (.failure, rewriter)
  | some reductionSize =>
      let rw1 := e.transposed.foldl
        (fun rw u => match u with
          | .lhsT => (t g.lhs [1, 0] rw).2
          | .rhsT => (t g.rhs [1, 0] rw).2
          | _ => rw) rewriter
      let tMask : Value × PatternRewriter :=
        match e.maskPerm with
        | some perm => t g.mask perm rw1
        | none => (g.mask, rw1)
      g.outerProd (e.first.value g) (e.second.value g) g.res g.lhsType
        (toInt32 reductionSize) (some tMask.1) tMask.2

/-- A contraction matches a table row when its iterator kinds and maps are the row's. -/
def LayoutEntry.Matches (e : LayoutEntry) (g : UnrolledOuterProductGenerator) : Prop :=
  g.iterators = e.iters ∧ g.maps = inferFromExprList e.layout

/-- The test that an operation is a `vector.outerproduct`. -/
def Value.isOuterProduct : Value → Bool
  | .outerproduct _ _ _ _ _ => true
  | _ => false

/-- The value returned by `promote`. -/
def promoteValue (v : Value) (e : ElementType) : Value :=
  (UnrolledOuterProductGenerator.promote v e ⟨[]⟩).1

/-- The operations created by `promote`: none, or one extension. -/
def promoteOps (v : Value) (e : ElementType) : List Value :=
  (UnrolledOuterProductGenerator.promote v e ⟨[]⟩).2.ops

/-- The outer product of step `k` in the words of section 4.2: it reads slice `k` of
both normalised operands `A` and `B` and accumulates into `accOperand`. -/
def chainOp (kind : CombiningKind) (e : ElementType) (A B accOperand : Value) (k : Nat) :
    Value :=
  .outerproduct accOperand.getType (promoteValue (.extract A [k]) e)
    (promoteValue (.extract B [k]) e) accOperand kind

/-- The running accumulator of section 4.2 after `n` steps: it starts as `acc`, and
the result of step `k` (the outer product of step `k` on the previous result, under
slice `k` of the mask `m` when there is one) is the accumulator of step `k + 1`. -/
def chainResult (kind : CombiningKind) (e : ElementType) (A B m acc : Value) : Nat → Value
  | 0 => acc
  | k + 1 =>
      let op := chainOp kind e A B (chainResult kind e A B m acc k) k
      if m.isNull then op else .mask (.extract m [k]) op

/-- The operations created by `t`: none for the null value, else one transpose. -/
def tOps (v : Value) (perm : List Nat) : List Value :=
  if v.isNull then [] else [.transpose v perm]

/-- The mask value a table row hands to `outerProd`. -/
def LayoutEntry.maskValue (e : LayoutEntry) (g : UnrolledOuterProductGenerator) : Value :=
  match e.maskPerm with
  | some perm => tValue g.mask perm
  | none => g.mask

/-- The reduction axis of section 4.2: the first lhs axis whose label is a reduction
iterator. -/
def ContractionOp.reductionAxis (op : ContractionOp) : Nat :=
  (getReductionIndex (op.indexingMaps.getD 0 ⟨0, []⟩) op.iteratorTypes).headD 0

/-- The reduction extent `R` of section 4.2: the lhs extent at the reduction axis. -/
def ContractionOp.reductionExtent (op : ContractionOp) : Nat :=
  op.getLhsType.getDimSize op.reductionAxis

/-- Whether the reduction axis is marked scalable in the lhs type. -/
def ContractionOp.reductionAxisScalable (op : ContractionOp) : Bool :=
  op.getLhsType.scalableDims.getD op.reductionAxis false

/-- The values the sixteen branches hand to `outerProd` as operands: the operands of
the contraction, as they are or transposed. -/
def ContractionOp.normalisedOperands (op : ContractionOp) : List Value :=
  [op.lhs, op.rhs, tValue op.lhs [1, 0], tValue op.rhs [1, 0]]

/-- The mask of the contraction as the branches hand it to `outerProd`: as it is, or
transposed to bring the reduction axis to the front. -/
def ContractionOp.normalisedMasks (op : ContractionOp) : List Value :=
  [(UnrolledOuterProductGenerator.new op).mask,
   tValue (UnrolledOuterProductGenerator.new op).mask [2, 0, 1],
   tValue (UnrolledOuterProductGenerator.new op).mask [1, 0]]

/-- The contraction has one of the sixteen enumerated patterns: its iterator kinds and
its triple of maps literally equal those of a branch of `matmat`, `matvec` or
`tmatvec`. -/
def ContractionOp.HasOuterProductLayout (op : ContractionOp) : Prop :=
  ∃ e ∈ outerProductTable,
    op.iteratorTypes = e.iters ∧ op.indexingMaps = inferFromExprList e.layout

/-- The premise of the doc comment of `ContractionOpToOuterProductOpLowering` read as
"any layout permutation": iterators (parallel, parallel, reduction), lhs carries the
reduction label `2` and one parallel label `p` in either order, rhs carries the
reduction label and the other parallel label `q` in either order, the result carries
both parallel labels in either order. -/
def ContractionOp.IsMatmulPermutation (op : ContractionOp) : Prop :=
  op.iteratorTypes = [.parallel, .parallel, .reduction] ∧
  ∃ pq ∈ [(0, 1), (1, 0)], ∃ la ∈ [[pq.1, 2], [2, pq.1]], ∃ lb ∈ [[pq.2, 2], [2, pq.2]],
    ∃ lc ∈ [[0, 1], [1, 0]],
      op.indexingMaps = [⟨3, la⟩, ⟨3, lb⟩, ⟨3, lc⟩]

/-- A matrix multiply whose lhs carries the second parallel label:
`res[m, n] = acc[m, n] + sum over k of lhs[n, k] * rhs[k, m]`. -/
def sampleSwappedMatmat : ContractionOp :=
  { lhs := .arg 0 (i8Matrix 2 3), rhs := .arg 1 (i8Matrix 3 2), acc := .arg 2 (i8Matrix 2 2),
    indexingMaps := [⟨3, [1, 2]⟩, ⟨3, [2, 0]⟩, ⟨3, [0, 1]⟩],
    iteratorTypes := [.parallel, .parallel, .reduction],
    kind := .ADD, resultType := i8Matrix 2 2, maskingOp := .null }

/-- The multiply `sampleMatmat` with the reduction axis of the lhs marked scalable. -/
def sampleScalableMatmat : ContractionOp :=
  { sampleMatmat with
    lhs := .arg 0 (.vector { shape := [2, 3], scalableDims := [false, true],
                              elementType := .integer 8 }) }

/-- The outer-product pattern with strategy `OuterProduct` and the default filter. -/
def sampleOuterProductPattern : ContractionOpToOuterProductOpLowering :=
  ContractionOpToOuterProductOpLowering.new .OuterProduct defaultFilter

/-! ## The grid of the dot lowering, position by position -/

open ContractionOpToDotLowering

/-- The test that an operation is an `arith.addi` or `arith.addf`. -/
def Value.isAdd : Value → Bool
  | .binary .addi _ _ => true
  | .binary .addf _ _ => true
  | _ => false

/-- The rhs column used at grid column `c`: the whole rhs for a rank-1 result, else
the extracted slice `c`. -/
def dotColumn (rhs : Value) (rank c : Nat) : Value :=
  if rank = 1 then rhs else .extract rhs [c]

/-- The insert position of grid cell `(r, c)`. -/
def dotPos (rank r c : Nat) : List Nat :=
  if rank = 1 then [r] else [r, c]

/-- The scalar of grid cell `(r, c)` in the words of section 4.3: the elementwise
product of lhs row `r` and rhs column `c`, reduced by a horizontal sum. -/
def dotSum (lhs rhs : Value) (rank : Nat) (isInt : Bool) (r c : Nat) : Value :=
  .reduction .ADD
    (.binary (if isInt then .muli else .mulf) (.extract lhs [r]) (dotColumn rhs rank c)) .null

/-- The insertion of grid cell `(r, c)` into the running result. -/
def dotInsert (lhs rhs : Value) (rank : Nat) (isInt : Bool) (res : Value) (cell : Nat × Nat) :
    Value :=
  .insert (dotSum lhs rhs rank isInt cell.1 cell.2) res (dotPos rank cell.1 cell.2)

/-- The cells of the first `rows` rows of a grid with `cols` columns, row-major. -/
def gridCells (rows cols : Nat) : List (Nat × Nat) :=
  (List.range rows).flatMap (fun r => (List.range cols).map (fun c => (r, c)))

/-- The operations one iteration `(r, c)` of the inner loop creates, with `res` the
running result before it: the column extraction (first row of a rank-2 result only),
the product, the horizontal sum and the insertion. -/
def columnOps (lhs rhs : Value) (rank : Nat) (isInt : Bool) (res : Value) (r c : Nat) :
    List Value :=
  (if r = 0 ∧ rank ≠ 1 then [Value.extract rhs [c]] else []) ++
    [.binary (if isInt then .muli else .mulf) (.extract lhs [r]) (dotColumn rhs rank c),
     dotSum lhs rhs rank isInt r c,
     dotInsert lhs rhs rank isInt res (r, c)]

/-- The filled grid of section 4.3: every cell inserted, row-major, into a freshly
zero-initialised result of type `dstType`. -/
def gridValue (lhs rhs : Value) (dstType : VectorType) (rows cols : Nat) : Value :=
  (gridCells rows cols).foldl
    (dotInsert lhs rhs dstType.getRank dstType.elementType.isInteger)
    (.constantZero (.vector dstType))

/-- Number of grid rows the dot lowering unrolls (a C++ `unsigned`). -/
def dotRows (dstType : VectorType) : Nat := toUInt32 (dstType.shape.getD 0 0)

/-- Number of grid columns the dot lowering unrolls (a C++ `unsigned`). -/
def dotColumns (dstType : VectorType) : Nat :=
  if dstType.getRank = 1 then 1 else toUInt32 (dstType.shape.getD 1 0)

/-- The integer content of the grid cell at insert position `posn`: the sum over the
`K` lanes of lhs row `posn[0]` times the rhs column addressed by the rest of `posn`,
on `w`-bit integers. -/
def dotCellValue (a b : Elem) (K w : Nat) (posn : List Nat) : Int :=
  ((List.range K).map (fun k => a (posn.take 1 ++ [k]) * b (posn.drop 1 ++ [k]))).sum % 2 ^ w

/-- One branch of the layout chain of the dot lowering, as a table row: the iterator
kinds and label lists it tests, the values used as `lhs` and `rhs` afterwards, and
the transposes it creates, in order. -/
structure DotEntry where
  iters : List IteratorType
  layout : List (List Nat)
  lhsUse : OperandUse
  rhsUse : OperandUse
  created : List OperandUse
  deriving DecidableEq

/-- The value an `OperandUse` stands for in the dot lowering, whose transposes are
created unconditionally. -/
def OperandUse.dotValue (op : ContractionOp) : OperandUse → Value
  | .lhs => op.lhs
  | .rhs => op.rhs
  | .lhsT => .transpose op.lhs [1, 0]
  | .rhsT => .transpose op.rhs [1, 0]

/-- The twelve branches of the dot lowering, in source order: eight matmat layouts
(labels `m = 0`, `n = 1`, `k = 2`) and four matvec layouts (labels `m = 0`, `n = 1`,
the latter being the reduction). -/
def dotTable : List DotEntry :=
  [ ⟨[.parallel, .parallel, .reduction], [[0, 2], [2, 1], [0, 1]], .lhs, .rhsT, [.rhsT]⟩,
    ⟨[.parallel, .parallel, .reduction], [[0, 2], [1, 2], [0, 1]], .lhs, .rhs, []⟩,
    ⟨[.parallel, .parallel, .reduction], [[2, 0], [2, 1], [0, 1]], .lhsT, .rhsT, [.lhsT, .rhsT]⟩,
    ⟨[.parallel, .parallel, .reduction], [[2, 0], [1, 2], [0, 1]], .lhsT, .rhs, [.lhsT]⟩,
    ⟨[.parallel, .parallel, .reduction], [[0, 2], [2, 1], [1, 0]], .rhsT, .lhs, [.rhsT]⟩,
    ⟨[.parallel, .parallel, .reduction], [[0, 2], [1, 2], [1, 0]], .rhs, .lhs, []⟩,
    ⟨[.parallel, .parallel, .reduction], [[2, 0], [2, 1], [1, 0]], .rhsT, .lhsT, [.rhsT, .lhsT]⟩,
    ⟨[.parallel, .parallel, .reduction], [[2, 0], [1, 2], [1, 0]], .rhs, .lhsT, [.lhsT]⟩,
    ⟨[.parallel, .reduction], [[0, 1], [1], [0]], .lhs, .rhs, []⟩,
    ⟨[.parallel, .reduction], [[1, 0], [1], [0]], .lhsT, .rhs, [.lhsT]⟩,
    ⟨[.parallel, .reduction], [[1], [0, 1], [0]], .rhs, .lhs, []⟩,
    ⟨[.parallel, .reduction], [[1], [1, 0], [0]], .rhsT, .lhs, [.rhsT]⟩ ]

/-- The contraction has one of the twelve patterns of the dot lowering: its iterator
kinds and its triple of maps literally equal those of a branch. -/
def ContractionOp.HasDotLayout (op : ContractionOp) : Prop :=
  ∃ e ∈ dotTable, op.iteratorTypes = e.iters ∧ op.indexingMaps = inferFromExprList e.layout

/-- Reference contraction in the words of section 4.3 and 8: at the parallel iteration
point `par`, the sum over the reduction label (the last one, `k < R`) of the products
of the lhs and rhs elements selected by their maps, combined into the accumulator
element selected by the result map; on `w`-bit integers. -/
def referenceContract (maps : List AffineMap) (R w : Nat) (lhs rhs acc : Elem)
    (par : List Nat) : Int :=
  let lhsMap := maps.getD 0 ⟨0, []⟩
  let rhsMap := maps.getD 1 ⟨0, []⟩
  let resMap := maps.getD 2 ⟨0, []⟩
  (acc (resMap.apply (par ++ [0])) +
    ((List.range R).map
      (fun k => lhs (lhsMap.apply (par ++ [k])) * rhs (rhsMap.apply (par ++ [k])))).sum) % 2 ^ w

/-- The parallel iteration point `par` lies within the extents `ext` of the labels
(`ext` lists the extent of every label, the reduction label last). -/
def InBounds (par ext : List Nat) : Prop :=
  par.length + 1 = ext.length ∧ ∀ i < par.length, par.getD i 0 < ext.getD i 0

/-- The dot pattern with strategy `Dot` (its filter is always the default one). -/
def sampleDotPattern : ContractionOpToDotLowering :=
  ContractionOpToDotLowering.new .Dot defaultFilter

/-- The multiply `sampleMatmat` without an accumulator. -/
def sampleMatmatNoAcc : ContractionOp :=
  { sampleMatmat with acc := .null }

/-! ## Auxiliary notions for the elementwise pattern -/

/-- The test that an operation is a `vector.reduction`. -/
def Value.isReduction : Value → Bool
  | .reduction _ _ _ => true
  | _ => false

/-- All of `rewriter'` beyond `rewriter` was created without a reduction operation. -/
def NoReductionFrom (rewriter rewriter' : PatternRewriter) : Prop :=
  ∃ em : List Value, rewriter'.ops = rewriter.ops ++ em ∧ em.filter Value.isReduction = []

/-- The elementwise pattern with strategy `ParallelArith`. -/
def sampleElementwisePattern : ContractOpToElementwise :=
  ContractOpToElementwise.new .ParallelArith defaultFilter

/-- An elementwise product with a unit reduction axis:
`res[m] = acc[m] + lhs[m, 0] * rhs[0]`, lhs of type `vector<4x1xi8>`. -/
def sampleUnitReduction : ContractionOp :=
  { lhs := .arg 0 (i8Matrix 4 1), rhs := .arg 1 (i8Vector 1), acc := .arg 2 (i8Vector 4),
    indexingMaps := [⟨2, [0, 1]⟩, ⟨2, [1]⟩, ⟨2, [0]⟩],
    iteratorTypes := [.parallel, .reduction],
    kind := .ADD, resultType := i8Vector 4, maskingOp := .null }

/-! ## The operand plans of the elementwise pattern -/

/-- Number of indices below `k` that satisfy `q`. -/
def countBelow (q : Nat → Bool) (k : Nat) : Nat := ((List.range k).filter q).length

/-- The test that result axis `i` carries a label that does not occur in the operand
map `map`. -/
def isAbsentAxis (map accMap : AffineMap) (i : Nat) : Bool :=
  decide (accMap.getDimPosition i ∉ map.results)

/-- The result axes whose label does not occur in the operand map `map`, in result
order. -/
def absentAxes (map accMap : AffineMap) : List Nat :=
  (List.range accMap.getNumResults).filter (isAbsentAxis map accMap)

/-- Closed form of the entry the loop of the elementwise lowering appends to the
transposition list for result axis `i`: the `unsigned` sum `b + pos` (modulo `2 ^ 32`)
for a label the operand carries at axis `pos`, else the index of the broadcast axis. -/
def planEntry (map accMap : AffineMap) (b i : Nat) : Nat :=
  match getDimPosition map (accMap.getDimPosition i) with
  | some pos => toUInt32 (b + pos)
  | none => countBelow (isAbsentAxis map accMap) i

/-- The iteration point `point` lies within the extents `ext` of the labels. -/
def WithinExtents (point ext : List Nat) : Prop :=
  ∀ x, x < ext.length → point.getD x 0 < ext.getD x 0

/-- The lists `(dims, transpose)` that `ContractOpToElementwise::matchAndRewriteMaskableOp`
computes for the operand with index map `map`. -/
def ContractOpToElementwise.operandPlan (map accMap : AffineMap)
    (iteratorTypes : List IteratorType) (resultShape : List Nat) : OperandPlan :=
  let reductionDims := getReductionIndex map iteratorTypes
  let numParallelDims := accMap.getNumResults
  plan map accMap reductionDims numParallelDims
    (numDimToBroadcast map reductionDims numParallelDims) resultShape

/-- The value an operand `v` of type `vt` has when
`ContractOpToElementwise::matchAndRewriteMaskableOp` reaches `createContractArithOp`:
broadcast if needed, transposed, and extracted at zero offsets. -/
def ContractOpToElementwise.operand (v : Value) (vt : VectorType) (map accMap : AffineMap)
    (iteratorTypes : List IteratorType) (resultShape : List Nat) : Value :=
  let pl := operandPlan map accMap iteratorTypes resultShape
  .extract (.transpose (broadcastOperand v pl.1 vt.shape vt.elementType ⟨[]⟩).1 pl.2)
    (List.replicate (getReductionIndex map iteratorTypes).length 0)

/-- The lhs type `vector<4x1xi8>` of `sampleUnitReduction`. -/
def sampleLhsType : VectorType :=
  { shape := [4, 1], scalableDims := [false, false], elementType := .integer 8 }

/-- The rhs type `vector<1xi8>` of `sampleUnitReduction`. -/
def sampleRhsType : VectorType :=
  { shape := [1], scalableDims := [false], elementType := .integer 8 }

/-! ## Auxiliary notions for the combine step -/

/-- The test that an operation is a `vector.fma`. -/
def Value.isFma : Value → Bool
  | .fma _ _ _ => true
  | _ => false

/-! ## `ContractionOpLowering` and its helpers -/

/-- Source: `getResultIndex` (the static helper on a map and a label). -/
def getResultIndex (map : AffineMap) (index : Nat) : Option Nat :=
  (List.range map.getNumResults).find? (fun i => map.getDimPosition i == index)

/-- Source: `adjustIter`: the iterator kinds with position `index` left out. -/
def adjustIter (iteratorTypes : List IteratorType) (index : Nat) : List IteratorType :=
  iteratorTypes.enum.filterMap (fun it => if it.1 = index then none else some it.2)

/-- Source: `adjustMap`: the map with label `index` left out and the labels after it
renamed; `map.getNumDims() - 1` is computed on `unsigned`. -/
def adjustMap (map : AffineMap) (index : Nat) : AffineMap :=
  { numDims := wrapUInt32 ((map.getNumDims : Int) - 1),
    results := (List.range map.getNumResults).filterMap (fun i =>
      let idx := map.getDimPosition i
      if idx = index then none else some (if idx < index then idx else idx - 1)) }

/-- Source: `reshapeLoad` for `index >= 0` (recursion on `index`). -/
def reshapeLoadAt : Nat → Value → VectorType → Nat → PatternRewriter →
    Value × PatternRewriter
  | 0, val, _, pos, rewriter => rewriter.create (.extract val [pos])
  | index + 1, val, type, pos, rewriter =>
      let vType := type.dropDim 0
      let resType := type.dropDim (index + 1)
      let result := rewriter.create (.constantZero (.vector resType))
      (List.range (resType.getDimSize 0)).foldl (fun st d =>
        let ext := st.2.create (.extract val [d])
        let load := reshapeLoadAt index ext.1 vType pos ext.2
        load.2.create (.insert load.1 st.1 [d])) result

/-- Source: `reshapeLoad`; the index `-1` is `none`. -/
def reshapeLoad (val : Value) (type : VectorType) (index : Option Nat) (pos : Nat)
    (rewriter : PatternRewriter) : Value × PatternRewriter :=
  match index with
  | none => (val, rewriter)
  | some i => reshapeLoadAt i val type pos rewriter

/-- Source: `reshapeStore` for `index >= 0` (recursion on `index`). -/
def reshapeStoreAt : Nat → Value → Value → VectorType → Nat → PatternRewriter →
    Value × PatternRewriter
  | 0, val, result, _, pos, rewriter => rewriter.create (.insert val result [pos])
  | index + 1, val, result, type, pos, rewriter =>
      let vType := type.dropDim 0
      (List.range (type.getDimSize 0)).foldl (fun st d =>
        let ext := st.2.create (.extract st.1 [d])
        let ins := ext.2.create (.extract val [d])
        let sto := reshapeStoreAt index ins.1 ext.1 vType pos ins.2
        sto.2.create (.insert sto.1 st.1 [d])) (result, rewriter)

/-- Source: `reshapeStore`; the index `-1` is `none`. -/
def reshapeStore (val result : Value) (type : VectorType) (index : Option Nat) (pos : Nat)
    (rewriter : PatternRewriter) : Value × PatternRewriter :=
  match index with
  | none => (val, rewriter)
  | some i => reshapeStoreAt i val result type pos rewriter

/-- Modelled from the spec: the dimension maps of `ContractionOp` are outside the given
sources; the pairs `(lhs axis, rhs axis)` of the labels that pass `keep` and occur in
both operand maps, in label order (section 4.5: the first pair found). -/
def ContractionOp.getDimMap (op : ContractionOp) (keep : Nat → Bool) : List (Nat × Nat) :=
  (List.range op.iteratorTypes.length).filterMap (fun label =>
    if keep label then
      match getResultIndex (op.indexingMaps.getD 0 ⟨0, []⟩) label,
          getResultIndex (op.indexingMaps.getD 1 ⟨0, []⟩) label with
      | some l, some r => some (l, r)
      | _, _ => none
    else none)

/-- Modelled from the spec: `ContractionOp::getBatchDimMap` is outside the given
sources; a batch label is a parallel label present in both operands and the result
simultaneously (glossary: batch axis), listed by its lhs and rhs axis. -/
def ContractionOp.getBatchDimMap (op : ContractionOp) : List (Nat × Nat) :=
  op.getDimMap (fun label =>
    isParallelIterator (op.iteratorTypes.getD label .parallel) &&
      (getResultIndex (op.indexingMaps.getD 2 ⟨0, []⟩) label).isSome)

/-- Modelled from the spec: `ContractionOp::getContractingDimMap` is outside the given
sources; a contracting pair is a reduction label with its axis in lhs and in rhs
(section 4.5). -/
def ContractionOp.getContractingDimMap (op : ContractionOp) : List (Nat × Nat) :=
  op.getDimMap (fun label => isReductionIterator (op.iteratorTypes.getD label .parallel))

/-- Source: `class ContractionOpLowering` (its two data members). -/
structure ContractionOpLowering where
  vectorContractLoweringOption : VectorContractLowering
  filter : FilterConstraintType

/-- Source: the constructor of `ContractionOpLowering`, which stores the constraint. -/
def ContractionOpLowering.new (vectorContractLoweringOption : VectorContractLowering)
    (constraint : FilterConstraintType) : ContractionOpLowering :=
  { vectorContractLoweringOption := vectorContractLoweringOption, filter := constraint }

/-- The type `cast<VectorType>(mask.getType())`; a non-vector mask (excluded by the
verifier) yields the empty type. -/
def maskVectorType (mask : Value) : VectorType :=
  match mask.getType with
  | .vector vt => vt
  | _ => { shape := [], scalableDims := [], elementType := .index }

/-- The head of `lowerParallel`: the label `iterIndex` and the extent `dimSize` of the
axis to peel, or `none` where the source returns a match failure. -/
def ContractionOpLowering.peeledAxis (op : ContractionOp) (lhsIndex rhsIndex : Option Nat) :
    Option (Nat × Nat) :=
  match lhsIndex, rhsIndex with
  | some l, r =>
      let iterIndex := (op.indexingMaps.getD 0 ⟨0, []⟩).getDimPosition l
      if r.any (fun rr => iterIndex ≠ (op.indexingMaps.getD 1 ⟨0, []⟩).getDimPosition rr) then
        none
      else if op.getLhsType.scalableDims.getD l false then none
      else some (iterIndex, op.getLhsType.getDimSize l)
  | none, some rr =>
      let iterIndex := (op.indexingMaps.getD 1 ⟨0, []⟩).getDimPosition rr
      if op.getRhsType.scalableDims.getD rr false then none
      else some (iterIndex, op.getRhsType.getDimSize rr)
  | none, none => none

/-- The body of the loop `for (int64_t d = 0; d < dimSize; ++d)` of `lowerParallel`;
the state is the running `result` and the rewriter. -/
def ContractionOpLowering.parallelStep (op : ContractionOp) (resType : VectorType)
    (lhsIndex rhsIndex resIndex : Option Nat) (iterIndex : Nat) (mask : Value)
    (lowAffine : List AffineMap) (lowIter : List IteratorType)
    (st : Value × PatternRewriter) (d : Nat) : Value × PatternRewriter :=
  let lhs := reshapeLoad op.lhs op.getLhsType lhsIndex d st.2
  let rhs := reshapeLoad op.rhs op.getRhsType rhsIndex d lhs.2
  let acc := reshapeLoad op.acc resType resIndex d rhs.2
  let lowMask :=
    if !mask.isNull then reshapeLoad mask (maskVectorType mask) (some iterIndex) d acc.2
    else (Value.null, acc.2)
  let lowContract := lowMask.2.create (.contract lhs.1 rhs.1 acc.1 lowAffine lowIter .ADD)
  let masked := maskOperation lowContract.2 lowContract.1 lowMask.1
  reshapeStore masked.1 st.1 resType resIndex d masked.2

/-- Source: `ContractionOpLowering::lowerParallel`; an absent index (`-1`) is `none`.
A result type that is not a vector, on which the source's `cast` is undefined, is
reported as failure. -/
def ContractionOpLowering.lowerParallel (_self : ContractionOpLowering)
    (rewriter : PatternRewriter) (op : ContractionOp) (lhsIndex rhsIndex : Option Nat)
    (mask : Value) : FailureOr Value × PatternRewriter :=
  match op.resultType.dynCastVector with
  | none => (.failure, rewriter)
  | some resType =>
      match peeledAxis op lhsIndex rhsIndex with
      | none => (.failure, rewriter)
      | some (iterIndex, dimSize) =>
          let resIndex := getResultIndex (op.indexingMaps.getD 2 ⟨0, []⟩) iterIndex
          if resIndex.isNone && dimSize ≠ 1 then (.failure, rewriter)
          else
            let lowAffine := [adjustMap (op.indexingMaps.getD 0 ⟨0, []⟩) iterIndex,
              adjustMap (op.indexingMaps.getD 1 ⟨0, []⟩) iterIndex,
              adjustMap (op.indexingMaps.getD 2 ⟨0, []⟩) iterIndex]
            let lowIter := adjustIter op.iteratorTypes iterIndex
            let result := rewriter.create (.constantZero (.vector resType))
            let final := (List.range dimSize).foldl
              (parallelStep op resType lhsIndex rhsIndex resIndex iterIndex mask lowAffine
                lowIter) result
            (.success final.1, final.2)

/-- The body of the loop `for (int64_t d = 0; d < dimSize; ++d)` of `lowerReduction`;
the state is the running `result` and the rewriter. -/
def ContractionOpLowering.reductionStep (op : ContractionOp) (lhsIndex rhsIndex : Nat)
    (mask : Value) (lowAffine : List AffineMap) (lowIter : List IteratorType)
    (st : Value × PatternRewriter) (d : Nat) : Value × PatternRewriter :=
  let lhs := reshapeLoad op.lhs op.getLhsType (some lhsIndex) d st.2
  let rhs := reshapeLoad op.rhs op.getRhsType (some rhsIndex) d lhs.2
  let newMask :=
    if !mask.isNull then reshapeLoad mask (maskVectorType mask) (some 0) d rhs.2
    else (Value.null, rhs.2)
  let newContract := newMask.2.create (.contract lhs.1 rhs.1 st.1 lowAffine lowIter .ADD)
  maskOperation newContract.2 newContract.1 newMask.1

/-- The test `isa<IntegerType>(t)` on a type. -/
def MlirType.isIntegerType : MlirType → Bool
  | .scalar (.integer _) => true
  | _ => false

/-- Source: `ContractionOpLowering::lowerReduction`. -/
def ContractionOpLowering.lowerReduction (_self : ContractionOpLowering)
    (rewriter : PatternRewriter) (op : ContractionOp) (mask : Value) :
    FailureOr Value × PatternRewriter :=
  if op.resultType.isVector then (.failure, rewriter)
  else
    let isInt := op.resultType.isIntegerType
    let iterIndex := 0
    match getResultIndex (op.indexingMaps.getD 0 ⟨0, []⟩) iterIndex,
        getResultIndex (op.indexingMaps.getD 1 ⟨0, []⟩) iterIndex with
    | none, _ => (.failure, rewriter)
    | some _, none => (.failure, rewriter)
    | some lhsIndex, some rhsIndex =>
        let dimSize := op.getLhsType.getDimSize lhsIndex
        if dimSize ≠ op.getRhsType.getDimSize rhsIndex then (.failure, rewriter)
        else if op.getLhsType.getRank = 1 then
          if op.getRhsType.getRank ≠ 1 then (.failure, rewriter)
          else
            let m := createMul op.lhs op.rhs isInt rewriter
            let reductionOp := m.2.create (.reduction .ADD m.1 op.acc)
            let masked := maskOperation reductionOp.2 reductionOp.1 mask
            (.success masked.1, masked.2)
        else
          let lowAffine := [adjustMap (op.indexingMaps.getD 0 ⟨0, []⟩) iterIndex,
            adjustMap (op.indexingMaps.getD 1 ⟨0, []⟩) iterIndex,
            adjustMap (op.indexingMaps.getD 2 ⟨0, []⟩) iterIndex]
          let lowIter := adjustIter op.iteratorTypes iterIndex
          let final := (List.range dimSize).foldl
            (reductionStep op lhsIndex rhsIndex mask lowAffine lowIter) (op.acc, rewriter)
          (.success final.1, final.2)

/-- The three embedded attempts of `ContractionOpLowering::matchAndRewriteMaskableOp`,
in the source's order; each pattern is built from the configured strategy alone, so
with its default filter. The result is the first success, or failure together with the
rewriter the three attempts leave. -/
def ContractionOpLowering.embedded (self : ContractionOpLowering) (op : ContractionOp)
    (maskOp : Value) (rewriter : PatternRewriter) : FailureOr Value × PatternRewriter :=
  let pat1 := ContractionOpToOuterProductOpLowering.new self.vectorContractLoweringOption
    defaultFilter
  let newVal1 := pat1.matchAndRewriteMaskableOp op maskOp rewriter
  if !newVal1.1.failed then newVal1
  else
    let pat2 := ContractionOpToDotLowering.new self.vectorContractLoweringOption defaultFilter
    let newVal2 := pat2.matchAndRewriteMaskableOp op maskOp newVal1.2
    if !newVal2.1.failed then newVal2
    else
      let pat4 := ContractOpToElementwise.new self.vectorContractLoweringOption defaultFilter
      let newVal4 := pat4.matchAndRewriteMaskableOp op maskOp newVal2.2
      if !newVal4.1.failed then newVal4
      else (.failure, newVal4.2)

/-- The peeling part of `ContractionOpLowering::matchAndRewriteMaskableOp`, entered
when the three embedded attempts have failed. The masking operation is represented by
its mask, so `maskOp.getMask()` is `maskOp`. -/
def ContractionOpLowering.peel (self : ContractionOpLowering) (op : ContractionOp)
    (maskOp : Value) (rewriter : PatternRewriter) : FailureOr Value × PatternRewriter :=
  let mask := if !maskOp.isNull then maskOp else .null
  let batchDimMap := op.getBatchDimMap
  match batchDimMap.head? with
  | some (lhsIndex, rhsIndex) =>
      self.lowerParallel rewriter op (some lhsIndex) (some rhsIndex) mask
  | none =>
      let contractingDimMap := op.getContractingDimMap
      let lhsContractingDimSet := contractingDimMap.map (fun dimPair => dimPair.1)
      let rhsContractingDimSet := contractingDimMap.map (fun dimPair => dimPair.2)
      match (List.range op.getLhsType.getRank).find?
          (fun lhsIndex => !lhsContractingDimSet.contains lhsIndex) with
      | some lhsIndex => self.lowerParallel rewriter op (some lhsIndex) none mask
      | none =>
          match (List.range op.getRhsType.getRank).find?
              (fun rhsIndex => !rhsContractingDimSet.contains rhsIndex) with
          | some rhsIndex => self.lowerParallel rewriter op none (some rhsIndex) mask
          | none =>
              if !contractingDimMap.isEmpty then self.lowerReduction rewriter op mask
              else (.failure, rewriter)

/-- Source: `ContractionOpLowering::matchAndRewriteMaskableOp`
(`getElementTypeOrSelf(op.getAccType())` is compared as an optional element type, which
a null accumulator does not have). -/
def ContractionOpLowering.matchAndRewriteMaskableOp (self : ContractionOpLowering)
    (op : ContractionOp) (maskOp : Value) (rewriter : PatternRewriter) :
    FailureOr Value × PatternRewriter :=
  if (self.filter op).failed then (.failure, rewriter)
  else if some op.getLhsType.elementType ≠ op.getAccType.elementType? ∨
      some op.getRhsType.elementType ≠ op.getAccType.elementType? then (.failure, rewriter)
  else if op.kind ≠ .ADD then (.failure, rewriter)
  else
    let attempts := self.embedded op maskOp rewriter
    if !attempts.1.failed then attempts
    else self.peel op maskOp attempts.2

/-! ## Concrete inputs for the generic pattern -/

/-- The multiply `sampleMatmat` with combining kind `MUL`. -/
def sampleMulContraction : ContractionOp :=
  { sampleMatmat with kind := .MUL }

/-- The generic pattern configured with strategy `Dot`. -/
def samplePeelingPattern : ContractionOpLowering :=
  ContractionOpLowering.new .Dot defaultFilter

/-- The type `vector<a x b x c x i8>` without scalable axes. -/
def i8Cube (a b c : Nat) : MlirType :=
  .vector { shape := [a, b, c], scalableDims := [false, false, false],
            elementType := .integer 8 }

/-- A batched matrix-vector product `res[b, m] = acc[b, m] + sum_k lhs[m, b, k] * rhs[b, k]`
with labels `b = 0`, `m = 1`, `k = 2`: the free lhs axis `m` precedes the batch axis. -/
def sampleBatch : ContractionOp :=
  { lhs := .arg 0 (i8Cube 2 2 2), rhs := .arg 1 (i8Matrix 2 2), acc := .arg 2 (i8Matrix 2 2),
    indexingMaps := [⟨3, [1, 0, 2]⟩, ⟨3, [0, 2]⟩, ⟨3, [0, 1]⟩],
    iteratorTypes := [.parallel, .parallel, .reduction],
    kind := .ADD, resultType := i8Matrix 2 2, maskingOp := .null }

/-! ## Contractions emitted by a rewrite -/

/-- The test that an operation is a `vector.contract`. -/
def Value.isContract : Value → Bool
  | .contract _ _ _ _ _ _ => true
  | _ => false

/-- Every `vector.contract` created between `rewriter` and `rewriter'` satisfies `Q`. -/
def ContractsFrom (Q : Value → Prop) (rewriter rewriter' : PatternRewriter) : Prop :=
  ∃ em : List Value, rewriter'.ops = rewriter.ops ++ em ∧
    ∀ v ∈ em, v.isContract = true → Q v

/-- The contraction `v` has three index maps of domain size `k` with all labels below
`k`, and `k` iterator kinds. -/
def HasDomainSize (k : Nat) (v : Value) : Prop :=
  match v with
  | .contract _ _ _ maps iters _ =>
      maps.length = 3 ∧ (∀ m ∈ maps, m.numDims = k ∧ ∀ x ∈ m.results, x < k) ∧
        iters.length = k
  | _ => True

/-- The contraction `v` is one that peeling label `iterIndex` of `op` at the operand
axes `lhsIndex`, `rhsIndex` creates: slices of the operands, the adjusted maps and
iterator kinds. -/
def IsPeeledChild (op : ContractionOp) (lhsIndex rhsIndex : Option Nat) (iterIndex : Nat)
    (v : Value) : Prop :=
  ∃ (d : Nat) (rwa rwb : PatternRewriter) (acc : Value),
    v = .contract (reshapeLoad op.lhs op.getLhsType lhsIndex d rwa).1
      (reshapeLoad op.rhs op.getRhsType rhsIndex d rwb).1 acc
      [adjustMap (op.indexingMaps.getD 0 ⟨0, []⟩) iterIndex,
        adjustMap (op.indexingMaps.getD 1 ⟨0, []⟩) iterIndex,
        adjustMap (op.indexingMaps.getD 2 ⟨0, []⟩) iterIndex]
      (adjustIter op.iteratorTypes iterIndex) .ADD

/-! ## The driver that re-offers emitted contractions -/

/-- The label `y` after label `index` is removed: labels after it move down by one
(the renaming applied by `adjustMap`). -/
def renameLabel (index y : Nat) : Nat := if y < index then y else y - 1

/-- The rank of a value's vector type; a value that is not a vector has rank 0. -/
def Value.vectorRank (v : Value) : Nat :=
  match v.getType with
  | .vector vt => vt.getRank
  | _ => 0

/-- Well-formedness of a contraction as far as peeling relies on it: the labels of the
three maps are iterator positions, the operand maps are injective, each operand has as
many axes as its map has results, and a parallel label of an operand occurs in the
result map. -/
def ContractionOp.WellFormed (op : ContractionOp) : Prop :=
  (∀ m ∈ [op.indexingMaps.getD 0 ⟨0, []⟩, op.indexingMaps.getD 1 ⟨0, []⟩,
      op.indexingMaps.getD 2 ⟨0, []⟩], ∀ x ∈ m.results, x < op.iteratorTypes.length) ∧
  (op.indexingMaps.getD 0 ⟨0, []⟩).results.Nodup ∧
  (op.indexingMaps.getD 1 ⟨0, []⟩).results.Nodup ∧
  op.getLhsType.getRank = (op.indexingMaps.getD 0 ⟨0, []⟩).getNumResults ∧
  op.getRhsType.getRank = (op.indexingMaps.getD 1 ⟨0, []⟩).getNumResults ∧
  ∀ x, (x ∈ (op.indexingMaps.getD 0 ⟨0, []⟩).results ∨
      x ∈ (op.indexingMaps.getD 1 ⟨0, []⟩).results) →
    isParallelIterator (op.iteratorTypes.getD x .parallel) = true →
    x ∈ (op.indexingMaps.getD 2 ⟨0, []⟩).results

/-- The operand axis `index` given to the peeling carries label `label`; an absent
index means the operand map does not mention the label. -/
def AxisOK (map : AffineMap) (index : Option Nat) (label : Nat) : Prop :=
  match index with
  | some i => i < map.results.length ∧ map.results.getD i 0 = label
  | none => label ∉ map.results

/-- The contraction `v` is created by peeling a label of `op` at operand axes that
carry this label. -/
def IsPeelOf (op : ContractionOp) (v : Value) : Prop :=
  ∃ (lhsIndex rhsIndex : Option Nat) (iterIndex : Nat),
    AxisOK (op.indexingMaps.getD 0 ⟨0, []⟩) lhsIndex iterIndex ∧
    AxisOK (op.indexingMaps.getD 1 ⟨0, []⟩) rhsIndex iterIndex ∧
    (lhsIndex.isSome = true ∨ rhsIndex.isSome = true) ∧
    IsPeeledChild op lhsIndex rhsIndex iterIndex v

/-- Modelled from the spec: the rewrite driver is outside the given sources. The mask
of the masking wrapper created around the operation `v`, null when there is none
(section 6: a contraction is offered possibly wrapped in a masking node). -/
def enclosingMask (created : List Value) (v : Value) : Value :=
  match created.find? (fun o =>
      match o with
      | .mask _ inner => decide (inner = v)
      | _ => false) with
  | some (.mask m _) => m
  | _ => .null

/-- Modelled from the spec: the rewrite driver is outside the given sources. A created
`vector.contract` as the contraction the driver offers again (section 6: the driver
re-offers any newly created smaller contraction); the builder gives it the accumulator's
type as result type. -/
def Value.toContractionOp? (created : List Value) (v : Value) : Option ContractionOp :=
  match v with
  | .contract lhs rhs acc maps iters kind =>
      some { lhs := lhs, rhs := rhs, acc := acc, indexingMaps := maps, iteratorTypes := iters,
             kind := kind, resultType := acc.getType, maskingOp := enclosingMask created v }
  | _ => none

/-- Modelled from the spec: the rewrite driver is outside the given sources. The
contractions the driver offers again after offering `op` to `ContractionOpLowering`:
those created by a successful rewrite; a declined contraction is left as it is
(section 9: worklist of pending contractions). -/
def ContractionOpLowering.reoffered (self : ContractionOpLowering) (op : ContractionOp) :
    List ContractionOp :=
  let res := self.matchAndRewriteMaskableOp op op.maskingOp ⟨[]⟩
  if res.1.succeeded then res.2.ops.filterMap (Value.toContractionOp? res.2.ops) else []

/-- Modelled from the spec: the rewrite driver is outside the given sources. The
worklist process started at `op`, every emitted contraction being offered again
(section 9), with `fuel` bounding the nesting: the length of the longest chain of nested
re-offers below `op`, or `none` when the fuel does not suffice. -/
def ContractionOpLowering.chainDepth (self : ContractionOpLowering) :
    Nat → ContractionOp → Option Nat
  | 0, _ => none
  | fuel + 1, op =>
      (self.reoffered op).foldl (fun longest c =>
        match longest, chainDepth self fuel c with
        | some a, some d => some (max a (d + 1))
        | _, _ => none) (some 0)

/-! ## Contractions with a scalable axis -/

/-- The test that an operation is a `vector.extract`. -/
def Value.isExtract : Value → Bool
  | .extract _ _ => true
  | _ => false

/-- A matrix-vector product `res[m] = acc[m] + sum_k lhs[m, k] * rhs[k]` whose row axis
`m` is scalable: lhs `vector<[2]x3xi8>`, rhs `vector<3xi8>`, acc `vector<[2]xi8>`. -/
def sampleScalableRows : ContractionOp :=
  { lhs := .arg 0 (.vector ⟨[2, 3], [true, false], .integer 8⟩),
    rhs := .arg 1 (i8Vector 3),
    acc := .arg 2 (.vector ⟨[2], [true], .integer 8⟩),
    indexingMaps := inferFromExprList [[0, 1], [1], [0]],
    iteratorTypes := [.parallel, .reduction],
    kind := .ADD, resultType := .vector ⟨[2], [true], .integer 8⟩, maskingOp := .null }

/-- A full reduction `res = acc + sum_{j, k} lhs[j, k] * rhs[j, k]` whose first reduction
axis is scalable: lhs and rhs `vector<[2]x3xi8>`, scalar accumulator. -/
def sampleScalableReduction : ContractionOp :=
  { lhs := .arg 0 (.vector ⟨[2, 3], [true, false], .integer 8⟩),
    rhs := .arg 1 (.vector ⟨[2, 3], [true, false], .integer 8⟩),
    acc := .arg 2 (.scalar (.integer 8)),
    indexingMaps := [⟨2, [0, 1]⟩, ⟨2, [0, 1]⟩, ⟨2, []⟩],
    iteratorTypes := [.reduction, .reduction],
    kind := .ADD, resultType := .scalar (.integer 8), maskingOp := .null }

/-- The batched product `sampleBatch` with the free axis `m` scalable: lhs
`vector<[2]x2x2xi8>` with axes `(m, b, k)`, result `vector<2x[2]xi8>`. Peeling the batch
axis (lhs axis 1) walks the leading lhs axis `m`. -/
def sampleScalableLeading : ContractionOp :=
  { sampleBatch with
    lhs := .arg 0 (.vector ⟨[2, 2, 2], [true, false, false], .integer 8⟩),
    acc := .arg 2 (.vector ⟨[2, 2], [false, true], .integer 8⟩),
    resultType := .vector ⟨[2, 2], [false, true], .integer 8⟩ }

/-! ## `OuterProductOpLowering` -/

/-- The `vector.outerproduct` offered to `OuterProductOpLowering`. `acc` is a nullable
handle, as the source tests it; `maskingOp` is the mask of the enclosing `vector.mask`,
null when the operation is not masked. -/
structure OuterProductOp where
  lhs : Value
  rhs : Value
  acc : Value
  kind : CombiningKind
  resultType : VectorType
  maskingOp : Value
  deriving DecidableEq

/-- Source: `OuterProductOp::getOperandVectorTypeLHS`; a non-vector lhs (excluded by the
operation's verifier) yields the empty type. -/
def OuterProductOp.getOperandVectorTypeLHS (op : OuterProductOp) : VectorType :=
  match op.lhs.getType with
  | .vector vt => vt
  | _ => { shape := [], scalableDims := [], elementType := .index }

/-- Source: `MaskableOpInterface::isMasked` on an outer product. -/
def OuterProductOp.isMasked (op : OuterProductOp) : Bool := !op.maskingOp.isNull

/-- Body of the loop `for (int64_t d = 0, e = resType.getDimSize(0); d < e; ++d)` of
`OuterProductOpLowering::matchAndRewrite`; the state is the running `result`, or failure
once an iteration has returned failure. -/
def OuterProductOpLowering.sliceStep (op : OuterProductOp) (rhsType : VectorType)
    (isInt : Bool) (mask : Value) (st : FailureOr Value × PatternRewriter) (d : Nat) :
    FailureOr Value × PatternRewriter :=
  match st.1 with
  | .failure => st
  | .success result =>
      let x := st.2.create (.extract op.lhs [d])
      let a := x.2.create (.broadcast rhsType x.1)
      let r := if !op.acc.isNull then a.2.create (.extract op.acc [d]) else (Value.null, a.2)
      let extrMask := if !mask.isNull then r.2.create (.extract mask [d]) else (Value.null, r.2)
      let m := createContractArithOp a.1 op.rhs r.1 op.kind extrMask.2 isInt extrMask.1
      match m.1 with
      | none => (.failure, m.2)
      | some mv =>
          let ins := m.2.create (.insert mv result [d])
          (.success ins.1, ins.2)

/-- Source: `OuterProductOpLowering::matchAndRewrite`. The value returned on success is
the one the source passes to `rewriter.replaceOp`. -/
def OuterProductOpLowering.matchAndRewrite (op : OuterProductOp) (rewriter : PatternRewriter) :
    FailureOr Value × PatternRewriter :=
  let resType := op.resultType
  if decide (resType.shape.length ≥ 2) && resType.allDimsScalable then (.failure, rewriter)
  else
    let lhsType := op.getOperandVectorTypeLHS
    let rhsType := op.rhs.getType.dynCastVector
    let eltType := resType.elementType
    let isInt := eltType.isIntOrIndex
    let acc := op.acc
    let kind := op.kind
    let mask := if op.isMasked then op.maskingOp else Value.null
    match rhsType with
    | none =>
        let b := rewriter.create (.broadcast lhsType op.rhs)
        let mult := createContractArithOp op.lhs b.1 acc kind b.2 isInt mask
        match mult.1 with
        | none => (.failure, mult.2)
        | some v => (.success v, mult.2)
    | some rhsType =>
        let result := rewriter.create (.constantZero (.vector resType))
        (List.range (resType.getDimSize 0)).foldl (sliceStep op rhsType isInt mask)
          (.success result.1, result.2)

/-- The test that an operation is an `arith.muli`. -/
def Value.isMuli : Value → Bool
  | .binary .muli _ _ => true
  | _ => false

/-- The multiply of slice `d` of the expanded outer product: lhs element `d` broadcast
to the rhs type, times the rhs. -/
def OuterProductOp.sliceMul (op : OuterProductOp) (rhsType : VectorType) (d : Nat) : Value :=
  .binary .muli (.broadcast rhsType (.extract op.lhs [d])) op.rhs

/-- The value of slice `d` of the expanded integer outer product of kind `ADD`: the
multiply, plus slice `d` of the accumulator when there is one. -/
def OuterProductOp.sliceValue (op : OuterProductOp) (rhsType : VectorType) (d : Nat) : Value :=
  if op.acc.isNull then op.sliceMul rhsType d
  else .binary .addi (op.sliceMul rhsType d) (.extract op.acc [d])

/-- The running result of the expansion after `n` slices. -/
def OuterProductOp.expanded (op : OuterProductOp) (rhsType : VectorType) (n : Nat) : Value :=
  (List.range n).foldl (fun res d => .insert (op.sliceValue rhsType d) res [d])
    (.constantZero (.vector op.resultType))

/-- An outer product `vector<3xi8>` by `vector<2xi8>` with a `vector<3x2xi8>` accumulator. -/
def sampleOuterProduct : OuterProductOp :=
  { lhs := .arg 0 (i8Vector 3), rhs := .arg 1 (i8Vector 2), acc := .arg 2 (i8Matrix 3 2),
    kind := .ADD,
    resultType := { shape := [3, 2], scalableDims := [false, false], elementType := .integer 8 },
    maskingOp := .null }

/-- The operations one iteration of the loop of `OuterProductOpLowering` creates for an
unmasked integer outer product of kind `ADD`, in creation order; `result` is the running
result the slice is inserted into. -/
def OuterProductOp.sliceOps (op : OuterProductOp) (rhsType : VectorType) (d : Nat)
    (result : Value) : List Value :=
  [.extract op.lhs [d], .broadcast rhsType (.extract op.lhs [d])] ++
    (if op.acc.isNull then [] else [.extract op.acc [d]]) ++
    [op.sliceMul rhsType d] ++
    (if op.acc.isNull then [] else [op.sliceValue rhsType d]) ++
    [.insert (op.sliceValue rhsType d) result [d]]

/-- The operations of the whole expansion over `n` slices: the zero result, then the
slices `0 .. n-1` in increasing order. -/
def OuterProductOp.expandedOps (op : OuterProductOp) (rhsType : VectorType) (n : Nat) :
    List Value :=
  .constantZero (.vector op.resultType) ::
    (List.range n).flatMap (fun d => op.sliceOps rhsType d (op.expanded rhsType d))

/-! ## The axis peeled by `lowerParallel` -/

/-- The domain label of the axis handed to `lowerParallel`: the label of the lhs axis
when `lhsIndex` is present, else the label of the rhs axis. -/
def ContractionOpLowering.peeledLabel (op : ContractionOp) (lhsIndex rhsIndex : Option Nat) :
    Nat :=
  match lhsIndex, rhsIndex with
  | some l, _ => (op.indexingMaps.getD 0 ⟨0, []⟩).getDimPosition l
  | none, some r => (op.indexingMaps.getD 1 ⟨0, []⟩).getDimPosition r
  | none, none => 0

/-- The extent of the axis handed to `lowerParallel`: that of the lhs axis when
`lhsIndex` is present, else that of the rhs axis. -/
def ContractionOpLowering.peeledExtent (op : ContractionOp) (lhsIndex rhsIndex : Option Nat) :
    Nat :=
  match lhsIndex, rhsIndex with
  | some l, _ => op.getLhsType.getDimSize l
  | none, some r => op.getRhsType.getDimSize r
  | none, none => 0

/-- Whether the axis that supplies the extent is marked scalable. -/
def ContractionOpLowering.peeledAxisScalable (op : ContractionOp)
    (lhsIndex rhsIndex : Option Nat) : Bool :=
  match lhsIndex, rhsIndex with
  | some l, _ => op.getLhsType.scalableDims.getD l false
  | none, some r => op.getRhsType.scalableDims.getD r false
  | none, none => false

/-- A rank-1 dot product `res = acc + sum_k lhs[k] * rhs[k]` on `vector<4xi8>` with a
scalar `i8` accumulator. -/
def sampleDotProduct : ContractionOp :=
  { lhs := .arg 0 (i8Vector 4), rhs := .arg 1 (i8Vector 4), acc := .arg 2 (.scalar (.integer 8)),
    indexingMaps := [⟨1, [0]⟩, ⟨1, [0]⟩, ⟨1, []⟩],
    iteratorTypes := [.reduction],
    kind := .ADD, resultType := .scalar (.integer 8), maskingOp := .null }

/-! ## The AXPY case of `OuterProductOpLowering` -/

/-- The test that an operation is a `vector.insert`. -/
def Value.isInsert : Value → Bool
  | .insert _ _ _ => true
  | _ => false

/-- The test that an operation is one of those the combine step creates: a binary
`arith` operation, a fused multiply-add or a select. -/
def Value.isArith : Value → Bool
  | .binary _ _ _ => true
  | .fma _ _ _ => true
  | .select _ _ _ => true
  | _ => false

/-- All of `rewriter'` beyond `rewriter` are created operations that satisfy `P`. -/
def CreatedFrom (P : Value → Prop) (rewriter rewriter' : PatternRewriter) : Prop :=
  ∃ em : List Value, rewriter'.ops = rewriter.ops ++ em ∧ ∀ v ∈ em, P v

/-- An AXPY outer product `vector<2xi8>` by a scalar `i8` with a `vector<2xi8>`
accumulator, under a mask (the outside value 3). -/
def sampleAxpyMasked : OuterProductOp :=
  { lhs := .arg 0 (i8Vector 2), rhs := .arg 1 (.scalar (.integer 8)), acc := .arg 2 (i8Vector 2),
    kind := .ADD,
    resultType := { shape := [2], scalableDims := [false], elementType := .integer 8 },
    maskingOp := .arg 3 (.vector ⟨[2], [false], .integer 1⟩) }

/-- Contents of the outside values as in `sampleEnv`, except that the mask (value 3) is
false on every lane. -/
def sampleEnvMaskedOff : Nat → Elem :=
  fun n idx => if n = 3 then 0 else sampleEnv n idx

/-! ## Axis labels of the normalised operands of the dot lowering -/

/-- The axis labels of the value an `OperandUse` stands for: the results of the
operand's map, read through the permutation `[1, 0]` for a transposed operand (axis `i`
of a transposed value is axis `perm[i]` of its source). -/
def OperandUse.labels (maps : List AffineMap) : OperandUse → List Nat
  | .lhs => (maps.getD 0 ⟨0, []⟩).results
  | .rhs => (maps.getD 1 ⟨0, []⟩).results
  | .lhsT => [1, 0].map (fun p => (maps.getD 0 ⟨0, []⟩).results.getD p 0)
  | .rhsT => [1, 0].map (fun p => (maps.getD 1 ⟨0, []⟩).results.getD p 0)

/-! ## The operations of the grid loop of the dot lowering -/

/-- The test that an operation is an `arith.muli` or `arith.mulf`. -/
def Value.isMul : Value → Bool
  | .binary .muli _ _ => true
  | .binary .mulf _ _ => true
  | _ => false

/-- The inserted value and the position of a `vector.insert`. -/
def Value.insertAt? : Value → Option (Value × List Nat)
  | .insert src _ pos => some (src, pos)
  | _ => none

/-- The operations row `r` of the grid loop creates, in order: the extraction of lhs row
`r`, then the operations of the columns `0 .. cols-1`; `res0` is the zero result the grid
starts from. -/
def dotRowOps (lhs rhs : Value) (rank : Nat) (isInt : Bool) (cols : Nat) (res0 : Value)
    (r : Nat) : List Value :=
  .extract lhs [r] ::
    (List.range cols).flatMap (fun c =>
      columnOps lhs rhs rank isInt
        ((gridCells r cols ++ (List.range c).map (fun c1 => (r, c1))).foldl
          (dotInsert lhs rhs rank isInt) res0) r c)

/-- The operations the grid loop creates over `rows` rows, in order. -/
def dotGridOps (lhs rhs : Value) (rank : Nat) (isInt : Bool) (rows cols : Nat) (res0 : Value) :
    List Value :=
  (List.range rows).flatMap (dotRowOps lhs rhs rank isInt cols res0)

/-! ## Slices: the values and the meaning of `reshapeLoad` and `reshapeStore` -/

/-- The value `reshapeLoad` returns for `index >= 0`; it does not depend on the
rewriter. -/
def reshapeLoadValue : Nat → Value → VectorType → Nat → Value
  | 0, val, _, pos => .extract val [pos]
  | index + 1, val, type, pos =>
      (List.range ((type.dropDim (index + 1)).getDimSize 0)).foldl
        (fun result d =>
          .insert (reshapeLoadValue index (.extract val [d]) (type.dropDim 0) pos) result [d])
        (.constantZero (.vector (type.dropDim (index + 1))))

/-- The value `reshapeLoad` returns; the index `-1` is `none`. -/
def reshapeLoadResult (val : Value) (type : VectorType) (index : Option Nat) (pos : Nat) :
    Value :=
  match index with
  | none => val
  | some i => reshapeLoadValue i val type pos

/-- The value `reshapeStore` returns for `index >= 0`; it does not depend on the
rewriter. -/
def reshapeStoreValue : Nat → Value → Value → VectorType → Nat → Value
  | 0, val, result, _, pos => .insert val result [pos]
  | index + 1, val, result, type, pos =>
      (List.range (type.getDimSize 0)).foldl
        (fun res d =>
          .insert (reshapeStoreValue index (.extract val [d]) (.extract res [d])
            (type.dropDim 0) pos) res [d])
        result

/-- The value `reshapeStore` returns; the index `-1` is `none`. -/
def reshapeStoreResult (val result : Value) (type : VectorType) (index : Option Nat)
    (pos : Nat) : Value :=
  match index with
  | none => val
  | some i => reshapeStoreValue i val result type pos

/-- Modelled from the spec: denotation as in `denote`, where the results of contractions
and masked regions, which `denote` leaves without meaning, get their meaning from `k`;
zero constants, extracts and inserts pass it on (extract and insert address leading
axes). -/
def denoteWith (k : Value → Option Elem) (env : Nat → Elem) : Value → Option Elem
  | .constantZero _ => some (fun _ => 0)
  | .extract v pos =>
      match denoteWith k env v with
      | some fv => some (fun idx => fv (pos ++ idx))
      | none => none
  | .insert src dst pos =>
      match denoteWith k env src, denoteWith k env dst with
      | some fs, some fd =>
          some (fun idx => if pos.isPrefixOf idx then fs (idx.drop pos.length) else fd idx)
      | _, _ => none
  | .contract lhs rhs acc maps iters kind => k (.contract lhs rhs acc maps iters kind)
  | .mask m inner => k (.mask m inner)
  | v => denote env v

/-- The index `idx` addresses, in a tensor of shape `shape`, slot `pos` of axis `index`
with every earlier coordinate within its extent. -/
def InSlot (index : Nat) (shape : List Nat) (pos : Nat) (idx : List Nat) : Prop :=
  index < idx.length ∧ (∀ j < index, idx.getD j 0 < shape.getD j 0) ∧ idx.getD index 0 = pos

/-- The elements of the slice that `reshapeLoad` builds along axis `index` at `pos`, for
every index list (zero where an unrolled leading coordinate is out of range). -/
def loadElem : Nat → List Nat → Nat → Elem → Elem
  | 0, _, pos, f => fun idx => f (pos :: idx)
  | index + 1, shape, pos, f => fun idx =>
      match idx with
      | [] => 0
      | d :: rest =>
          if d < shape.headD 0 then loadElem index shape.tail pos (fun r => f (d :: r)) rest
          else 0

/-- The elements of the tensor that `reshapeStore` builds along axis `index` at `pos`,
for every index list. -/
def storeElem : Nat → List Nat → Nat → Elem → Elem → Elem
  | 0, _, pos, fv, fr => fun idx =>
      match idx with
      | [] => fr []
      | d :: rest => if d = pos then fv rest else fr (d :: rest)
  | index + 1, shape, pos, fv, fr => fun idx =>
      match idx with
      | [] => fr []
      | d :: rest =>
          if d < shape.headD 0 then
            storeElem index shape.tail pos (fun r => fv (d :: r)) (fun r => fr (d :: r)) rest
          else fr (d :: rest)

/-! ## The contractions emitted by `lowerParallel` and `lowerReduction` -/

/-- The `vector.contract` operations created between `rewriter` and `rewriter'` are,
in creation order, the list `l`. -/
def ContractSeq (l : List Value) (rewriter rewriter' : PatternRewriter) : Prop :=
  ∃ em : List Value, rewriter'.ops = rewriter.ops ++ em ∧ em.filter Value.isContract = l

/-- The operation wrapped by `maskOperation`: the operation itself under a null mask. -/
def maskWrap (mask v : Value) : Value :=
  if mask.isNull then v else .mask mask v

/-- The maps `lowIndexingMaps` that peeling label `iterIndex` gives the lower
contractions. -/
def ContractionOpLowering.lowAffine (op : ContractionOp) (iterIndex : Nat) : List AffineMap :=
  [adjustMap (op.indexingMaps.getD 0 ⟨0, []⟩) iterIndex,
    adjustMap (op.indexingMaps.getD 1 ⟨0, []⟩) iterIndex,
    adjustMap (op.indexingMaps.getD 2 ⟨0, []⟩) iterIndex]

/-- The lower contraction that iteration `d` of the loop of `lowerParallel` creates. -/
def ContractionOpLowering.lowContract (op : ContractionOp) (resType : VectorType)
    (lhsIndex rhsIndex resIndex : Option Nat) (iterIndex d : Nat) : Value :=
  .contract (reshapeLoadResult op.lhs op.getLhsType lhsIndex d)
    (reshapeLoadResult op.rhs op.getRhsType rhsIndex d)
    (reshapeLoadResult op.acc resType resIndex d)
    (lowAffine op iterIndex) (adjustIter op.iteratorTypes iterIndex) .ADD

/-- The result of iteration `d` of `lowerParallel`: the lower contraction, wrapped by the
slice `d` of the mask along axis `iterIndex` when a mask is given. -/
def ContractionOpLowering.lowResult (op : ContractionOp) (resType : VectorType)
    (lhsIndex rhsIndex resIndex : Option Nat) (iterIndex : Nat) (mask : Value) (d : Nat) :
    Value :=
  maskWrap
    (if mask.isNull then .null
      else reshapeLoadResult mask (maskVectorType mask) (some iterIndex) d)
    (lowContract op resType lhsIndex rhsIndex resIndex iterIndex d)

/-- The running result of `lowerParallel` after `n` iterations: starting from the zero
tensor of the result type, the results of the iterations stored at the slots
`0 .. n-1` of axis `resIndex`. -/
def ContractionOpLowering.parallelResult (op : ContractionOp) (resType : VectorType)
    (lhsIndex rhsIndex resIndex : Option Nat) (iterIndex : Nat) (mask : Value) (n : Nat) :
    Value :=
  (List.range n).foldl
    (fun res d =>
      reshapeStoreResult (lowResult op resType lhsIndex rhsIndex resIndex iterIndex mask d)
        res resType resIndex d)
    (.constantZero (.vector resType))

/-- The running result of the fold of `lowerReduction` after `n` iterations: the
accumulator of the contraction, then the result of each lower contraction, which takes
the previous result as its accumulator and is wrapped by the slice of the mask along
axis 0 when a mask is given. -/
def ContractionOpLowering.reductionResult (op : ContractionOp) (lhsIndex rhsIndex : Nat)
    (mask : Value) : Nat → Value
  | 0 => op.acc
  | n + 1 =>
      maskWrap
        (if mask.isNull then .null
          else reshapeLoadResult mask (maskVectorType mask) (some 0) n)
        (.contract (reshapeLoadResult op.lhs op.getLhsType (some lhsIndex) n)
          (reshapeLoadResult op.rhs op.getRhsType (some rhsIndex) n)
          (reductionResult op lhsIndex rhsIndex mask n)
          (lowAffine op 0) (adjustIter op.iteratorTypes 0) .ADD)

/-- The lower contraction that iteration `d` of the fold of `lowerReduction` creates. -/
def ContractionOpLowering.reductionContract (op : ContractionOp) (lhsIndex rhsIndex : Nat)
    (mask : Value) (d : Nat) : Value :=
  .contract (reshapeLoadResult op.lhs op.getLhsType (some lhsIndex) d)
    (reshapeLoadResult op.rhs op.getRhsType (some rhsIndex) d)
    (reductionResult op lhsIndex rhsIndex mask d)
    (lowAffine op 0) (adjustIter op.iteratorTypes 0) .ADD

/-! ## Reference semantics of a contraction with scalar result -/

/-- All iteration points within the label extents `ext`, in lexicographic order. -/
def points : List Nat → List (List Nat)
  | [] => [[]]
  | n :: rest => (List.range n).flatMap (fun i => (points rest).map (fun p => i :: p))

/-- Modelled from the spec: reference semantics of a contraction whose labels are all
reduced (scalar result), over the label extents `ext`: the accumulator plus the sum over
all iteration points of the products of the lhs and rhs elements selected by their maps,
on `w`-bit integers (section 8.1, glossary: contraction). -/
def referenceReduction (maps : List AffineMap) (ext : List Nat) (w : Nat) (lhs rhs : Elem)
    (acc : Int) : Int :=
  (acc + ((points ext).map (fun p =>
    lhs ((maps.getD 0 ⟨0, []⟩).apply p) * rhs ((maps.getD 1 ⟨0, []⟩).apply p))).sum) % 2 ^ w

/-- Modelled from the spec: a chain of contractions with scalar result evaluated by the
reference semantics over the label extents `ext`, each taking the value of its
accumulator operand; the operands and the innermost accumulator have the meaning `denote`
gives them, the width is that of the lhs element type. -/
def evalLower (env : Nat → Elem) (ext : List Nat) : Value → Option Int
  | .contract lhs rhs acc maps _ _ =>
      match denote env lhs, denote env rhs, evalLower env ext acc,
          lhs.getType.elementType?.bind ElementType.intWidth? with
      | some a, some b, some c, some w => some (referenceReduction maps ext w a b c)
      | _, _, _, _ => none
  | v => (denote env v).map (fun f => f [])

/-- A reduction over two labels `res = acc + sum_{k, j} lhs[k, j] * rhs[j, k]` on
`vector<2x3xi8>` and `vector<3x2xi8>` with a scalar `i8` accumulator. -/
def sampleDoubleReduction : ContractionOp :=
  { lhs := .arg 0 (i8Matrix 2 3), rhs := .arg 1 (i8Matrix 3 2), acc := .arg 2 (.scalar (.integer 8)),
    indexingMaps := [⟨2, [0, 1]⟩, ⟨2, [1, 0]⟩, ⟨2, []⟩],
    iteratorTypes := [.reduction, .reduction],
    kind := .ADD, resultType := .scalar (.integer 8), maskingOp := .null }

/-! ## Concrete inputs for the decline of `OuterProductOpLowering` -/

/-- The outer product `sampleOuterProduct` on `i8` with the floating-point-only combining
kind `MAXNUMF`. -/
def sampleOuterProductFloatKind : OuterProductOp :=
  { sampleOuterProduct with kind := .MAXNUMF }

/-- An unmasked AXPY outer product `vector<2xi8>` by a scalar `i8` with the
floating-point-only combining kind `MAXNUMF`. -/
def sampleAxpyFloatKind : OuterProductOp :=
  { sampleAxpyMasked with kind := .MAXNUMF, maskingOp := .null }

/-- An outer product whose result `vector<[3]x[2]xi8>` has only scalable axes. -/
def sampleOuterProductScalable : OuterProductOp :=
  { sampleOuterProduct with
    resultType := { shape := [3, 2], scalableDims := [true, true], elementType := .integer 8 } }

/-! ## Mask orientation in the outer-product pattern -/

/-- For a masking wrapper: the shape of its mask and the shape of the operation it
wraps. -/
def Value.maskShapes? : Value → Option (List Nat × List Nat)
  | .mask m inner => some (m.getType.shape, inner.getType.shape)
  | _ => none

/-- The type `vector<m x n x k x i1>` of a mask over the iteration space `(m, n, k)`. -/
def maskCube (m n k : Nat) : MlirType :=
  .vector { shape := [m, n, k], scalableDims := [false, false, false],
            elementType := .integer 1 }

/-- A masked `2x4` by `4x3` matrix multiply with result `(m, n)` of type `vector<2x3xi8>`;
the mask `vector<2x3x4xi1>` has its axes in iteration order `(m, n, k)`. -/
def sampleMaskedMatmat : ContractionOp :=
  { lhs := .arg 0 (i8Matrix 2 4), rhs := .arg 1 (i8Matrix 4 3), acc := .arg 2 (i8Matrix 2 3),
    indexingMaps := inferFromExprList [[0, 2], [2, 1], [0, 1]],
    iteratorTypes := [.parallel, .parallel, .reduction],
    kind := .ADD, resultType := i8Matrix 2 3, maskingOp := .arg 3 (maskCube 2 3 4) }

/-- The same masked multiply with the transposed result `(n, m)` of type
`vector<3x2xi8>`. -/
def sampleMaskedSwappedMatmat : ContractionOp :=
  { lhs := .arg 0 (i8Matrix 2 4), rhs := .arg 1 (i8Matrix 4 3), acc := .arg 2 (i8Matrix 3 2),
    indexingMaps := inferFromExprList [[0, 2], [2, 1], [1, 0]],
    iteratorTypes := [.parallel, .parallel, .reduction],
    kind := .ADD, resultType := i8Matrix 3 2, maskingOp := .arg 3 (maskCube 2 3 4) }

/-- The labels of the axes of the mask slice a branch hands to one outer-product step:
the mask has its axes in iteration order (axis `i` carries label `i`), axis `i` of the
transposed mask is axis `perm[i]` of the mask, and the slice drops the leading axis. -/
def LayoutEntry.maskSliceLabels (e : LayoutEntry) : List Nat :=
  match e.maskPerm with
  | some perm => perm.tail
  | none => (List.range e.iters.length).tail

/-- The labels of the axes of the outer-product result of a branch: each step has the
type of `res`, the accumulator, whose axes carry the labels of the result map. -/
def LayoutEntry.resultLabels (e : LayoutEntry) : List Nat :=
  e.layout.getD 2 []

/-! ## Concrete inputs for the comparison of the two classifiers -/

/-- The maps of the row-major matrix multiply `sampleMatmat` (three labels) paired with
four iterator kinds; not a contraction, whose maps have one label per iterator kind. -/
def sampleFourIterators : ContractionOp :=
  { sampleMatmat with iteratorTypes := [.parallel, .parallel, .reduction, .parallel] }

/-! ## Integer or floating arithmetic per element type -/

/-- The kind of a binary `arith` operation; other operations have none. -/
def Value.arithOp? : Value → Option ArithBinOp
  | .binary op _ _ => some op
  | _ => none

/-- The kinds of the binary `arith` operations a rewrite created, in creation order. -/
def createdArith (rewriter : PatternRewriter) : List ArithBinOp :=
  rewriter.ops.filterMap Value.arithOp?

/-- The number of `vector.fma` operations a rewrite created. -/
def createdFma (rewriter : PatternRewriter) : Nat :=
  (rewriter.ops.filter Value.isFma).length

/-- The vector type of the given shape and element type without scalable axes. -/
def vectorOf (e : ElementType) (shape : List Nat) : MlirType :=
  .vector ⟨shape, shape.map (fun _ => false), e⟩

/-- A dot product of two vectors of four elements of type `e` with a scalar
accumulator. -/
def dotProductOf (e : ElementType) : ContractionOp :=
  { lhs := .arg 0 (vectorOf e [4]), rhs := .arg 1 (vectorOf e [4]), acc := .arg 2 (.scalar e),
    indexingMaps := [⟨1, [0]⟩, ⟨1, [0]⟩, ⟨1, []⟩], iteratorTypes := [.reduction],
    kind := .ADD, resultType := .scalar e, maskingOp := .null }

/-- A `2x3` matrix-vector product on elements of type `e`. -/
def matvecOf (e : ElementType) : ContractionOp :=
  { lhs := .arg 0 (vectorOf e [2, 3]), rhs := .arg 1 (vectorOf e [3]),
    acc := .arg 2 (vectorOf e [2]),
    indexingMaps := inferFromExprList [[0, 1], [1], [0]],
    iteratorTypes := [.parallel, .reduction],
    kind := .ADD, resultType := vectorOf e [2], maskingOp := .null }

/-- The elementwise product `sampleUnitReduction` on elements of type `e`. -/
def unitReductionOf (e : ElementType) : ContractionOp :=
  { lhs := .arg 0 (vectorOf e [4, 1]), rhs := .arg 1 (vectorOf e [1]),
    acc := .arg 2 (vectorOf e [4]),
    indexingMaps := [⟨2, [0, 1]⟩, ⟨2, [1]⟩, ⟨2, [0]⟩],
    iteratorTypes := [.parallel, .reduction],
    kind := .ADD, resultType := vectorOf e [4], maskingOp := .null }

/-- The outer product `sampleOuterProduct` on elements of type `e`. -/
def outerProductOf (e : ElementType) : OuterProductOp :=
  { lhs := .arg 0 (vectorOf e [3]), rhs := .arg 1 (vectorOf e [2]),
    acc := .arg 2 (vectorOf e [3, 2]),
    kind := .ADD, resultType := ⟨[3, 2], [false, false], e⟩, maskingOp := .null }

/-! # Theorems -/

/-! ## Basic facts -/

theorem toInt32_toNat (n : Nat) (h : n < 2 ^ 31) : (toInt32 n).toNat = n := by
  unfold toInt32
  have h1 : ((n : Int) + 2 ^ 31) % 2 ^ 32 = (n : Int) + 2 ^ 31 := by
    apply Int.emod_eq_of_lt <;> omega
  rw [h1]
  simp

theorem promote_same (v : Value) (e : ElementType) (rw : PatternRewriter)
    (h : v.getType.elementType? = some e) :
    UnrolledOuterProductGenerator.promote v e rw = (v, rw) := by
  unfold UnrolledOuterProductGenerator.promote
  cases hv : v.getType with
  | null => rw [hv] at h; simp [MlirType.elementType?] at h
  | scalar e1 =>
      rw [hv] at h
      simp [MlirType.elementType?] at h
      simp [MlirType.dynCastVector, h]
  | vector vt =>
      rw [hv] at h
      simp [MlirType.elementType?] at h
      simp [MlirType.dynCastVector, h]

theorem extract_elementType (v : Value) (vt : VectorType) (k : Nat)
    (hv : v.getType = .vector vt) (hr : 1 ≤ vt.shape.length) :
    (Value.extract v [k]).getType.elementType? = some vt.elementType := by
  simp only [Value.getType, hv, List.length_singleton]
  by_cases h1 : 1 < vt.shape.length
  · simp [h1, MlirType.elementType?]
  · have h2 : 1 = vt.shape.length := by omega
    simp [h1, ← h2, MlirType.elementType?]

theorem isNull_of_vector (v : Value) (vt : VectorType) (h : v.getType = .vector vt) :
    v.isNull = false := by
  cases v <;> simp [Value.isNull, Value.getType] at h ⊢

/-- One unmasked iteration of `outerProd` creates two extractions and one outer
product whose accumulator is the running result. -/
theorem outerProdStep_unmasked (g : UnrolledOuterProductGenerator) (A B : Value)
    (ta tb : VectorType) (e : ElementType) (st : Value × PatternRewriter) (k : Nat)
    (hA : A.getType = .vector ta) (hAr : 1 ≤ ta.shape.length) (hAe : ta.elementType = e)
    (hB : B.getType = .vector tb) (hBr : 1 ≤ tb.shape.length) (hBe : tb.elementType = e) :
    g.outerProdStep A B e (some .null) st k =
      (.outerproduct st.1.getType (.extract A [k]) (.extract B [k]) st.1 g.kind,
        { ops := st.2.ops ++ [.extract A [k], .extract B [k],
            .outerproduct st.1.getType (.extract A [k]) (.extract B [k]) st.1 g.kind] }) := by
  have h1 : (Value.extract A [k]).getType.elementType? = some e := by
    rw [extract_elementType A ta k hA hAr, hAe]
  have h2 : (Value.extract B [k]).getType.elementType? = some e := by
    rw [extract_elementType B tb k hB hBr, hBe]
  simp only [UnrolledOuterProductGenerator.outerProdStep, PatternRewriter.create,
    promote_same _ _ _ h1, promote_same _ _ _ h2, Value.isNull, if_true, maskOperation,
    List.append_assoc, List.singleton_append, List.cons_append, List.nil_append]

theorem foldl_range_succ {σ : Type} (step : σ → Nat → σ) (init : σ) (n : Nat) :
    (List.range (n + 1)).foldl step init = step ((List.range n).foldl step init) n := by
  rw [List.range_succ, List.foldl_append, List.foldl_cons, List.foldl_nil]

theorem sum_range_succ_map (f : Nat → Int) (n : Nat) :
    ((List.range (n + 1)).map f).sum = ((List.range n).map f).sum + f n := by
  simp [List.range_succ]

/-- Denotation of the running result of the unmasked loop of `outerProd` after `n`
iterations, for integer elements and kind `ADD`. -/
theorem outerProd_loop_denote (g : UnrolledOuterProductGenerator) (env : Nat → Elem)
    (A B res : Value) (ta tb resTy : VectorType) (w : Nat) (a b c : Elem)
    (rw : PatternRewriter) (hk : g.kind = .ADD)
    (hA : A.getType = .vector ta) (hAr : 1 ≤ ta.shape.length)
    (hAe : ta.elementType = resTy.elementType)
    (hB : B.getType = .vector tb) (hBr : 1 ≤ tb.shape.length)
    (hBe : tb.elementType = resTy.elementType)
    (hres : res.getType = .vector resTy) (hw : resTy.elementType.intWidth? = some w)
    (ha : denote env A = some a) (hb : denote env B = some b)
    (hc : denote env res = some c) (n : Nat) :
    ((List.range n).foldl (g.outerProdStep A B resTy.elementType (some .null))
        (res, rw)).1.getType = .vector resTy ∧
    ∃ f, denote env ((List.range n).foldl
        (g.outerProdStep A B resTy.elementType (some .null)) (res, rw)).1 = some f ∧
      (∀ idx, f idx % 2 ^ w = (c idx + ((List.range n).map
          (fun k => a (k :: idx.take 1) * b (k :: idx.drop 1))).sum) % 2 ^ w) ∧
      (0 < n → ∀ idx, f idx = (c idx + ((List.range n).map
          (fun k => a (k :: idx.take 1) * b (k :: idx.drop 1))).sum) % 2 ^ w) := by
  induction n with
  | zero => exact ⟨hres, c, hc, by simp, by simp⟩
  | succ n ih =>
      obtain ⟨hty, f, hf, hmod, _⟩ := ih
      rw [foldl_range_succ,
        outerProdStep_unmasked g A B ta tb _ _ n hA hAr hAe hB hBr hBe]
      refine ⟨by simp [Value.getType, hty], ?_⟩
      have hnn := isNull_of_vector _ _ hty
      have key : ∀ idx, ((a (n :: idx.take 1) * b (n :: idx.drop 1)) % 2 ^ w + f idx) % 2 ^ w
          = (c idx + ((List.range (n + 1)).map
              (fun k => a (k :: idx.take 1) * b (k :: idx.drop 1))).sum) % 2 ^ w := by
        intro idx
        rw [sum_range_succ_map, Int.emod_add_emod, Int.add_emod, hmod idx, ← Int.add_emod]
        congr 1
        ring
      refine ⟨fun idx =>
        ((a (n :: idx.take 1) * b (n :: idx.drop 1)) % 2 ^ w + f idx) % 2 ^ w, ?_, ?_, ?_⟩
      · simp [denote, ha, hb, hf, hty, hnn, hk, hw, MlirType.elementType?,
          CombiningKind.evalInt?, CombiningKind.intOp?, ArithBinOp.evalInt?]
      · intro idx
        simp only [key idx, Int.emod_emod_of_dvd _ (dvd_refl _)]
      · intro _ idx
        exact key idx

theorem t_null (perm : List Nat) (rw : PatternRewriter) :
    UnrolledOuterProductGenerator.t .null perm rw = (.null, rw) := rfl

theorem t_nonnull (v : Value) (perm : List Nat) (rw : PatternRewriter)
    (h : v.isNull = false) :
    UnrolledOuterProductGenerator.t v perm rw =
      (.transpose v perm, { ops := rw.ops ++ [.transpose v perm] }) := by
  simp [UnrolledOuterProductGenerator.t, h, PatternRewriter.create]

theorem getReductionSize_static (vt : VectorType) (d : Nat)
    (h : vt.scalableDims.getD d false = false) :
    UnrolledOuterProductGenerator.getReductionSize vt d = some (vt.getDimSize d) := by
  unfold UnrolledOuterProductGenerator.getReductionSize
  rw [h]
  rfl

theorem new_unmasked (op : ContractionOp) (lt : VectorType) (hmask : op.maskingOp = .null)
    (hlhs : op.lhs.getType = .vector lt) :
    UnrolledOuterProductGenerator.new op =
      { iterators := op.iteratorTypes, maps := op.indexingMaps, kind := op.kind,
        lhs := op.lhs, rhs := op.rhs, res := op.acc, mask := .null, lhsType := lt } := by
  simp [UnrolledOuterProductGenerator.new, ContractionOp.getLhsType, hlhs, hmask]

theorem transpose_getType (v : Value) (vt : VectorType) (perm : List Nat)
    (h : v.getType = .vector vt) :
    (Value.transpose v perm).getType =
      .vector { shape := perm.map (fun p => vt.shape.getD p 0),
                scalableDims := perm.map (fun p => vt.scalableDims.getD p false),
                elementType := vt.elementType } := by
  simp [Value.getType, h]

theorem denote_transpose (env : Nat → Elem) (v : Value) (perm : List Nat) (f : Elem)
    (h : denote env v = some f) :
    denote env (.transpose v perm) = some (fun idx => f (transposeIndex perm idx)) := by
  simp [denote, h]

/-- Denotation of the value returned by an unmasked `outerProd` on integer elements
with kind `ADD`: the accumulator plus the sum of the `R` slice products. -/
theorem outerProd_unmasked_denote (g : UnrolledOuterProductGenerator) (env : Nat → Elem)
    (A B res : Value) (ta tb resTy lhsType : VectorType) (w R : Nat) (a b c : Elem)
    (rw : PatternRewriter) (hk : g.kind = .ADD)
    (hA : A.getType = .vector ta) (hAr : 1 ≤ ta.shape.length)
    (hAe : ta.elementType = resTy.elementType)
    (hB : B.getType = .vector tb) (hBr : 1 ≤ tb.shape.length)
    (hBe : tb.elementType = resTy.elementType)
    (hres : res.getType = .vector resTy) (hw : resTy.elementType.intWidth? = some w)
    (ha : denote env A = some a) (hb : denote env B = some b)
    (hc : denote env res = some c) (hR0 : 0 < R) (hR : R < 2 ^ 31) :
    ∃ v rw' f, g.outerProd A B res lhsType (toInt32 R) (some .null) rw = (.success v, rw') ∧
      v.getType = .vector resTy ∧ denote env v = some f ∧
      ∀ idx, f idx = (c idx + ((List.range R).map
          (fun k => a (k :: idx.take 1) * b (k :: idx.drop 1))).sum) % 2 ^ w := by
  obtain ⟨hty, f, hf, -, hval⟩ := outerProd_loop_denote g env A B res ta tb resTy w a b c rw hk
    hA hAr hAe hB hBr hBe hres hw ha hb hc R
  refine ⟨((List.range R).foldl (g.outerProdStep A B resTy.elementType (some .null))
    (res, rw)).1, ((List.range R).foldl (g.outerProdStep A B resTy.elementType (some .null))
    (res, rw)).2, f, ?_, hty, hf, hval hR0⟩
  simp [outerProd, hres, toInt32_toNat R hR]

/-- Denotation of the value `matmat` returns on each of its eight layouts, for integer
elements, kind `ADD` and no mask. -/
theorem matmat_denote (op : ContractionOp) (rewriter : PatternRewriter)
    (env : Nat → Elem) (l : List (List Nat)) (lt rt ct : VectorType) (w : Nat)
    (a b c : Elem) (hl : l ∈ matmatLayouts)
    (hiters : op.iteratorTypes = [.parallel, .parallel, .reduction])
    (hmaps : op.indexingMaps = inferFromExprList l)
    (hkind : op.kind = .ADD) (hmask : op.maskingOp = .null)
    (hlhs : op.lhs.getType = .vector lt) (hrhs : op.rhs.getType = .vector rt)
    (hacc : op.acc.getType = .vector ct)
    (hlr : lt.shape.length = 2) (hrr : rt.shape.length = 2)
    (hle : lt.elementType = .integer w) (hre : rt.elementType = .integer w)
    (hce : ct.elementType = .integer w)
    (hns : lt.scalableDims.getD (List.indexOf 2 (l.getD 0 [])) false = false)
    (hR0 : 0 < lt.getDimSize (List.indexOf 2 (l.getD 0 [])))
    (hR : lt.getDimSize (List.indexOf 2 (l.getD 0 [])) < 2 ^ 31)
    (ha : denote env op.lhs = some a) (hb : denote env op.rhs = some b)
    (hc : denote env op.acc = some c) :
    ∃ v rewriter' f,
      (UnrolledOuterProductGenerator.new op).matmat rewriter = (.success v, rewriter') ∧
      v.getType = op.acc.getType ∧ denote env v = some f ∧
      ∀ i j, f (AffineMap.apply (op.indexingMaps.getD 2 ⟨0, []⟩) [i, j, 0]) =
        referenceMatmat op.indexingMaps (lt.getDimSize (List.indexOf 2 (l.getD 0 []))) w
          a b c i j := by
  have hkind : (UnrolledOuterProductGenerator.new op).kind = .ADD := hkind
  have hnl : op.lhs.isNull = false := isNull_of_vector _ _ hlhs
  have hnr : op.rhs.isNull = false := isNull_of_vector _ _ hrhs
  simp only [matmatLayouts, List.mem_cons, List.mem_singleton, List.not_mem_nil, or_false] at hl
  rcases hl with rfl | rfl | rfl | rfl | rfl | rfl | rfl | rfl
  · -- layout [[0, 2], [2, 1], [0, 1]]
    have hd : List.indexOf 2 (List.getD [[0, 2], [2, 1], [0, 1]] 0 []) = 1 := by decide
    rw [hd] at hns hR0 hR ⊢
    have hm : (UnrolledOuterProductGenerator.new op).matmat rewriter =
        (UnrolledOuterProductGenerator.new op).outerProd (.transpose op.lhs [1, 0]) op.rhs op.acc lt
          (toInt32 (lt.getDimSize 1)) (some .null) { ops := rewriter.ops ++ [.transpose op.lhs [1, 0]] } := by
      rw [new_unmasked op lt hmask hlhs]
      simp +decide [matmat, branch, layout, iters, hiters, hmaps, inferFromExprList,
        getReductionSize_static lt 1 hns, t_null, t_nonnull _ _ _ hnl, t_nonnull _ _ _ hnr]
    obtain ⟨v, rw', f, h1, h2, h3, h4⟩ := outerProd_unmasked_denote
      (UnrolledOuterProductGenerator.new op) env (.transpose op.lhs [1, 0]) op.rhs op.acc _ _ ct lt w
      (lt.getDimSize 1) (fun idx => a (transposeIndex [1, 0] idx)) b c { ops := rewriter.ops ++ [.transpose op.lhs [1, 0]] } hkind
      (transpose_getType _ _ _ hlhs) (by simp) (by simp [hle, hce]) hrhs (by omega) (by rw [hre, hce])
      hacc (by simp [hce, ElementType.intWidth?]) (denote_transpose _ _ _ _ ha) hb hc hR0 hR
    refine ⟨v, rw', f, by rw [hm, h1], by rw [h2, hacc], h3, ?_⟩
    intro i j
    rw [h4]
    simp [referenceMatmat, hmaps, inferFromExprList, AffineMap.apply, transposeIndex,
      List.range_succ, mul_comm]
  · -- layout [[0, 2], [1, 2], [0, 1]]
    have hd : List.indexOf 2 (List.getD [[0, 2], [1, 2], [0, 1]] 0 []) = 1 := by decide
    rw [hd] at hns hR0 hR ⊢
    have hm : (UnrolledOuterProductGenerator.new op).matmat rewriter =
        (UnrolledOuterProductGenerator.new op).outerProd (.transpose op.lhs [1, 0]) (.transpose op.rhs [1, 0]) op.acc lt
          (toInt32 (lt.getDimSize 1)) (some .null) { ops := rewriter.ops ++ [.transpose op.lhs [1, 0], .transpose op.rhs [1, 0]] } := by
      rw [new_unmasked op lt hmask hlhs]
      simp +decide [matmat, branch, layout, iters, hiters, hmaps, inferFromExprList,
        getReductionSize_static lt 1 hns, t_null, t_nonnull _ _ _ hnl, t_nonnull _ _ _ hnr]
    obtain ⟨v, rw', f, h1, h2, h3, h4⟩ := outerProd_unmasked_denote
      (UnrolledOuterProductGenerator.new op) env (.transpose op.lhs [1, 0]) (.transpose op.rhs [1, 0]) op.acc _ _ ct lt w
      (lt.getDimSize 1) (fun idx => a (transposeIndex [1, 0] idx)) (fun idx => b (transposeIndex [1, 0] idx)) c { ops := rewriter.ops ++ [.transpose op.lhs [1, 0], .transpose op.rhs [1, 0]] } hkind
      (transpose_getType _ _ _ hlhs) (by simp) (by simp [hle, hce]) (transpose_getType _ _ _ hrhs) (by simp) (by simp [hre, hce])
      hacc (by simp [hce, ElementType.intWidth?]) (denote_transpose _ _ _ _ ha) (denote_transpose _ _ _ _ hb) hc hR0 hR
    refine ⟨v, rw', f, by rw [hm, h1], by rw [h2, hacc], h3, ?_⟩
    intro i j
    rw [h4]
    simp [referenceMatmat, hmaps, inferFromExprList, AffineMap.apply, transposeIndex,
      List.range_succ, mul_comm]
  · -- layout [[2, 0], [2, 1], [0, 1]]
    have hd : List.indexOf 2 (List.getD [[2, 0], [2, 1], [0, 1]] 0 []) = 0 := by decide
    rw [hd] at hns hR0 hR ⊢
    have hm : (UnrolledOuterProductGenerator.new op).matmat rewriter =
        (UnrolledOuterProductGenerator.new op).outerProd op.lhs op.rhs op.acc lt
          (toInt32 (lt.getDimSize 0)) (some .null) rewriter := by
      rw [new_unmasked op lt hmask hlhs]
      simp +decide [matmat, branch, layout, iters, hiters, hmaps, inferFromExprList,
        getReductionSize_static lt 0 hns, t_null, t_nonnull _ _ _ hnl, t_nonnull _ _ _ hnr]
    obtain ⟨v, rw', f, h1, h2, h3, h4⟩ := outerProd_unmasked_denote
      (UnrolledOuterProductGenerator.new op) env op.lhs op.rhs op.acc _ _ ct lt w
      (lt.getDimSize 0) a b c rewriter hkind
      hlhs (by omega) (by rw [hle, hce]) hrhs (by omega) (by rw [hre, hce])
      hacc (by simp [hce, ElementType.intWidth?]) ha hb hc hR0 hR
    refine ⟨v, rw', f, by rw [hm, h1], by rw [h2, hacc], h3, ?_⟩
    intro i j
    rw [h4]
    simp [referenceMatmat, hmaps, inferFromExprList, AffineMap.apply, transposeIndex,
      List.range_succ, mul_comm]
  · -- layout [[2, 0], [1, 2], [0, 1]]
    have hd : List.indexOf 2 (List.getD [[2, 0], [1, 2], [0, 1]] 0 []) = 0 := by decide
    rw [hd] at hns hR0 hR ⊢
    have hm : (UnrolledOuterProductGenerator.new op).matmat rewriter =
        (UnrolledOuterProductGenerator.new op).outerProd op.lhs (.transpose op.rhs [1, 0]) op.acc lt
          (toInt32 (lt.getDimSize 0)) (some .null) { ops := rewriter.ops ++ [.transpose op.rhs [1, 0]] } := by
      rw [new_unmasked op lt hmask hlhs]
      simp +decide [matmat, branch, layout, iters, hiters, hmaps, inferFromExprList,
        getReductionSize_static lt 0 hns, t_null, t_nonnull _ _ _ hnl, t_nonnull _ _ _ hnr]
    obtain ⟨v, rw', f, h1, h2, h3, h4⟩ := outerProd_unmasked_denote
      (UnrolledOuterProductGenerator.new op) env op.lhs (.transpose op.rhs [1, 0]) op.acc _ _ ct lt w
      (lt.getDimSize 0) a (fun idx => b (transposeIndex [1, 0] idx)) c { ops := rewriter.ops ++ [.transpose op.rhs [1, 0]] } hkind
      hlhs (by omega) (by rw [hle, hce]) (transpose_getType _ _ _ hrhs) (by simp) (by simp [hre, hce])
      hacc (by simp [hce, ElementType.intWidth?]) ha (denote_transpose _ _ _ _ hb) hc hR0 hR
    refine ⟨v, rw', f, by rw [hm, h1], by rw [h2, hacc], h3, ?_⟩
    intro i j
    rw [h4]
    simp [referenceMatmat, hmaps, inferFromExprList, AffineMap.apply, transposeIndex,
      List.range_succ, mul_comm]
  · -- layout [[0, 2], [2, 1], [1, 0]]
    have hd : List.indexOf 2 (List.getD [[0, 2], [2, 1], [1, 0]] 0 []) = 1 := by decide
    rw [hd] at hns hR0 hR ⊢
    have hm : (UnrolledOuterProductGenerator.new op).matmat rewriter =
        (UnrolledOuterProductGenerator.new op).outerProd op.rhs (.transpose op.lhs [1, 0]) op.acc lt
          (toInt32 (lt.getDimSize 1)) (some .null) { ops := rewriter.ops ++ [.transpose op.lhs [1, 0]] } := by
      rw [new_unmasked op lt hmask hlhs]
      simp +decide [matmat, branch, layout, iters, hiters, hmaps, inferFromExprList,
        getReductionSize_static lt 1 hns, t_null, t_nonnull _ _ _ hnl, t_nonnull _ _ _ hnr]
    obtain ⟨v, rw', f, h1, h2, h3, h4⟩ := outerProd_unmasked_denote
      (UnrolledOuterProductGenerator.new op) env op.rhs (.transpose op.lhs [1, 0]) op.acc _ _ ct lt w
      (lt.getDimSize 1) b (fun idx => a (transposeIndex [1, 0] idx)) c { ops := rewriter.ops ++ [.transpose op.lhs [1, 0]] } hkind
      hrhs (by omega) (by rw [hre, hce]) (transpose_getType _ _ _ hlhs) (by simp) (by simp [hle, hce])
      hacc (by simp [hce, ElementType.intWidth?]) hb (denote_transpose _ _ _ _ ha) hc hR0 hR
    refine ⟨v, rw', f, by rw [hm, h1], by rw [h2, hacc], h3, ?_⟩
    intro i j
    rw [h4]
    simp [referenceMatmat, hmaps, inferFromExprList, AffineMap.apply, transposeIndex,
      List.range_succ, mul_comm]
  · -- layout [[0, 2], [1, 2], [1, 0]]
    have hd : List.indexOf 2 (List.getD [[0, 2], [1, 2], [1, 0]] 0 []) = 1 := by decide
    rw [hd] at hns hR0 hR ⊢
    have hm : (UnrolledOuterProductGenerator.new op).matmat rewriter =
        (UnrolledOuterProductGenerator.new op).outerProd (.transpose op.rhs [1, 0]) (.transpose op.lhs [1, 0]) op.acc lt
          (toInt32 (lt.getDimSize 1)) (some .null) { ops := rewriter.ops ++ [.transpose op.rhs [1, 0], .transpose op.lhs [1, 0]] } := by
      rw [new_unmasked op lt hmask hlhs]
      simp +decide [matmat, branch, layout, iters, hiters, hmaps, inferFromExprList,
        getReductionSize_static lt 1 hns, t_null, t_nonnull _ _ _ hnl, t_nonnull _ _ _ hnr]
    obtain ⟨v, rw', f, h1, h2, h3, h4⟩ := outerProd_unmasked_denote
      (UnrolledOuterProductGenerator.new op) env (.transpose op.rhs [1, 0]) (.transpose op.lhs [1, 0]) op.acc _ _ ct lt w
      (lt.getDimSize 1) (fun idx => b (transposeIndex [1, 0] idx)) (fun idx => a (transposeIndex [1, 0] idx)) c { ops := rewriter.ops ++ [.transpose op.rhs [1, 0], .transpose op.lhs [1, 0]] } hkind
      (transpose_getType _ _ _ hrhs) (by simp) (by simp [hre, hce]) (transpose_getType _ _ _ hlhs) (by simp) (by simp [hle, hce])
      hacc (by simp [hce, ElementType.intWidth?]) (denote_transpose _ _ _ _ hb) (denote_transpose _ _ _ _ ha) hc hR0 hR
    refine ⟨v, rw', f, by rw [hm, h1], by rw [h2, hacc], h3, ?_⟩
    intro i j
    rw [h4]
    simp [referenceMatmat, hmaps, inferFromExprList, AffineMap.apply, transposeIndex,
      List.range_succ, mul_comm]
  · -- layout [[2, 0], [2, 1], [1, 0]]
    have hd : List.indexOf 2 (List.getD [[2, 0], [2, 1], [1, 0]] 0 []) = 0 := by decide
    rw [hd] at hns hR0 hR ⊢
    have hm : (UnrolledOuterProductGenerator.new op).matmat rewriter =
        (UnrolledOuterProductGenerator.new op).outerProd op.rhs op.lhs op.acc lt
          (toInt32 (lt.getDimSize 0)) (some .null) rewriter := by
      rw [new_unmasked op lt hmask hlhs]
      simp +decide [matmat, branch, layout, iters, hiters, hmaps, inferFromExprList,
        getReductionSize_static lt 0 hns, t_null, t_nonnull _ _ _ hnl, t_nonnull _ _ _ hnr]
    obtain ⟨v, rw', f, h1, h2, h3, h4⟩ := outerProd_unmasked_denote
      (UnrolledOuterProductGenerator.new op) env op.rhs op.lhs op.acc _ _ ct lt w
      (lt.getDimSize 0) b a c rewriter hkind
      hrhs (by omega) (by rw [hre, hce]) hlhs (by omega) (by rw [hle, hce])
      hacc (by simp [hce, ElementType.intWidth?]) hb ha hc hR0 hR
    refine ⟨v, rw', f, by rw [hm, h1], by rw [h2, hacc], h3, ?_⟩
    intro i j
    rw [h4]
    simp [referenceMatmat, hmaps, inferFromExprList, AffineMap.apply, transposeIndex,
      List.range_succ, mul_comm]
  · -- layout [[2, 0], [1, 2], [1, 0]]
    have hd : List.indexOf 2 (List.getD [[2, 0], [1, 2], [1, 0]] 0 []) = 0 := by decide
    rw [hd] at hns hR0 hR ⊢
    have hm : (UnrolledOuterProductGenerator.new op).matmat rewriter =
        (UnrolledOuterProductGenerator.new op).outerProd (.transpose op.rhs [1, 0]) op.lhs op.acc lt
          (toInt32 (lt.getDimSize 0)) (some .null) { ops := rewriter.ops ++ [.transpose op.rhs [1, 0]] } := by
      rw [new_unmasked op lt hmask hlhs]
      simp +decide [matmat, branch, layout, iters, hiters, hmaps, inferFromExprList,
        getReductionSize_static lt 0 hns, t_null, t_nonnull _ _ _ hnl, t_nonnull _ _ _ hnr]
    obtain ⟨v, rw', f, h1, h2, h3, h4⟩ := outerProd_unmasked_denote
      (UnrolledOuterProductGenerator.new op) env (.transpose op.rhs [1, 0]) op.lhs op.acc _ _ ct lt w
      (lt.getDimSize 0) (fun idx => b (transposeIndex [1, 0] idx)) a c { ops := rewriter.ops ++ [.transpose op.rhs [1, 0]] } hkind
      (transpose_getType _ _ _ hrhs) (by simp) (by simp [hre, hce]) hlhs (by omega) (by rw [hle, hce])
      hacc (by simp [hce, ElementType.intWidth?]) (denote_transpose _ _ _ _ hb) ha hc hR0 hR
    refine ⟨v, rw', f, by rw [hm, h1], by rw [h2, hacc], h3, ?_⟩
    intro i j
    rw [h4]
    simp [referenceMatmat, hmaps, inferFromExprList, AffineMap.apply, transposeIndex,
      List.range_succ, mul_comm]

/-! ## Structure of the outer-product pattern -/

theorem outerProd_result (g : UnrolledOuterProductGenerator) (A B res : Value)
    (lt : VectorType) (R : Int) (m : Option Value) (rw : PatternRewriter) :
    g.outerProd A B res lt R m rw = (.failure, rw) ∨
      ∃ v rw1, g.outerProd A B res lt R m rw = (.success v, rw1) := by
  unfold outerProd
  split
  · exact Or.inl rfl
  · split
    · exact Or.inr ⟨_, _, rfl⟩
    · exact Or.inl rfl

theorem run_result (e : LayoutEntry) (g : UnrolledOuterProductGenerator)
    (rw : PatternRewriter) :
    (∃ rw1, e.run g rw = (.failure, rw1)) ∨ ∃ v rw1, e.run g rw = (.success v, rw1) := by
  unfold LayoutEntry.run
  split
  · exact Or.inl ⟨_, rfl⟩
  · rcases outerProd_result g _ _ _ _ _ _ _ with h | h
    · exact Or.inl ⟨_, h⟩
    · exact Or.inr h

theorem t_fst (v : Value) (perm : List Nat) (rw : PatternRewriter) :
    (t v perm rw).1 = tValue v perm := by
  unfold t tValue
  split <;> rfl

theorem matmat_entry (g : UnrolledOuterProductGenerator) (rw : PatternRewriter)
    (e : LayoutEntry) (he : e ∈ outerProductTable.take 8)
    (hi : g.iterators = e.iters) (hm : g.maps = inferFromExprList e.layout) :
    g.matmat rw = e.run g rw := by
  simp only [outerProductTable, List.take, List.drop, List.mem_cons, List.mem_singleton,
    List.not_mem_nil, or_false] at he
  rcases he with rfl | rfl | rfl | rfl | rfl | rfl | rfl | rfl <;>
  · simp only at hi hm
    simp +decide only [matmat, matvec, tmatvec, branch, layout, iters, hi, hm,
      LayoutEntry.run, inferFromExprList, OperandUse.value, t_fst, List.foldl_cons,
      List.foldl_nil, List.map, List.flatten, List.append, Nat.reduceAdd, decide_True,
      decide_False, Bool.not_true, ite_true, ite_false, if_false, if_true,
      Bool.false_eq_true]
    first
      | (cases getReductionSize g.lhsType 1 <;> rfl)
      | (cases getReductionSize g.lhsType 0 <;> rfl)

theorem matvec_entry (g : UnrolledOuterProductGenerator) (rw : PatternRewriter)
    (e : LayoutEntry) (he : e ∈ (outerProductTable.drop 8).take 4)
    (hi : g.iterators = e.iters) (hm : g.maps = inferFromExprList e.layout) :
    g.matvec rw = e.run g rw := by
  simp only [outerProductTable, List.take, List.drop, List.mem_cons, List.mem_singleton,
    List.not_mem_nil, or_false] at he
  rcases he with rfl | rfl | rfl | rfl <;>
  · simp only at hi hm
    simp +decide only [matmat, matvec, tmatvec, branch, layout, iters, hi, hm,
      LayoutEntry.run, inferFromExprList, OperandUse.value, t_fst, List.foldl_cons,
      List.foldl_nil, List.map, List.flatten, List.append, Nat.reduceAdd, decide_True,
      decide_False, Bool.not_true, ite_true, ite_false, if_false, if_true,
      Bool.false_eq_true]
    first
      | (cases getReductionSize g.lhsType 1 <;> rfl)
      | (cases getReductionSize g.lhsType 0 <;> rfl)

theorem tmatvec_entry (g : UnrolledOuterProductGenerator) (rw : PatternRewriter)
    (e : LayoutEntry) (he : e ∈ outerProductTable.drop 12)
    (hi : g.iterators = e.iters) (hm : g.maps = inferFromExprList e.layout) :
    g.tmatvec rw = e.run g rw := by
  simp only [outerProductTable, List.take, List.drop, List.mem_cons, List.mem_singleton,
    List.not_mem_nil, or_false] at he
  rcases he with rfl | rfl | rfl | rfl <;>
  · simp only at hi hm
    simp +decide only [matmat, matvec, tmatvec, branch, layout, iters, hi, hm,
      LayoutEntry.run, inferFromExprList, OperandUse.value, t_fst, List.foldl_cons,
      List.foldl_nil, List.map, List.flatten, List.append, Nat.reduceAdd, decide_True,
      decide_False, Bool.not_true, ite_true, ite_false, if_false, if_true,
      Bool.false_eq_true]
    first
      | (cases getReductionSize g.lhsType 1 <;> rfl)
      | (cases getReductionSize g.lhsType 0 <;> rfl)

theorem matmat_fail_iters (g : UnrolledOuterProductGenerator) (rw : PatternRewriter)
    (h : g.iterators ≠ [.parallel, .parallel, .reduction]) :
    g.matmat rw = (.failure, rw) := by
  have h1 : ¬ ([IteratorType.parallel, .parallel, .reduction] = g.iterators) :=
    fun h2 => h h2.symm
  simp [matmat, iters, h1]

theorem matvec_fail_iters (g : UnrolledOuterProductGenerator) (rw : PatternRewriter)
    (h : g.iterators ≠ [.parallel, .reduction]) :
    g.matvec rw = (.failure, rw) := by
  have h1 : ¬ ([IteratorType.parallel, .reduction] = g.iterators) := fun h2 => h h2.symm
  simp [matvec, iters, h1]

theorem tmatvec_fail_iters (g : UnrolledOuterProductGenerator) (rw : PatternRewriter)
    (h : g.iterators ≠ [.reduction, .parallel]) :
    g.tmatvec rw = (.failure, rw) := by
  have h1 : ¬ ([IteratorType.reduction, .parallel] = g.iterators) := fun h2 => h h2.symm
  simp [tmatvec, iters, h1]

theorem matmat_fail_layout (g : UnrolledOuterProductGenerator) (rw : PatternRewriter)
    (h : ∀ e ∈ outerProductTable.take 8, ¬ e.Matches g) :
    g.matmat rw = (.failure, rw) := by
  by_cases hi : g.iterators = [.parallel, .parallel, .reduction]
  · simp only [outerProductTable, List.take, List.mem_cons, List.mem_singleton,
      List.not_mem_nil, or_false, LayoutEntry.Matches, forall_eq_or_imp, forall_eq, hi,
      true_and] at h
    obtain ⟨h1, h2, h3, h4, h5, h6, h7, h8⟩ := h
    simp [matmat, iters, hi, branch, layout, h1, h2, h3, h4, h5, h6, h7, h8]
  · exact matmat_fail_iters g rw hi

theorem matvec_fail_layout (g : UnrolledOuterProductGenerator) (rw : PatternRewriter)
    (h : ∀ e ∈ (outerProductTable.drop 8).take 4, ¬ e.Matches g) :
    g.matvec rw = (.failure, rw) := by
  by_cases hi : g.iterators = [.parallel, .reduction]
  · simp only [outerProductTable, List.take, List.drop, List.mem_cons, List.mem_singleton,
      List.not_mem_nil, or_false, LayoutEntry.Matches, forall_eq_or_imp, forall_eq, hi,
      true_and] at h
    obtain ⟨h1, h2, h3, h4⟩ := h
    simp [matvec, iters, hi, branch, layout, h1, h2, h3, h4]
  · exact matvec_fail_iters g rw hi

theorem tmatvec_fail_layout (g : UnrolledOuterProductGenerator) (rw : PatternRewriter)
    (h : ∀ e ∈ outerProductTable.drop 12, ¬ e.Matches g) :
    g.tmatvec rw = (.failure, rw) := by
  by_cases hi : g.iterators = [.reduction, .parallel]
  · simp only [outerProductTable, List.drop, List.mem_cons, List.mem_singleton,
      List.not_mem_nil, or_false, LayoutEntry.Matches, forall_eq_or_imp, forall_eq, hi,
      true_and] at h
    obtain ⟨h1, h2, h3, h4⟩ := h
    simp [tmatvec, iters, hi, branch, layout, h1, h2, h3, h4]
  · exact tmatvec_fail_iters g rw hi

theorem isNull_null : Value.null.isNull = true := rfl

theorem isNull_extract (v : Value) (pos : List Nat) : (Value.extract v pos).isNull = false :=
  rfl

theorem promote_eq (v : Value) (e : ElementType) (rw : PatternRewriter) :
    promote v e rw = (promoteValue v e, { ops := rw.ops ++ promoteOps v e }) := by
  unfold promoteValue promoteOps promote
  simp only [PatternRewriter.create]
  split_ifs <;> simp

theorem promoteOps_filter (v : Value) (e : ElementType) :
    (promoteOps v e).filter Value.isOuterProduct = [] := by
  unfold promoteOps promote
  simp only [PatternRewriter.create]
  split_ifs <;> simp [Value.isOuterProduct]

/-- One iteration of `outerProd` with a mask argument `m` (possibly null): its result
is the next link of the chain and it creates exactly one outer product. -/
theorem outerProdStep_chain (g : UnrolledOuterProductGenerator) (A B m : Value)
    (e : ElementType) (st : Value × PatternRewriter) (k : Nat) :
    ∃ extra : List Value,
      extra.filter Value.isOuterProduct = [chainOp g.kind e A B st.1 k] ∧
      g.outerProdStep A B e (some m) st k =
        (if m.isNull then chainOp g.kind e A B st.1 k
          else .mask (.extract m [k]) (chainOp g.kind e A B st.1 k),
         { ops := st.2.ops ++ extra }) := by
  by_cases hm : m.isNull = true
  · refine ⟨[.extract A [k], .extract B [k]] ++ promoteOps (.extract A [k]) e ++
      promoteOps (.extract B [k]) e ++ [chainOp g.kind e A B st.1 k], ?_, ?_⟩
    · simp [List.filter_append, promoteOps_filter, Value.isOuterProduct, chainOp]
    · simp [outerProdStep, PatternRewriter.create, promote_eq, hm, maskOperation, chainOp,
        isNull_null]
  · refine ⟨[.extract A [k], .extract B [k]] ++ promoteOps (.extract A [k]) e ++
      promoteOps (.extract B [k]) e ++ [.extract m [k]] ++
      [chainOp g.kind e A B st.1 k] ++ [.mask (.extract m [k]) (chainOp g.kind e A B st.1 k)],
      ?_, ?_⟩
    · simp [List.filter_append, promoteOps_filter, Value.isOuterProduct, chainOp]
    · simp [outerProdStep, PatternRewriter.create, promote_eq, hm, maskOperation, chainOp,
        isNull_extract]

theorem outerProd_loop_chain (g : UnrolledOuterProductGenerator) (A B m res : Value)
    (e : ElementType) (rw : PatternRewriter) (n : Nat) :
    ∃ emitted : List Value,
      emitted.filter Value.isOuterProduct =
        (List.range n).map (fun k => chainOp g.kind e A B (chainResult g.kind e A B m res k) k) ∧
      (List.range n).foldl (g.outerProdStep A B e (some m)) (res, rw) =
        (chainResult g.kind e A B m res n, { ops := rw.ops ++ emitted }) := by
  induction n with
  | zero => exact ⟨[], rfl, by simp [chainResult]⟩
  | succ n ih =>
      obtain ⟨em, hem, hfold⟩ := ih
      obtain ⟨extra, hextra, hstep⟩ := outerProdStep_chain g A B m e
        (chainResult g.kind e A B m res n, { ops := rw.ops ++ em }) n
      refine ⟨em ++ extra, ?_, ?_⟩
      · simp [List.filter_append, hem, hextra, List.range_succ]
      · rw [foldl_range_succ, hfold, hstep]
        simp [chainResult]

theorem t_snd (v : Value) (perm : List Nat) (rw : PatternRewriter) :
    (t v perm rw).2 = { ops := rw.ops ++ tOps v perm } := by
  unfold t tOps
  split <;> simp [PatternRewriter.create]

theorem tOps_filter (v : Value) (perm : List Nat) :
    (tOps v perm).filter Value.isOuterProduct = [] := by
  unfold tOps
  split <;> simp [Value.isOuterProduct]

/-- The sixteen rows read off the reduction axis that `getReductionIndex` computes. -/
theorem table_reductionDim :
    ∀ e ∈ outerProductTable,
      getReductionIndex ((inferFromExprList e.layout).getD 0 ⟨0, []⟩) e.iters =
        [e.reductionDim] := by
  decide

theorem reductionAxis_of_matches (op : ContractionOp) (e : LayoutEntry)
    (he : e ∈ outerProductTable) (hm : e.Matches (UnrolledOuterProductGenerator.new op)) :
    op.reductionAxis = e.reductionDim := by
  have h1 : op.iteratorTypes = e.iters := hm.1
  have h2 : op.indexingMaps = inferFromExprList e.layout := hm.2
  unfold ContractionOp.reductionAxis
  rw [h1, h2, table_reductionDim e he]
  rfl

/-- Result of `outerProd` when a mask argument is passed: failure without any new
operation unless `res` is vector-typed, else the chain of `reductionSize` steps. -/
theorem outerProd_some (g : UnrolledOuterProductGenerator) (A B res m : Value)
    (lt : VectorType) (R : Int) (rw : PatternRewriter) :
    (res.getType.isVector = false ∧ g.outerProd A B res lt R (some m) rw = (.failure, rw)) ∨
    ∃ resTy emitted, res.getType = .vector resTy ∧
      emitted.filter Value.isOuterProduct = (List.range R.toNat).map
        (fun k => chainOp g.kind resTy.elementType A B
          (chainResult g.kind resTy.elementType A B m res k) k) ∧
      g.outerProd A B res lt R (some m) rw =
        (.success (chainResult g.kind resTy.elementType A B m res R.toNat),
          { ops := rw.ops ++ emitted }) := by
  cases hres : res.getType with
  | null => exact Or.inl ⟨rfl, by simp [outerProd, hres]⟩
  | scalar e => exact Or.inl ⟨rfl, by simp [outerProd, hres]⟩
  | vector resTy =>
      obtain ⟨emitted, hem, hfold⟩ := outerProd_loop_chain g A B m res resTy.elementType rw R.toNat
      exact Or.inr ⟨resTy, emitted, rfl, hem, by simp [outerProd, hres, hfold]⟩

theorem run_eq (e : LayoutEntry) (he : e ∈ outerProductTable)
    (g : UnrolledOuterProductGenerator) (rw : PatternRewriter) :
    ∃ (tr : List Value) (rw2 : PatternRewriter), tr.filter Value.isOuterProduct = [] ∧
      rw2.ops = rw.ops ++ tr ∧
      e.run g rw =
        match getReductionSize g.lhsType e.reductionDim with
        | none => (.failure, rw)
        | some reductionSize =>
            g.outerProd (e.first.value g) (e.second.value g) g.res g.lhsType
              (toInt32 reductionSize) (some (e.maskValue g)) rw2 := by
  simp only [outerProductTable, List.mem_cons, List.mem_singleton, List.not_mem_nil,
    or_false] at he
  rcases he with rfl | rfl | rfl | rfl | rfl | rfl | rfl | rfl | rfl | rfl | rfl | rfl |
    rfl | rfl | rfl | rfl
  all_goals simp only [LayoutEntry.run, LayoutEntry.maskValue, t_fst, List.foldl_cons,
      List.foldl_nil]
  · exact ⟨tOps g.lhs [1, 0] ++ tOps g.mask [2, 0, 1], _,
      by simp [List.filter_append, tOps_filter], by simp [t_snd], rfl⟩
  · exact ⟨tOps g.lhs [1, 0] ++ tOps g.rhs [1, 0] ++ tOps g.mask [2, 0, 1], _,
      by simp [List.filter_append, tOps_filter], by simp [t_snd], rfl⟩
  · exact ⟨tOps g.mask [2, 0, 1], _,
      by simp [List.filter_append, tOps_filter], by simp [t_snd], rfl⟩
  · exact ⟨tOps g.rhs [1, 0] ++ tOps g.mask [2, 0, 1], _,
      by simp [List.filter_append, tOps_filter], by simp [t_snd], rfl⟩
  · exact ⟨tOps g.lhs [1, 0] ++ tOps g.mask [2, 0, 1], _,
      by simp [List.filter_append, tOps_filter], by simp [t_snd], rfl⟩
  · exact ⟨tOps g.rhs [1, 0] ++ tOps g.lhs [1, 0] ++ tOps g.mask [2, 0, 1], _,
      by simp [List.filter_append, tOps_filter], by simp [t_snd], rfl⟩
  · exact ⟨tOps g.mask [2, 0, 1], _,
      by simp [List.filter_append, tOps_filter], by simp [t_snd], rfl⟩
  · exact ⟨tOps g.rhs [1, 0] ++ tOps g.mask [2, 0, 1], _,
      by simp [List.filter_append, tOps_filter], by simp [t_snd], rfl⟩
  · exact ⟨tOps g.lhs [1, 0] ++ tOps g.mask [1, 0], _,
      by simp [List.filter_append, tOps_filter], by simp [t_snd], rfl⟩
  · exact ⟨tOps g.mask [1, 0], _,
      by simp [List.filter_append, tOps_filter], by simp [t_snd], rfl⟩
  · exact ⟨tOps g.rhs [1, 0] ++ tOps g.mask [1, 0], _,
      by simp [List.filter_append, tOps_filter], by simp [t_snd], rfl⟩
  · exact ⟨tOps g.mask [1, 0], _,
      by simp [List.filter_append, tOps_filter], by simp [t_snd], rfl⟩
  · exact ⟨tOps g.lhs [1, 0], _,
      by simp [List.filter_append, tOps_filter], by simp [t_snd], rfl⟩
  · exact ⟨[], _, rfl, by simp, rfl⟩
  · exact ⟨tOps g.rhs [1, 0], _,
      by simp [List.filter_append, tOps_filter], by simp [t_snd], rfl⟩
  · exact ⟨[], _, rfl, by simp, rfl⟩

theorem table_split :
    ∀ e ∈ outerProductTable,
      (e ∈ outerProductTable.take 8 ∧ e.iters = [.parallel, .parallel, .reduction]) ∨
      (e ∈ (outerProductTable.drop 8).take 4 ∧ e.iters = [.parallel, .reduction]) ∨
      (e ∈ outerProductTable.drop 12 ∧ e.iters = [.reduction, .parallel]) := by
  decide

/-- With the strategy and the filter passed, a contraction matching a table row is
lowered as that row prescribes. -/
theorem matchAndRewrite_entry (self : ContractionOpToOuterProductOpLowering)
    (op : ContractionOp) (maskOp : Value) (rw : PatternRewriter) (e : LayoutEntry)
    (he : e ∈ outerProductTable) (hm : e.Matches (UnrolledOuterProductGenerator.new op))
    (hs : self.vectorContractLowering = .OuterProduct) (hf : self.filter op = .success) :
    self.matchAndRewriteMaskableOp op maskOp rw =
      e.run (UnrolledOuterProductGenerator.new op) rw := by
  simp only [ContractionOpToOuterProductOpLowering.matchAndRewriteMaskableOp, hs, hf,
    LogicalResult.failed, ne_eq, not_true_eq_false, if_false, Bool.false_eq_true]
  generalize UnrolledOuterProductGenerator.new op = g at hm ⊢
  obtain ⟨hi, hmp⟩ := hm
  rcases table_split e he with ⟨h8, hit⟩ | ⟨h4, hit⟩ | ⟨h4, hit⟩
  · rw [matmat_entry g rw e h8 hi hmp]
    rcases run_result e g rw with ⟨rw1, h⟩ | ⟨v, rw1, h⟩
    · rw [h]
      simp only [FailureOr.succeeded, Bool.false_eq_true, if_false]
      rw [matvec_fail_iters g rw1 (by rw [hi, hit]; decide)]
      simp only [FailureOr.succeeded, Bool.false_eq_true, if_false]
      rw [tmatvec_fail_iters g rw1 (by rw [hi, hit]; decide)]
    · rw [h]
      simp [FailureOr.succeeded]
  · rw [matmat_fail_iters g rw (by rw [hi, hit]; decide)]
    simp only [FailureOr.succeeded, Bool.false_eq_true, if_false]
    rw [matvec_entry g rw e h4 hi hmp]
    rcases run_result e g rw with ⟨rw1, h⟩ | ⟨v, rw1, h⟩
    · rw [h]
      simp only [FailureOr.succeeded, Bool.false_eq_true, if_false]
      rw [tmatvec_fail_iters g rw1 (by rw [hi, hit]; decide)]
    · rw [h]
      simp [FailureOr.succeeded]
  · rw [matmat_fail_iters g rw (by rw [hi, hit]; decide)]
    simp only [FailureOr.succeeded, Bool.false_eq_true, if_false]
    rw [matvec_fail_iters g rw (by rw [hi, hit]; decide)]
    simp only [FailureOr.succeeded, Bool.false_eq_true, if_false]
    exact tmatvec_entry g rw e h4 hi hmp

/-- A contraction matching no table row is declined without any new operation. -/
theorem matchAndRewrite_no_entry (self : ContractionOpToOuterProductOpLowering)
    (op : ContractionOp) (maskOp : Value) (rw : PatternRewriter)
    (h : ¬ op.HasOuterProductLayout) :
    self.matchAndRewriteMaskableOp op maskOp rw = (.failure, rw) := by
  have hall : ∀ e ∈ outerProductTable, ¬ e.Matches (UnrolledOuterProductGenerator.new op) :=
    fun e he hm => h ⟨e, he, hm.1, hm.2⟩
  unfold ContractionOpToOuterProductOpLowering.matchAndRewriteMaskableOp
  split_ifs
  · rfl
  · rfl
  · simp only
    rw [matmat_fail_layout _ rw (fun e he => hall e (List.mem_of_mem_take he))]
    simp only [FailureOr.succeeded, Bool.false_eq_true, if_false]
    rw [matvec_fail_layout _ rw
      (fun e he => hall e (List.mem_of_mem_drop (List.mem_of_mem_take he)))]
    simp only [FailureOr.succeeded, Bool.false_eq_true, if_false]
    rw [tmatvec_fail_layout _ rw (fun e he => hall e (List.mem_of_mem_drop he))]

theorem matchAndRewrite_guard (self : ContractionOpToOuterProductOpLowering)
    (op : ContractionOp) (maskOp : Value) (rw : PatternRewriter)
    (h : ¬ (self.vectorContractLowering = .OuterProduct ∧ self.filter op = .success)) :
    self.matchAndRewriteMaskableOp op maskOp rw = (.failure, rw) := by
  unfold ContractionOpToOuterProductOpLowering.matchAndRewriteMaskableOp
  split_ifs with h1 h2
  · rfl
  · rfl
  · exfalso
    apply h
    refine ⟨not_not.mp h1, ?_⟩
    cases hf : self.filter op with
    | success => rfl
    | failure => simp [hf, LogicalResult.failed] at h2

theorem getReductionSize_scalable (vt : VectorType) (d : Nat)
    (h : vt.scalableDims.getD d false = true) :
    UnrolledOuterProductGenerator.getReductionSize vt d = none := by
  unfold UnrolledOuterProductGenerator.getReductionSize
  rw [h]
  rfl

/-- A matching contraction with a scalable reduction axis is declined without any new
operation. -/
theorem matchAndRewrite_scalable (self : ContractionOpToOuterProductOpLowering)
    (op : ContractionOp) (maskOp : Value) (rewriter : PatternRewriter)
    (hpat : op.HasOuterProductLayout) (hsc : op.reductionAxisScalable = true) :
    self.matchAndRewriteMaskableOp op maskOp rewriter = (.failure, rewriter) := by
  by_cases hg : self.vectorContractLowering = .OuterProduct ∧ self.filter op = .success
  · obtain ⟨e, he, hi, hm⟩ := hpat
    rw [matchAndRewrite_entry self op maskOp rewriter e he ⟨hi, hm⟩ hg.1 hg.2]
    have hax := reductionAxis_of_matches op e he ⟨hi, hm⟩
    unfold ContractionOp.reductionAxisScalable at hsc
    rw [hax] at hsc
    have hnone : getReductionSize (UnrolledOuterProductGenerator.new op).lhsType
        e.reductionDim = none := getReductionSize_scalable _ _ hsc
    simp [LayoutEntry.run, hnone]
  · exact matchAndRewrite_guard self op maskOp rewriter hg

/-- Success of the outer-product pattern, characterised. -/
theorem matchAndRewrite_succeeds_iff (self : ContractionOpToOuterProductOpLowering)
    (op : ContractionOp) (maskOp : Value) (rewriter : PatternRewriter)
    (hacc : op.HasOuterProductLayout → op.acc.getType.isVector = true) :
    ((self.matchAndRewriteMaskableOp op maskOp rewriter).1.succeeded = true ↔
      (self.vectorContractLowering = .OuterProduct ∧ self.filter op = .success ∧
        op.HasOuterProductLayout ∧ op.reductionAxisScalable = false)) ∧
    ((self.matchAndRewriteMaskableOp op maskOp rewriter).1.succeeded = false →
      (self.matchAndRewriteMaskableOp op maskOp rewriter).1 = .failure) := by
  refine ⟨?_, ?_⟩
  · by_cases hg : self.vectorContractLowering = .OuterProduct ∧ self.filter op = .success
    · by_cases hpat : op.HasOuterProductLayout
      · by_cases hsc : op.reductionAxisScalable = true
        · rw [matchAndRewrite_scalable self op maskOp rewriter hpat hsc]
          simp [FailureOr.succeeded, hsc]
        · have hsc2 : op.reductionAxisScalable = false := by simpa using hsc
          have hvec := hacc hpat
          obtain ⟨e, he, hi, hm⟩ := hpat
          rw [matchAndRewrite_entry self op maskOp rewriter e he ⟨hi, hm⟩ hg.1 hg.2]
          have hax := reductionAxis_of_matches op e he ⟨hi, hm⟩
          unfold ContractionOp.reductionAxisScalable at hsc2
          rw [hax] at hsc2
          obtain ⟨tr, rw2, -, -, hrun⟩ := run_eq e he (UnrolledOuterProductGenerator.new op)
            rewriter
          have hstat : getReductionSize (UnrolledOuterProductGenerator.new op).lhsType
              e.reductionDim = some ((UnrolledOuterProductGenerator.new op).lhsType.getDimSize
                e.reductionDim) := getReductionSize_static _ _ hsc2
          rw [hrun, hstat]
          rcases outerProd_some (UnrolledOuterProductGenerator.new op)
            (e.first.value (UnrolledOuterProductGenerator.new op))
            (e.second.value (UnrolledOuterProductGenerator.new op))
            (UnrolledOuterProductGenerator.new op).res
            (e.maskValue (UnrolledOuterProductGenerator.new op))
            (UnrolledOuterProductGenerator.new op).lhsType
            (toInt32 ((UnrolledOuterProductGenerator.new op).lhsType.getDimSize e.reductionDim))
            rw2 with ⟨hnv, -⟩ | ⟨resTy, em, -, -, hsucc⟩
          · have hnv2 : op.acc.getType.isVector = false := hnv
            rw [hvec] at hnv2
            exact absurd hnv2 (by decide)
          · simp only [hsucc, FailureOr.succeeded, true_iff]
            refine ⟨hg.1, hg.2, ⟨e, he, hi, hm⟩, ?_⟩
            unfold ContractionOp.reductionAxisScalable
            rw [hax]
            exact hsc2
      · rw [matchAndRewrite_no_entry self op maskOp rewriter hpat]
        simp [FailureOr.succeeded, hpat]
    · rw [matchAndRewrite_guard self op maskOp rewriter hg]
      simp only [FailureOr.succeeded, Bool.false_eq_true, false_iff]
      exact fun h => hg ⟨h.1, h.2.1⟩
  · intro h
    cases hr : (self.matchAndRewriteMaskableOp op maskOp rewriter).1 with
    | failure => rfl
    | success v => rw [hr] at h; simp [FailureOr.succeeded] at h

theorem value_mem_normalised (op : ContractionOp) (u : OperandUse) :
    u.value (UnrolledOuterProductGenerator.new op) ∈ op.normalisedOperands := by
  cases u <;> simp [OperandUse.value, ContractionOp.normalisedOperands,
    UnrolledOuterProductGenerator.new]

theorem table_maskPerm :
    ∀ e ∈ outerProductTable,
      e.maskPerm = none ∨ e.maskPerm = some [2, 0, 1] ∨ e.maskPerm = some [1, 0] := by
  decide

theorem maskValue_mem_normalised (op : ContractionOp) (e : LayoutEntry)
    (he : e ∈ outerProductTable) :
    e.maskValue (UnrolledOuterProductGenerator.new op) ∈ op.normalisedMasks := by
  rcases table_maskPerm e he with h | h | h <;>
    simp [LayoutEntry.maskValue, h, ContractionOp.normalisedMasks]

/-- Shape of every successful run of the outer-product pattern: the chain of
section 4.2 over the reduction extent. -/
theorem matchAndRewrite_chain (self : ContractionOpToOuterProductOpLowering)
    (op : ContractionOp) (maskOp : Value) (rw : PatternRewriter) (v : Value)
    (rw' : PatternRewriter)
    (h : self.matchAndRewriteMaskableOp op maskOp rw = (.success v, rw'))
    (hR : op.reductionExtent < 2 ^ 31) :
    ∃ (A B m : Value) (e : ElementType) (emitted : List Value),
      A ∈ op.normalisedOperands ∧ B ∈ op.normalisedOperands ∧ m ∈ op.normalisedMasks ∧
      op.acc.getType.elementType? = some e ∧
      rw'.ops = rw.ops ++ emitted ∧
      emitted.filter Value.isOuterProduct = (List.range op.reductionExtent).map
        (fun k => chainOp op.kind e A B (chainResult op.kind e A B m op.acc k) k) ∧
      v = chainResult op.kind e A B m op.acc op.reductionExtent := by
  by_cases hg : self.vectorContractLowering = .OuterProduct ∧ self.filter op = .success
  swap
  · rw [matchAndRewrite_guard self op maskOp rw hg] at h
    simp at h
  by_cases hpat : op.HasOuterProductLayout
  swap
  · rw [matchAndRewrite_no_entry self op maskOp rw hpat] at h
    simp at h
  obtain ⟨e, he, hi, hm⟩ := hpat
  rw [matchAndRewrite_entry self op maskOp rw e he ⟨hi, hm⟩ hg.1 hg.2] at h
  have hax := reductionAxis_of_matches op e he ⟨hi, hm⟩
  obtain ⟨tr, rw2, htr, hrw2, hrun⟩ := run_eq e he (UnrolledOuterProductGenerator.new op) rw
  rw [hrun] at h
  by_cases hsc : (UnrolledOuterProductGenerator.new op).lhsType.scalableDims.getD
      e.reductionDim false = true
  · rw [getReductionSize_scalable _ _ hsc] at h
    simp at h
  have hsc2 : (UnrolledOuterProductGenerator.new op).lhsType.scalableDims.getD
      e.reductionDim false = false := by simpa using hsc
  rw [getReductionSize_static _ _ hsc2] at h
  have hext : (UnrolledOuterProductGenerator.new op).lhsType.getDimSize e.reductionDim =
      op.reductionExtent := by
    unfold ContractionOp.reductionExtent
    rw [hax]
    rfl
  rw [hext] at h
  rcases outerProd_some (UnrolledOuterProductGenerator.new op)
    (e.first.value (UnrolledOuterProductGenerator.new op))
    (e.second.value (UnrolledOuterProductGenerator.new op))
    (UnrolledOuterProductGenerator.new op).res
    (e.maskValue (UnrolledOuterProductGenerator.new op))
    (UnrolledOuterProductGenerator.new op).lhsType
    (toInt32 op.reductionExtent) rw2 with ⟨-, hfail⟩ | ⟨resTy, em, hty, hem, hsucc⟩
  · simp only [hfail] at h
    simp at h
  · simp only [hsucc, Prod.mk.injEq, FailureOr.success.injEq] at h
    rw [toInt32_toNat _ hR] at hem h
    have hty2 : op.acc.getType = .vector resTy := hty
    refine ⟨_, _, _, resTy.elementType, tr ++ em, value_mem_normalised op e.first,
      value_mem_normalised op e.second, maskValue_mem_normalised op e he, ?_, ?_, ?_, ?_⟩
    · rw [hty2]
      rfl
    · rw [← h.2]
      simp [hrw2]
    · rw [List.filter_append, htr, List.nil_append]
      exact hem
    · exact h.1.symm

/-- C5 (scalable-axis decline). For every contraction whose iterator kinds and maps
match one of the sixteen matmat, matvec or tmatvec layouts and whose reduction axis
is marked scalable in the lhs type, `ContractionOpToOuterProductOpLowering` returns
failure and the rewriter is unchanged: no transpose, extract or outer product was
created. -/
theorem outerProduct_scalable_decline (self : ContractionOpToOuterProductOpLowering)
    (op : ContractionOp) (maskOp : Value) (rewriter : PatternRewriter)
    (hpat : op.HasOuterProductLayout) (hsc : op.reductionAxisScalable = true) :
    self.matchAndRewriteMaskableOp op maskOp rewriter = (.failure, rewriter) :=
  matchAndRewrite_scalable self op maskOp rewriter hpat hsc

/-- Instance of C5 at `sampleMatmat` with a scalable reduction axis. -/
theorem outerProduct_scalable_decline_witness :
    sampleOuterProductPattern.matchAndRewriteMaskableOp
      sampleScalableMatmat .null ⟨[]⟩ = (.failure, ⟨[]⟩) :=
  outerProduct_scalable_decline _ sampleScalableMatmat .null ⟨[]⟩
    ⟨⟨[.parallel, .parallel, .reduction], [[0, 2], [2, 1], [0, 1]], 1, .lhsT, .rhs, [.lhsT],
      some [2, 0, 1]⟩, by decide, rfl, rfl⟩ (by decide)

/-- C6. Provided the accumulator of a contraction with one of the sixteen layouts is
vector-typed (as the verifier of `vector.contract` ensures),
`ContractionOpToOuterProductOpLowering` succeeds if and only if the strategy is
`OuterProduct`, the filter accepts the operation, its iterator kinds and maps equal
one of the sixteen enumerated patterns, and the lhs axis carrying the reduction label
is not scalable; otherwise it returns failure. -/
theorem outerProduct_succeeds_iff (self : ContractionOpToOuterProductOpLowering)
    (op : ContractionOp) (maskOp : Value) (rewriter : PatternRewriter)
    (hacc : op.HasOuterProductLayout → op.acc.getType.isVector = true) :
    ((self.matchAndRewriteMaskableOp op maskOp rewriter).1.succeeded = true ↔
      (self.vectorContractLowering = .OuterProduct ∧ self.filter op = .success ∧
        op.HasOuterProductLayout ∧ op.reductionAxisScalable = false)) ∧
    ((self.matchAndRewriteMaskableOp op maskOp rewriter).1.succeeded = false →
      (self.matchAndRewriteMaskableOp op maskOp rewriter).1 = .failure) :=
  matchAndRewrite_succeeds_iff self op maskOp rewriter hacc

/-- Instance of C6 at `sampleMatmat`. -/
theorem outerProduct_succeeds_iff_witness :
    ((sampleOuterProductPattern.matchAndRewriteMaskableOp sampleMatmat .null
        ⟨[]⟩).1.succeeded = true ↔
      (sampleOuterProductPattern.vectorContractLowering = .OuterProduct ∧
        sampleOuterProductPattern.filter sampleMatmat = .success ∧
        sampleMatmat.HasOuterProductLayout ∧ sampleMatmat.reductionAxisScalable = false)) ∧
    ((sampleOuterProductPattern.matchAndRewriteMaskableOp sampleMatmat .null
        ⟨[]⟩).1.succeeded = false →
      (sampleOuterProductPattern.matchAndRewriteMaskableOp sampleMatmat .null ⟨[]⟩).1 =
        .failure) :=
  outerProduct_succeeds_iff sampleOuterProductPattern sampleMatmat .null ⟨[]⟩ (fun _ => rfl)

/-- In every row of the table both values handed to `outerProd` carry the reduction label
on their leading axis, and their remaining labels, first operand then second, are the
labels of the result map. -/
theorem outerProductTable_labels :
    ∀ row ∈ outerProductTable, ∃ r,
      isReductionIterator (row.iters.getD r .parallel) = true ∧
      (row.first.labels (inferFromExprList row.layout)).head? = some r ∧
      (row.second.labels (inferFromExprList row.layout)).head? = some r ∧
      (row.first.labels (inferFromExprList row.layout)).tail ++
          (row.second.labels (inferFromExprList row.layout)).tail =
        ((inferFromExprList row.layout).getD 2 ⟨0, []⟩).results := by
  intro row he
  simp only [outerProductTable, List.mem_cons, List.mem_singleton, List.not_mem_nil,
    or_false] at he
  rcases he with rfl | rfl | rfl | rfl | rfl | rfl | rfl | rfl | rfl | rfl | rfl | rfl |
    rfl | rfl | rfl | rfl
  all_goals first
    | exact ⟨2, by decide⟩
    | exact ⟨1, by decide⟩
    | exact ⟨0, by decide⟩

/-- Every successful run of the outer-product pattern, by the row of the table it
took: the chain of section 4.2 on the two values that row hands to `outerProd`, over
the number of iterations of the loop of `outerProd`, whose bound is the reduction
extent narrowed to the C++ type `int`. -/
theorem matchAndRewrite_chain_row (self : ContractionOpToOuterProductOpLowering)
    (op : ContractionOp) (maskOp : Value) (rw : PatternRewriter) (v : Value)
    (rw' : PatternRewriter)
    (h : self.matchAndRewriteMaskableOp op maskOp rw = (.success v, rw')) :
    ∃ (row : LayoutEntry) (e : ElementType) (emitted : List Value),
      row ∈ outerProductTable ∧ op.iteratorTypes = row.iters ∧
      op.indexingMaps = inferFromExprList row.layout ∧
      op.acc.getType.elementType? = some e ∧
      rw'.ops = rw.ops ++ emitted ∧
      emitted.filter Value.isOuterProduct =
        (List.range (toInt32 op.reductionExtent).toNat).map
          (fun k => chainOp op.kind e
            (row.first.value (UnrolledOuterProductGenerator.new op))
            (row.second.value (UnrolledOuterProductGenerator.new op))
            (chainResult op.kind e
              (row.first.value (UnrolledOuterProductGenerator.new op))
              (row.second.value (UnrolledOuterProductGenerator.new op))
              (row.maskValue (UnrolledOuterProductGenerator.new op)) op.acc k) k) ∧
      v = chainResult op.kind e
        (row.first.value (UnrolledOuterProductGenerator.new op))
        (row.second.value (UnrolledOuterProductGenerator.new op))
        (row.maskValue (UnrolledOuterProductGenerator.new op)) op.acc
        (toInt32 op.reductionExtent).toNat := by
  by_cases hg : self.vectorContractLowering = .OuterProduct ∧ self.filter op = .success
  swap
  · rw [matchAndRewrite_guard self op maskOp rw hg] at h
    simp at h
  by_cases hpat : op.HasOuterProductLayout
  swap
  · rw [matchAndRewrite_no_entry self op maskOp rw hpat] at h
    simp at h
  obtain ⟨e, he, hi, hm⟩ := hpat
  rw [matchAndRewrite_entry self op maskOp rw e he ⟨hi, hm⟩ hg.1 hg.2] at h
  have hax := reductionAxis_of_matches op e he ⟨hi, hm⟩
  obtain ⟨tr, rw2, htr, hrw2, hrun⟩ := run_eq e he (UnrolledOuterProductGenerator.new op) rw
  rw [hrun] at h
  by_cases hsc : (UnrolledOuterProductGenerator.new op).lhsType.scalableDims.getD
      e.reductionDim false = true
  · rw [getReductionSize_scalable _ _ hsc] at h
    simp at h
  have hsc2 : (UnrolledOuterProductGenerator.new op).lhsType.scalableDims.getD
      e.reductionDim false = false := by simpa using hsc
  rw [getReductionSize_static _ _ hsc2] at h
  have hext : (UnrolledOuterProductGenerator.new op).lhsType.getDimSize e.reductionDim =
      op.reductionExtent := by
    unfold ContractionOp.reductionExtent
    rw [hax]
    rfl
  rw [hext] at h
  rcases outerProd_some (UnrolledOuterProductGenerator.new op)
    (e.first.value (UnrolledOuterProductGenerator.new op))
    (e.second.value (UnrolledOuterProductGenerator.new op))
    (UnrolledOuterProductGenerator.new op).res
    (e.maskValue (UnrolledOuterProductGenerator.new op))
    (UnrolledOuterProductGenerator.new op).lhsType
    (toInt32 op.reductionExtent) rw2 with ⟨-, hfail⟩ | ⟨resTy, em, hty, hem, hsucc⟩
  · simp only [hfail] at h
    simp at h
  · simp only [hsucc, Prod.mk.injEq, FailureOr.success.injEq] at h
    have hty2 : op.acc.getType = .vector resTy := hty
    refine ⟨e, resTy.elementType, tr ++ em, he, hi, hm, ?_, ?_, ?_, ?_⟩
    · rw [hty2]
      rfl
    · rw [← h.2]
      simp [hrw2]
    · rw [List.filter_append, htr, List.nil_append]
      exact hem
    · exact h.1.symm

/-- C4. Whenever `ContractionOpToOuterProductOpLowering` succeeds, the contraction has
the layout of a row of the table of the sixteen branches, and with `A` and `B` the two
values that branch hands to `outerProd` (the operands as they are or transposed): both
carry the reduction label `r` on their leading axis and their remaining labels are those
of the result map, so they are the normalised operands; the outer products among the
created operations are exactly those of steps `k = 0, ..., n - 1` in this order, `n`
being the bound of the loop of `outerProd` (the reduction extent `R` as a C++ `int`),
which is `R` whenever `R` is below `2 ^ 31`; step `k` reads slice `k` of `A` and of `B`;
its accumulator operand is the contraction's `acc` for `k = 0` and the result of step
`k - 1` otherwise (under slice `k - 1` of the mask the branch passes, when masked); the
returned value is the result of the last step. -/
theorem outerProduct_chain_order (self : ContractionOpToOuterProductOpLowering)
    (op : ContractionOp) (maskOp : Value) (rewriter : PatternRewriter) (v : Value)
    (rewriter' : PatternRewriter)
    (h : self.matchAndRewriteMaskableOp op maskOp rewriter = (.success v, rewriter')) :
    ∃ (row : LayoutEntry) (r : Nat) (e : ElementType) (emitted : List Value),
      row ∈ outerProductTable ∧ op.iteratorTypes = row.iters ∧
      op.indexingMaps = inferFromExprList row.layout ∧
      isReductionIterator (op.iteratorTypes.getD r .parallel) = true ∧
      (row.first.labels op.indexingMaps).head? = some r ∧
      (row.second.labels op.indexingMaps).head? = some r ∧
      (row.first.labels op.indexingMaps).tail ++ (row.second.labels op.indexingMaps).tail =
        (op.indexingMaps.getD 2 ⟨0, []⟩).results ∧
      op.acc.getType.elementType? = some e ∧
      rewriter'.ops = rewriter.ops ++ emitted ∧
      emitted.filter Value.isOuterProduct =
        (List.range (toInt32 op.reductionExtent).toNat).map
          (fun k => chainOp op.kind e
            (row.first.value (UnrolledOuterProductGenerator.new op))
            (row.second.value (UnrolledOuterProductGenerator.new op))
            (chainResult op.kind e
              (row.first.value (UnrolledOuterProductGenerator.new op))
              (row.second.value (UnrolledOuterProductGenerator.new op))
              (row.maskValue (UnrolledOuterProductGenerator.new op)) op.acc k) k) ∧
      v = chainResult op.kind e
        (row.first.value (UnrolledOuterProductGenerator.new op))
        (row.second.value (UnrolledOuterProductGenerator.new op))
        (row.maskValue (UnrolledOuterProductGenerator.new op)) op.acc
        (toInt32 op.reductionExtent).toNat ∧
      (op.reductionExtent < 2 ^ 31 →
        (toInt32 op.reductionExtent).toNat = op.reductionExtent) := by
  obtain ⟨row, e, emitted, he, hi, hm, h1, h2, h3, h4⟩ :=
    matchAndRewrite_chain_row self op maskOp rewriter v rewriter' h
  obtain ⟨r, l1, l2, l3, l4⟩ := outerProductTable_labels row he
  rw [← hi] at l1
  rw [← hm] at l2 l3 l4
  exact ⟨row, r, e, emitted, he, hi, hm, l1, l2, l3, l4, h1, h2, h3, h4,
    fun hR => toInt32_toNat _ hR⟩

/-- Instance of C4 at `sampleMatmat` (row-major multiply, reduction extent 3): the steps
read the slices of the transposed lhs, with labels `(k, m)`, and of the rhs, with labels
`(k, n)`. -/
theorem outerProduct_chain_order_witness :
    ∃ (row : LayoutEntry) (r : Nat) (e : ElementType) (emitted : List Value),
      row ∈ outerProductTable ∧ sampleMatmat.iteratorTypes = row.iters ∧
      sampleMatmat.indexingMaps = inferFromExprList row.layout ∧
      isReductionIterator (sampleMatmat.iteratorTypes.getD r .parallel) = true ∧
      (row.first.labels sampleMatmat.indexingMaps).head? = some r ∧
      (row.second.labels sampleMatmat.indexingMaps).head? = some r ∧
      (row.first.labels sampleMatmat.indexingMaps).tail ++
          (row.second.labels sampleMatmat.indexingMaps).tail =
        (sampleMatmat.indexingMaps.getD 2 ⟨0, []⟩).results ∧
      sampleMatmat.acc.getType.elementType? = some e ∧
      (sampleOuterProductPattern.matchAndRewriteMaskableOp sampleMatmat .null ⟨[]⟩).2.ops =
        [] ++ emitted ∧
      emitted.filter Value.isOuterProduct =
        (List.range (toInt32 sampleMatmat.reductionExtent).toNat).map
          (fun k => chainOp .ADD e
            (row.first.value (UnrolledOuterProductGenerator.new sampleMatmat))
            (row.second.value (UnrolledOuterProductGenerator.new sampleMatmat))
            (chainResult .ADD e
              (row.first.value (UnrolledOuterProductGenerator.new sampleMatmat))
              (row.second.value (UnrolledOuterProductGenerator.new sampleMatmat))
              (row.maskValue (UnrolledOuterProductGenerator.new sampleMatmat))
              sampleMatmat.acc k) k) ∧
      chainResult .ADD (.integer 8) (.transpose sampleMatmat.lhs [1, 0]) sampleMatmat.rhs .null
          sampleMatmat.acc 3 =
        chainResult .ADD e
          (row.first.value (UnrolledOuterProductGenerator.new sampleMatmat))
          (row.second.value (UnrolledOuterProductGenerator.new sampleMatmat))
          (row.maskValue (UnrolledOuterProductGenerator.new sampleMatmat)) sampleMatmat.acc
          (toInt32 sampleMatmat.reductionExtent).toNat ∧
      (sampleMatmat.reductionExtent < 2 ^ 31 →
        (toInt32 sampleMatmat.reductionExtent).toNat = sampleMatmat.reductionExtent) :=
  outerProduct_chain_order sampleOuterProductPattern sampleMatmat .null ⟨[]⟩
    (chainResult .ADD (.integer 8) (.transpose sampleMatmat.lhs [1, 0]) sampleMatmat.rhs .null
      sampleMatmat.acc 3)
    (sampleOuterProductPattern.matchAndRewriteMaskableOp sampleMatmat .null ⟨[]⟩).2
    (by decide)

theorem layout_of_matmul_maps (op : ContractionOp) (la lb lc : List Nat)
    (hi : op.iteratorTypes = [.parallel, .parallel, .reduction])
    (hla : la ∈ [[0, 2], [2, 0]]) (hlb : lb ∈ [[2, 1], [1, 2]]) (hlc : lc ∈ [[0, 1], [1, 0]])
    (hm : op.indexingMaps = [⟨3, la⟩, ⟨3, lb⟩, ⟨3, lc⟩]) :
    op.HasOuterProductLayout := by
  simp only [List.mem_cons, List.mem_singleton, List.not_mem_nil, or_false] at hla hlb hlc
  unfold ContractionOp.HasOuterProductLayout
  rw [hi, hm]
  rcases hla with rfl | rfl <;> rcases hlb with rfl | rfl <;> rcases hlc with rfl | rfl <;>
    decide

/-- C7, counterexample. The multiply `sampleSwappedMatmat` (lhs carries the parallel
label `1`, rhs the parallel label `0`) satisfies the premise of the claim, its
reduction axis is not scalable, and the pattern with strategy `OuterProduct` and the
default filter returns failure on it. -/
theorem outerProduct_any_permutation_counterexample :
    sampleSwappedMatmat.IsMatmulPermutation ∧
    sampleSwappedMatmat.reductionAxisScalable = false ∧
    (sampleOuterProductPattern.matchAndRewriteMaskableOp sampleSwappedMatmat .null ⟨[]⟩).1 =
      .failure := by
  refine ⟨?_, by decide, by decide⟩
  unfold ContractionOp.IsMatmulPermutation
  decide

/-- C7, amended. With the strategy `OuterProduct` and an accepting filter, every
contraction with iterators (parallel, parallel, reduction) whose lhs carries the
reduction label `2` and the first parallel label `0` (in either axis order), whose
rhs carries the reduction label and the second parallel label `1` (in either order),
whose result carries both parallel labels (in either order), whose reduction axis is
not scalable and whose accumulator is vector-typed is lowered successfully. -/
theorem outerProduct_matmul_layouts (self : ContractionOpToOuterProductOpLowering)
    (op : ContractionOp) (maskOp : Value) (rewriter : PatternRewriter)
    (la lb lc : List Nat)
    (hs : self.vectorContractLowering = .OuterProduct) (hf : self.filter op = .success)
    (hi : op.iteratorTypes = [.parallel, .parallel, .reduction])
    (hla : la ∈ [[0, 2], [2, 0]]) (hlb : lb ∈ [[2, 1], [1, 2]]) (hlc : lc ∈ [[0, 1], [1, 0]])
    (hm : op.indexingMaps = [⟨3, la⟩, ⟨3, lb⟩, ⟨3, lc⟩])
    (hns : op.reductionAxisScalable = false)
    (hacc : op.acc.getType.isVector = true) :
    (self.matchAndRewriteMaskableOp op maskOp rewriter).1.succeeded = true :=
  ((matchAndRewrite_succeeds_iff self op maskOp rewriter (fun _ => hacc)).1).2
    ⟨hs, hf, layout_of_matmul_maps op la lb lc hi hla hlb hlc hm, hns⟩

/-- Instance of the amended C7 at `sampleMatmat`. -/
theorem outerProduct_matmul_layouts_witness :
    (sampleOuterProductPattern.matchAndRewriteMaskableOp sampleMatmat .null ⟨[]⟩).1.succeeded =
      true :=
  outerProduct_matmul_layouts sampleOuterProductPattern sampleMatmat .null ⟨[]⟩
    [0, 2] [2, 1] [0, 1] rfl rfl rfl (by decide) (by decide) (by decide) (by decide)
    (by decide) rfl

/-! ## Structure of the dot pattern -/

theorem createMul_eq (x y : Value) (isInt : Bool) (rw : PatternRewriter) :
    createMul x y isInt rw =
      (.binary (if isInt then .muli else .mulf) x y,
        { ops := rw.ops ++ [.binary (if isInt then .muli else .mulf) x y] }) := by
  cases isInt <;> simp [createMul, PatternRewriter.create]

theorem getD_range_map {α : Type} (f : Nat → α) (n c : Nat) (d : α) (h : c < n) :
    ((List.range n).map f).getD c d = f c := by
  simp [List.getD, List.getElem?_map, List.getElem?_range h]

theorem getD_range_map_append {α : Type} (f : Nat → α) (n : Nat) (d : α) :
    ((List.range n).map f ++ [f n]).getD n d = f n := by
  simp [List.getD, List.getElem?_append_right]

theorem columnOps_filter (lhs rhs : Value) (rank : Nat) (isInt : Bool) (res : Value)
    (r c : Nat) : (columnOps lhs rhs rank isInt res r c).filter Value.isAdd = [] := by
  unfold columnOps
  cases isInt <;> split_ifs <;> simp [Value.isAdd, dotSum, dotInsert]

/-- One iteration of the inner loop of the dot lowering, given that the cache holds
the column it reads. -/
theorem columnStep_eq (lhs rhs : Value) (rank : Nat) (isInt : Bool) (r c : Nat)
    (st : DotLoopState)
    (hcol : (if r = 0 then st.extractedCols ++ [dotColumn rhs rank c]
      else st.extractedCols).getD c .null = dotColumn rhs rank c) :
    columnStep rhs rank isInt r (.extract lhs [r]) st c =
      { res := dotInsert lhs rhs rank isInt st.res (r, c),
        extractedCols :=
          if r = 0 then st.extractedCols ++ [dotColumn rhs rank c] else st.extractedCols,
        rewriter := { ops := st.rewriter.ops ++ columnOps lhs rhs rank isInt st.res r c } } := by
  by_cases hr : r = 0
  · simp only [hr, if_true] at hcol
    by_cases hk : rank = 1
    · simp only [hk, dotColumn, if_true, List.getD_eq_getElem?_getD] at hcol
      simp [columnStep, hr, hk, createMul_eq, PatternRewriter.create, dotInsert, dotSum,
        dotColumn, dotPos, columnOps, hcol]
    · simp only [hk, dotColumn, if_false, List.getD_eq_getElem?_getD] at hcol
      simp [columnStep, hr, hk, createMul_eq, PatternRewriter.create, dotInsert, dotSum,
        dotColumn, dotPos, columnOps, hcol]
  · simp only [hr, if_false, List.getD_eq_getElem?_getD] at hcol
    simp [columnStep, hr, createMul_eq, PatternRewriter.create, dotInsert, dotSum,
      dotPos, columnOps, hcol]

/-- Inner loop of the dot lowering after `n` columns of row `r`. -/
theorem columnLoop_eq (lhs rhs : Value) (rank : Nat) (isInt : Bool) (r cols : Nat)
    (st : DotLoopState)
    (hcols : st.extractedCols =
      if r = 0 then [] else (List.range cols).map (dotColumn rhs rank))
    (n : Nat) (hn : n ≤ cols) :
    ∃ em : List Value, em.filter Value.isAdd = [] ∧
      (List.range n).foldl (columnStep rhs rank isInt r (.extract lhs [r])) st =
        { res := ((List.range n).map (fun c => (r, c))).foldl
            (dotInsert lhs rhs rank isInt) st.res,
          extractedCols := (if r = 0 then (List.range n).map (dotColumn rhs rank)
            else (List.range cols).map (dotColumn rhs rank)),
          rewriter := { ops := st.rewriter.ops ++ em } } := by
  induction n with
  | zero =>
      refine ⟨[], rfl, ?_⟩
      cases st
      simp at hcols
      simp [hcols]
  | succ n ih =>
      obtain ⟨em, hem, hfold⟩ := ih (by omega)
      rw [foldl_range_succ, hfold]
      have hcol : (if r = 0 then
            (if r = 0 then (List.range n).map (dotColumn rhs rank)
              else (List.range cols).map (dotColumn rhs rank)) ++ [dotColumn rhs rank n]
          else (if r = 0 then (List.range n).map (dotColumn rhs rank)
              else (List.range cols).map (dotColumn rhs rank))).getD n .null =
          dotColumn rhs rank n := by
        by_cases hr : r = 0
        · simp only [hr, if_true]
          exact getD_range_map_append _ _ _
        · simp only [hr, if_false]
          exact getD_range_map _ _ _ _ (by omega)
      rw [columnStep_eq lhs rhs rank isInt r n _ hcol]
      refine ⟨em ++ columnOps lhs rhs rank isInt (((List.range n).map (fun c => (r, c))).foldl
        (dotInsert lhs rhs rank isInt) st.res) r n, ?_, ?_⟩
      · rw [List.filter_append, hem, columnOps_filter, List.append_nil]
      · by_cases hr : r = 0 <;> simp [hr, List.range_succ]

theorem gridCells_succ (n cols : Nat) :
    gridCells (n + 1) cols = gridCells n cols ++ (List.range cols).map (fun c => (n, c)) := by
  simp [gridCells, List.range_succ, List.flatMap_append]

/-- Outer loop of the dot lowering after `n` rows. -/
theorem rowLoop_eq (lhs rhs : Value) (rank : Nat) (isInt : Bool) (cols : Nat)
    (res0 : Value) (rw : PatternRewriter) (n : Nat) :
    ∃ em : List Value, em.filter Value.isAdd = [] ∧
      (List.range n).foldl (rowStep lhs rhs rank isInt cols)
          { res := res0, extractedCols := [], rewriter := rw } =
        { res := (gridCells n cols).foldl (dotInsert lhs rhs rank isInt) res0,
          extractedCols := (if n = 0 then [] else (List.range cols).map (dotColumn rhs rank)),
          rewriter := { ops := rw.ops ++ em } } := by
  induction n with
  | zero => exact ⟨[], rfl, by simp [gridCells]⟩
  | succ n ih =>
      obtain ⟨em, hem, hfold⟩ := ih
      rw [foldl_range_succ, hfold]
      obtain ⟨em2, hem2, hcol⟩ := columnLoop_eq lhs rhs rank isInt n cols
        { res := (gridCells n cols).foldl (dotInsert lhs rhs rank isInt) res0,
          extractedCols := (if n = 0 then [] else (List.range cols).map (dotColumn rhs rank)),
          rewriter := { ops := rw.ops ++ em ++ [.extract lhs [n]] } } rfl cols (le_refl _)
      refine ⟨em ++ [.extract lhs [n]] ++ em2, ?_, ?_⟩
      · simp [List.filter_append, hem, hem2, Value.isAdd]
      · simp only [rowStep, PatternRewriter.create, hcol, gridCells_succ, List.foldl_append]
        by_cases hn : n = 0 <;> simp [hn]

/-- The second half of the dot lowering on a vector result type: the filled grid, then
one add of the accumulator when there is one, and no add otherwise. -/
theorem emitGrid_eq (op : ContractionOp) (lhs rhs : Value) (rw : PatternRewriter)
    (dstType : VectorType) (hres : op.resultType = .vector dstType) :
    ∃ em : List Value, em.filter Value.isAdd = [] ∧
      emitGrid op lhs rhs rw =
        if op.acc.isNull then
          (.success (gridValue lhs rhs dstType (dotRows dstType) (dotColumns dstType)),
            { ops := rw.ops ++ em })
        else
          (.success (.binary (if dstType.elementType.isInteger then .addi else .addf)
              (gridValue lhs rhs dstType (dotRows dstType) (dotColumns dstType)) op.acc),
            { ops := rw.ops ++ em ++
              [.binary (if dstType.elementType.isInteger then .addi else .addf)
                (gridValue lhs rhs dstType (dotRows dstType) (dotColumns dstType)) op.acc] }) := by
  obtain ⟨em, hem, hloop⟩ := rowLoop_eq lhs rhs dstType.getRank dstType.elementType.isInteger
    (dotColumns dstType) (.constantZero (.vector dstType))
    { ops := rw.ops ++ [.constantZero (.vector dstType)] } (dotRows dstType)
  refine ⟨[.constantZero (.vector dstType)] ++ em, ?_, ?_⟩
  · simp [List.filter_append, hem, Value.isAdd]
  · have hloop2 : (List.range (toUInt32 (dstType.shape.getD 0 0))).foldl
        (rowStep lhs rhs dstType.getRank dstType.elementType.isInteger
          (if dstType.getRank = 1 then 1 else toUInt32 (dstType.shape.getD 1 0)))
        { res := .constantZero (.vector dstType), extractedCols := [],
          rewriter := { ops := rw.ops ++ [.constantZero (.vector dstType)] } } = _ := hloop
    simp only [emitGrid, hres, PatternRewriter.create, hloop2, createAdd]
    by_cases hacc : op.acc.isNull = true
    · simp [hacc, gridValue]
    · cases hi : dstType.elementType.isInteger <;>
        simp [hacc, gridValue, PatternRewriter.create, hi]

/-! ## Denotation of the dot grid -/

theorem sum_emod_map (f : Nat → Int) (m : Int) (n : Nat) :
    ((List.range n).map (fun k => f k % m)).sum % m = ((List.range n).map f).sum % m := by
  induction n with
  | zero => rfl
  | succ n ih =>
      rw [sum_range_succ_map, sum_range_succ_map, Int.add_emod, ih, Int.emod_emod_of_dvd _
        (dvd_refl m), ← Int.add_emod]

theorem dotPos_length (rank r c : Nat) :
    (dotPos rank r c).length = if rank = 1 then 1 else 2 := by
  unfold dotPos
  split <;> rfl

theorem denote_muli (env : Nat → Elem) (x y : Value) (w : Nat) (fx fy : Elem)
    (hx : x.getType.elementType? = some (.integer w))
    (hfx : denote env x = some fx) (hfy : denote env y = some fy) :
    denote env (.binary .muli x y) = some (fun idx => (fx idx * fy idx) % 2 ^ w) := by
  simp [denote, hx, hfx, hfy, ElementType.intWidth?, ArithBinOp.evalInt?]

theorem denote_addi (env : Nat → Elem) (x y : Value) (w : Nat) (fx fy : Elem)
    (hx : x.getType.elementType? = some (.integer w))
    (hfx : denote env x = some fx) (hfy : denote env y = some fy) :
    denote env (.binary .addi x y) = some (fun idx => (fx idx + fy idx) % 2 ^ w) := by
  simp [denote, hx, hfx, hfy, ElementType.intWidth?, ArithBinOp.evalInt?]

theorem denote_reduction_add (env : Nat → Elem) (v : Value) (vt : VectorType) (n w : Nat)
    (fv : Elem) (hv : v.getType = .vector vt) (hs : vt.shape = [n])
    (he : vt.elementType = .integer w) (hfv : denote env v = some fv) :
    denote env (.reduction .ADD v .null) =
      some (fun _ => ((List.range n).map (fun k => fv [k])).sum % 2 ^ w) := by
  simp [denote, hv, hs, he, hfv, ElementType.intWidth?, Value.isNull]

theorem denote_extract (env : Nat → Elem) (v : Value) (pos : List Nat) (f : Elem)
    (h : denote env v = some f) :
    denote env (.extract v pos) = some (fun idx => f (pos ++ idx)) := by
  simp [denote, h]

theorem denote_insert (env : Nat → Elem) (src dst : Value) (pos : List Nat) (fs fd : Elem)
    (hs : denote env src = some fs) (hd : denote env dst = some fd) :
    denote env (.insert src dst pos) =
      some (fun idx => if pos.isPrefixOf idx then fs (idx.drop pos.length) else fd idx) := by
  simp [denote, hs, hd]

theorem dotSum_denote (env : Nat → Elem) (lhs rhs : Value) (tl : VectorType) (X K w rank : Nat)
    (a b : Elem) (r c : Nat)
    (hl : lhs.getType = .vector tl) (hls : tl.shape = [X, K])
    (hle : tl.elementType = .integer w)
    (ha : denote env lhs = some a) (hb : denote env rhs = some b) :
    denote env (dotSum lhs rhs rank true r c) =
      some (fun _ => dotCellValue a b K w (dotPos rank r c)) := by
  have hty : (Value.extract lhs [r]).getType =
      .vector { shape := [K], scalableDims := tl.scalableDims.drop 1,
                elementType := .integer w } := by
    simp [Value.getType, hl, hls, hle]
  have hcol : denote env (dotColumn rhs rank c) =
      some (fun idx => b ((dotPos rank r c).drop 1 ++ idx)) := by
    by_cases hk : rank = 1
    · simp [dotColumn, dotPos, hk, hb]
    · simp [dotColumn, dotPos, hk, denote, hb]
  have hmul := denote_muli env (.extract lhs [r]) (dotColumn rhs rank c) w _ _
    (by rw [hty]; rfl) (denote_extract env lhs [r] a ha) hcol
  have hred := denote_reduction_add env
    (.binary .muli (.extract lhs [r]) (dotColumn rhs rank c)) _ K w _
    (by simpa [Value.getType] using hty) rfl rfl hmul
  simp only [dotSum, if_true, hred, dotCellValue, Option.some.injEq]
  funext _
  rw [sum_emod_map (fun k => a ([r] ++ [k]) * b ((dotPos rank r c).drop 1 ++ [k]))]
  by_cases hk : rank = 1 <;> simp [dotPos, hk]

theorem isPrefixOf_dotPos (rank r c : Nat) (idx : List Nat) :
    (dotPos rank r c).isPrefixOf idx =
      decide (idx.take (if rank = 1 then 1 else 2) = dotPos rank r c) := by
  rw [Bool.eq_iff_iff, List.isPrefixOf_iff_prefix, decide_eq_true_iff,
    List.prefix_iff_eq_take, dotPos_length]
  exact eq_comm

/-- Denotation of a chain of grid insertions into the zero tensor: a cell that was
inserted holds its dot product, every other position holds zero. -/
theorem insertChain_denote (env : Nat → Elem) (lhs rhs : Value) (tl dstType : VectorType)
    (X K w rank : Nat) (a b : Elem)
    (hl : lhs.getType = .vector tl) (hls : tl.shape = [X, K])
    (hle : tl.elementType = .integer w)
    (ha : denote env lhs = some a) (hb : denote env rhs = some b)
    (cells : List (Nat × Nat)) :
    (cells.foldl (dotInsert lhs rhs rank true) (.constantZero (.vector dstType))).getType =
      .vector dstType ∧
    denote env (cells.foldl (dotInsert lhs rhs rank true) (.constantZero (.vector dstType))) =
      some (fun idx =>
        if idx.take (if rank = 1 then 1 else 2) ∈ cells.map (fun p => dotPos rank p.1 p.2)
        then dotCellValue a b K w (idx.take (if rank = 1 then 1 else 2)) else 0) := by
  induction cells using List.reverseRecOn with
  | nil => exact ⟨rfl, by simp [denote]⟩
  | append_singleton cells p ih =>
      obtain ⟨hty, hden⟩ := ih
      rw [List.foldl_append, List.foldl_cons, List.foldl_nil]
      refine ⟨by simpa [dotInsert, Value.getType] using hty, ?_⟩
      have hs := dotSum_denote env lhs rhs tl X K w rank a b p.1 p.2 hl hls hle ha hb
      have hins := denote_insert env _ _ (dotPos rank p.1 p.2) _ _ hs hden
      refine hins.trans ?_
      simp only [isPrefixOf_dotPos, Option.some.injEq]
      funext idx
      by_cases hp : idx.take (if rank = 1 then 1 else 2) = dotPos rank p.1 p.2
      · simp [hp]
      · simp only [hp, decide_False, Bool.false_eq_true, if_false, List.map_append,
          List.mem_append, List.map_cons, List.map_nil, List.mem_singleton, or_false]

theorem mem_gridCells (rows cols r c : Nat) (hr : r < rows) (hc : c < cols) :
    (r, c) ∈ gridCells rows cols := by
  simp [gridCells, hr, hc]

/-! ## The layout chain of the dot pattern -/

/-- A contraction matching a row of the dot table is normalised as the row says. -/
theorem normalize_entry (op : ContractionOp) (rw : PatternRewriter) (e : DotEntry)
    (he : e ∈ dotTable) (hi : op.iteratorTypes = e.iters)
    (hm : op.indexingMaps = inferFromExprList e.layout) :
    ContractionOpToDotLowering.normalize op rw =
      (some (e.lhsUse.dotValue op, e.rhsUse.dotValue op),
        { ops := rw.ops ++ e.created.map (OperandUse.dotValue op) }) := by
  simp only [dotTable, List.mem_cons, List.mem_singleton, List.not_mem_nil, or_false] at he
  rcases he with rfl | rfl | rfl | rfl | rfl | rfl | rfl | rfl | rfl | rfl | rfl | rfl <;>
  · simp only at hi hm
    simp +decide [ContractionOpToDotLowering.normalize, hi, hm, dotIsMatmat, dotIsMatvec, andThen, iteratorAt,
      isParallelIterator, isReductionIterator, inferFromExprList, PatternRewriter.create,
      OperandUse.dotValue]

theorem inferFromExprList_numDims :
    ∀ e ∈ dotTable, ∀ m ∈ inferFromExprList e.layout, m.numDims = e.iters.length := by
  decide

theorem length_of_dot_maps (op : ContractionOp)
    (hwf : ∀ m ∈ op.indexingMaps, m.numDims = op.iteratorTypes.length)
    (e : DotEntry) (he : e ∈ dotTable) (hm : op.indexingMaps = inferFromExprList e.layout) :
    op.iteratorTypes.length = e.iters.length := by
  have hne : ∃ m, m ∈ inferFromExprList e.layout := by
    simp only [dotTable, List.mem_cons, List.mem_singleton, List.not_mem_nil, or_false] at he
    rcases he with rfl | rfl | rfl | rfl | rfl | rfl | rfl | rfl | rfl | rfl | rfl | rfl <;>
      exact ⟨_, List.mem_cons_self _ _⟩
  obtain ⟨m, hmem⟩ := hne
  rw [← hwf m (hm ▸ hmem)]
  exact inferFromExprList_numDims e he m hmem

theorem table_iters :
    ∀ e ∈ dotTable, e.iters = [.parallel, .parallel, .reduction] ∨
      e.iters = [.parallel, .reduction] := by
  decide

theorem dotIsMatmat_true (its : List IteratorType) (h : dotIsMatmat its = some true) :
    ∃ rest, its = .parallel :: .parallel :: .reduction :: rest := by
  rcases its with _ | ⟨i0, _ | ⟨i1, _ | ⟨i2, rest⟩⟩⟩
  · simp [dotIsMatmat, andThen, iteratorAt] at h
  · cases i0 <;> simp [dotIsMatmat, andThen, iteratorAt, isParallelIterator] at h
  · cases i0 <;> cases i1 <;>
      simp [dotIsMatmat, andThen, iteratorAt, isParallelIterator] at h
  · cases i0 <;> cases i1 <;> cases i2 <;>
      simp [dotIsMatmat, andThen, iteratorAt, isParallelIterator, isReductionIterator] at h
    exact ⟨rest, rfl⟩

theorem dotIsMatvec_true (its : List IteratorType) (h : dotIsMatvec its = some true) :
    ∃ rest, its = .parallel :: .reduction :: rest := by
  rcases its with _ | ⟨i0, _ | ⟨i1, rest⟩⟩
  · simp [dotIsMatvec, andThen, iteratorAt] at h
  · cases i0 <;> simp [dotIsMatvec, andThen, iteratorAt, isParallelIterator] at h
  · cases i0 <;> cases i1 <;>
      simp [dotIsMatvec, andThen, iteratorAt, isParallelIterator, isReductionIterator] at h
    exact ⟨rest, rfl⟩

/-- A well-formed contraction with none of the twelve layouts is not normalised, and no
operation is created. -/
theorem normalize_none (op : ContractionOp) (rw : PatternRewriter)
    (hwf : ∀ m ∈ op.indexingMaps, m.numDims = op.iteratorTypes.length)
    (h : ¬ op.HasDotLayout) :
    ContractionOpToDotLowering.normalize op rw = (none, rw) := by
  have hno : ∀ e ∈ dotTable, ∀ rest, op.iteratorTypes = e.iters ++ rest →
      ¬ op.indexingMaps = inferFromExprList e.layout := by
    intro e he rest hrest hm
    have hlen := length_of_dot_maps op hwf e he hm
    rw [hrest, List.length_append] at hlen
    have hnil : rest = [] := List.eq_nil_of_length_eq_zero (by omega)
    rw [hnil, List.append_nil] at hrest
    exact h ⟨e, he, hrest, hm⟩
  unfold ContractionOpToDotLowering.normalize
  cases h1 : dotIsMatmat op.iteratorTypes with
  | none => rfl
  | some b1 =>
      cases b1 with
      | true =>
          obtain ⟨rest, hit⟩ := dotIsMatmat_true _ h1
          have hA : ∀ e ∈ dotTable.take 8, ¬ op.indexingMaps = inferFromExprList e.layout := by
            intro e he
            refine hno e (List.mem_of_mem_take he) rest ?_
            rw [hit]
            simp only [dotTable, List.take, List.mem_cons, List.mem_singleton,
              List.not_mem_nil, or_false] at he
            rcases he with rfl | rfl | rfl | rfl | rfl | rfl | rfl | rfl <;> rfl
          simp only [dotTable, List.take, List.mem_cons, List.mem_singleton,
            List.not_mem_nil, or_false, forall_eq_or_imp, forall_eq] at hA
          obtain ⟨a1, a2, a3, a4, a5, a6, a7, a8⟩ := hA
          simp [a1, a2, a3, a4, a5, a6, a7, a8]
      | false =>
          cases h2 : dotIsMatvec op.iteratorTypes with
          | none => rfl
          | some b2 =>
              cases b2 with
              | false => rfl
              | true =>
                  obtain ⟨rest, hit⟩ := dotIsMatvec_true _ h2
                  have hB : ∀ e ∈ dotTable.drop 8,
                      ¬ op.indexingMaps = inferFromExprList e.layout := by
                    intro e he
                    refine hno e (List.mem_of_mem_drop he) rest ?_
                    rw [hit]
                    simp only [dotTable, List.drop, List.mem_cons, List.mem_singleton,
                      List.not_mem_nil, or_false] at he
                    rcases he with rfl | rfl | rfl | rfl <;> rfl
                  simp only [dotTable, List.drop, List.mem_cons, List.mem_singleton,
                    List.not_mem_nil, or_false, forall_eq_or_imp, forall_eq] at hB
                  obtain ⟨b1, b2, b3, b4⟩ := hB
                  simp [b1, b2, b3, b4]

theorem dot_guards (vcl : VectorContractLowering) (constraint : FilterConstraintType)
    (op : ContractionOp) (maskOp : Value) (rw : PatternRewriter)
    (h : maskOp.isNull = false ∨ vcl ≠ .Dot) :
    (ContractionOpToDotLowering.new vcl constraint).matchAndRewriteMaskableOp op maskOp rw =
      (.failure, rw) := by
  unfold ContractionOpToDotLowering.matchAndRewriteMaskableOp
  rcases h with h | h
  · simp [h]
  · simp [ContractionOpToDotLowering.new, defaultFilter, LogicalResult.failed, h]

theorem dot_unguarded (vcl : VectorContractLowering) (constraint : FilterConstraintType)
    (op : ContractionOp) (maskOp : Value) (rw : PatternRewriter)
    (hm : maskOp.isNull = true) (hs : vcl = .Dot) :
    (ContractionOpToDotLowering.new vcl constraint).matchAndRewriteMaskableOp op maskOp rw =
      match ContractionOpToDotLowering.normalize op rw with
      | (some (lhs, rhs), rewriter1) => emitGrid op lhs rhs rewriter1
      | (none, rewriter1) => (.failure, rewriter1) := by
  unfold ContractionOpToDotLowering.matchAndRewriteMaskableOp
  simp [ContractionOpToDotLowering.new, defaultFilter, LogicalResult.failed, hm, hs]

theorem dot_no_layout (vcl : VectorContractLowering) (constraint : FilterConstraintType)
    (op : ContractionOp) (maskOp : Value) (rw : PatternRewriter)
    (hwf : ∀ m ∈ op.indexingMaps, m.numDims = op.iteratorTypes.length)
    (h : ¬ op.HasDotLayout) :
    (ContractionOpToDotLowering.new vcl constraint).matchAndRewriteMaskableOp op maskOp rw =
      (.failure, rw) := by
  by_cases hg : maskOp.isNull = false ∨ vcl ≠ .Dot
  · exact dot_guards vcl constraint op maskOp rw hg
  · have hm : maskOp.isNull = true := by
      cases hn : maskOp.isNull
      · exact absurd (Or.inl hn) hg
      · rfl
    have hs : vcl = .Dot := by
      by_contra hne
      exact hg (Or.inr hne)
    rw [dot_unguarded vcl constraint op maskOp rw hm hs, normalize_none op rw hwf h]

/-- On an unmasked contraction with one of the twelve layouts and a vector result
type, the dot pattern with strategy `Dot` runs the grid on the normalised operands. -/
theorem dot_layout_run (vcl : VectorContractLowering) (constraint : FilterConstraintType)
    (op : ContractionOp) (maskOp : Value) (rw : PatternRewriter)
    (hm : maskOp.isNull = true) (hs : vcl = .Dot) (e : DotEntry) (he : e ∈ dotTable)
    (hi : op.iteratorTypes = e.iters) (hmp : op.indexingMaps = inferFromExprList e.layout) :
    (ContractionOpToDotLowering.new vcl constraint).matchAndRewriteMaskableOp op maskOp rw =
      emitGrid op (e.lhsUse.dotValue op) (e.rhsUse.dotValue op)
        { ops := rw.ops ++ e.created.map (OperandUse.dotValue op) } := by
  rw [dot_unguarded vcl constraint op maskOp rw hm hs, normalize_entry op rw e he hi hmp]

/-- C8. For a contraction whose maps have the iterator list's length as domain size,
and whose result type is a vector when it has one of the twelve layouts,
`ContractionOpToDotLowering` returns failure whenever a masking wrapper is attached,
whenever the strategy is not `Dot`, and whenever the iterator kinds and map triple are
not one of its 8 matmat or 4 matvec patterns; on an unmasked contraction with strategy
`Dot` and one of the twelve layouts it succeeds; it declines every contraction with
iterators (reduction, parallel). -/
theorem dot_acceptance (vcl : VectorContractLowering) (constraint : FilterConstraintType)
    (op : ContractionOp) (maskOp : Value) (rewriter : PatternRewriter)
    (hwf : ∀ m ∈ op.indexingMaps, m.numDims = op.iteratorTypes.length)
    (hres : op.HasDotLayout → op.resultType.isVector = true) :
    (maskOp.isNull = false →
      ((ContractionOpToDotLowering.new vcl constraint).matchAndRewriteMaskableOp op maskOp
        rewriter).1 = .failure) ∧
    (vcl ≠ .Dot →
      ((ContractionOpToDotLowering.new vcl constraint).matchAndRewriteMaskableOp op maskOp
        rewriter).1 = .failure) ∧
    (¬ op.HasDotLayout →
      ((ContractionOpToDotLowering.new vcl constraint).matchAndRewriteMaskableOp op maskOp
        rewriter).1 = .failure) ∧
    (maskOp.isNull = true → vcl = .Dot → op.HasDotLayout →
      ((ContractionOpToDotLowering.new vcl constraint).matchAndRewriteMaskableOp op maskOp
        rewriter).1.succeeded = true) ∧
    (op.iteratorTypes = [.reduction, .parallel] →
      ((ContractionOpToDotLowering.new vcl constraint).matchAndRewriteMaskableOp op maskOp
        rewriter).1 = .failure) := by
  refine ⟨fun h => ?_, fun h => ?_, fun h => ?_, fun hm hs hl => ?_, fun hit => ?_⟩
  · rw [dot_guards vcl constraint op maskOp rewriter (Or.inl h)]
  · rw [dot_guards vcl constraint op maskOp rewriter (Or.inr h)]
  · rw [dot_no_layout vcl constraint op maskOp rewriter hwf h]
  · have hv := hres hl
    obtain ⟨e, he, hi, hmp⟩ := hl
    rw [dot_layout_run vcl constraint op maskOp rewriter hm hs e he hi hmp]
    cases hty : op.resultType with
    | null => rw [hty] at hv; simp [MlirType.isVector] at hv
    | scalar s => rw [hty] at hv; simp [MlirType.isVector] at hv
    | vector dstType =>
        obtain ⟨em, -, hgrid⟩ := emitGrid_eq op (e.lhsUse.dotValue op) (e.rhsUse.dotValue op)
          { ops := rewriter.ops ++ e.created.map (OperandUse.dotValue op) } dstType hty
        rw [hgrid]
        split <;> rfl
  · have hnl : ¬ op.HasDotLayout := by
      rintro ⟨e, he, hi, -⟩
      rw [hit] at hi
      rcases table_iters e he with h1 | h1 <;> rw [h1] at hi <;> simp at hi
    rw [dot_no_layout vcl constraint op maskOp rewriter hwf hnl]

theorem mem_map_dotPos (rank rows cols r c : Nat) (hr : r < rows) (hc : c < cols) :
    dotPos rank r c ∈ (gridCells rows cols).map (fun p => dotPos rank p.1 p.2) :=
  List.mem_map.mpr ⟨(r, c), mem_gridCells rows cols r c hr hc, rfl⟩

theorem take_dotPos (rank r c : Nat) :
    (dotPos rank r c).take (if rank = 1 then 1 else 2) = dotPos rank r c := by
  unfold dotPos
  split <;> rfl

/-- Denotation of the value the second half of the dot lowering returns, on integer
elements: every grid cell holds its dot product plus the accumulator when present;
the accumulator add is the only add created and is created last. -/
theorem emitGrid_denote (env : Nat → Elem) (op : ContractionOp) (lhs rhs : Value)
    (rw : PatternRewriter) (dstType tl : VectorType) (X K w : Nat) (a b cf : Elem)
    (hres : op.resultType = .vector dstType) (hde : dstType.elementType = .integer w)
    (hl : lhs.getType = .vector tl) (hls : tl.shape = [X, K])
    (hle : tl.elementType = .integer w)
    (ha : denote env lhs = some a) (hb : denote env rhs = some b)
    (hc : op.acc.isNull = false → denote env op.acc = some cf) :
    ∃ (v : Value) (rw' : PatternRewriter) (f : Elem) (em : List Value),
      emitGrid op lhs rhs rw = (.success v, rw') ∧ rw'.ops = rw.ops ++ em ∧
      em.filter Value.isAdd = (if op.acc.isNull then [] else [v]) ∧
      (op.acc.isNull = false →
        v = .binary .addi (gridValue lhs rhs dstType (dotRows dstType) (dotColumns dstType))
          op.acc ∧ em.getLast? = some v) ∧
      denote env v = some f ∧
      ∀ r c, r < dotRows dstType → c < dotColumns dstType →
        f (dotPos dstType.getRank r c) =
          (dotCellValue a b K w (dotPos dstType.getRank r c) +
            (if op.acc.isNull then 0 else cf (dotPos dstType.getRank r c))) % 2 ^ w := by
  obtain ⟨em, hem, hgrid⟩ := emitGrid_eq op lhs rhs rw dstType hres
  have hint : dstType.elementType.isInteger = true := by rw [hde]; rfl
  obtain ⟨hgty, hgden⟩ := insertChain_denote env lhs rhs tl dstType X K w dstType.getRank a b
    hl hls hle ha hb (gridCells (dotRows dstType) (dotColumns dstType))
  have hgv : gridValue lhs rhs dstType (dotRows dstType) (dotColumns dstType) =
      (gridCells (dotRows dstType) (dotColumns dstType)).foldl
        (dotInsert lhs rhs dstType.getRank true) (.constantZero (.vector dstType)) := by
    unfold gridValue
    rw [hint]
  rw [← hgv] at hgty hgden
  by_cases hacc : op.acc.isNull = true
  · refine ⟨_, _, _, em, by rw [hgrid, if_pos hacc], rfl, by rw [hem, if_pos hacc],
      fun h => by rw [hacc] at h; exact absurd h (by decide), hgden, ?_⟩
    intro r c hr hc
    simp only [take_dotPos, mem_map_dotPos _ _ _ r c hr hc, if_true, hacc, add_zero,
      dotCellValue, Int.emod_emod_of_dvd _ (dvd_refl _)]
  · have hacc2 : op.acc.isNull = false := by simpa using hacc
    have hadd := denote_addi env
      (gridValue lhs rhs dstType (dotRows dstType) (dotColumns dstType)) op.acc w _ cf
      (by rw [hgty, MlirType.elementType?, hde]) hgden (hc hacc2)
    simp only [hint, if_true, hacc2, Bool.false_eq_true, if_false] at hgrid
    refine ⟨.binary .addi (gridValue lhs rhs dstType (dotRows dstType) (dotColumns dstType))
        op.acc, _, _, em ++ [.binary .addi
          (gridValue lhs rhs dstType (dotRows dstType) (dotColumns dstType)) op.acc],
      hgrid, by simp, ?_, fun _ => ⟨rfl, by simp⟩, hadd, ?_⟩
    · simp [List.filter_append, hem, Value.isAdd, hacc2]
    · intro r c hr hc
      simp only [take_dotPos, mem_map_dotPos _ _ _ r c hr hc, if_true, hacc2,
        Bool.false_eq_true, if_false]

theorem toUInt32_of_lt (n : Nat) (h : n < 2 ^ 32) : toUInt32 n = n :=
  Nat.mod_eq_of_lt h

theorem inBounds_three (par : List Nat) (M N K : Nat) (h : InBounds par [M, N, K]) :
    ∃ i j, par = [i, j] ∧ i < M ∧ j < N := by
  obtain ⟨hlen, hlt⟩ := h
  rcases par with _ | ⟨i, _ | ⟨j, _ | ⟨x, rest⟩⟩⟩
  · simp at hlen
  · simp at hlen
  · exact ⟨i, j, rfl, by simpa using hlt 0 (by simp), by simpa using hlt 1 (by simp)⟩
  · simp at hlen

theorem inBounds_two (par : List Nat) (M K : Nat) (h : InBounds par [M, K]) :
    ∃ i, par = [i] ∧ i < M := by
  obtain ⟨hlen, hlt⟩ := h
  rcases par with _ | ⟨i, _ | ⟨j, rest⟩⟩
  · simp at hlen
  · exact ⟨i, rfl, by simpa using hlt 0 (by simp)⟩
  · simp at hlen

theorem length_three {α : Type} (l : List α) (h : l.length = 3) : ∃ x y z, l = [x, y, z] := by
  rcases l with _ | ⟨x, _ | ⟨y, _ | ⟨z, _ | ⟨u, rest⟩⟩⟩⟩ <;> simp at h
  exact ⟨x, y, z, rfl⟩

theorem length_two {α : Type} (l : List α) (h : l.length = 2) : ∃ x y, l = [x, y] := by
  rcases l with _ | ⟨x, _ | ⟨y, _ | ⟨u, rest⟩⟩⟩ <;> simp at h
  exact ⟨x, y, rfl⟩

theorem transposeIndex_pair (x y : Nat) : transposeIndex [1, 0] [x, y] = [y, x] := rfl

theorem dot_close (S T m x y : Int) (hS : S = T % m) (hx : x = y) :
    (S + x) % m = (y + T) % m := by
  subst hS hx
  rw [Int.emod_add_emod, add_comm]

/-- Denotation of the value returned by the dot pattern on each of its twelve layouts,
for integer elements. -/
theorem dot_lowering_denote (env : Nat → Elem) (vcl : VectorContractLowering)
    (constraint : FilterConstraintType) (op : ContractionOp) (maskOp : Value)
    (rw : PatternRewriter) (e : DotEntry) (ext : List Nat) (lt rt dstType : VectorType)
    (w : Nat) (a b cf : Elem)
    (hm : maskOp.isNull = true) (hs : vcl = .Dot) (he : e ∈ dotTable)
    (hi : op.iteratorTypes = e.iters)
    (hmp : op.indexingMaps = inferFromExprList e.layout)
    (hext : ext.length = e.iters.length)
    (hlhs : op.lhs.getType = .vector lt) (hrhs : op.rhs.getType = .vector rt)
    (hres : op.resultType = .vector dstType)
    (hls : lt.shape = AffineMap.apply (op.indexingMaps.getD 0 ⟨0, []⟩) ext)
    (hrs : rt.shape = AffineMap.apply (op.indexingMaps.getD 1 ⟨0, []⟩) ext)
    (hds : dstType.shape = AffineMap.apply (op.indexingMaps.getD 2 ⟨0, []⟩) ext)
    (hle : lt.elementType = .integer w) (hre : rt.elementType = .integer w)
    (hde : dstType.elementType = .integer w)
    (hb32 : ∀ x ∈ ext, x < 2 ^ 32)
    (ha : denote env op.lhs = some a) (hb : denote env op.rhs = some b)
    (hc : op.acc.isNull = false → denote env op.acc = some cf) :
    ∃ (v : Value) (rw' : PatternRewriter) (f : Elem) (em : List Value),
      (ContractionOpToDotLowering.new vcl constraint).matchAndRewriteMaskableOp op maskOp rw =
        (.success v, rw') ∧
      rw'.ops = rw.ops ++ em ∧
      em.filter Value.isAdd = (if op.acc.isNull then [] else [v]) ∧
      (op.acc.isNull = false → ∃ g, v = .binary .addi g op.acc ∧ em.getLast? = some v) ∧
      denote env v = some f ∧
      ∀ par, InBounds par ext →
        f (AffineMap.apply (op.indexingMaps.getD 2 ⟨0, []⟩) (par ++ [0])) =
          referenceContract op.indexingMaps (ext.getD (ext.length - 1) 0) w a b
            (if op.acc.isNull then (fun _ => 0) else cf) par := by
  simp only [dotTable, List.mem_cons, List.mem_singleton, List.not_mem_nil, or_false] at he
  rcases he with rfl | rfl | rfl | rfl | rfl | rfl | rfl | rfl | rfl | rfl | rfl | rfl
  · -- layout [[0, 2], [2, 1], [0, 1]]
    simp only at hi hmp hext
    obtain ⟨M, N, K, rfl⟩ := length_three ext hext
    have hM : M < 2 ^ 32 := hb32 M (by simp)
    have hN : N < 2 ^ 32 := hb32 N (by simp)
    simp [hmp, inferFromExprList, AffineMap.apply] at hls hrs hds
    rw [dot_layout_run vcl constraint op maskOp rw hm hs _ (List.get_mem dotTable 0 (by decide))
      hi hmp]
    simp only [dotTable, List.get, OperandUse.dotValue, List.map]
    obtain ⟨v, rw', f, em, h1, h2, h3, h4, h5, h6⟩ := emitGrid_denote env op
      op.lhs (.transpose op.rhs [1, 0]) { ops := rw.ops ++ [.transpose op.rhs [1, 0]] }
      dstType _ _ K w _ _ cf hres hde hlhs hls hle ha (denote_transpose env _ _ _ hb) hc
    refine ⟨v, rw', f, [.transpose op.rhs [1, 0]] ++ em, h1, by simp [h2], ?_,
      fun h => ⟨_, (h4 h).1, ?_⟩, h5, ?_⟩
    · simp [List.filter_append, h3, Value.isAdd]
    · rw [List.getLast?_append, (h4 h).2]
      rfl
    · intro par hpar
      obtain ⟨i, j, rfl, hi', hj'⟩ := inBounds_three par M N K hpar
      have hrank : dstType.getRank = 2 := by simp [VectorType.getRank, hds]
      have hcell := h6 i j
        (by simp [dotRows, hds, toUInt32_of_lt M hM, toUInt32_of_lt N hN]; omega)
        (by simp [dotColumns, hrank, hds, toUInt32_of_lt M hM, toUInt32_of_lt N hN]; try omega)
      simp only [hrank, dotPos] at hcell
      simp only [hmp, inferFromExprList, AffineMap.apply, referenceContract]
      simp at hcell ⊢
      rw [hcell]
      exact dot_close _ _ _ _ _ (by simp [dotCellValue, transposeIndex_pair, mul_comm])
        (by split_ifs <;> rfl)
  · -- layout [[0, 2], [1, 2], [0, 1]]
    simp only at hi hmp hext
    obtain ⟨M, N, K, rfl⟩ := length_three ext hext
    have hM : M < 2 ^ 32 := hb32 M (by simp)
    have hN : N < 2 ^ 32 := hb32 N (by simp)
    simp [hmp, inferFromExprList, AffineMap.apply] at hls hrs hds
    rw [dot_layout_run vcl constraint op maskOp rw hm hs _ (List.get_mem dotTable 1 (by decide))
      hi hmp]
    simp only [dotTable, List.get, OperandUse.dotValue, List.map]
    obtain ⟨v, rw', f, em, h1, h2, h3, h4, h5, h6⟩ := emitGrid_denote env op
      op.lhs op.rhs { ops := rw.ops ++ [] }
      dstType _ _ K w _ _ cf hres hde hlhs hls hle ha hb hc
    refine ⟨v, rw', f, [] ++ em, h1, by simp [h2], ?_,
      fun h => ⟨_, (h4 h).1, ?_⟩, h5, ?_⟩
    · simp [List.filter_append, h3, Value.isAdd]
    · rw [List.getLast?_append, (h4 h).2]
      rfl
    · intro par hpar
      obtain ⟨i, j, rfl, hi', hj'⟩ := inBounds_three par M N K hpar
      have hrank : dstType.getRank = 2 := by simp [VectorType.getRank, hds]
      have hcell := h6 i j
        (by simp [dotRows, hds, toUInt32_of_lt M hM, toUInt32_of_lt N hN]; omega)
        (by simp [dotColumns, hrank, hds, toUInt32_of_lt M hM, toUInt32_of_lt N hN]; try omega)
      simp only [hrank, dotPos] at hcell
      simp only [hmp, inferFromExprList, AffineMap.apply, referenceContract]
      simp at hcell ⊢
      rw [hcell]
      exact dot_close _ _ _ _ _ (by simp [dotCellValue, transposeIndex_pair, mul_comm])
        (by split_ifs <;> rfl)
  · -- layout [[2, 0], [2, 1], [0, 1]]
    simp only at hi hmp hext
    obtain ⟨M, N, K, rfl⟩ := length_three ext hext
    have hM : M < 2 ^ 32 := hb32 M (by simp)
    have hN : N < 2 ^ 32 := hb32 N (by simp)
    simp [hmp, inferFromExprList, AffineMap.apply] at hls hrs hds
    rw [dot_layout_run vcl constraint op maskOp rw hm hs _ (List.get_mem dotTable 2 (by decide))
      hi hmp]
    simp only [dotTable, List.get, OperandUse.dotValue, List.map]
    obtain ⟨v, rw', f, em, h1, h2, h3, h4, h5, h6⟩ := emitGrid_denote env op
      (.transpose op.lhs [1, 0]) (.transpose op.rhs [1, 0]) { ops := rw.ops ++ [.transpose op.lhs [1, 0], .transpose op.rhs [1, 0]] }
      dstType _ _ K w _ _ cf hres hde (transpose_getType _ _ _ hlhs) (by rw [hls]; rfl) hle (denote_transpose env _ _ _ ha) (denote_transpose env _ _ _ hb) hc
    refine ⟨v, rw', f, [.transpose op.lhs [1, 0], .transpose op.rhs [1, 0]] ++ em, h1, by simp [h2], ?_,
      fun h => ⟨_, (h4 h).1, ?_⟩, h5, ?_⟩
    · simp [List.filter_append, h3, Value.isAdd]
    · rw [List.getLast?_append, (h4 h).2]
      rfl
    · intro par hpar
      obtain ⟨i, j, rfl, hi', hj'⟩ := inBounds_three par M N K hpar
      have hrank : dstType.getRank = 2 := by simp [VectorType.getRank, hds]
      have hcell := h6 i j
        (by simp [dotRows, hds, toUInt32_of_lt M hM, toUInt32_of_lt N hN]; omega)
        (by simp [dotColumns, hrank, hds, toUInt32_of_lt M hM, toUInt32_of_lt N hN]; try omega)
      simp only [hrank, dotPos] at hcell
      simp only [hmp, inferFromExprList, AffineMap.apply, referenceContract]
      simp at hcell ⊢
      rw [hcell]
      exact dot_close _ _ _ _ _ (by simp [dotCellValue, transposeIndex_pair, mul_comm])
        (by split_ifs <;> rfl)
  · -- layout [[2, 0], [1, 2], [0, 1]]
    simp only at hi hmp hext
    obtain ⟨M, N, K, rfl⟩ := length_three ext hext
    have hM : M < 2 ^ 32 := hb32 M (by simp)
    have hN : N < 2 ^ 32 := hb32 N (by simp)
    simp [hmp, inferFromExprList, AffineMap.apply] at hls hrs hds
    rw [dot_layout_run vcl constraint op maskOp rw hm hs _ (List.get_mem dotTable 3 (by decide))
      hi hmp]
    simp only [dotTable, List.get, OperandUse.dotValue, List.map]
    obtain ⟨v, rw', f, em, h1, h2, h3, h4, h5, h6⟩ := emitGrid_denote env op
      (.transpose op.lhs [1, 0]) op.rhs { ops := rw.ops ++ [.transpose op.lhs [1, 0]] }
      dstType _ _ K w _ _ cf hres hde (transpose_getType _ _ _ hlhs) (by rw [hls]; rfl) hle (denote_transpose env _ _ _ ha) hb hc
    refine ⟨v, rw', f, [.transpose op.lhs [1, 0]] ++ em, h1, by simp [h2], ?_,
      fun h => ⟨_, (h4 h).1, ?_⟩, h5, ?_⟩
    · simp [List.filter_append, h3, Value.isAdd]
    · rw [List.getLast?_append, (h4 h).2]
      rfl
    · intro par hpar
      obtain ⟨i, j, rfl, hi', hj'⟩ := inBounds_three par M N K hpar
      have hrank : dstType.getRank = 2 := by simp [VectorType.getRank, hds]
      have hcell := h6 i j
        (by simp [dotRows, hds, toUInt32_of_lt M hM, toUInt32_of_lt N hN]; omega)
        (by simp [dotColumns, hrank, hds, toUInt32_of_lt M hM, toUInt32_of_lt N hN]; try omega)
      simp only [hrank, dotPos] at hcell
      simp only [hmp, inferFromExprList, AffineMap.apply, referenceContract]
      simp at hcell ⊢
      rw [hcell]
      exact dot_close _ _ _ _ _ (by simp [dotCellValue, transposeIndex_pair, mul_comm])
        (by split_ifs <;> rfl)
  · -- layout [[0, 2], [2, 1], [1, 0]]
    simp only at hi hmp hext
    obtain ⟨M, N, K, rfl⟩ := length_three ext hext
    have hM : M < 2 ^ 32 := hb32 M (by simp)
    have hN : N < 2 ^ 32 := hb32 N (by simp)
    simp [hmp, inferFromExprList, AffineMap.apply] at hls hrs hds
    rw [dot_layout_run vcl constraint op maskOp rw hm hs _ (List.get_mem dotTable 4 (by decide))
      hi hmp]
    simp only [dotTable, List.get, OperandUse.dotValue, List.map]
    obtain ⟨v, rw', f, em, h1, h2, h3, h4, h5, h6⟩ := emitGrid_denote env op
      (.transpose op.rhs [1, 0]) op.lhs { ops := rw.ops ++ [.transpose op.rhs [1, 0]] }
      dstType _ _ K w _ _ cf hres hde (transpose_getType _ _ _ hrhs) (by rw [hrs]; rfl) hre (denote_transpose env _ _ _ hb) ha hc
    refine ⟨v, rw', f, [.transpose op.rhs [1, 0]] ++ em, h1, by simp [h2], ?_,
      fun h => ⟨_, (h4 h).1, ?_⟩, h5, ?_⟩
    · simp [List.filter_append, h3, Value.isAdd]
    · rw [List.getLast?_append, (h4 h).2]
      rfl
    · intro par hpar
      obtain ⟨i, j, rfl, hi', hj'⟩ := inBounds_three par M N K hpar
      have hrank : dstType.getRank = 2 := by simp [VectorType.getRank, hds]
      have hcell := h6 j i
        (by simp [dotRows, hds, toUInt32_of_lt M hM, toUInt32_of_lt N hN]; omega)
        (by simp [dotColumns, hrank, hds, toUInt32_of_lt M hM, toUInt32_of_lt N hN]; try omega)
      simp only [hrank, dotPos] at hcell
      simp only [hmp, inferFromExprList, AffineMap.apply, referenceContract]
      simp at hcell ⊢
      rw [hcell]
      exact dot_close _ _ _ _ _ (by simp [dotCellValue, transposeIndex_pair, mul_comm])
        (by split_ifs <;> rfl)
  · -- layout [[0, 2], [1, 2], [1, 0]]
    simp only at hi hmp hext
    obtain ⟨M, N, K, rfl⟩ := length_three ext hext
    have hM : M < 2 ^ 32 := hb32 M (by simp)
    have hN : N < 2 ^ 32 := hb32 N (by simp)
    simp [hmp, inferFromExprList, AffineMap.apply] at hls hrs hds
    rw [dot_layout_run vcl constraint op maskOp rw hm hs _ (List.get_mem dotTable 5 (by decide))
      hi hmp]
    simp only [dotTable, List.get, OperandUse.dotValue, List.map]
    obtain ⟨v, rw', f, em, h1, h2, h3, h4, h5, h6⟩ := emitGrid_denote env op
      op.rhs op.lhs { ops := rw.ops ++ [] }
      dstType _ _ K w _ _ cf hres hde hrhs hrs hre hb ha hc
    refine ⟨v, rw', f, [] ++ em, h1, by simp [h2], ?_,
      fun h => ⟨_, (h4 h).1, ?_⟩, h5, ?_⟩
    · simp [List.filter_append, h3, Value.isAdd]
    · rw [List.getLast?_append, (h4 h).2]
      rfl
    · intro par hpar
      obtain ⟨i, j, rfl, hi', hj'⟩ := inBounds_three par M N K hpar
      have hrank : dstType.getRank = 2 := by simp [VectorType.getRank, hds]
      have hcell := h6 j i
        (by simp [dotRows, hds, toUInt32_of_lt M hM, toUInt32_of_lt N hN]; omega)
        (by simp [dotColumns, hrank, hds, toUInt32_of_lt M hM, toUInt32_of_lt N hN]; try omega)
      simp only [hrank, dotPos] at hcell
      simp only [hmp, inferFromExprList, AffineMap.apply, referenceContract]
      simp at hcell ⊢
      rw [hcell]
      exact dot_close _ _ _ _ _ (by simp [dotCellValue, transposeIndex_pair, mul_comm])
        (by split_ifs <;> rfl)
  · -- layout [[2, 0], [2, 1], [1, 0]]
    simp only at hi hmp hext
    obtain ⟨M, N, K, rfl⟩ := length_three ext hext
    have hM : M < 2 ^ 32 := hb32 M (by simp)
    have hN : N < 2 ^ 32 := hb32 N (by simp)
    simp [hmp, inferFromExprList, AffineMap.apply] at hls hrs hds
    rw [dot_layout_run vcl constraint op maskOp rw hm hs _ (List.get_mem dotTable 6 (by decide))
      hi hmp]
    simp only [dotTable, List.get, OperandUse.dotValue, List.map]
    obtain ⟨v, rw', f, em, h1, h2, h3, h4, h5, h6⟩ := emitGrid_denote env op
      (.transpose op.rhs [1, 0]) (.transpose op.lhs [1, 0]) { ops := rw.ops ++ [.transpose op.rhs [1, 0], .transpose op.lhs [1, 0]] }
      dstType _ _ K w _ _ cf hres hde (transpose_getType _ _ _ hrhs) (by rw [hrs]; rfl) hre (denote_transpose env _ _ _ hb) (denote_transpose env _ _ _ ha) hc
    refine ⟨v, rw', f, [.transpose op.rhs [1, 0], .transpose op.lhs [1, 0]] ++ em, h1, by simp [h2], ?_,
      fun h => ⟨_, (h4 h).1, ?_⟩, h5, ?_⟩
    · simp [List.filter_append, h3, Value.isAdd]
    · rw [List.getLast?_append, (h4 h).2]
      rfl
    · intro par hpar
      obtain ⟨i, j, rfl, hi', hj'⟩ := inBounds_three par M N K hpar
      have hrank : dstType.getRank = 2 := by simp [VectorType.getRank, hds]
      have hcell := h6 j i
        (by simp [dotRows, hds, toUInt32_of_lt M hM, toUInt32_of_lt N hN]; omega)
        (by simp [dotColumns, hrank, hds, toUInt32_of_lt M hM, toUInt32_of_lt N hN]; try omega)
      simp only [hrank, dotPos] at hcell
      simp only [hmp, inferFromExprList, AffineMap.apply, referenceContract]
      simp at hcell ⊢
      rw [hcell]
      exact dot_close _ _ _ _ _ (by simp [dotCellValue, transposeIndex_pair, mul_comm])
        (by split_ifs <;> rfl)
  · -- layout [[2, 0], [1, 2], [1, 0]]
    simp only at hi hmp hext
    obtain ⟨M, N, K, rfl⟩ := length_three ext hext
    have hM : M < 2 ^ 32 := hb32 M (by simp)
    have hN : N < 2 ^ 32 := hb32 N (by simp)
    simp [hmp, inferFromExprList, AffineMap.apply] at hls hrs hds
    rw [dot_layout_run vcl constraint op maskOp rw hm hs _ (List.get_mem dotTable 7 (by decide))
      hi hmp]
    simp only [dotTable, List.get, OperandUse.dotValue, List.map]
    obtain ⟨v, rw', f, em, h1, h2, h3, h4, h5, h6⟩ := emitGrid_denote env op
      op.rhs (.transpose op.lhs [1, 0]) { ops := rw.ops ++ [.transpose op.lhs [1, 0]] }
      dstType _ _ K w _ _ cf hres hde hrhs hrs hre hb (denote_transpose env _ _ _ ha) hc
    refine ⟨v, rw', f, [.transpose op.lhs [1, 0]] ++ em, h1, by simp [h2], ?_,
      fun h => ⟨_, (h4 h).1, ?_⟩, h5, ?_⟩
    · simp [List.filter_append, h3, Value.isAdd]
    · rw [List.getLast?_append, (h4 h).2]
      rfl
    · intro par hpar
      obtain ⟨i, j, rfl, hi', hj'⟩ := inBounds_three par M N K hpar
      have hrank : dstType.getRank = 2 := by simp [VectorType.getRank, hds]
      have hcell := h6 j i
        (by simp [dotRows, hds, toUInt32_of_lt M hM, toUInt32_of_lt N hN]; omega)
        (by simp [dotColumns, hrank, hds, toUInt32_of_lt M hM, toUInt32_of_lt N hN]; try omega)
      simp only [hrank, dotPos] at hcell
      simp only [hmp, inferFromExprList, AffineMap.apply, referenceContract]
      simp at hcell ⊢
      rw [hcell]
      exact dot_close _ _ _ _ _ (by simp [dotCellValue, transposeIndex_pair, mul_comm])
        (by split_ifs <;> rfl)
  · -- layout [[0, 1], [1], [0]]
    simp only at hi hmp hext
    obtain ⟨M, K, rfl⟩ := length_two ext hext
    have hM : M < 2 ^ 32 := hb32 M (by simp)
    simp [hmp, inferFromExprList, AffineMap.apply] at hls hrs hds
    rw [dot_layout_run vcl constraint op maskOp rw hm hs _ (List.get_mem dotTable 8 (by decide))
      hi hmp]
    simp only [dotTable, List.get, OperandUse.dotValue, List.map]
    obtain ⟨v, rw', f, em, h1, h2, h3, h4, h5, h6⟩ := emitGrid_denote env op
      op.lhs op.rhs { ops := rw.ops ++ [] }
      dstType _ _ K w _ _ cf hres hde hlhs hls hle ha hb hc
    refine ⟨v, rw', f, [] ++ em, h1, by simp [h2], ?_,
      fun h => ⟨_, (h4 h).1, ?_⟩, h5, ?_⟩
    · simp [List.filter_append, h3, Value.isAdd]
    · rw [List.getLast?_append, (h4 h).2]
      rfl
    · intro par hpar
      obtain ⟨i, rfl, hi'⟩ := inBounds_two par M K hpar
      have hrank : dstType.getRank = 1 := by simp [VectorType.getRank, hds]
      have hcell := h6 i 0
        (by simp [dotRows, hds, toUInt32_of_lt M hM]; omega)
        (by simp [dotColumns, hrank, hds, toUInt32_of_lt M hM]; try omega)
      simp only [hrank, dotPos] at hcell
      simp only [hmp, inferFromExprList, AffineMap.apply, referenceContract]
      simp at hcell ⊢
      rw [hcell]
      exact dot_close _ _ _ _ _ (by simp [dotCellValue, transposeIndex_pair, mul_comm])
        (by split_ifs <;> rfl)
  · -- layout [[1, 0], [1], [0]]
    simp only at hi hmp hext
    obtain ⟨M, K, rfl⟩ := length_two ext hext
    have hM : M < 2 ^ 32 := hb32 M (by simp)
    simp [hmp, inferFromExprList, AffineMap.apply] at hls hrs hds
    rw [dot_layout_run vcl constraint op maskOp rw hm hs _ (List.get_mem dotTable 9 (by decide))
      hi hmp]
    simp only [dotTable, List.get, OperandUse.dotValue, List.map]
    obtain ⟨v, rw', f, em, h1, h2, h3, h4, h5, h6⟩ := emitGrid_denote env op
      (.transpose op.lhs [1, 0]) op.rhs { ops := rw.ops ++ [.transpose op.lhs [1, 0]] }
      dstType _ _ K w _ _ cf hres hde (transpose_getType _ _ _ hlhs) (by rw [hls]; rfl) hle (denote_transpose env _ _ _ ha) hb hc
    refine ⟨v, rw', f, [.transpose op.lhs [1, 0]] ++ em, h1, by simp [h2], ?_,
      fun h => ⟨_, (h4 h).1, ?_⟩, h5, ?_⟩
    · simp [List.filter_append, h3, Value.isAdd]
    · rw [List.getLast?_append, (h4 h).2]
      rfl
    · intro par hpar
      obtain ⟨i, rfl, hi'⟩ := inBounds_two par M K hpar
      have hrank : dstType.getRank = 1 := by simp [VectorType.getRank, hds]
      have hcell := h6 i 0
        (by simp [dotRows, hds, toUInt32_of_lt M hM]; omega)
        (by simp [dotColumns, hrank, hds, toUInt32_of_lt M hM]; try omega)
      simp only [hrank, dotPos] at hcell
      simp only [hmp, inferFromExprList, AffineMap.apply, referenceContract]
      simp at hcell ⊢
      rw [hcell]
      exact dot_close _ _ _ _ _ (by simp [dotCellValue, transposeIndex_pair, mul_comm])
        (by split_ifs <;> rfl)
  · -- layout [[1], [0, 1], [0]]
    simp only at hi hmp hext
    obtain ⟨M, K, rfl⟩ := length_two ext hext
    have hM : M < 2 ^ 32 := hb32 M (by simp)
    simp [hmp, inferFromExprList, AffineMap.apply] at hls hrs hds
    rw [dot_layout_run vcl constraint op maskOp rw hm hs _ (List.get_mem dotTable 10 (by decide))
      hi hmp]
    simp only [dotTable, List.get, OperandUse.dotValue, List.map]
    obtain ⟨v, rw', f, em, h1, h2, h3, h4, h5, h6⟩ := emitGrid_denote env op
      op.rhs op.lhs { ops := rw.ops ++ [] }
      dstType _ _ K w _ _ cf hres hde hrhs hrs hre hb ha hc
    refine ⟨v, rw', f, [] ++ em, h1, by simp [h2], ?_,
      fun h => ⟨_, (h4 h).1, ?_⟩, h5, ?_⟩
    · simp [List.filter_append, h3, Value.isAdd]
    · rw [List.getLast?_append, (h4 h).2]
      rfl
    · intro par hpar
      obtain ⟨i, rfl, hi'⟩ := inBounds_two par M K hpar
      have hrank : dstType.getRank = 1 := by simp [VectorType.getRank, hds]
      have hcell := h6 i 0
        (by simp [dotRows, hds, toUInt32_of_lt M hM]; omega)
        (by simp [dotColumns, hrank, hds, toUInt32_of_lt M hM]; try omega)
      simp only [hrank, dotPos] at hcell
      simp only [hmp, inferFromExprList, AffineMap.apply, referenceContract]
      simp at hcell ⊢
      rw [hcell]
      exact dot_close _ _ _ _ _ (by simp [dotCellValue, transposeIndex_pair, mul_comm])
        (by split_ifs <;> rfl)
  · -- layout [[1], [1, 0], [0]]
    simp only at hi hmp hext
    obtain ⟨M, K, rfl⟩ := length_two ext hext
    have hM : M < 2 ^ 32 := hb32 M (by simp)
    simp [hmp, inferFromExprList, AffineMap.apply] at hls hrs hds
    rw [dot_layout_run vcl constraint op maskOp rw hm hs _ (List.get_mem dotTable 11 (by decide))
      hi hmp]
    simp only [dotTable, List.get, OperandUse.dotValue, List.map]
    obtain ⟨v, rw', f, em, h1, h2, h3, h4, h5, h6⟩ := emitGrid_denote env op
      (.transpose op.rhs [1, 0]) op.lhs { ops := rw.ops ++ [.transpose op.rhs [1, 0]] }
      dstType _ _ K w _ _ cf hres hde (transpose_getType _ _ _ hrhs) (by rw [hrs]; rfl) hre (denote_transpose env _ _ _ hb) ha hc
    refine ⟨v, rw', f, [.transpose op.rhs [1, 0]] ++ em, h1, by simp [h2], ?_,
      fun h => ⟨_, (h4 h).1, ?_⟩, h5, ?_⟩
    · simp [List.filter_append, h3, Value.isAdd]
    · rw [List.getLast?_append, (h4 h).2]
      rfl
    · intro par hpar
      obtain ⟨i, rfl, hi'⟩ := inBounds_two par M K hpar
      have hrank : dstType.getRank = 1 := by simp [VectorType.getRank, hds]
      have hcell := h6 i 0
        (by simp [dotRows, hds, toUInt32_of_lt M hM]; omega)
        (by simp [dotColumns, hrank, hds, toUInt32_of_lt M hM]; try omega)
      simp only [hrank, dotPos] at hcell
      simp only [hmp, inferFromExprList, AffineMap.apply, referenceContract]
      simp at hcell ⊢
      rw [hcell]
      exact dot_close _ _ _ _ _ (by simp [dotCellValue, transposeIndex_pair, mul_comm])
        (by split_ifs <;> rfl)

/-- C2 (dot-product lowering correctness). For every unmasked contraction with one of
the twelve layouts of `ContractionOpToDotLowering`, strategy `Dot`, kind `ADD`, one
integer element type, operand and result shapes given by the maps from label extents
`ext` below `2 ^ 32`, the pattern succeeds and the returned value holds at every
in-bounds result position the reference contraction: the sum over the reduction axis
of the products of the lhs and rhs elements, plus the accumulator when present. The
accumulator add is the only add created, is created last and is the returned value;
without an accumulator no add is created. -/
theorem dot_lowering_correct (env : Nat → Elem) (constraint : FilterConstraintType)
    (op : ContractionOp) (rewriter : PatternRewriter) (ext : List Nat)
    (lt rt dstType : VectorType) (w : Nat) (a b cf : Elem)
    (hl : op.HasDotLayout) (_hkind : op.kind = .ADD)
    (hext : ext.length = op.iteratorTypes.length)
    (hlhs : op.lhs.getType = .vector lt) (hrhs : op.rhs.getType = .vector rt)
    (hres : op.resultType = .vector dstType)
    (hls : lt.shape = AffineMap.apply (op.indexingMaps.getD 0 ⟨0, []⟩) ext)
    (hrs : rt.shape = AffineMap.apply (op.indexingMaps.getD 1 ⟨0, []⟩) ext)
    (hds : dstType.shape = AffineMap.apply (op.indexingMaps.getD 2 ⟨0, []⟩) ext)
    (hle : lt.elementType = .integer w) (hre : rt.elementType = .integer w)
    (hde : dstType.elementType = .integer w)
    (hb32 : ∀ x ∈ ext, x < 2 ^ 32)
    (ha : denote env op.lhs = some a) (hb : denote env op.rhs = some b)
    (hc : op.acc.isNull = false → denote env op.acc = some cf) :
    ∃ (v : Value) (rewriter' : PatternRewriter) (f : Elem) (em : List Value),
      (ContractionOpToDotLowering.new .Dot constraint).matchAndRewriteMaskableOp op .null
        rewriter = (.success v, rewriter') ∧
      rewriter'.ops = rewriter.ops ++ em ∧
      em.filter Value.isAdd = (if op.acc.isNull then [] else [v]) ∧
      (op.acc.isNull = false → ∃ g, v = .binary .addi g op.acc ∧ em.getLast? = some v) ∧
      denote env v = some f ∧
      ∀ par, InBounds par ext →
        f (AffineMap.apply (op.indexingMaps.getD 2 ⟨0, []⟩) (par ++ [0])) =
          referenceContract op.indexingMaps (ext.getD (ext.length - 1) 0) w a b
            (if op.acc.isNull then (fun _ => 0) else cf) par := by
  obtain ⟨e, he, hi, hmp⟩ := hl
  exact dot_lowering_denote env .Dot constraint op .null rewriter e ext lt rt dstType w a b cf
    rfl rfl he hi hmp (by rw [hext, hi]) hlhs hrhs hres hls hrs hds hle hre hde hb32 ha hb hc

/-- Instance of C2 at `sampleMatmatNoAcc` (a `2x3` by `3x2` multiply without
accumulator). -/
theorem dot_lowering_correct_witness :
    ∃ (v : Value) (rewriter' : PatternRewriter) (f : Elem) (em : List Value),
      sampleDotPattern.matchAndRewriteMaskableOp sampleMatmatNoAcc .null ⟨[]⟩ =
        (.success v, rewriter') ∧
      rewriter'.ops = [] ++ em ∧
      em.filter Value.isAdd = (if sampleMatmatNoAcc.acc.isNull then [] else [v]) ∧
      (sampleMatmatNoAcc.acc.isNull = false →
        ∃ g, v = .binary .addi g sampleMatmatNoAcc.acc ∧ em.getLast? = some v) ∧
      denote sampleEnv v = some f ∧
      ∀ par, InBounds par [2, 2, 3] →
        f (AffineMap.apply (sampleMatmatNoAcc.indexingMaps.getD 2 ⟨0, []⟩) (par ++ [0])) =
          referenceContract sampleMatmatNoAcc.indexingMaps 3 8 (sampleEnv 0) (sampleEnv 1)
            (if sampleMatmatNoAcc.acc.isNull then (fun _ => 0) else sampleEnv 2) par :=
  dot_lowering_correct sampleEnv defaultFilter sampleMatmatNoAcc ⟨[]⟩ [2, 2, 3]
    { shape := [2, 3], scalableDims := [false, false], elementType := .integer 8 }
    { shape := [3, 2], scalableDims := [false, false], elementType := .integer 8 }
    { shape := [2, 2], scalableDims := [false, false], elementType := .integer 8 }
    8 (sampleEnv 0) (sampleEnv 1) (sampleEnv 2)
    ⟨⟨[.parallel, .parallel, .reduction], [[0, 2], [2, 1], [0, 1]], .lhs, .rhsT, [.rhsT]⟩,
      by decide, rfl, rfl⟩
    rfl rfl rfl rfl rfl rfl rfl rfl rfl rfl rfl (by decide) rfl rfl
    (fun h => absurd h (by decide))

/-- Instance of C8 at `sampleMatmat`. -/
theorem dot_acceptance_witness :
    (Value.null.isNull = false →
      (sampleDotPattern.matchAndRewriteMaskableOp sampleMatmat .null ⟨[]⟩).1 = .failure) ∧
    (VectorContractLowering.Dot ≠ .Dot →
      (sampleDotPattern.matchAndRewriteMaskableOp sampleMatmat .null ⟨[]⟩).1 = .failure) ∧
    (¬ sampleMatmat.HasDotLayout →
      (sampleDotPattern.matchAndRewriteMaskableOp sampleMatmat .null ⟨[]⟩).1 = .failure) ∧
    (Value.null.isNull = true → VectorContractLowering.Dot = .Dot → sampleMatmat.HasDotLayout →
      (sampleDotPattern.matchAndRewriteMaskableOp sampleMatmat .null ⟨[]⟩).1.succeeded = true) ∧
    (sampleMatmat.iteratorTypes = [.reduction, .parallel] →
      (sampleDotPattern.matchAndRewriteMaskableOp sampleMatmat .null ⟨[]⟩).1 = .failure) :=
  dot_acceptance .Dot defaultFilter sampleMatmat .null ⟨[]⟩ (by decide) (fun _ => rfl)

/-! ## Claims on the outer-product and dot patterns together -/

/-- C1 (outer-product equivalence). For an unmasked contraction with iterators
(parallel, parallel, reduction), kind `ADD`, one integer element type on lhs, rhs and
acc, maps equal to one of the eight layouts of `matmat`, and a non-scalable reduction
extent `R` (positive, representable in the C++ `int` of `outerProd`), `matmat`
succeeds and the value it returns denotes, at every result index given by the result
map, the reference contraction `acc + sum over k < R of lhs * rhs` indexed by the
three maps, on machine integers of the element width. -/
theorem outerProduct_matmat_equivalence (op : ContractionOp) (rewriter : PatternRewriter)
    (env : Nat → Elem) (l : List (List Nat)) (lt rt ct : VectorType) (w : Nat)
    (a b c : Elem) (hl : l ∈ matmatLayouts)
    (hiters : op.iteratorTypes = [.parallel, .parallel, .reduction])
    (hmaps : op.indexingMaps = inferFromExprList l)
    (hkind : op.kind = .ADD) (hmask : op.maskingOp = .null)
    (hlhs : op.lhs.getType = .vector lt) (hrhs : op.rhs.getType = .vector rt)
    (hacc : op.acc.getType = .vector ct)
    (hlr : lt.shape.length = 2) (hrr : rt.shape.length = 2)
    (hle : lt.elementType = .integer w) (hre : rt.elementType = .integer w)
    (hce : ct.elementType = .integer w)
    (hns : lt.scalableDims.getD (List.indexOf 2 (l.getD 0 [])) false = false)
    (hR0 : 0 < lt.getDimSize (List.indexOf 2 (l.getD 0 [])))
    (hR : lt.getDimSize (List.indexOf 2 (l.getD 0 [])) < 2 ^ 31)
    (ha : denote env op.lhs = some a) (hb : denote env op.rhs = some b)
    (hc : denote env op.acc = some c) :
    ∃ v rewriter' f,
      (UnrolledOuterProductGenerator.new op).matmat rewriter = (.success v, rewriter') ∧
      v.getType = op.acc.getType ∧ denote env v = some f ∧
      ∀ i j, f (AffineMap.apply (op.indexingMaps.getD 2 ⟨0, []⟩) [i, j, 0]) =
        referenceMatmat op.indexingMaps (lt.getDimSize (List.indexOf 2 (l.getD 0 []))) w
          a b c i j :=
  matmat_denote op rewriter env l lt rt ct w a b c hl hiters hmaps hkind hmask hlhs hrhs hacc
    hlr hrr hle hre hce hns hR0 hR ha hb hc

/-- Instance of C1 at the row-major `2x3` by `3x2` multiply `sampleMatmat`. -/
theorem outerProduct_matmat_equivalence_witness :
    ∃ v rewriter' f,
      (UnrolledOuterProductGenerator.new sampleMatmat).matmat ⟨[]⟩ = (.success v, rewriter') ∧
      v.getType = sampleMatmat.acc.getType ∧ denote sampleEnv v = some f ∧
      ∀ i j, f (AffineMap.apply (sampleMatmat.indexingMaps.getD 2 ⟨0, []⟩) [i, j, 0]) =
        referenceMatmat sampleMatmat.indexingMaps 3 8 (sampleEnv 0) (sampleEnv 1)
          (sampleEnv 2) i j :=
  outerProduct_matmat_equivalence sampleMatmat ⟨[]⟩ sampleEnv [[0, 2], [2, 1], [0, 1]]
    { shape := [2, 3], scalableDims := [false, false], elementType := .integer 8 }
    { shape := [3, 2], scalableDims := [false, false], elementType := .integer 8 }
    { shape := [2, 2], scalableDims := [false, false], elementType := .integer 8 }
    8 (sampleEnv 0) (sampleEnv 1) (sampleEnv 2)
    (by decide) rfl rfl rfl rfl rfl rfl rfl rfl rfl rfl rfl rfl
    (by decide) (by decide) (by decide) rfl rfl rfl

theorem outer_of_matmat (self : ContractionOpToOuterProductOpLowering) (op : ContractionOp)
    (maskOp : Value) (rw : PatternRewriter) (v : Value) (rw' : PatternRewriter)
    (hs : self.vectorContractLowering = .OuterProduct) (hf : self.filter op = .success)
    (h : (UnrolledOuterProductGenerator.new op).matmat rw = (.success v, rw')) :
    self.matchAndRewriteMaskableOp op maskOp rw = (.success v, rw') := by
  simp [ContractionOpToOuterProductOpLowering.matchAndRewriteMaskableOp, hs, hf,
    LogicalResult.failed, h, FailureOr.succeeded]

theorem matmat_layout_shape (l : List (List Nat)) (hl : l ∈ matmatLayouts)
    (lt rt : VectorType) (M N K : Nat)
    (hls : lt.shape = AffineMap.apply ((inferFromExprList l).getD 0 ⟨0, []⟩) [M, N, K])
    (hrs : rt.shape = AffineMap.apply ((inferFromExprList l).getD 1 ⟨0, []⟩) [M, N, K]) :
    lt.getDimSize (List.indexOf 2 (l.getD 0 [])) = K ∧ lt.shape.length = 2 ∧
      rt.shape.length = 2 := by
  simp only [matmatLayouts, List.mem_cons, List.mem_singleton, List.not_mem_nil, or_false] at hl
  rcases hl with rfl | rfl | rfl | rfl | rfl | rfl | rfl | rfl <;>
  · simp [inferFromExprList, AffineMap.apply] at hls hrs
    simp +decide [VectorType.getDimSize, hls, hrs]

theorem matmat_layout_in_dotTable :
    ∀ l ∈ matmatLayouts, ∃ e ∈ dotTable,
      e.iters = [.parallel, .parallel, .reduction] ∧ e.layout = l := by
  decide

/-- C3 (dot vs outer-product agreement). For every unmasked matmat contraction (one of
the eight layouts) with one integer element type, kind `ADD`, an accumulator of the
result type, shapes given by the maps from extents `M, N, K` (below `2 ^ 32`, the
reduction extent `K` positive, below `2 ^ 31` and not scalable), the outer-product
pattern (strategy `OuterProduct`) and the dot pattern (strategy `Dot`) both succeed,
and the values they return are equal at every in-bounds result position. -/
theorem dot_outer_agreement (env : Nat → Elem)
    (outer : ContractionOpToOuterProductOpLowering) (constraint : FilterConstraintType)
    (op : ContractionOp) (rewriter : PatternRewriter) (l : List (List Nat))
    (M N K : Nat) (lt rt ct : VectorType) (w : Nat) (a b c : Elem)
    (hso : outer.vectorContractLowering = .OuterProduct) (hfo : outer.filter op = .success)
    (hl : l ∈ matmatLayouts)
    (hiters : op.iteratorTypes = [.parallel, .parallel, .reduction])
    (hmaps : op.indexingMaps = inferFromExprList l)
    (hkind : op.kind = .ADD) (hmask : op.maskingOp = .null)
    (hlhs : op.lhs.getType = .vector lt) (hrhs : op.rhs.getType = .vector rt)
    (hacc : op.acc.getType = .vector ct) (hres : op.resultType = .vector ct)
    (hls : lt.shape = AffineMap.apply (op.indexingMaps.getD 0 ⟨0, []⟩) [M, N, K])
    (hrs : rt.shape = AffineMap.apply (op.indexingMaps.getD 1 ⟨0, []⟩) [M, N, K])
    (hcs : ct.shape = AffineMap.apply (op.indexingMaps.getD 2 ⟨0, []⟩) [M, N, K])
    (hle : lt.elementType = .integer w) (hre : rt.elementType = .integer w)
    (hce : ct.elementType = .integer w)
    (hns : lt.scalableDims.getD (List.indexOf 2 (l.getD 0 [])) false = false)
    (hK0 : 0 < K) (hK : K < 2 ^ 31) (hM : M < 2 ^ 32) (hN : N < 2 ^ 32)
    (ha : denote env op.lhs = some a) (hb : denote env op.rhs = some b)
    (hc : denote env op.acc = some c) :
    ∃ (v1 v2 : Value) (rw1 rw2 : PatternRewriter) (f1 f2 : Elem),
      outer.matchAndRewriteMaskableOp op .null rewriter = (.success v1, rw1) ∧
      (ContractionOpToDotLowering.new .Dot constraint).matchAndRewriteMaskableOp op .null
        rewriter = (.success v2, rw2) ∧
      denote env v1 = some f1 ∧ denote env v2 = some f2 ∧
      ∀ i j, i < M → j < N →
        f1 (AffineMap.apply (op.indexingMaps.getD 2 ⟨0, []⟩) [i, j, 0]) =
          f2 (AffineMap.apply (op.indexingMaps.getD 2 ⟨0, []⟩) [i, j, 0]) := by
  have hsh := matmat_layout_shape l hl lt rt M N K (by rw [← hmaps]; exact hls)
    (by rw [← hmaps]; exact hrs)
  obtain ⟨hKeq, hlr, hrr⟩ := hsh
  obtain ⟨v1, rw1, f1, h1, -, hd1, hf1⟩ := matmat_denote op rewriter env l lt rt ct w a b c hl
    hiters hmaps hkind hmask hlhs hrhs hacc hlr hrr hle hre hce hns (by rw [hKeq]; exact hK0)
    (by rw [hKeq]; exact hK) ha hb hc
  obtain ⟨e, he, hei, hel⟩ := matmat_layout_in_dotTable l hl
  have hnn : op.acc.isNull = false := isNull_of_vector _ _ hacc
  obtain ⟨v2, rw2, f2, em, h2, -, -, -, hd2, hf2⟩ := dot_lowering_denote env .Dot constraint op
    .null rewriter e [M, N, K] lt rt ct w a b c rfl rfl he (by rw [hiters, hei])
    (by rw [hmaps, hel]) (by rw [hei]; rfl) hlhs hrhs hres hls hrs hcs hle hre hce
    (by
      intro x hx
      simp only [List.mem_cons, List.mem_singleton, List.not_mem_nil, or_false] at hx
      rcases hx with rfl | rfl | rfl
      · exact hM
      · exact hN
      · exact lt_trans hK (by decide))
    ha hb (fun _ => hc)
  refine ⟨v1, v2, rw1, rw2, f1, f2, outer_of_matmat outer op .null rewriter v1 rw1 hso hfo h1,
    h2, hd1, hd2, ?_⟩
  intro i j hi hj
  have e1 := hf1 i j
  have e2 := hf2 [i, j] ⟨rfl, by
    intro n hn
    have hn2 : n < 2 := hn
    interval_cases n
    · exact hi
    · exact hj⟩
  rw [hKeq] at e1
  simp only [hnn, Bool.false_eq_true, if_false, List.length_cons, List.length_nil] at e2
  rw [e1]
  exact e2.symm

/-- Instance of C3 at the row-major `2x3` by `3x2` multiply `sampleMatmat`. -/
theorem dot_outer_agreement_witness :
    ∃ (v1 v2 : Value) (rw1 rw2 : PatternRewriter) (f1 f2 : Elem),
      sampleOuterProductPattern.matchAndRewriteMaskableOp sampleMatmat .null ⟨[]⟩ =
        (.success v1, rw1) ∧
      (ContractionOpToDotLowering.new .Dot defaultFilter).matchAndRewriteMaskableOp sampleMatmat
        .null ⟨[]⟩ = (.success v2, rw2) ∧
      denote sampleEnv v1 = some f1 ∧ denote sampleEnv v2 = some f2 ∧
      ∀ i j, i < 2 → j < 2 →
        f1 (AffineMap.apply (sampleMatmat.indexingMaps.getD 2 ⟨0, []⟩) [i, j, 0]) =
          f2 (AffineMap.apply (sampleMatmat.indexingMaps.getD 2 ⟨0, []⟩) [i, j, 0]) :=
  dot_outer_agreement sampleEnv sampleOuterProductPattern defaultFilter sampleMatmat ⟨[]⟩
    [[0, 2], [2, 1], [0, 1]] 2 2 3
    { shape := [2, 3], scalableDims := [false, false], elementType := .integer 8 }
    { shape := [3, 2], scalableDims := [false, false], elementType := .integer 8 }
    { shape := [2, 2], scalableDims := [false, false], elementType := .integer 8 }
    8 (sampleEnv 0) (sampleEnv 1) (sampleEnv 2)
    rfl rfl (by decide) rfl rfl rfl rfl rfl rfl rfl rfl rfl rfl rfl rfl rfl rfl rfl
    (by decide) (by decide) (by decide) (by decide) rfl rfl rfl

/-! ## The elementwise pattern -/

theorem NoReductionFrom.refl (rw : PatternRewriter) : NoReductionFrom rw rw :=
  ⟨[], by simp, rfl⟩

theorem NoReductionFrom.create {rw rw1 : PatternRewriter} (h : NoReductionFrom rw rw1)
    (v : Value) (hv : v.isReduction = false) : NoReductionFrom rw (rw1.create v).2 := by
  obtain ⟨em, h1, h2⟩ := h
  exact ⟨em ++ [v], by simp [PatternRewriter.create, h1], by simp [List.filter_append, h2, hv]⟩

theorem selectPassthru_noReduction {rw rw1 : PatternRewriter} (h : NoReductionFrom rw rw1)
    (mask nv pt : Value) : NoReductionFrom rw (selectPassthru rw1 mask nv pt).2 := by
  unfold selectPassthru
  split
  · exact h
  · apply NoReductionFrom.create h
    rfl

theorem makeArithReduction_noReduction {rw rw1 : PatternRewriter} (h : NoReductionFrom rw rw1)
    (kind : CombiningKind) (v1 acc mask : Value) :
    NoReductionFrom rw (makeArithReduction rw1 kind v1 acc mask).2 := by
  unfold makeArithReduction
  dsimp only
  repeat' split
  all_goals first
    | exact h
    | (apply selectPassthru_noReduction
       apply NoReductionFrom.create h
       rfl)

theorem combine_noReduction {rw rw1 : PatternRewriter} (mul : Value)
    (h : NoReductionFrom rw rw1) (acc : Value) (kind : CombiningKind) (mask : Value) :
    NoReductionFrom rw (createContractArithOp.combine (mul, rw1) acc kind mask).2 := by
  unfold createContractArithOp.combine
  dsimp only
  split
  · exact h
  · exact makeArithReduction_noReduction h _ _ _ _

theorem createContractArithOp_noReduction {rw rw1 : PatternRewriter}
    (h : NoReductionFrom rw rw1) (x y acc : Value) (kind : CombiningKind) (isInt : Bool)
    (mask : Value) :
    NoReductionFrom rw (createContractArithOp x y acc kind rw1 isInt mask).2 := by
  have hmul : ∀ v : Value, v.isReduction = false →
      NoReductionFrom rw (createContractArithOp.combine (rw1.create v) acc kind mask).2 := by
    intro v hv
    exact combine_noReduction v (h.create v hv) acc kind mask
  unfold createContractArithOp
  dsimp only
  split_ifs
  · exact h
  · exact hmul _ rfl
  · exact h
  · apply selectPassthru_noReduction
    apply NoReductionFrom.create h
    rfl
  · apply NoReductionFrom.create h
    rfl
  · exact hmul _ rfl

theorem broadcastOperand_noReduction {rw rw1 : PatternRewriter} (h : NoReductionFrom rw rw1)
    (v : Value) (dims shape : List Nat) (e : ElementType) :
    NoReductionFrom rw (ContractOpToElementwise.broadcastOperand v dims shape e rw1).2 := by
  unfold ContractOpToElementwise.broadcastOperand
  split
  · apply NoReductionFrom.create h
    rfl
  · exact h

/-- C9. `ContractOpToElementwise` returns failure (creating nothing) whenever a masking
wrapper is attached, whenever the strategy is not `ParallelArith`, and whenever some lhs
or rhs axis mapped to a reduction iterator has an extent other than 1; if it succeeds,
every reduction axis of both operands has extent exactly 1 and no reduction operation
is among the created operations. -/
theorem elementwise_acceptance (self : ContractOpToElementwise) (op : ContractionOp)
    (maskOp : Value) (rewriter : PatternRewriter) :
    (maskOp.isNull = false →
      self.matchAndRewriteMaskableOp op maskOp rewriter = (.failure, rewriter)) ∧
    (self.vectorContractLowering ≠ .ParallelArith →
      self.matchAndRewriteMaskableOp op maskOp rewriter = (.failure, rewriter)) ∧
    ((∃ dim ∈ getReductionIndex (op.indexingMaps.getD 0 ⟨0, []⟩) op.iteratorTypes,
        op.getLhsType.shape.getD dim 0 ≠ 1) ∨
      (∃ dim ∈ getReductionIndex (op.indexingMaps.getD 1 ⟨0, []⟩) op.iteratorTypes,
        op.getRhsType.shape.getD dim 0 ≠ 1) →
      self.matchAndRewriteMaskableOp op maskOp rewriter = (.failure, rewriter)) ∧
    ((self.matchAndRewriteMaskableOp op maskOp rewriter).1.succeeded = true →
      (∀ dim ∈ getReductionIndex (op.indexingMaps.getD 0 ⟨0, []⟩) op.iteratorTypes,
        op.getLhsType.shape.getD dim 0 = 1) ∧
      (∀ dim ∈ getReductionIndex (op.indexingMaps.getD 1 ⟨0, []⟩) op.iteratorTypes,
        op.getRhsType.shape.getD dim 0 = 1) ∧
      NoReductionFrom rewriter (self.matchAndRewriteMaskableOp op maskOp rewriter).2) := by
  refine ⟨fun h => ?_, fun h => ?_, fun h => ?_, fun h => ?_⟩
  · simp [ContractOpToElementwise.matchAndRewriteMaskableOp, h]
  · unfold ContractOpToElementwise.matchAndRewriteMaskableOp
    dsimp only
    split_ifs <;> rfl
  · unfold ContractOpToElementwise.matchAndRewriteMaskableOp
    dsimp only
    split_ifs with h1 h2 h3 h4 h5
    · rfl
    · rfl
    · rfl
    · rfl
    · rfl
    · exfalso
      rcases h with ⟨dim, hd, hne⟩ | ⟨dim, hd, hne⟩
      · exact h4 (List.any_eq_true.mpr ⟨dim, hd, by simpa using hne⟩)
      · exact h5 (List.any_eq_true.mpr ⟨dim, hd, by simpa using hne⟩)
  · unfold ContractOpToElementwise.matchAndRewriteMaskableOp at h ⊢
    dsimp only at h ⊢
    split_ifs at h ⊢ with h1 h2 h3 h4 h5
    all_goals try (simp [FailureOr.succeeded] at h; done)
    refine ⟨?_, ?_, ?_⟩
    · intro dim hd
      by_contra hne
      exact h4 (List.any_eq_true.mpr ⟨dim, hd, by simpa using hne⟩)
    · intro dim hd
      by_contra hne
      exact h5 (List.any_eq_true.mpr ⟨dim, hd, by simpa using hne⟩)
    · split <;>
      · apply createContractArithOp_noReduction
        apply NoReductionFrom.create
        apply NoReductionFrom.create
        apply NoReductionFrom.create
        apply NoReductionFrom.create
        apply broadcastOperand_noReduction
        apply broadcastOperand_noReduction
        exact NoReductionFrom.refl rewriter
        all_goals rfl

/-- Instance of C9 at `sampleUnitReduction`, on which the pattern succeeds. -/
theorem elementwise_acceptance_witness :
    (sampleElementwisePattern.matchAndRewriteMaskableOp sampleUnitReduction .null ⟨[]⟩).1.succeeded
        = true ∧
      (∀ dim ∈ getReductionIndex (sampleUnitReduction.indexingMaps.getD 0 ⟨0, []⟩)
          sampleUnitReduction.iteratorTypes,
        sampleUnitReduction.getLhsType.shape.getD dim 0 = 1) ∧
      (∀ dim ∈ getReductionIndex (sampleUnitReduction.indexingMaps.getD 1 ⟨0, []⟩)
          sampleUnitReduction.iteratorTypes,
        sampleUnitReduction.getRhsType.shape.getD dim 0 = 1) ∧
      NoReductionFrom ⟨[]⟩
        (sampleElementwisePattern.matchAndRewriteMaskableOp sampleUnitReduction .null ⟨[]⟩).2 :=
  ⟨by decide,
    (elementwise_acceptance sampleElementwisePattern sampleUnitReduction .null ⟨[]⟩).2.2.2
      (by decide)⟩

/-! ## The operand plans of the elementwise pattern -/

open ContractOpToElementwise

theorem countBelow_succ (q : Nat → Bool) (k : Nat) :
    countBelow q (k + 1) = countBelow q k + (if q k then 1 else 0) := by
  unfold countBelow
  rw [List.range_succ, List.filter_append, List.length_append]
  by_cases h : q k = true <;> simp [List.filter_cons, h]

theorem countBelow_mono (q : Nat → Bool) {i j : Nat} (h : i ≤ j) :
    countBelow q i ≤ countBelow q j :=
  ((List.range_sublist.mpr h).filter q).length_le

theorem countBelow_lt (q : Nat → Bool) {i j : Nat} (h : i < j) (hq : q i = true) :
    countBelow q i < countBelow q j := by
  have h1 := countBelow_succ q i
  have h2 : countBelow q (i + 1) ≤ countBelow q j := countBelow_mono q (Nat.succ_le_of_lt h)
  simp only [hq, if_true] at h1
  omega

theorem countBelow_le (q : Nat → Bool) (k : Nat) : countBelow q k ≤ k := by
  have := List.length_filter_le q (List.range k)
  simpa [countBelow] using this

theorem countBelow_add_not (q : Nat → Bool) (k : Nat) :
    countBelow q k + countBelow (fun i => !q i) k = k := by
  induction k with
  | zero => simp [countBelow]
  | succ k ih =>
      rw [countBelow_succ, countBelow_succ]
      cases h : q k
      · simp only [Bool.false_eq_true, if_false, Bool.not_false, if_true]; omega
      · simp only [if_true, Bool.not_true, Bool.false_eq_true, if_false]; omega

/-- The `countBelow q i`-th index satisfying `q` is `i` itself. -/
theorem filter_getD_countBelow (q : Nat → Bool) (f : Nat → Nat) (k i : Nat) (hi : i < k)
    (hq : q i = true) :
    (((List.range k).filter q).map f).getD (countBelow q i) 0 = f i := by
  induction k with
  | zero => omega
  | succ k ih =>
      rw [List.range_succ, List.filter_append, List.map_append]
      by_cases hik : i < k
      · rw [List.getD_append _ _ _ _ (by
          rw [List.length_map]; exact countBelow_lt q hik hq)]
        exact ih hik
      · have hik2 : i = k := by omega
        subst hik2
        rw [List.getD_append_right _ _ _ _ (by rw [List.length_map]; exact le_refl _)]
        simp [List.filter_cons, hq, countBelow]

theorem map_getD_range (l : List Nat) :
    (List.range l.length).map (fun i => l.getD i 0) = l := by
  apply List.ext_getElem
  · simp
  · intro n h1 h2
    simp [List.getD_eq_getElem?_getD, List.getElem?_eq_getElem h2]

theorem countBelow_getD (l : List Nat) (q : Nat → Bool) :
    countBelow (fun i => q (l.getD i 0)) l.length = (l.filter q).length := by
  conv_rhs => rw [← map_getD_range l, List.filter_map, List.length_map]
  rfl

theorem length_filter_mem_comm (l1 l2 : List Nat) (h1 : l1.Nodup) (h2 : l2.Nodup) :
    (l1.filter (fun x => decide (x ∈ l2))).length = (l2.filter (fun x => decide (x ∈ l1))).length := by
  apply List.Perm.length_eq
  rw [List.perm_ext_iff_of_nodup (h1.filter _) (h2.filter _)]
  intro a
  simp [List.mem_filter, and_comm]

theorem getDimPosition_some (map : AffineMap) (x pos : Nat)
    (h : getDimPosition map x = some pos) :
    pos < map.results.length ∧ map.results.getD pos 0 = x := by
  unfold getDimPosition at h
  have h1 := List.find?_some h
  have h2 := List.mem_of_find?_eq_some h
  simp only [AffineMap.getDimPosition, beq_iff_eq] at h1
  exact ⟨by simpa [AffineMap.getNumResults] using h2, h1⟩

theorem getDimPosition_none (map : AffineMap) (x : Nat) (h : getDimPosition map x = none) :
    x ∉ map.results := by
  unfold getDimPosition at h
  rw [List.find?_eq_none] at h
  intro hx
  obtain ⟨n, hn, hnx⟩ := List.mem_iff_getElem.mp hx
  apply h n (by simpa [AffineMap.getNumResults] using hn)
  simp [AffineMap.getDimPosition, List.getD_eq_getElem?_getD, List.getElem?_eq_getElem hn, hnx]

theorem getD_mem (l : List Nat) (p : Nat) (h : p < l.length) : l.getD p 0 ∈ l := by
  rw [List.getD_eq_getElem _ _ h]
  exact List.getElem_mem h

theorem getD_inj_of_nodup (l : List Nat) (hl : l.Nodup) (p q : Nat) (hp : p < l.length)
    (hq : q < l.length) (h : l.getD p 0 = l.getD q 0) : p = q := by
  rw [List.getD_eq_getElem _ _ hp, List.getD_eq_getElem _ _ hq] at h
  exact (List.Nodup.getElem_inj_iff hl).mp h

theorem getDimPosition_of_nodup (map : AffineMap) (hl : map.results.Nodup) (p : Nat)
    (hp : p < map.results.length) :
    getDimPosition map (map.results.getD p 0) = some p := by
  cases h : getDimPosition map (map.results.getD p 0) with
  | none => exact absurd (getD_mem _ _ hp) (getDimPosition_none map _ h)
  | some q =>
      obtain ⟨hq, hqe⟩ := getDimPosition_some map _ q h
      rw [getD_inj_of_nodup _ hl q p hq hp hqe]

theorem getDimPosition_isNone (map accMap : AffineMap) (i : Nat) :
    (getDimPosition map (accMap.getDimPosition i)).isNone = isAbsentAxis map accMap i := by
  unfold isAbsentAxis
  cases h : getDimPosition map (accMap.getDimPosition i) with
  | none => simpa using getDimPosition_none map _ h
  | some q =>
      obtain ⟨hq, hqe⟩ := getDimPosition_some map _ q h
      have := getD_mem _ _ hq
      rw [hqe] at this
      simp [this]

theorem plan_eq (map accMap : AffineMap) (red : List Nat) (b : Nat) (rs : List Nat)
    (k : Nat) :
    plan map accMap red k b rs =
      ((((List.range k).filter (isAbsentAxis map accMap)).map (fun i => rs.getD i 0)),
        red.map (fun dim => b + dim) ++ (List.range k).map (planEntry map accMap b)) := by
  induction k with
  | zero => simp [plan]
  | succ k ih =>
      unfold plan at ih ⊢
      rw [List.range_succ, List.foldl_append, ih, List.foldl_cons, List.foldl_nil,
        List.filter_append, List.map_append, List.map_append]
      have hn := getDimPosition_isNone map accMap k
      unfold planStep planEntry
      cases h : getDimPosition map (accMap.getDimPosition k) with
      | none =>
          rw [h] at hn
          simp only [Option.isNone_none] at hn
          simp [List.filter_cons, ← hn, countBelow, h]
      | some q =>
          rw [h] at hn
          simp only [Option.isNone_some] at hn
          simp [List.filter_cons, ← hn, h]

theorem isReduction_not_parallel (it : IteratorType) :
    isReductionIterator it = !isParallelIterator it := by
  cases it <;> rfl

theorem numDimToBroadcast_eq (map accMap : AffineMap) (iteratorTypes : List IteratorType)
    (hL : map.results.Nodup) (hA : accMap.results.Nodup)
    (hpar : ∀ x ∈ map.results,
      isParallelIterator (iteratorTypes.getD x .parallel) = true → x ∈ accMap.results)
    (hres : ∀ x ∈ accMap.results, isParallelIterator (iteratorTypes.getD x .parallel) = true)
    (hP : accMap.getNumResults < 2 ^ 32) :
    numDimToBroadcast map (getReductionIndex map iteratorTypes) accMap.getNumResults =
        (absentAxes map accMap).length ∧
      (absentAxes map accMap).length + map.getNumResults =
        (getReductionIndex map iteratorTypes).length + accMap.getNumResults := by
  have hr : (getReductionIndex map iteratorTypes).length =
      (map.results.filter
        (fun x => isReductionIterator (iteratorTypes.getD x .parallel))).length :=
    countBelow_getD map.results
      (fun x => isReductionIterator (iteratorTypes.getD x .parallel))
  have hnr : (map.results.filter
        (fun x => isReductionIterator (iteratorTypes.getD x .parallel))).length +
      (map.results.filter (fun x => decide (x ∈ accMap.results))).length =
        map.results.length := by
    have h1 : map.results.filter (fun x => decide (x ∈ accMap.results)) =
        map.results.filter
          (fun x => !isReductionIterator (iteratorTypes.getD x .parallel)) := by
      apply List.filter_congr
      intro x hx
      rw [isReduction_not_parallel]
      cases hp : isParallelIterator (iteratorTypes.getD x .parallel)
      · have : x ∉ accMap.results := fun hxa => by
          have := hres x hxa
          rw [hp] at this
          exact Bool.false_ne_true this
        simp [this]
      · simp [hpar x hx hp]
    rw [h1]
    have := countBelow_add_not
      (fun i => isReductionIterator (iteratorTypes.getD (map.results.getD i 0) .parallel))
      map.results.length
    rw [countBelow_getD map.results
      (fun x => isReductionIterator (iteratorTypes.getD x .parallel)),
      countBelow_getD map.results
      (fun x => !isReductionIterator (iteratorTypes.getD x .parallel))] at this
    exact this
  have hpres : countBelow (fun i => !isAbsentAxis map accMap i) accMap.results.length =
      (map.results.filter (fun x => decide (x ∈ accMap.results))).length := by
    rw [length_filter_mem_comm _ _ hL hA]
    rw [← countBelow_getD accMap.results (fun x => decide (x ∈ map.results))]
    unfold isAbsentAxis AffineMap.getDimPosition
    congr 1
    funext i
    simp
  have habs := countBelow_add_not (isAbsentAxis map accMap) accMap.results.length
  have ha : (absentAxes map accMap).length =
      countBelow (isAbsentAxis map accMap) accMap.results.length := rfl
  have hsum : (absentAxes map accMap).length + map.getNumResults =
      (getReductionIndex map iteratorTypes).length + accMap.getNumResults := by
    unfold AffineMap.getNumResults
    omega
  refine ⟨?_, hsum⟩
  unfold numDimToBroadcast wrapUInt32
  have hle : (absentAxes map accMap).length ≤ accMap.getNumResults := by
    rw [ha]; exact countBelow_le _ _
  have he : ((accMap.getNumResults : Int) -
      ((map.getNumResults : Int) - ((getReductionIndex map iteratorTypes).length : Int))) =
      (((absentAxes map accMap).length : Nat) : Int) := by
    omega
  rw [he, Int.emod_eq_of_lt (by omega) (by omega)]
  simp

theorem planEntry_absent (map accMap : AffineMap) (b i : Nat)
    (h : isAbsentAxis map accMap i = true) :
    planEntry map accMap b i = countBelow (isAbsentAxis map accMap) i := by
  have hn := getDimPosition_isNone map accMap i
  rw [h] at hn
  unfold planEntry
  cases hg : getDimPosition map (accMap.getDimPosition i) with
  | none => rfl
  | some q => rw [hg] at hn; simp at hn

theorem planEntry_present (map accMap : AffineMap) (b i : Nat)
    (h : isAbsentAxis map accMap i = false)
    (hbd : b + map.results.length < 2 ^ 32) :
    ∃ pos, pos < map.results.length ∧ map.results.getD pos 0 = accMap.results.getD i 0 ∧
      planEntry map accMap b i = b + pos := by
  have hn := getDimPosition_isNone map accMap i
  rw [h] at hn
  unfold planEntry
  cases hg : getDimPosition map (accMap.getDimPosition i) with
  | none => rw [hg] at hn; simp at hn
  | some q =>
      obtain ⟨hq, hqe⟩ := getDimPosition_some map _ q hg
      exact ⟨q, hq, hqe, toUInt32_of_lt _ (by omega)⟩

theorem mem_getReductionIndex (map : AffineMap) (iteratorTypes : List IteratorType) (d : Nat) :
    d ∈ getReductionIndex map iteratorTypes ↔
      d < map.results.length ∧
        isReductionIterator (iteratorTypes.getD (map.results.getD d 0) .parallel) = true := by
  simp [getReductionIndex, AffineMap.getNumResults, AffineMap.getDimPosition, List.mem_filter]

theorem planEntry_lt (map accMap : AffineMap) (b i : Nat) (hi : i < accMap.results.length)
    (hb : b = (absentAxes map accMap).length)
    (hbd : b + map.results.length < 2 ^ 32) :
    planEntry map accMap b i < b + map.results.length := by
  cases h : isAbsentAxis map accMap i
  · obtain ⟨pos, hp, -, he⟩ := planEntry_present map accMap b i h hbd
    rw [he]; omega
  · rw [planEntry_absent map accMap b i h]
    have : countBelow (isAbsentAxis map accMap) i <
        countBelow (isAbsentAxis map accMap) accMap.results.length :=
      countBelow_lt _ hi h
    have hb2 : b = countBelow (isAbsentAxis map accMap) accMap.results.length := hb
    omega

theorem planEntry_injOn (map accMap : AffineMap) (b : Nat) (hA : accMap.results.Nodup)
    (hb : b = (absentAxes map accMap).length)
    (hbd : b + map.results.length < 2 ^ 32) :
    ∀ i ∈ List.range accMap.results.length, ∀ j ∈ List.range accMap.results.length,
      planEntry map accMap b i = planEntry map accMap b j → i = j := by
  intro i hi j hj hij
  rw [List.mem_range] at hi hj
  have hb2 : b = countBelow (isAbsentAxis map accMap) accMap.results.length := hb
  cases h1 : isAbsentAxis map accMap i <;> cases h2 : isAbsentAxis map accMap j
  · obtain ⟨p1, hp1, hl1, he1⟩ := planEntry_present map accMap b i h1 hbd
    obtain ⟨p2, hp2, hl2, he2⟩ := planEntry_present map accMap b j h2 hbd
    rw [he1, he2] at hij
    have hp : p1 = p2 := by omega
    subst hp
    exact getD_inj_of_nodup _ hA i j hi hj (hl1.symm.trans hl2)
  · obtain ⟨p1, hp1, hl1, he1⟩ := planEntry_present map accMap b i h1 hbd
    rw [he1, planEntry_absent map accMap b j h2] at hij
    have := countBelow_lt (isAbsentAxis map accMap) hj h2
    omega
  · obtain ⟨p2, hp2, hl2, he2⟩ := planEntry_present map accMap b j h2 hbd
    rw [he2, planEntry_absent map accMap b i h1] at hij
    have := countBelow_lt (isAbsentAxis map accMap) hi h1
    omega
  · rw [planEntry_absent map accMap b i h1, planEntry_absent map accMap b j h2] at hij
    rcases Nat.lt_trichotomy i j with hlt | heq | hgt
    · have := countBelow_lt (isAbsentAxis map accMap) hlt h1
      omega
    · exact heq
    · have := countBelow_lt (isAbsentAxis map accMap) hgt h2
      omega

theorem getReductionIndex_nodup (map : AffineMap) (iteratorTypes : List IteratorType) :
    (getReductionIndex map iteratorTypes).Nodup :=
  (List.nodup_range _).filter _

theorem plan_transpose_nodup (map accMap : AffineMap) (iteratorTypes : List IteratorType)
    (b : Nat) (hA : accMap.results.Nodup)
    (hres : ∀ x ∈ accMap.results, isParallelIterator (iteratorTypes.getD x .parallel) = true)
    (hb : b = (absentAxes map accMap).length)
    (hbd : b + map.results.length < 2 ^ 32) :
    ((getReductionIndex map iteratorTypes).map (fun dim => b + dim) ++
      (List.range accMap.results.length).map (planEntry map accMap b)).Nodup := by
  rw [List.nodup_append]
  refine ⟨(getReductionIndex_nodup map iteratorTypes).map (add_right_injective b),
    List.Nodup.map_on (planEntry_injOn map accMap b hA hb hbd) (List.nodup_range _), ?_⟩
  intro x hx1 hx2
  rw [List.mem_map] at hx1 hx2
  obtain ⟨d, hd, hdx⟩ := hx1
  obtain ⟨i, hi, hix⟩ := hx2
  rw [List.mem_range] at hi
  rw [mem_getReductionIndex] at hd
  have hb2 : b = countBelow (isAbsentAxis map accMap) accMap.results.length := hb
  cases h : isAbsentAxis map accMap i
  · obtain ⟨p, hp, hl, he⟩ := planEntry_present map accMap b i h hbd
    rw [he] at hix
    have hpd : p = d := by omega
    subst hpd
    have hpar := hres _ (getD_mem accMap.results i hi)
    rw [← hl] at hpar
    rw [isReduction_not_parallel, hpar] at hd
    simp at hd
  · rw [planEntry_absent map accMap b i h] at hix
    have := countBelow_lt (isAbsentAxis map accMap) hi h
    omega

theorem plan_transpose_perm (map accMap : AffineMap) (iteratorTypes : List IteratorType)
    (b : Nat) (hA : accMap.results.Nodup)
    (hres : ∀ x ∈ accMap.results, isParallelIterator (iteratorTypes.getD x .parallel) = true)
    (hb : b = (absentAxes map accMap).length)
    (hsum : b + map.results.length =
      (getReductionIndex map iteratorTypes).length + accMap.results.length)
    (hbd : b + map.results.length < 2 ^ 32) :
    List.Perm ((getReductionIndex map iteratorTypes).map (fun dim => b + dim) ++
      (List.range accMap.results.length).map (planEntry map accMap b))
      (List.range (b + map.results.length)) := by
  apply List.Subperm.perm_of_length_le
  · apply List.subperm_of_subset
      (plan_transpose_nodup map accMap iteratorTypes b hA hres hb hbd)
    intro x hx
    rw [List.mem_append, List.mem_map, List.mem_map] at hx
    rw [List.mem_range]
    rcases hx with ⟨d, hd, rfl⟩ | ⟨i, hi, rfl⟩
    · rw [mem_getReductionIndex] at hd
      omega
    · exact planEntry_lt map accMap b i (List.mem_range.mp hi) hb hbd
  · simp only [List.length_range, List.length_append, List.length_map]
    omega

theorem indexOf_of_getD (l : List Nat) (hnd : l.Nodup) (k y : Nat) (hk : k < l.length)
    (h : l.getD k 0 = y) : l.indexOf y = k := by
  rw [List.getD_eq_getElem _ _ hk] at h
  rw [← h]
  exact List.indexOf_getElem hnd k hk

theorem apply_getD (m : AffineMap) (point : List Nat) (i : Nat) (hi : i < m.results.length) :
    (m.apply point).getD i 0 = point.getD (m.results.getD i 0) 0 := by
  simp [AffineMap.apply, List.getD_eq_getElem?_getD, List.getElem?_eq_getElem hi]

theorem point_zero_of_unit (point ext : List Nat) (h : WithinExtents point ext) (x : Nat)
    (hx : ext.getD x 0 = 1) : point.getD x 0 = 0 := by
  have hlt : x < ext.length := by
    by_contra hge
    rw [List.getD_eq_default _ _ (by omega)] at hx
    omega
  have := h x hlt
  omega

/-- The source index the transposition reads for operand axis `p`. -/
theorem transposed_index (map accMap : AffineMap) (iteratorTypes : List IteratorType)
    (b : Nat) (ext point : List Nat) (shape : List Nat)
    (hL : map.results.Nodup) (hA : accMap.results.Nodup)
    (hpar : ∀ x ∈ map.results,
      isParallelIterator (iteratorTypes.getD x .parallel) = true → x ∈ accMap.results)
    (hres : ∀ x ∈ accMap.results, isParallelIterator (iteratorTypes.getD x .parallel) = true)
    (hb : b = (absentAxes map accMap).length)
    (hshape : shape = map.apply ext)
    (hunit : ∀ dim ∈ getReductionIndex map iteratorTypes, shape.getD dim 0 = 1)
    (hpt : WithinExtents point ext) (p : Nat) (hp : p < map.results.length)
    (hbd : b + map.results.length < 2 ^ 32) :
    (List.replicate (getReductionIndex map iteratorTypes).length 0 ++ accMap.apply point).getD
      (((getReductionIndex map iteratorTypes).map (fun dim => b + dim) ++
        (List.range accMap.results.length).map (planEntry map accMap b)).indexOf (b + p)) 0 =
      point.getD (map.results.getD p 0) 0 := by
  have hnd := plan_transpose_nodup map accMap iteratorTypes b hA hres hb hbd
  cases hred : isReductionIterator (iteratorTypes.getD (map.results.getD p 0) .parallel)
  · -- a parallel axis: its label is a result label
    have hparp : isParallelIterator (iteratorTypes.getD (map.results.getD p 0) .parallel)
        = true := by
      rw [isReduction_not_parallel] at hred
      simpa using hred
    have hmem := hpar _ (getD_mem _ _ hp) hparp
    have hi : accMap.results.indexOf (map.results.getD p 0) < accMap.results.length :=
      List.indexOf_lt_length.mpr hmem
    have hAi : accMap.results.getD (accMap.results.indexOf (map.results.getD p 0)) 0 =
        map.results.getD p 0 := by
      rw [List.getD_eq_getElem _ _ hi]
      exact List.getElem_indexOf hi
    have hentry : planEntry map accMap b (accMap.results.indexOf (map.results.getD p 0)) =
        b + p := by
      unfold planEntry AffineMap.getDimPosition
      rw [hAi, getDimPosition_of_nodup map hL p hp]
      exact toUInt32_of_lt _ (by omega)
    rw [indexOf_of_getD _ hnd
      ((getReductionIndex map iteratorTypes).length +
        accMap.results.indexOf (map.results.getD p 0)) (b + p)
      (by simp only [List.length_append, List.length_map, List.length_range]; omega)
      (by
        rw [List.getD_append_right _ _ _ _ (by rw [List.length_map]; omega)]
        simp only [List.length_map, Nat.add_sub_cancel_left]
        rw [List.getD_eq_getElem _ _ (by simpa using hi)]
        simp only [List.getElem_map, List.getElem_range]
        exact hentry)]
    rw [List.getD_append_right _ _ _ _ (by rw [List.length_replicate]; omega)]
    simp only [List.length_replicate, Nat.add_sub_cancel_left]
    rw [apply_getD accMap point _ hi, hAi]
  · -- a reduction axis: extent 1, read at offset 0
    have hmem : p ∈ getReductionIndex map iteratorTypes :=
      (mem_getReductionIndex map iteratorTypes p).mpr ⟨hp, hred⟩
    have hq : (getReductionIndex map iteratorTypes).indexOf p <
        (getReductionIndex map iteratorTypes).length := List.indexOf_lt_length.mpr hmem
    rw [indexOf_of_getD _ hnd ((getReductionIndex map iteratorTypes).indexOf p) (b + p)
      (by simp only [List.length_append, List.length_map, List.length_range]; omega)
      (by
        rw [List.getD_append _ _ _ _ (by rw [List.length_map]; exact hq)]
        rw [List.getD_eq_getElem _ _ (by simpa using hq)]
        simp [List.getElem_indexOf hq])]
    rw [List.getD_append _ _ _ _ (by rw [List.length_replicate]; exact hq)]
    have h1 := hunit p hmem
    rw [hshape, apply_getD map ext p hp] at h1
    rw [point_zero_of_unit point ext hpt _ h1]
    simp [List.getD_eq_getElem?_getD, List.getElem?_replicate, hq]

/-- Without a broadcast the transposed and extracted operand is read at the operand
index of the iteration point. -/
theorem operandIndex_plain (map accMap : AffineMap) (iteratorTypes : List IteratorType)
    (b : Nat) (ext point : List Nat) (shape : List Nat)
    (hL : map.results.Nodup) (hA : accMap.results.Nodup)
    (hpar : ∀ x ∈ map.results,
      isParallelIterator (iteratorTypes.getD x .parallel) = true → x ∈ accMap.results)
    (hres : ∀ x ∈ accMap.results, isParallelIterator (iteratorTypes.getD x .parallel) = true)
    (hb : b = (absentAxes map accMap).length) (hb0 : b = 0)
    (hsum : b + map.results.length =
      (getReductionIndex map iteratorTypes).length + accMap.results.length)
    (hshape : shape = map.apply ext)
    (hunit : ∀ dim ∈ getReductionIndex map iteratorTypes, shape.getD dim 0 = 1)
    (hpt : WithinExtents point ext)
    (hbd : b + map.results.length < 2 ^ 32) :
    transposeIndex ((getReductionIndex map iteratorTypes).map (fun dim => b + dim) ++
        (List.range accMap.results.length).map (planEntry map accMap b))
      (List.replicate (getReductionIndex map iteratorTypes).length 0 ++ accMap.apply point) =
      map.apply point := by
  apply List.ext_getElem
  · simp only [transposeIndex, AffineMap.apply, List.length_map, List.length_range,
      List.length_append]
    omega
  · intro p h1 h2
    have hp : p < map.results.length := by simpa [AffineMap.apply] using h2
    have h := transposed_index map accMap iteratorTypes b ext point shape hL hA hpar hres hb
      hshape hunit hpt p hp hbd
    have hbp : b + p = p := by omega
    rw [hbp] at h
    have h3 := apply_getD map point p hp
    rw [List.getD_eq_getElem _ _ h2] at h3
    rw [h3, ← h]
    simp only [transposeIndex, List.getElem_map, List.getElem_range]

/-- With a broadcast in front, the transposed and extracted operand is read at the
operand index of the iteration point. -/
theorem operandIndex_broadcast (map accMap : AffineMap) (iteratorTypes : List IteratorType)
    (b : Nat) (ext point : List Nat) (shape : List Nat)
    (hL : map.results.Nodup) (hA : accMap.results.Nodup)
    (hpar : ∀ x ∈ map.results,
      isParallelIterator (iteratorTypes.getD x .parallel) = true → x ∈ accMap.results)
    (hres : ∀ x ∈ accMap.results, isParallelIterator (iteratorTypes.getD x .parallel) = true)
    (hb : b = (absentAxes map accMap).length)
    (hsum : b + map.results.length =
      (getReductionIndex map iteratorTypes).length + accMap.results.length)
    (hshape : shape = map.apply ext)
    (hunit : ∀ dim ∈ getReductionIndex map iteratorTypes, shape.getD dim 0 = 1)
    (hpt : WithinExtents point ext)
    (hbd : b + map.results.length < 2 ^ 32) :
    broadcastIndex shape (b + shape.length)
      (transposeIndex ((getReductionIndex map iteratorTypes).map (fun dim => b + dim) ++
        (List.range accMap.results.length).map (planEntry map accMap b))
      (List.replicate (getReductionIndex map iteratorTypes).length 0 ++ accMap.apply point)) =
      map.apply point := by
  have hlen : shape.length = map.results.length := by
    rw [hshape]; simp [AffineMap.apply]
  apply List.ext_getElem
  · simp only [broadcastIndex, transposeIndex, AffineMap.apply, List.length_map,
      List.length_range, List.length_append, List.length_zipWith, List.length_drop]
    omega
  · intro p h1 h2
    have hp : p < map.results.length := by simpa [AffineMap.apply] using h2
    have h := transposed_index map accMap iteratorTypes b ext point shape hL hA hpar hres hb
      hshape hunit hpt p hp hbd
    have h3 := apply_getD map point p hp
    rw [List.getD_eq_getElem _ _ h2] at h3
    have hps : p < shape.length := by omega
    have hsp : shape[p] = ext.getD (map.results.getD p 0) 0 := by
      have := apply_getD map ext p hp
      rw [← List.getD_eq_getElem shape 0 hps]
      rw [hshape]
      exact this
    simp only [broadcastIndex, List.getElem_zipWith, List.getElem_drop, transposeIndex,
      List.getElem_map, List.getElem_range, Nat.add_sub_cancel]
    rw [h, h3]
    split
    · rename_i h1
      rw [hsp] at h1
      exact (point_zero_of_unit point ext hpt _ h1).symm
    · rfl

/-- The extents the transposition selects for the result axes are the result shape. -/
theorem transposed_shape (map accMap : AffineMap) (b : Nat) (ext : List Nat)
    (shape rs : List Nat) (hb : b = (absentAxes map accMap).length)
    (hshape : shape = map.apply ext) (hrs : rs = accMap.apply ext)
    (hbd : b + map.results.length < 2 ^ 32) :
    ((List.range accMap.results.length).map (planEntry map accMap b)).map
      (fun p => (((absentAxes map accMap).map (fun i => rs.getD i 0)) ++ shape).getD p 0) =
      rs := by
  have hrl : rs.length = accMap.results.length := by rw [hrs]; simp [AffineMap.apply]
  conv_rhs => rw [← map_getD_range rs, hrl]
  rw [List.map_map]
  apply List.map_congr_left
  intro i hi
  rw [List.mem_range] at hi
  simp only [Function.comp_apply]
  cases h : isAbsentAxis map accMap i
  · obtain ⟨pos, hp, hl, he⟩ := planEntry_present map accMap b i h hbd
    rw [he, List.getD_append_right _ _ _ _ (by rw [List.length_map]; omega)]
    simp only [List.length_map, ← hb, Nat.add_sub_cancel_left]
    rw [hshape, apply_getD map ext pos hp, hl, hrs, apply_getD accMap ext i hi]
  · rw [planEntry_absent map accMap b i h]
    have hlt := countBelow_lt (isAbsentAxis map accMap) hi h
    rw [List.getD_append _ _ _ _ (by rw [List.length_map]; exact hlt)]
    exact filter_getD_countBelow (isAbsentAxis map accMap) (fun i => rs.getD i 0)
      accMap.results.length i hi h

theorem broadcastOperand_fst (v : Value) (dims shape : List Nat) (e : ElementType)
    (rw : PatternRewriter) :
    (broadcastOperand v dims shape e rw).1 = (broadcastOperand v dims shape e ⟨[]⟩).1 := by
  unfold broadcastOperand
  split <;> rfl

theorem broadcastOperand_getType (v : Value) (vt : VectorType) (dims : List Nat)
    (rw : PatternRewriter) (hv : v.getType = .vector vt) :
    ∃ vt1, (broadcastOperand v dims vt.shape vt.elementType rw).1.getType = .vector vt1 ∧
      vt1.shape = dims ++ vt.shape := by
  unfold broadcastOperand
  cases dims with
  | nil => exact ⟨vt, by simpa using hv, rfl⟩
  | cons d ds => exact ⟨_, rfl, rfl⟩

theorem broadcastOperand_denote (env : Nat → Elem) (v : Value) (vt : VectorType)
    (dims : List Nat) (rw : PatternRewriter) (a : Elem) (hv : v.getType = .vector vt)
    (ha : denote env v = some a) :
    denote env (broadcastOperand v dims vt.shape vt.elementType rw).1 =
      some (if dims = [] then a
        else fun idx => a (broadcastIndex vt.shape (dims.length + vt.shape.length) idx)) := by
  unfold broadcastOperand
  cases dims with
  | nil => simpa using ha
  | cons d ds =>
      simp only [PatternRewriter.create, denote, ha, hv, MlirType.shape, List.isEmpty_cons,
        Bool.not_false, if_true, List.length_append, reduceCtorEq, if_false]

theorem extract_shape (v : Value) (t : VectorType) (pos : List Nat)
    (hv : v.getType = .vector t) (hp : pos.length ≤ t.shape.length) :
    (Value.extract v pos).getType.shape = t.shape.drop pos.length := by
  simp only [Value.getType, hv]
  split_ifs with h1 h2
  · rfl
  · simp [MlirType.shape, h2]
  · omega

theorem operand_layout (env : Nat → Elem) (v : Value) (vt : VectorType)
    (map accMap : AffineMap) (iteratorTypes : List IteratorType) (rs ext : List Nat)
    (a : Elem) (rw : PatternRewriter)
    (hv : v.getType = .vector vt)
    (hL : map.results.Nodup) (hA : accMap.results.Nodup)
    (hpar : ∀ x ∈ map.results,
      isParallelIterator (iteratorTypes.getD x .parallel) = true → x ∈ accMap.results)
    (hres : ∀ x ∈ accMap.results, isParallelIterator (iteratorTypes.getD x .parallel) = true)
    (hshape : vt.shape = map.apply ext) (hrs : rs = accMap.apply ext)
    (hunit : ∀ dim ∈ getReductionIndex map iteratorTypes, vt.shape.getD dim 0 = 1)
    (hP : accMap.getNumResults < 2 ^ 32)
    (hbd : (absentAxes map accMap).length + map.getNumResults < 2 ^ 32)
    (ha : denote env v = some a) :
    numDimToBroadcast map (getReductionIndex map iteratorTypes) accMap.getNumResults =
        (absentAxes map accMap).length ∧
      List.Perm (operandPlan map accMap iteratorTypes rs).2
        (List.range ((absentAxes map accMap).length + vt.getRank)) ∧
      (operandPlan map accMap iteratorTypes rs).1 =
        (absentAxes map accMap).map (fun i => rs.getD i 0) ∧
      (broadcastOperand v (operandPlan map accMap iteratorTypes rs).1 vt.shape vt.elementType
        rw).1.getType.shape = (absentAxes map accMap).map (fun i => rs.getD i 0) ++ vt.shape ∧
      (operand v vt map accMap iteratorTypes rs).getType.shape = rs ∧
      ∃ f, denote env (operand v vt map accMap iteratorTypes rs) = some f ∧
        ∀ point, WithinExtents point ext → f (accMap.apply point) = a (map.apply point) := by
  obtain ⟨hb, hsum⟩ := numDimToBroadcast_eq map accMap iteratorTypes hL hA hpar hres hP
  have hn : vt.shape.length = map.results.length := by rw [hshape]; simp [AffineMap.apply]
  have hplan : operandPlan map accMap iteratorTypes rs =
      ((absentAxes map accMap).map (fun i => rs.getD i 0),
        (getReductionIndex map iteratorTypes).map
            (fun dim => (absentAxes map accMap).length + dim) ++
          (List.range accMap.results.length).map
            (planEntry map accMap (absentAxes map accMap).length)) := by
    unfold operandPlan
    simp only []
    rw [hb, plan_eq]
    rfl
  have hsum2 : (absentAxes map accMap).length + map.results.length =
      (getReductionIndex map iteratorTypes).length + accMap.results.length := hsum
  refine ⟨hb, ?_, ?_, ?_, ?_, ?_⟩
  · rw [hplan, VectorType.getRank, hn]
    exact plan_transpose_perm map accMap iteratorTypes _ hA hres rfl hsum2 hbd
  · rw [hplan]
  · obtain ⟨vt1, h1, h2⟩ := broadcastOperand_getType v vt
      (operandPlan map accMap iteratorTypes rs).1 rw hv
    rw [h1, MlirType.shape, h2, hplan]
  · obtain ⟨vt1, h1, h2⟩ := broadcastOperand_getType v vt
      (operandPlan map accMap iteratorTypes rs).1 ⟨[]⟩ hv
    unfold operand
    simp only []
    rw [extract_shape _ _ _ (transpose_getType _ _ _ h1)
      (by simp only [List.length_replicate, List.length_map, hplan, List.length_append,
            List.length_range]; omega)]
    simp only [hplan, List.length_replicate, List.map_append, h2]
    rw [List.drop_left' (by simp)]
    exact transposed_shape map accMap _ ext vt.shape rs rfl hshape hrs hbd
  · obtain ⟨vt1, h1, h2⟩ := broadcastOperand_getType v vt
      (operandPlan map accMap iteratorTypes rs).1 ⟨[]⟩ hv
    have hd := broadcastOperand_denote env v vt (operandPlan map accMap iteratorTypes rs).1
      ⟨[]⟩ a hv ha
    unfold operand
    simp only []
    rw [denote_extract env _ _ _ (denote_transpose env _ _ _ hd)]
    refine ⟨_, rfl, ?_⟩
    intro point hpt
    simp only [hplan]
    split_ifs with hdims
    · have hb0 : (absentAxes map accMap).length = 0 := by
        have := congrArg List.length hdims
        simpa using this
      rw [operandIndex_plain map accMap iteratorTypes _ ext point vt.shape hL hA hpar hres rfl
        hb0 hsum2 hshape hunit hpt hbd]
    · simp only [List.length_map]
      rw [operandIndex_broadcast map accMap iteratorTypes _ ext point vt.shape hL hA hpar hres
        rfl hsum2 hshape hunit hpt hbd]

theorem broadcastOperand_ops (v : Value) (dims shape : List Nat) (e : ElementType)
    (rw : PatternRewriter) :
    ∃ em, (broadcastOperand v dims shape e rw).2.ops = rw.ops ++ em := by
  unfold broadcastOperand
  split
  · exact ⟨_, rfl⟩
  · exact ⟨[], by simp⟩

/-- A successful run of the elementwise pattern passed every guard, created the two
lowered operands, and returns what `createContractArithOp` returns on them. -/
theorem elementwise_run (self : ContractOpToElementwise) (op : ContractionOp)
    (maskOp : Value) (rewriter : PatternRewriter)
    (h : (self.matchAndRewriteMaskableOp op maskOp rewriter).1.succeeded = true) :
    (∀ dim ∈ getReductionIndex (op.indexingMaps.getD 0 ⟨0, []⟩) op.iteratorTypes,
        op.getLhsType.shape.getD dim 0 = 1) ∧
    (∀ dim ∈ getReductionIndex (op.indexingMaps.getD 1 ⟨0, []⟩) op.iteratorTypes,
        op.getRhsType.shape.getD dim 0 = 1) ∧
    ∃ (v : Value) (rw1 rw2 : PatternRewriter),
      operand op.lhs op.getLhsType (op.indexingMaps.getD 0 ⟨0, []⟩)
        (op.indexingMaps.getD 2 ⟨0, []⟩) op.iteratorTypes op.resultType.shape ∈ rw1.ops ∧
      operand op.rhs op.getRhsType (op.indexingMaps.getD 1 ⟨0, []⟩)
        (op.indexingMaps.getD 2 ⟨0, []⟩) op.iteratorTypes op.resultType.shape ∈ rw1.ops ∧
      createContractArithOp
        (operand op.lhs op.getLhsType (op.indexingMaps.getD 0 ⟨0, []⟩)
          (op.indexingMaps.getD 2 ⟨0, []⟩) op.iteratorTypes op.resultType.shape)
        (operand op.rhs op.getRhsType (op.indexingMaps.getD 1 ⟨0, []⟩)
          (op.indexingMaps.getD 2 ⟨0, []⟩) op.iteratorTypes op.resultType.shape)
        op.acc op.kind rw1 op.getLhsType.elementType.isIntOrIndex .null = (some v, rw2) ∧
      self.matchAndRewriteMaskableOp op maskOp rewriter = (.success v, rw2) := by
  unfold ContractOpToElementwise.matchAndRewriteMaskableOp at h ⊢
  dsimp only at h ⊢
  split_ifs at h ⊢ with h1 h2 h3 h4 h5
  all_goals try (simp [FailureOr.succeeded] at h; done)
  refine ⟨?_, ?_, ?_⟩
  · intro dim hd
    by_contra hne
    exact h4 (List.any_eq_true.mpr ⟨dim, hd, by simpa using hne⟩)
  · intro dim hd
    by_contra hne
    exact h5 (List.any_eq_true.mpr ⟨dim, hd, by simpa using hne⟩)
  · simp only [PatternRewriter.create] at h ⊢
    rw [broadcastOperand_fst op.rhs _ _ _
      (broadcastOperand op.lhs _ _ _ rewriter).2, broadcastOperand_fst op.lhs _ _ _ rewriter]
      at h ⊢
    generalize hc : createContractArithOp _ _ _ _ _ _ _ = res at h ⊢
    obtain ⟨r, rw2⟩ := res
    cases r with
    | none => simp [FailureOr.succeeded] at h
    | some v =>
        refine ⟨v, _, rw2, ?_, ?_, hc, rfl⟩
        · simp [operand, operandPlan]
        · simp [operand, operandPlan]

theorem getLhsType_eq (op : ContractionOp) (lt : VectorType) (h : op.lhs.getType = .vector lt) :
    op.getLhsType = lt := by
  simp [ContractionOp.getLhsType, h]

theorem getRhsType_eq (op : ContractionOp) (rt : VectorType) (h : op.rhs.getType = .vector rt) :
    op.getRhsType = rt := by
  simp [ContractionOp.getRhsType, h]

/-- C10. For a contraction accepted by `ContractOpToElementwise` whose three index maps
are injective, whose operand parallel labels all occur in the result map, whose result
labels are parallel and whose operand and result shapes are given by the maps from the
label extents `ext` (fewer than `2 ^ 32` result axes, and for each operand `b + rank`
below `2 ^ 32`, the range of the `unsigned` sums the code forms): the pattern returns what
`createContractArithOp` returns on the two lowered operands, which it created; and for
each operand, with `b` the number of result axes absent from it, the count the code
computes is `b`, the transposition list is a permutation of `[0, b + rank)`, the
broadcast shape is the extents of the absent result axes in result order followed by
the operand's own shape, the lowered operand (after broadcast, transpose and zero-offset
extract) has exactly the result shape, and its element at the result index of any
in-bounds iteration point is the operand's element at that point's operand index. -/
theorem elementwise_operand_layout (self : ContractOpToElementwise) (op : ContractionOp)
    (maskOp : Value) (rewriter : PatternRewriter) (env : Nat → Elem)
    (lhsMap rhsMap accMap : AffineMap) (ext : List Nat) (lt rt : VectorType) (a b : Elem)
    (hok : (self.matchAndRewriteMaskableOp op maskOp rewriter).1.succeeded = true)
    (hmaps : op.indexingMaps = [lhsMap, rhsMap, accMap])
    (hlhs : op.lhs.getType = .vector lt) (hrhs : op.rhs.getType = .vector rt)
    (hinjL : lhsMap.results.Nodup) (hinjR : rhsMap.results.Nodup)
    (hinjA : accMap.results.Nodup)
    (hparL : ∀ x ∈ lhsMap.results,
      isParallelIterator (op.iteratorTypes.getD x .parallel) = true → x ∈ accMap.results)
    (hparR : ∀ x ∈ rhsMap.results,
      isParallelIterator (op.iteratorTypes.getD x .parallel) = true → x ∈ accMap.results)
    (hparA : ∀ x ∈ accMap.results,
      isParallelIterator (op.iteratorTypes.getD x .parallel) = true)
    (hls : lt.shape = lhsMap.apply ext) (hrs : rt.shape = rhsMap.apply ext)
    (hres : op.resultType.shape = accMap.apply ext)
    (hP : accMap.getNumResults < 2 ^ 32)
    (hbL : (absentAxes lhsMap accMap).length + lhsMap.getNumResults < 2 ^ 32)
    (hbR : (absentAxes rhsMap accMap).length + rhsMap.getNumResults < 2 ^ 32)
    (ha : denote env op.lhs = some a) (hb : denote env op.rhs = some b) :
    ∃ (v : Value) (rw1 rw2 : PatternRewriter) (fl fr : Elem),
      operand op.lhs lt lhsMap accMap op.iteratorTypes op.resultType.shape ∈ rw1.ops ∧
      operand op.rhs rt rhsMap accMap op.iteratorTypes op.resultType.shape ∈ rw1.ops ∧
      createContractArithOp
        (operand op.lhs lt lhsMap accMap op.iteratorTypes op.resultType.shape)
        (operand op.rhs rt rhsMap accMap op.iteratorTypes op.resultType.shape)
        op.acc op.kind rw1 lt.elementType.isIntOrIndex .null = (some v, rw2) ∧
      self.matchAndRewriteMaskableOp op maskOp rewriter = (.success v, rw2) ∧
      -- the lhs
      numDimToBroadcast lhsMap (getReductionIndex lhsMap op.iteratorTypes)
        accMap.getNumResults = (absentAxes lhsMap accMap).length ∧
      List.Perm (operandPlan lhsMap accMap op.iteratorTypes op.resultType.shape).2
        (List.range ((absentAxes lhsMap accMap).length + lt.getRank)) ∧
      (operandPlan lhsMap accMap op.iteratorTypes op.resultType.shape).1 =
        (absentAxes lhsMap accMap).map (fun i => op.resultType.shape.getD i 0) ∧
      (broadcastOperand op.lhs
        (operandPlan lhsMap accMap op.iteratorTypes op.resultType.shape).1 lt.shape
        lt.elementType rewriter).1.getType.shape =
          (absentAxes lhsMap accMap).map (fun i => op.resultType.shape.getD i 0) ++ lt.shape ∧
      (operand op.lhs lt lhsMap accMap op.iteratorTypes op.resultType.shape).getType.shape =
        op.resultType.shape ∧
      denote env (operand op.lhs lt lhsMap accMap op.iteratorTypes op.resultType.shape) =
        some fl ∧
      (∀ point, WithinExtents point ext →
        fl (accMap.apply point) = a (lhsMap.apply point)) ∧
      -- the rhs
      numDimToBroadcast rhsMap (getReductionIndex rhsMap op.iteratorTypes)
        accMap.getNumResults = (absentAxes rhsMap accMap).length ∧
      List.Perm (operandPlan rhsMap accMap op.iteratorTypes op.resultType.shape).2
        (List.range ((absentAxes rhsMap accMap).length + rt.getRank)) ∧
      (operandPlan rhsMap accMap op.iteratorTypes op.resultType.shape).1 =
        (absentAxes rhsMap accMap).map (fun i => op.resultType.shape.getD i 0) ∧
      (broadcastOperand op.rhs
        (operandPlan rhsMap accMap op.iteratorTypes op.resultType.shape).1 rt.shape
        rt.elementType rewriter).1.getType.shape =
          (absentAxes rhsMap accMap).map (fun i => op.resultType.shape.getD i 0) ++ rt.shape ∧
      (operand op.rhs rt rhsMap accMap op.iteratorTypes op.resultType.shape).getType.shape =
        op.resultType.shape ∧
      denote env (operand op.rhs rt rhsMap accMap op.iteratorTypes op.resultType.shape) =
        some fr ∧
      (∀ point, WithinExtents point ext →
        fr (accMap.apply point) = b (rhsMap.apply point)) := by
  obtain ⟨hu1, hu2, v, rw1, rw2, hm1, hm2, hc, hrun⟩ :=
    elementwise_run self op maskOp rewriter hok
  rw [getLhsType_eq op lt hlhs] at hu1 hm1 hc
  rw [getRhsType_eq op rt hrhs] at hu2 hm2 hc
  simp only [hmaps, List.getD_cons_zero, List.getD_cons_succ] at hu1 hu2 hm1 hm2 hc
  obtain ⟨l1, l2, l3, l4, l5, fl, l6, l7⟩ := operand_layout env op.lhs lt lhsMap accMap
    op.iteratorTypes op.resultType.shape ext a rewriter hlhs hinjL hinjA hparL hparA hls hres
    hu1 hP hbL ha
  obtain ⟨r1, r2, r3, r4, r5, fr, r6, r7⟩ := operand_layout env op.rhs rt rhsMap accMap
    op.iteratorTypes op.resultType.shape ext b rewriter hrhs hinjR hinjA hparR hparA hrs hres
    hu2 hP hbR hb
  exact ⟨v, rw1, rw2, fl, fr, hm1, hm2, hc, hrun, l1, l2, l3, l4, l5, l6, l7,
    r1, r2, r3, r4, r5, r6, r7⟩

/-- Instance of C10 at `sampleUnitReduction`: the rhs `vector<1xi8>` is broadcast to
`vector<4x1xi8>` and transposed with `[1, 0]`. -/
theorem elementwise_operand_layout_witness :
    ∃ (v : Value) (rw1 rw2 : PatternRewriter) (fl fr : Elem),
      operand sampleUnitReduction.lhs sampleLhsType ⟨2, [0, 1]⟩ ⟨2, [0]⟩
          sampleUnitReduction.iteratorTypes sampleUnitReduction.resultType.shape ∈ rw1.ops ∧
      operand sampleUnitReduction.rhs sampleRhsType ⟨2, [1]⟩ ⟨2, [0]⟩
          sampleUnitReduction.iteratorTypes sampleUnitReduction.resultType.shape ∈ rw1.ops ∧
      createContractArithOp
        (operand sampleUnitReduction.lhs sampleLhsType ⟨2, [0, 1]⟩ ⟨2, [0]⟩
            sampleUnitReduction.iteratorTypes sampleUnitReduction.resultType.shape)
        (operand sampleUnitReduction.rhs sampleRhsType ⟨2, [1]⟩ ⟨2, [0]⟩
            sampleUnitReduction.iteratorTypes sampleUnitReduction.resultType.shape)
        sampleUnitReduction.acc sampleUnitReduction.kind rw1 sampleLhsType.elementType.isIntOrIndex
            .null = (some v, rw2) ∧
      sampleElementwisePattern.matchAndRewriteMaskableOp sampleUnitReduction .null ⟨[]⟩ = (.success
          v, rw2) ∧
      numDimToBroadcast ⟨2, [0, 1]⟩ (getReductionIndex ⟨2, [0, 1]⟩
          sampleUnitReduction.iteratorTypes)
        (AffineMap.mk 2 [0]).getNumResults = (absentAxes ⟨2, [0, 1]⟩ ⟨2, [0]⟩).length ∧
      List.Perm (operandPlan ⟨2, [0, 1]⟩ ⟨2, [0]⟩ sampleUnitReduction.iteratorTypes
          sampleUnitReduction.resultType.shape).2
        (List.range ((absentAxes ⟨2, [0, 1]⟩ ⟨2, [0]⟩).length + sampleLhsType.getRank)) ∧
      (operandPlan ⟨2, [0, 1]⟩ ⟨2, [0]⟩ sampleUnitReduction.iteratorTypes
          sampleUnitReduction.resultType.shape).1 =
        (absentAxes ⟨2, [0, 1]⟩ ⟨2, [0]⟩).map (fun i => sampleUnitReduction.resultType.shape.getD i
            0) ∧
      (broadcastOperand sampleUnitReduction.lhs
        (operandPlan ⟨2, [0, 1]⟩ ⟨2, [0]⟩ sampleUnitReduction.iteratorTypes
            sampleUnitReduction.resultType.shape).1 sampleLhsType.shape
        sampleLhsType.elementType ⟨[]⟩).1.getType.shape =
          (absentAxes ⟨2, [0, 1]⟩ ⟨2, [0]⟩).map (fun i => sampleUnitReduction.resultType.shape.getD
              i 0) ++ sampleLhsType.shape ∧
      (operand sampleUnitReduction.lhs sampleLhsType ⟨2, [0, 1]⟩ ⟨2, [0]⟩
          sampleUnitReduction.iteratorTypes sampleUnitReduction.resultType.shape).getType.shape =
        sampleUnitReduction.resultType.shape ∧
      denote sampleEnv (operand sampleUnitReduction.lhs sampleLhsType ⟨2, [0, 1]⟩ ⟨2, [0]⟩
          sampleUnitReduction.iteratorTypes sampleUnitReduction.resultType.shape) =
        some fl ∧
      (∀ point, WithinExtents point [4, 1] →
        fl ((AffineMap.mk 2 [0]).apply point) = sampleEnv 0 ((AffineMap.mk 2 [0, 1]).apply point)) ∧
      numDimToBroadcast ⟨2, [1]⟩ (getReductionIndex ⟨2, [1]⟩ sampleUnitReduction.iteratorTypes)
        (AffineMap.mk 2 [0]).getNumResults = (absentAxes ⟨2, [1]⟩ ⟨2, [0]⟩).length ∧
      List.Perm (operandPlan ⟨2, [1]⟩ ⟨2, [0]⟩ sampleUnitReduction.iteratorTypes
          sampleUnitReduction.resultType.shape).2
        (List.range ((absentAxes ⟨2, [1]⟩ ⟨2, [0]⟩).length + sampleRhsType.getRank)) ∧
      (operandPlan ⟨2, [1]⟩ ⟨2, [0]⟩ sampleUnitReduction.iteratorTypes
          sampleUnitReduction.resultType.shape).1 =
        (absentAxes ⟨2, [1]⟩ ⟨2, [0]⟩).map (fun i => sampleUnitReduction.resultType.shape.getD i 0)
            ∧
      (broadcastOperand sampleUnitReduction.rhs
        (operandPlan ⟨2, [1]⟩ ⟨2, [0]⟩ sampleUnitReduction.iteratorTypes
            sampleUnitReduction.resultType.shape).1 sampleRhsType.shape
        sampleRhsType.elementType ⟨[]⟩).1.getType.shape =
          (absentAxes ⟨2, [1]⟩ ⟨2, [0]⟩).map (fun i => sampleUnitReduction.resultType.shape.getD i
              0) ++ sampleRhsType.shape ∧
      (operand sampleUnitReduction.rhs sampleRhsType ⟨2, [1]⟩ ⟨2, [0]⟩
          sampleUnitReduction.iteratorTypes sampleUnitReduction.resultType.shape).getType.shape =
        sampleUnitReduction.resultType.shape ∧
      denote sampleEnv (operand sampleUnitReduction.rhs sampleRhsType ⟨2, [1]⟩ ⟨2, [0]⟩
          sampleUnitReduction.iteratorTypes sampleUnitReduction.resultType.shape) =
        some fr ∧
      (∀ point, WithinExtents point [4, 1] →
        fr ((AffineMap.mk 2 [0]).apply point) = sampleEnv 1 ((AffineMap.mk 2 [1]).apply point)) :=
  elementwise_operand_layout sampleElementwisePattern sampleUnitReduction .null ⟨[]⟩ sampleEnv
    ⟨2, [0, 1]⟩ ⟨2, [1]⟩ ⟨2, [0]⟩ [4, 1] sampleLhsType sampleRhsType (sampleEnv 0) (sampleEnv 1)
    (by decide) rfl rfl rfl (by decide) (by decide) (by decide) (by decide) (by decide)
    (by decide) rfl rfl rfl (by decide) (by decide) (by decide) rfl rfl

/-! ## The combine step `createContractArithOp` -/

theorem combine_isSome (mul : Value × PatternRewriter) (acc : Value) (kind : CombiningKind)
    (mask : Value) : ∃ v, (createContractArithOp.combine mul acc kind mask).1 = some v := by
  unfold createContractArithOp.combine
  split
  · exact ⟨_, rfl⟩
  · exact ⟨_, rfl⟩

theorem createContractArithOp_eq_none (x y acc : Value) (kind : CombiningKind)
    (rewriter : PatternRewriter) (isInt : Bool) (mask : Value) :
    (createContractArithOp x y acc kind rewriter isInt mask).1 = none ↔
      (isInt = true ∧ kind ∈ [.MINNUMF, .MAXNUMF, .MINIMUMF, .MAXIMUMF]) ∨
      (isInt = false ∧ kind ∈ [.AND, .OR, .XOR, .MINSI, .MAXSI, .MINUI, .MAXUI]) := by
  have hmul : ∀ m : Value × PatternRewriter,
      (createContractArithOp.combine m acc kind mask).1 ≠ none := by
    intro m h
    obtain ⟨v, hv⟩ := combine_isSome m acc kind mask
    rw [hv] at h
    exact Option.some_ne_none v h
  unfold createContractArithOp
  cases isInt
  · simp only [Bool.false_eq_true, if_false, false_and, false_or, true_and]
    split_ifs with h1 h2
    · simp only [true_iff, List.mem_cons, List.mem_singleton, List.not_mem_nil, or_false]
      tauto
    · simp only [List.mem_cons, List.mem_singleton, List.not_mem_nil, or_false]
      constructor
      · intro h; exact absurd h (by simp)
      · intro h; exact absurd h (by tauto)
    · simp only [List.mem_cons, List.mem_singleton, List.not_mem_nil, or_false]
      constructor
      · intro h; exact absurd h (hmul _)
      · intro h; exact absurd h (by tauto)
  · simp only [if_true, true_and, false_and, or_false, reduceCtorEq]
    split_ifs with h1
    · simp only [true_iff, List.mem_cons, List.mem_singleton, List.not_mem_nil, or_false]
      tauto
    · simp only [List.mem_cons, List.mem_singleton, List.not_mem_nil, or_false]
      constructor
      · intro h; exact absurd h (hmul _)
      · intro h; exact absurd h (by tauto)

/-- C11. `createContractArithOp` returns `std::nullopt` exactly when `isInt` holds and
the kind is one of MINNUMF, MAXNUMF, MINIMUMF, MAXIMUMF, or `isInt` does not hold and
the kind is one of AND, OR, XOR, MINSI, MAXSI, MINUI, MAXUI; it then creates nothing.
For every other pair, in particular for ADD and MUL on both, it returns a value. -/
theorem createContractArithOp_none_iff (x y acc : Value) (kind : CombiningKind)
    (rewriter : PatternRewriter) (isInt : Bool) (mask : Value) :
    ((createContractArithOp x y acc kind rewriter isInt mask).1 = none ↔
      (isInt = true ∧ kind ∈ [.MINNUMF, .MAXNUMF, .MINIMUMF, .MAXIMUMF]) ∨
      (isInt = false ∧ kind ∈ [.AND, .OR, .XOR, .MINSI, .MAXSI, .MINUI, .MAXUI])) ∧
    ((createContractArithOp x y acc kind rewriter isInt mask).1 = none →
      (createContractArithOp x y acc kind rewriter isInt mask).2 = rewriter) ∧
    (kind = .ADD ∨ kind = .MUL →
      ∃ v, (createContractArithOp x y acc kind rewriter isInt mask).1 = some v) := by
  have hmul : ∀ m : Value × PatternRewriter,
      (createContractArithOp.combine m acc kind mask).1 ≠ none := by
    intro m h
    obtain ⟨v, hv⟩ := combine_isSome m acc kind mask
    rw [hv] at h
    exact Option.some_ne_none v h
  have key := createContractArithOp_eq_none x y acc kind rewriter isInt mask
  refine ⟨key, ?_, ?_⟩
  · intro h
    unfold createContractArithOp at h ⊢
    cases isInt
    · simp only [Bool.false_eq_true, if_false] at h ⊢
      split_ifs at h ⊢ with h1 h2
      all_goals first | rfl | exact absurd h (hmul _)
    · simp only [if_true] at h ⊢
      split_ifs at h ⊢ with h1
      all_goals first | rfl | exact absurd h (hmul _)
  · intro hk
    cases h : (createContractArithOp x y acc kind rewriter isInt mask).1 with
    | some v => exact ⟨v, rfl⟩
    | none =>
        exfalso
        rcases key.mp h with ⟨-, hm⟩ | ⟨-, hm⟩ <;> rcases hk with rfl | rfl <;>
          simp at hm

/-- Instance of C11: ADD on integer operands returns a value. -/
theorem createContractArithOp_none_iff_witness :
    ∃ v, (createContractArithOp (.arg 0 (i8Vector 4)) (.arg 1 (i8Vector 4))
      (.arg 2 (i8Vector 4)) .ADD ⟨[]⟩ true .null).1 = some v :=
  (createContractArithOp_none_iff (.arg 0 (i8Vector 4)) (.arg 1 (i8Vector 4))
    (.arg 2 (i8Vector 4)) .ADD ⟨[]⟩ true .null).2.2 (Or.inl rfl)

theorem selectPassthru_masked (rewriter : PatternRewriter) (mask nv pt : Value)
    (h : mask.isNull = false) :
    selectPassthru rewriter mask nv pt =
      (.select mask nv pt, ⟨rewriter.ops ++ [.select mask nv pt]⟩) := by
  simp [selectPassthru, h, PatternRewriter.create]

theorem makeArithReduction_typed (rewriter : PatternRewriter) (kind : CombiningKind)
    (v1 acc mask : Value) (e ea : ElementType) (isInt : Bool) (aop : ArithBinOp)
    (hv : v1.getType.elementType? = some e) (ha : acc.getType.elementType? = some ea)
    (hty : if isInt then e.isIntOrIndex = true ∧ ea.isIntOrIndex = true
      else e.isFloat = true ∧ ea.isFloat = true)
    (hop : kind.arithOp? isInt = some aop) :
    makeArithReduction rewriter kind v1 acc mask =
      selectPassthru ⟨rewriter.ops ++ [.binary aop v1 acc]⟩ mask (.binary aop v1 acc) acc := by
  unfold makeArithReduction
  cases isInt
  · have h1 : e.isIntOrIndex = false := by
      cases e <;> simp_all [ElementType.isFloat, ElementType.isIntOrIndex]
    simp only [Bool.false_eq_true, if_false] at hty
    simp [hv, ha, h1, hty.1, hty.2, hop, PatternRewriter.create]
  · simp only [if_true] at hty
    simp [hv, ha, hty.1, hty.2, hop, PatternRewriter.create]

theorem arithOp?_isSome_of_legal (kind : CombiningKind) (isInt : Bool)
    (h : ¬ ((isInt = true ∧ kind ∈ [.MINNUMF, .MAXNUMF, .MINIMUMF, .MAXIMUMF]) ∨
      (isInt = false ∧ kind ∈ [.AND, .OR, .XOR, .MINSI, .MAXSI, .MINUI, .MAXUI]))) :
    ∃ aop, kind.arithOp? isInt = some aop := by
  cases isInt <;> cases kind <;> first | exact ⟨_, rfl⟩ | (exfalso; apply h; simp)

/-- C12 (mask passthrough). For a call of `createContractArithOp` with a mask and an
accumulator whose element types agree with `isInt`, the returned value is the lane-wise
select of the combined value (the fused multiply-add, or the operator of the kind
applied to the product and the accumulator) with the accumulator as pass-through: a
lane whose mask bit is false holds the accumulator's value, whatever the product, and a
lane whose mask bit is true holds the combined value. -/
theorem createContractArithOp_mask_passthrough (env : Nat → Elem) (x y acc mask : Value)
    (kind : CombiningKind) (rewriter rewriter' : PatternRewriter) (isInt : Bool)
    (e ea : ElementType) (v : Value)
    (hmask : mask.isNull = false) (hacc : acc.isNull = false)
    (hx : x.getType.elementType? = some e) (ha : acc.getType.elementType? = some ea)
    (hty : if isInt then e.isIntOrIndex = true ∧ ea.isIntOrIndex = true
      else e.isFloat = true ∧ ea.isFloat = true)
    (hres : createContractArithOp x y acc kind rewriter isInt mask = (some v, rewriter')) :
    ∃ combined, v = .select mask combined acc ∧
      (combined = .fma x y acc ∨
        ∃ aop, kind.arithOp? isInt = some aop ∧
          combined = .binary aop (.binary (if isInt then .muli else .mulf) x y) acc) ∧
      ∀ fm fa fc, denote env mask = some fm → denote env acc = some fa →
        denote env combined = some fc →
        ∃ f, denote env v = some f ∧
          ∀ lane, (fm lane = 0 → f lane = fa lane) ∧ (fm lane ≠ 0 → f lane = fc lane) := by
  have hsel : ∀ combined, v = .select mask combined acc →
      ∀ fm fa fc, denote env mask = some fm → denote env acc = some fa →
        denote env combined = some fc →
        ∃ f, denote env v = some f ∧
          ∀ lane, (fm lane = 0 → f lane = fa lane) ∧ (fm lane ≠ 0 → f lane = fc lane) := by
    intro combined hv fm fa fc hm hfa hfc
    refine ⟨fun idx => if fm idx ≠ 0 then fc idx else fa idx, ?_, ?_⟩
    · rw [hv]; simp [denote, hm, hfa, hfc]
    · intro lane
      constructor
      · intro h0; simp [h0]
      · intro h0; simp [h0]
  have hlegal : ¬ ((isInt = true ∧ kind ∈ [.MINNUMF, .MAXNUMF, .MINIMUMF, .MAXIMUMF]) ∨
      (isInt = false ∧ kind ∈ [.AND, .OR, .XOR, .MINSI, .MAXSI, .MINUI, .MAXUI])) := by
    intro hcon
    have := (createContractArithOp_eq_none x y acc kind rewriter isInt mask).mpr hcon
    rw [hres] at this
    simp at this
  obtain ⟨aop, hop⟩ := arithOp?_isSome_of_legal kind isInt hlegal
  unfold createContractArithOp at hres
  cases isInt
  · have hk : ¬ (kind = .AND ∨ kind = .MINUI ∨ kind = .MINSI ∨ kind = .MAXUI ∨
        kind = .MAXSI ∨ kind = .OR ∨ kind = .XOR) := by
      intro hcon
      apply hlegal
      right
      simp only [List.mem_cons, List.mem_singleton, List.not_mem_nil, or_false, true_and]
      tauto
    simp only [Bool.false_eq_true, if_false] at hty
    rw [if_neg (by simp), if_neg hk] at hres
    by_cases h2 : (!acc.isNull && acc.getType.isVector && decide (kind = .ADD)) = true
    · rw [if_pos h2] at hres
      simp only [PatternRewriter.create, hmask, Bool.not_false, if_true,
        selectPassthru_masked _ _ _ _ hmask, Prod.mk.injEq, Option.some.injEq] at hres
      exact ⟨_, hres.1.symm, Or.inl rfl, hsel _ hres.1.symm⟩
    · rw [if_neg h2] at hres
      simp only [createContractArithOp.combine, hacc, Bool.false_eq_true, if_false,
        PatternRewriter.create] at hres
      rw [makeArithReduction_typed _ kind (.binary .mulf x y) acc mask e ea false aop hx ha
        (by simpa using hty) hop, selectPassthru_masked _ _ _ _ hmask] at hres
      simp only [Prod.mk.injEq, Option.some.injEq] at hres
      exact ⟨_, hres.1.symm, Or.inr ⟨aop, hop, by simp⟩, hsel _ hres.1.symm⟩
  · have hk : ¬ (kind = .MINNUMF ∨ kind = .MAXNUMF ∨ kind = .MINIMUMF ∨
        kind = .MAXIMUMF) := by
      intro hcon
      apply hlegal
      left
      simp only [List.mem_cons, List.mem_singleton, List.not_mem_nil, or_false, true_and]
      tauto
    simp only [if_true] at hty
    rw [if_pos rfl, if_neg hk] at hres
    simp only [createContractArithOp.combine, hacc, Bool.false_eq_true, if_false,
      PatternRewriter.create] at hres
    rw [makeArithReduction_typed _ kind (.binary .muli x y) acc mask e ea true aop hx ha
      (by simpa using hty) hop, selectPassthru_masked _ _ _ _ hmask] at hres
    simp only [Prod.mk.injEq, Option.some.injEq] at hres
    exact ⟨_, hres.1.symm, Or.inr ⟨aop, hop, by simp⟩, hsel _ hres.1.symm⟩

/-- Instance of C12: a masked integer multiply-add on `vector<4xi8>` operands. -/
theorem createContractArithOp_mask_passthrough_witness :
    ∃ combined, Value.select (.arg 3 (i8Vector 4))
        (.binary .addi (.binary .muli (.arg 0 (i8Vector 4)) (.arg 1 (i8Vector 4)))
          (.arg 2 (i8Vector 4))) (.arg 2 (i8Vector 4)) =
        .select (.arg 3 (i8Vector 4)) combined (.arg 2 (i8Vector 4)) ∧
      (combined = .fma (.arg 0 (i8Vector 4)) (.arg 1 (i8Vector 4)) (.arg 2 (i8Vector 4)) ∨
        ∃ aop, CombiningKind.ADD.arithOp? true = some aop ∧
          combined = .binary aop (.binary (if true then .muli else .mulf)
            (.arg 0 (i8Vector 4)) (.arg 1 (i8Vector 4))) (.arg 2 (i8Vector 4))) ∧
      ∀ fm fa fc, denote sampleEnv (.arg 3 (i8Vector 4)) = some fm →
        denote sampleEnv (.arg 2 (i8Vector 4)) = some fa →
        denote sampleEnv combined = some fc →
        ∃ f, denote sampleEnv (Value.select (.arg 3 (i8Vector 4))
            (.binary .addi (.binary .muli (.arg 0 (i8Vector 4)) (.arg 1 (i8Vector 4)))
              (.arg 2 (i8Vector 4))) (.arg 2 (i8Vector 4))) = some f ∧
          ∀ lane, (fm lane = 0 → f lane = fa lane) ∧ (fm lane ≠ 0 → f lane = fc lane) :=
  createContractArithOp_mask_passthrough sampleEnv (.arg 0 (i8Vector 4)) (.arg 1 (i8Vector 4))
    (.arg 2 (i8Vector 4)) (.arg 3 (i8Vector 4)) .ADD ⟨[]⟩ _ true (.integer 8) (.integer 8) _
    rfl rfl rfl rfl (by decide) rfl

/-- Counterexample to C13 as stated: with kind ADD and a vector accumulator on `i8`
elements (ADD is legal on integers) the combine step creates a multiply followed by an
add and no fused multiply-add. -/
theorem createContractArithOp_fma_counterexample :
    createContractArithOp (.arg 0 (i8Vector 4)) (.arg 1 (i8Vector 4)) (.arg 2 (i8Vector 4))
        .ADD ⟨[]⟩ true .null =
      (some (.binary .addi (.binary .muli (.arg 0 (i8Vector 4)) (.arg 1 (i8Vector 4)))
          (.arg 2 (i8Vector 4))),
        ⟨[.binary .muli (.arg 0 (i8Vector 4)) (.arg 1 (i8Vector 4)),
          .binary .addi (.binary .muli (.arg 0 (i8Vector 4)) (.arg 1 (i8Vector 4)))
            (.arg 2 (i8Vector 4))]⟩) ∧
    (createContractArithOp (.arg 0 (i8Vector 4)) (.arg 1 (i8Vector 4)) (.arg 2 (i8Vector 4))
        .ADD ⟨[]⟩ true .null).2.ops.filter Value.isFma = [] := by
  decide

/-- C13 (amended). With kind ADD and an accumulator that is present and vector-shaped,
`createContractArithOp` on a non-integer element type (`isInt` false) creates a single
fused multiply-add of `(x, y, acc)` and no separate multiply or add; with a mask the
select-passthrough of that fused multiply-add follows and is returned. On an integer
element type (`isInt` true, operands of integer or index type) it creates the multiply
followed by the add. -/
theorem createContractArithOp_fma (x y acc mask : Value) (rewriter : PatternRewriter)
    (hacc : acc.isNull = false) (hvec : acc.getType.isVector = true) :
    createContractArithOp x y acc .ADD rewriter false mask =
        (if mask.isNull then (some (.fma x y acc), ⟨rewriter.ops ++ [.fma x y acc]⟩)
         else (some (.select mask (.fma x y acc) acc),
           ⟨rewriter.ops ++ [.fma x y acc, .select mask (.fma x y acc) acc]⟩)) ∧
    ∀ e ea, x.getType.elementType? = some e → acc.getType.elementType? = some ea →
      e.isIntOrIndex = true → ea.isIntOrIndex = true →
      createContractArithOp x y acc .ADD rewriter true mask =
        (if mask.isNull then
          (some (.binary .addi (.binary .muli x y) acc),
            ⟨rewriter.ops ++ [.binary .muli x y, .binary .addi (.binary .muli x y) acc]⟩)
         else (some (.select mask (.binary .addi (.binary .muli x y) acc) acc),
           ⟨rewriter.ops ++ [.binary .muli x y, .binary .addi (.binary .muli x y) acc,
             .select mask (.binary .addi (.binary .muli x y) acc) acc]⟩)) := by
  constructor
  · unfold createContractArithOp
    cases hm : mask.isNull
    · simp [hacc, hvec, hm, selectPassthru, PatternRewriter.create]
    · simp [hacc, hvec, hm, PatternRewriter.create]
  · intro e ea hx ha he hea
    unfold createContractArithOp
    simp only [if_true, reduceCtorEq, or_self, if_false, createContractArithOp.combine, hacc,
      Bool.false_eq_true, PatternRewriter.create]
    rw [makeArithReduction_typed _ .ADD (.binary .muli x y) acc mask e ea true .addi hx ha
      (by simp [he, hea]) rfl]
    cases hm : mask.isNull
    · simp [selectPassthru, hm, PatternRewriter.create]
    · simp [selectPassthru, hm]

/-- Instance of C13 (amended): an unmasked `f32` multiply-add becomes one `vector.fma`. -/
theorem createContractArithOp_fma_witness :
    createContractArithOp (.arg 0 (.vector ⟨[4], [false], .float 32⟩))
        (.arg 1 (.vector ⟨[4], [false], .float 32⟩))
        (.arg 2 (.vector ⟨[4], [false], .float 32⟩)) .ADD ⟨[]⟩ false .null =
      (some (.fma (.arg 0 (.vector ⟨[4], [false], .float 32⟩))
          (.arg 1 (.vector ⟨[4], [false], .float 32⟩))
          (.arg 2 (.vector ⟨[4], [false], .float 32⟩))),
        ⟨[.fma (.arg 0 (.vector ⟨[4], [false], .float 32⟩))
          (.arg 1 (.vector ⟨[4], [false], .float 32⟩))
          (.arg 2 (.vector ⟨[4], [false], .float 32⟩))]⟩) :=
  (createContractArithOp_fma (.arg 0 (.vector ⟨[4], [false], .float 32⟩))
    (.arg 1 (.vector ⟨[4], [false], .float 32⟩))
    (.arg 2 (.vector ⟨[4], [false], .float 32⟩)) .null ⟨[]⟩ rfl rfl).1

/-! ## `ContractionOpLowering`: preconditions, gating and peeling order -/

/-- C14. `ContractionOpLowering` returns failure with the rewriter untouched, so before
any embedded strategy is attempted and without creating an operation, whenever the lhs
or the rhs element type differs from the accumulator's element type, and whenever the
combining kind is not ADD. -/
theorem contractionOpLowering_precondition (self : ContractionOpLowering)
    (op : ContractionOp) (maskOp : Value) (rewriter : PatternRewriter)
    (h : some op.getLhsType.elementType ≠ op.getAccType.elementType? ∨
      some op.getRhsType.elementType ≠ op.getAccType.elementType? ∨ op.kind ≠ .ADD) :
    self.matchAndRewriteMaskableOp op maskOp rewriter = (.failure, rewriter) := by
  unfold ContractionOpLowering.matchAndRewriteMaskableOp
  split_ifs with h1 h2 h3
  · rfl
  · rfl
  · rfl
  · exfalso
    rcases h with h | h | h
    · exact h2 (Or.inl h)
    · exact h2 (Or.inr h)
    · exact h3 h

/-- Instance of C14: a contraction of kind `MUL` is declined at once. -/
theorem contractionOpLowering_precondition_witness :
    samplePeelingPattern.matchAndRewriteMaskableOp sampleMulContraction .null ⟨[]⟩ =
      (.failure, ⟨[]⟩) :=
  contractionOpLowering_precondition samplePeelingPattern sampleMulContraction .null ⟨[]⟩
    (Or.inr (Or.inr (by decide)))

theorem elementwise_guards (vcl : VectorContractLowering) (constraint : FilterConstraintType)
    (op : ContractionOp) (maskOp : Value) (rw : PatternRewriter)
    (h : vcl ≠ .ParallelArith) :
    (ContractOpToElementwise.new vcl constraint).matchAndRewriteMaskableOp op maskOp rw =
      (.failure, rw) := by
  unfold ContractOpToElementwise.matchAndRewriteMaskableOp
  dsimp only
  split_ifs with h1 h2 h3
  all_goals first
    | rfl
    | (exfalso; exact h3 (by simpa [ContractOpToElementwise.new] using h))

theorem failed_of_failure {α : Type} (r : FailureOr α) : r.failed = true ↔ r = .failure := by
  cases r <;> simp [FailureOr.failed]

theorem embedded_outer (self : ContractionOpLowering) (op : ContractionOp) (maskOp : Value)
    (rewriter : PatternRewriter) (v : Value) (rw1 : PatternRewriter)
    (h : (ContractionOpToOuterProductOpLowering.new self.vectorContractLoweringOption
      defaultFilter).matchAndRewriteMaskableOp op maskOp rewriter = (.success v, rw1)) :
    self.embedded op maskOp rewriter = (.success v, rw1) := by
  unfold ContractionOpLowering.embedded
  simp [h, FailureOr.failed]

theorem embedded_dot (self : ContractionOpLowering) (op : ContractionOp) (maskOp : Value)
    (rewriter : PatternRewriter) (v : Value) (rw1 : PatternRewriter)
    (h : (ContractionOpToDotLowering.new self.vectorContractLoweringOption
      defaultFilter).matchAndRewriteMaskableOp op maskOp rewriter = (.success v, rw1)) :
    self.embedded op maskOp rewriter = (.success v, rw1) := by
  have hs : self.vectorContractLoweringOption = .Dot := by
    by_contra hne
    rw [dot_guards _ _ _ _ _ (Or.inr hne)] at h
    simp at h
  have ho := matchAndRewrite_guard
    (ContractionOpToOuterProductOpLowering.new self.vectorContractLoweringOption defaultFilter)
    op maskOp rewriter (by simp [ContractionOpToOuterProductOpLowering.new, hs])
  unfold ContractionOpLowering.embedded
  simp [ho, h, FailureOr.failed]

theorem embedded_elementwise (self : ContractionOpLowering) (op : ContractionOp)
    (maskOp : Value) (rewriter : PatternRewriter) (v : Value) (rw1 : PatternRewriter)
    (h : (ContractOpToElementwise.new self.vectorContractLoweringOption
      defaultFilter).matchAndRewriteMaskableOp op maskOp rewriter = (.success v, rw1)) :
    self.embedded op maskOp rewriter = (.success v, rw1) := by
  have hs : self.vectorContractLoweringOption = .ParallelArith := by
    by_contra hne
    rw [elementwise_guards _ _ _ _ _ hne] at h
    simp at h
  have ho := matchAndRewrite_guard
    (ContractionOpToOuterProductOpLowering.new self.vectorContractLoweringOption defaultFilter)
    op maskOp rewriter (by simp [ContractionOpToOuterProductOpLowering.new, hs])
  have hd := dot_guards self.vectorContractLoweringOption defaultFilter op maskOp rewriter
    (Or.inr (by simp [hs]))
  unfold ContractionOpLowering.embedded
  simp [ho, hd, h, FailureOr.failed]

theorem matchAndRewrite_of_embedded (self : ContractionOpLowering) (op : ContractionOp)
    (maskOp : Value) (rewriter : PatternRewriter) (v : Value) (rw1 : PatternRewriter)
    (hf : self.filter op = .success)
    (hl : some op.getLhsType.elementType = op.getAccType.elementType?)
    (hr : some op.getRhsType.elementType = op.getAccType.elementType?)
    (hk : op.kind = .ADD)
    (h : self.embedded op maskOp rewriter = (.success v, rw1)) :
    self.matchAndRewriteMaskableOp op maskOp rewriter = (.success v, rw1) := by
  unfold ContractionOpLowering.matchAndRewriteMaskableOp
  simp [hf, hl, hr, hk, h, FailureOr.failed, LogicalResult.failed]

/-- C19 (strategy gating). The outer-product pattern fails unless the strategy is
`OuterProduct`, the dot pattern unless it is `Dot`, the elementwise pattern unless it is
`ParallelArith`, each leaving the rewriter untouched; so no two of them succeed under
one configuration value, whatever contraction, mask and rewriter each is run on. Inside
`ContractionOpLowering`, once its preconditions hold, whichever of the three embedded
patterns succeeds on the incoming rewriter provides the result. -/
theorem strategy_gating (vcl : VectorContractLowering) (c1 c2 c3 : FilterConstraintType)
    (op : ContractionOp) (maskOp : Value) (rw1 rw2 rw3 : PatternRewriter) :
    (vcl ≠ .OuterProduct →
      (ContractionOpToOuterProductOpLowering.new vcl c1).matchAndRewriteMaskableOp op maskOp
        rw1 = (.failure, rw1)) ∧
    (vcl ≠ .Dot →
      (ContractionOpToDotLowering.new vcl c2).matchAndRewriteMaskableOp op maskOp rw2 =
        (.failure, rw2)) ∧
    (vcl ≠ .ParallelArith →
      (ContractOpToElementwise.new vcl c3).matchAndRewriteMaskableOp op maskOp rw3 =
        (.failure, rw3)) ∧
    ¬ (((ContractionOpToOuterProductOpLowering.new vcl c1).matchAndRewriteMaskableOp op maskOp
          rw1).1.succeeded = true ∧
        ((ContractionOpToDotLowering.new vcl c2).matchAndRewriteMaskableOp op maskOp
          rw2).1.succeeded = true) ∧
    ¬ (((ContractionOpToOuterProductOpLowering.new vcl c1).matchAndRewriteMaskableOp op maskOp
          rw1).1.succeeded = true ∧
        ((ContractOpToElementwise.new vcl c3).matchAndRewriteMaskableOp op maskOp
          rw3).1.succeeded = true) ∧
    ¬ (((ContractionOpToDotLowering.new vcl c2).matchAndRewriteMaskableOp op maskOp
          rw2).1.succeeded = true ∧
        ((ContractOpToElementwise.new vcl c3).matchAndRewriteMaskableOp op maskOp
          rw3).1.succeeded = true) ∧
    ∀ (self : ContractionOpLowering) (v : Value) (rw : PatternRewriter),
      self.vectorContractLoweringOption = vcl → self.filter op = .success →
      some op.getLhsType.elementType = op.getAccType.elementType? →
      some op.getRhsType.elementType = op.getAccType.elementType? → op.kind = .ADD →
      ((ContractionOpToOuterProductOpLowering.new vcl defaultFilter).matchAndRewriteMaskableOp
          op maskOp rw1 = (.success v, rw) ∨
        (ContractionOpToDotLowering.new vcl defaultFilter).matchAndRewriteMaskableOp
          op maskOp rw1 = (.success v, rw) ∨
        (ContractOpToElementwise.new vcl defaultFilter).matchAndRewriteMaskableOp
          op maskOp rw1 = (.success v, rw)) →
      self.matchAndRewriteMaskableOp op maskOp rw1 = (.success v, rw) := by
  have g1 : vcl ≠ .OuterProduct →
      (ContractionOpToOuterProductOpLowering.new vcl c1).matchAndRewriteMaskableOp op maskOp
        rw1 = (.failure, rw1) := fun h =>
    matchAndRewrite_guard _ op maskOp rw1
      (by simp [ContractionOpToOuterProductOpLowering.new, h])
  have g2 : vcl ≠ .Dot →
      (ContractionOpToDotLowering.new vcl c2).matchAndRewriteMaskableOp op maskOp rw2 =
        (.failure, rw2) := fun h => dot_guards vcl c2 op maskOp rw2 (Or.inr h)
  have g3 : vcl ≠ .ParallelArith →
      (ContractOpToElementwise.new vcl c3).matchAndRewriteMaskableOp op maskOp rw3 =
        (.failure, rw3) := fun h => elementwise_guards vcl c3 op maskOp rw3 h
  refine ⟨g1, g2, g3, ?_, ?_, ?_, ?_⟩
  · rintro ⟨h1, h2⟩
    by_cases hv : vcl = .Dot
    · rw [g1 (by rw [hv]; decide)] at h1; simp [FailureOr.succeeded] at h1
    · rw [g2 hv] at h2; simp [FailureOr.succeeded] at h2
  · rintro ⟨h1, h2⟩
    by_cases hv : vcl = .ParallelArith
    · rw [g1 (by rw [hv]; decide)] at h1; simp [FailureOr.succeeded] at h1
    · rw [g3 hv] at h2; simp [FailureOr.succeeded] at h2
  · rintro ⟨h1, h2⟩
    by_cases hv : vcl = .ParallelArith
    · rw [g2 (by rw [hv]; decide)] at h1; simp [FailureOr.succeeded] at h1
    · rw [g3 hv] at h2; simp [FailureOr.succeeded] at h2
  · intro self v rw hs hf hl hr hk h
    apply matchAndRewrite_of_embedded self op maskOp rw1 v rw hf hl hr hk
    subst hs
    rcases h with h | h | h
    · exact embedded_outer self op maskOp rw1 v rw h
    · exact embedded_dot self op maskOp rw1 v rw h
    · exact embedded_elementwise self op maskOp rw1 v rw h

/-- Instance of C19: with strategy `Dot` the generic pattern returns on `sampleMatmat`
what the dot pattern returns. -/
theorem strategy_gating_witness :
    ∃ v rw, sampleDotPattern.matchAndRewriteMaskableOp sampleMatmat .null ⟨[]⟩ =
        (.success v, rw) ∧
      samplePeelingPattern.matchAndRewriteMaskableOp sampleMatmat .null ⟨[]⟩ =
        (.success v, rw) := by
  have hs : (sampleDotPattern.matchAndRewriteMaskableOp sampleMatmat .null ⟨[]⟩).1.succeeded
      = true := by decide
  cases h : sampleDotPattern.matchAndRewriteMaskableOp sampleMatmat .null ⟨[]⟩ with
  | mk r rw =>
      cases r with
      | failure => rw [h] at hs; simp [FailureOr.succeeded] at hs
      | success v =>
          exact ⟨v, rw, rfl,
            (strategy_gating .Dot defaultFilter defaultFilter defaultFilter sampleMatmat .null
              ⟨[]⟩ ⟨[]⟩ ⟨[]⟩).2.2.2.2.2.2 samplePeelingPattern v rw rfl rfl rfl rfl rfl
              (Or.inr (Or.inl h))⟩

theorem find?_range_some (p : Nat → Bool) (n i : Nat)
    (h : (List.range n).find? p = some i) : i < n ∧ p i = true ∧ ∀ j < i, p j = false := by
  induction n with
  | zero => simp at h
  | succ n ih =>
      rw [List.range_succ, List.find?_append] at h
      cases hf : (List.range n).find? p with
      | some k =>
          rw [hf] at h
          simp only [Option.or_some, Option.some.injEq] at h
          subst h
          obtain ⟨h1, h2, h3⟩ := ih hf
          exact ⟨by omega, h2, h3⟩
      | none =>
          rw [hf] at h
          simp only [Option.or, List.find?_cons, List.find?_nil] at h
          cases hp : p n
          · rw [hp] at h; simp at h
          · rw [hp] at h
            simp only [Option.some.injEq] at h
            subst h
            refine ⟨by omega, hp, ?_⟩
            intro j hj
            have := List.find?_eq_none.mp hf j (List.mem_range.mpr hj)
            simpa using this

theorem find?_range_eq_some (p : Nat → Bool) (n i : Nat) :
    (List.range n).find? p = some i ↔ i < n ∧ p i = true ∧ ∀ j < i, p j = false := by
  constructor
  · exact find?_range_some p n i
  · rintro ⟨h1, h2, h3⟩
    cases hf : (List.range n).find? p with
    | none =>
        have := List.find?_eq_none.mp hf i (List.mem_range.mpr h1)
        exact absurd h2 this
    | some k =>
        obtain ⟨k1, k2, k3⟩ := find?_range_some p n k hf
        rcases Nat.lt_trichotomy i k with hlt | heq | hgt
        · have := k3 i hlt; rw [h2] at this; exact absurd this (by simp)
        · rw [heq]
        · have := h3 k hgt; rw [k2] at this; exact absurd this (by simp)

theorem find?_range_eq_none (p : Nat → Bool) (n : Nat) :
    (List.range n).find? p = none ↔ ∀ j < n, p j = false := by
  rw [List.find?_eq_none]
  constructor
  · intro h j hj; simpa using h j (List.mem_range.mpr hj)
  · intro h x hx; simpa using h x (List.mem_range.mp hx)

theorem mask_of_maskOp (maskOp : Value) :
    (if !maskOp.isNull then maskOp else Value.null) = maskOp := by
  cases maskOp <;> rfl

theorem getResultIndex_some (map : AffineMap) (x pos : Nat)
    (h : getResultIndex map x = some pos) :
    pos < map.results.length ∧ map.getDimPosition pos = x := by
  unfold getResultIndex at h
  have h1 := List.find?_some h
  have h2 := List.mem_of_find?_eq_some h
  simp only [beq_iff_eq] at h1
  exact ⟨by simpa [AffineMap.getNumResults] using h2, h1⟩

theorem matchAndRewrite_peel (self : ContractionOpLowering) (op : ContractionOp)
    (maskOp : Value) (rewriter : PatternRewriter)
    (hf : self.filter op = .success)
    (hl : some op.getLhsType.elementType = op.getAccType.elementType?)
    (hr : some op.getRhsType.elementType = op.getAccType.elementType?)
    (hk : op.kind = .ADD)
    (hdecl : (self.embedded op maskOp rewriter).1.failed = true) :
    self.matchAndRewriteMaskableOp op maskOp rewriter =
      self.peel op maskOp (self.embedded op maskOp rewriter).2 := by
  unfold ContractionOpLowering.matchAndRewriteMaskableOp
  simp [hf, hl, hr, hk, hdecl, LogicalResult.failed]

theorem mem_getDimMap (op : ContractionOp) (keep : Nat → Bool) (l r : Nat)
    (h : (l, r) ∈ op.getDimMap keep) :
    ∃ label, label < op.iteratorTypes.length ∧ keep label = true ∧
      getResultIndex (op.indexingMaps.getD 0 ⟨0, []⟩) label = some l ∧
      getResultIndex (op.indexingMaps.getD 1 ⟨0, []⟩) label = some r := by
  unfold ContractionOp.getDimMap at h
  rw [List.mem_filterMap] at h
  obtain ⟨label, hmem, hv⟩ := h
  rw [List.mem_range] at hmem
  refine ⟨label, hmem, ?_⟩
  cases hk : keep label
  · rw [hk] at hv; simp at hv
  · rw [hk] at hv
    simp only [if_true] at hv
    cases h0 : getResultIndex (op.indexingMaps.getD 0 ⟨0, []⟩) label <;>
      cases h1 : getResultIndex (op.indexingMaps.getD 1 ⟨0, []⟩) label <;>
      rw [h0, h1] at hv <;> simp at hv
    exact ⟨rfl, by rw [hv.1], by rw [hv.2]⟩

/-- C15 (peeling order). Once the preconditions hold and the three embedded patterns
have declined, `ContractionOpLowering` peels, on the rewriter they leave: the first
batch pair by `lowerParallel` when the batch list is not empty (the peeled label is then
a batch label: parallel and present in lhs, rhs and result); otherwise the smallest lhs
axis outside the lhs contracting axes by `lowerParallel` with the rhs index absent;
otherwise the smallest rhs axis outside the rhs contracting axes with the lhs index
absent; otherwise `lowerReduction` when a contracting pair exists; otherwise it
fails. -/
theorem peeling_order (self : ContractionOpLowering) (op : ContractionOp) (maskOp : Value)
    (rewriter : PatternRewriter)
    (hf : self.filter op = .success)
    (hl : some op.getLhsType.elementType = op.getAccType.elementType?)
    (hr : some op.getRhsType.elementType = op.getAccType.elementType?)
    (hk : op.kind = .ADD)
    (hdecl : (self.embedded op maskOp rewriter).1.failed = true) :
    (∀ l r rest, op.getBatchDimMap = (l, r) :: rest →
      self.matchAndRewriteMaskableOp op maskOp rewriter =
        self.lowerParallel (self.embedded op maskOp rewriter).2 op (some l) (some r) maskOp ∧
      ∃ label, label < op.iteratorTypes.length ∧
        (op.indexingMaps.getD 0 ⟨0, []⟩).getDimPosition l = label ∧
        (op.indexingMaps.getD 1 ⟨0, []⟩).getDimPosition r = label ∧
        isParallelIterator (op.iteratorTypes.getD label .parallel) = true ∧
        (getResultIndex (op.indexingMaps.getD 2 ⟨0, []⟩) label).isSome = true) ∧
    (op.getBatchDimMap = [] →
      ∀ i, i < op.getLhsType.getRank → i ∉ op.getContractingDimMap.map Prod.fst →
        (∀ j < i, j ∈ op.getContractingDimMap.map Prod.fst) →
        self.matchAndRewriteMaskableOp op maskOp rewriter =
          self.lowerParallel (self.embedded op maskOp rewriter).2 op (some i) none maskOp) ∧
    (op.getBatchDimMap = [] →
      (∀ i < op.getLhsType.getRank, i ∈ op.getContractingDimMap.map Prod.fst) →
      ∀ i, i < op.getRhsType.getRank → i ∉ op.getContractingDimMap.map Prod.snd →
        (∀ j < i, j ∈ op.getContractingDimMap.map Prod.snd) →
        self.matchAndRewriteMaskableOp op maskOp rewriter =
          self.lowerParallel (self.embedded op maskOp rewriter).2 op none (some i) maskOp) ∧
    (op.getBatchDimMap = [] →
      (∀ i < op.getLhsType.getRank, i ∈ op.getContractingDimMap.map Prod.fst) →
      (∀ i < op.getRhsType.getRank, i ∈ op.getContractingDimMap.map Prod.snd) →
      (op.getContractingDimMap ≠ [] →
        self.matchAndRewriteMaskableOp op maskOp rewriter =
          self.lowerReduction (self.embedded op maskOp rewriter).2 op maskOp) ∧
      (op.getContractingDimMap = [] →
        self.matchAndRewriteMaskableOp op maskOp rewriter =
          (.failure, (self.embedded op maskOp rewriter).2))) := by
  rw [matchAndRewrite_peel self op maskOp rewriter hf hl hr hk hdecl]
  have hfl : ∀ n : Nat, (∀ i < n, i ∈ op.getContractingDimMap.map Prod.fst) →
      (List.range n).find?
        (fun lhsIndex => !(op.getContractingDimMap.map (fun dimPair => dimPair.1)).contains
          lhsIndex) = none := by
    intro n h
    rw [find?_range_eq_none]
    intro j hj
    simpa using h j hj
  have hfr : ∀ n : Nat, (∀ i < n, i ∈ op.getContractingDimMap.map Prod.snd) →
      (List.range n).find?
        (fun rhsIndex => !(op.getContractingDimMap.map (fun dimPair => dimPair.2)).contains
          rhsIndex) = none := by
    intro n h
    rw [find?_range_eq_none]
    intro j hj
    simpa using h j hj
  refine ⟨?_, ?_, ?_, ?_⟩
  · intro l r rest hb
    constructor
    · unfold ContractionOpLowering.peel
      simp only [mask_of_maskOp, hb, List.head?_cons]
    · have hmem : (l, r) ∈ op.getBatchDimMap := by rw [hb]; exact List.mem_cons_self _ _
      obtain ⟨label, hlt, hkeep, h0, h1⟩ := mem_getDimMap op _ l r hmem
      simp only [Bool.and_eq_true] at hkeep
      exact ⟨label, hlt, (getResultIndex_some _ _ _ h0).2, (getResultIndex_some _ _ _ h1).2,
        hkeep.1, hkeep.2⟩
  · intro hb i hi hni hall
    unfold ContractionOpLowering.peel
    simp only [mask_of_maskOp, hb, List.head?_nil]
    have : (List.range op.getLhsType.getRank).find?
        (fun lhsIndex => !(op.getContractingDimMap.map (fun dimPair => dimPair.1)).contains
          lhsIndex) = some i := by
      rw [find?_range_eq_some]
      refine ⟨hi, by simpa using hni, ?_⟩
      intro j hj
      simpa using hall j hj
    rw [this]
  · intro hb hall i hi hni hall2
    unfold ContractionOpLowering.peel
    simp only [mask_of_maskOp, hb, List.head?_nil]
    rw [hfl _ hall]
    have : (List.range op.getRhsType.getRank).find?
        (fun rhsIndex => !(op.getContractingDimMap.map (fun dimPair => dimPair.2)).contains
          rhsIndex) = some i := by
      rw [find?_range_eq_some]
      refine ⟨hi, by simpa using hni, ?_⟩
      intro j hj
      simpa using hall2 j hj
    rw [this]
  · intro hb hall hall2
    constructor
    · intro hne
      unfold ContractionOpLowering.peel
      simp only [mask_of_maskOp, hb, List.head?_nil]
      rw [hfl _ hall, hfr _ hall2]
      simp [hne]
    · intro he
      unfold ContractionOpLowering.peel
      simp only [mask_of_maskOp, hb, List.head?_nil]
      rw [hfl _ hall, hfr _ hall2]
      simp [he]

/-- Instance of C15 at `sampleBatch`: the batch axis (lhs axis 1, rhs axis 0) is peeled
although the free lhs axis 0 comes first. -/
theorem peeling_order_witness :
    samplePeelingPattern.matchAndRewriteMaskableOp sampleBatch .null ⟨[]⟩ =
      samplePeelingPattern.lowerParallel
        (samplePeelingPattern.embedded sampleBatch .null ⟨[]⟩).2 sampleBatch (some 1) (some 0)
        .null :=
  ((peeling_order samplePeelingPattern sampleBatch .null ⟨[]⟩ rfl rfl rfl rfl
    (by decide)).1 1 0 [] (by decide)).1

/-! ## Contractions emitted by peeling -/

open ContractionOpLowering

theorem ContractsFrom.same (Q : Value → Prop) (rw : PatternRewriter) :
    ContractsFrom Q rw rw :=
  ⟨[], by simp, by simp⟩

theorem ContractsFrom.create_other {Q : Value → Prop} {rw rw1 : PatternRewriter}
    (h : ContractsFrom Q rw rw1) (v : Value) (hv : v.isContract = false) :
    ContractsFrom Q rw (rw1.create v).2 := by
  obtain ⟨em, h1, h2⟩ := h
  refine ⟨em ++ [v], by simp [PatternRewriter.create, h1], ?_⟩
  intro x hx hc
  rw [List.mem_append, List.mem_singleton] at hx
  rcases hx with hx | rfl
  · exact h2 x hx hc
  · rw [hv] at hc; exact absurd hc (by simp)

theorem ContractsFrom.create_contract {Q : Value → Prop} {rw rw1 : PatternRewriter}
    (h : ContractsFrom Q rw rw1) (v : Value) (hv : Q v) :
    ContractsFrom Q rw (rw1.create v).2 := by
  obtain ⟨em, h1, h2⟩ := h
  refine ⟨em ++ [v], by simp [PatternRewriter.create, h1], ?_⟩
  intro x hx hc
  rw [List.mem_append, List.mem_singleton] at hx
  rcases hx with hx | rfl
  · exact h2 x hx hc
  · exact hv

theorem ContractsFrom.mono {Q Q1 : Value → Prop} {rw rw1 : PatternRewriter}
    (h : ContractsFrom Q rw rw1) (hq : ∀ v, Q v → Q1 v) : ContractsFrom Q1 rw rw1 := by
  obtain ⟨em, h1, h2⟩ := h
  exact ⟨em, h1, fun v hv hc => hq v (h2 v hv hc)⟩

theorem ContractsFrom.trans {Q : Value → Prop} {rw rw1 rw2 : PatternRewriter}
    (h : ContractsFrom Q rw rw1) (h1 : ContractsFrom Q rw1 rw2) : ContractsFrom Q rw rw2 := by
  obtain ⟨em, e1, e2⟩ := h
  obtain ⟨em1, f1, f2⟩ := h1
  refine ⟨em ++ em1, by rw [f1, e1, List.append_assoc], ?_⟩
  intro v hv hc
  rw [List.mem_append] at hv
  rcases hv with hv | hv
  · exact e2 v hv hc
  · exact f2 v hv hc

theorem foldl_contracts {Q : Value → Prop} {σ : Type} (rw : PatternRewriter)
    (step : σ × PatternRewriter → Nat → σ × PatternRewriter)
    (hstep : ∀ st d, ContractsFrom Q rw st.2 → ContractsFrom Q rw (step st d).2)
    (l : List Nat) (st : σ × PatternRewriter) (h : ContractsFrom Q rw st.2) :
    ContractsFrom Q rw (l.foldl step st).2 := by
  induction l generalizing st with
  | nil => exact h
  | cons d ds ih => exact ih (step st d) (hstep st d h)

theorem reshapeLoadAt_contracts {Q : Value → Prop} (rw : PatternRewriter) (i : Nat) :
    ∀ (val : Value) (type : VectorType) (pos : Nat) (rw1 : PatternRewriter),
      ContractsFrom Q rw rw1 → ContractsFrom Q rw (reshapeLoadAt i val type pos rw1).2 := by
  induction i with
  | zero =>
      intro val type pos rw1 h
      exact h.create_other _ rfl
  | succ i ih =>
      intro val type pos rw1 h
      unfold reshapeLoadAt
      apply foldl_contracts
      · intro st d hst
        apply ContractsFrom.create_other
        · apply ih
          exact hst.create_other _ rfl
        · rfl
      · exact h.create_other _ rfl

theorem reshapeLoad_contracts {Q : Value → Prop} {rw rw1 : PatternRewriter}
    (h : ContractsFrom Q rw rw1) (val : Value) (type : VectorType) (index : Option Nat)
    (pos : Nat) : ContractsFrom Q rw (reshapeLoad val type index pos rw1).2 := by
  cases index with
  | none => exact h
  | some i => exact reshapeLoadAt_contracts rw i val type pos rw1 h

theorem reshapeStoreAt_contracts {Q : Value → Prop} (rw : PatternRewriter) (i : Nat) :
    ∀ (val result : Value) (type : VectorType) (pos : Nat) (rw1 : PatternRewriter),
      ContractsFrom Q rw rw1 →
        ContractsFrom Q rw (reshapeStoreAt i val result type pos rw1).2 := by
  induction i with
  | zero =>
      intro val result type pos rw1 h
      exact h.create_other _ rfl
  | succ i ih =>
      intro val result type pos rw1 h
      unfold reshapeStoreAt
      apply foldl_contracts
      · intro st d hst
        apply ContractsFrom.create_other
        · apply ih
          apply ContractsFrom.create_other
          · exact hst.create_other _ rfl
          · rfl
        · rfl
      · exact h

theorem reshapeStore_contracts {Q : Value → Prop} {rw rw1 : PatternRewriter}
    (h : ContractsFrom Q rw rw1) (val result : Value) (type : VectorType)
    (index : Option Nat) (pos : Nat) :
    ContractsFrom Q rw (reshapeStore val result type index pos rw1).2 := by
  cases index with
  | none => exact h
  | some i => exact reshapeStoreAt_contracts rw i val result type pos rw1 h

theorem maskOperation_contracts {Q : Value → Prop} {rw rw1 : PatternRewriter}
    (h : ContractsFrom Q rw rw1) (v mask : Value) :
    ContractsFrom Q rw (maskOperation rw1 v mask).2 := by
  unfold maskOperation
  split
  · exact h
  · exact h.create_other _ rfl

theorem parallelStep_contracts (op : ContractionOp) (resType : VectorType)
    (lhsIndex rhsIndex resIndex : Option Nat) (iterIndex : Nat) (mask : Value)
    (rw : PatternRewriter) (st : Value × PatternRewriter) (d : Nat)
    (h : ContractsFrom (IsPeeledChild op lhsIndex rhsIndex iterIndex) rw st.2) :
    ContractsFrom (IsPeeledChild op lhsIndex rhsIndex iterIndex) rw
      (parallelStep op resType lhsIndex rhsIndex resIndex iterIndex mask
        [adjustMap (op.indexingMaps.getD 0 ⟨0, []⟩) iterIndex,
          adjustMap (op.indexingMaps.getD 1 ⟨0, []⟩) iterIndex,
          adjustMap (op.indexingMaps.getD 2 ⟨0, []⟩) iterIndex]
        (adjustIter op.iteratorTypes iterIndex) st d).2 := by
  unfold parallelStep
  dsimp only
  apply reshapeStore_contracts
  apply maskOperation_contracts
  apply ContractsFrom.create_contract
  · split
    · apply reshapeLoad_contracts
      apply reshapeLoad_contracts
      apply reshapeLoad_contracts
      apply reshapeLoad_contracts
      exact h
    · apply reshapeLoad_contracts
      apply reshapeLoad_contracts
      apply reshapeLoad_contracts
      exact h
  · exact ⟨d, _, _, _, rfl⟩

theorem lowerParallel_contracts (self : ContractionOpLowering) (rw : PatternRewriter)
    (op : ContractionOp) (lhsIndex rhsIndex : Option Nat) (mask : Value) :
    ContractsFrom (fun v => ∃ iterIndex dimSize,
        peeledAxis op lhsIndex rhsIndex = some (iterIndex, dimSize) ∧
        IsPeeledChild op lhsIndex rhsIndex iterIndex v) rw
      (self.lowerParallel rw op lhsIndex rhsIndex mask).2 := by
  unfold ContractionOpLowering.lowerParallel
  cases hres : op.resultType.dynCastVector with
  | none => exact ContractsFrom.same _ _
  | some resType =>
      cases hp : peeledAxis op lhsIndex rhsIndex with
      | none => exact ContractsFrom.same _ _
      | some p =>
          obtain ⟨iterIndex, dimSize⟩ := p
          dsimp only
          split_ifs
          · exact ContractsFrom.same _ _
          · apply ContractsFrom.mono _ (fun v hv => ⟨iterIndex, dimSize, rfl, hv⟩)
            apply foldl_contracts
            · intro st d hst
              exact parallelStep_contracts op resType lhsIndex rhsIndex _ iterIndex mask rw st d
                hst
            · exact (ContractsFrom.same _ rw).create_other _ rfl

theorem reductionStep_contracts (op : ContractionOp) (lhsIndex rhsIndex : Nat)
    (mask : Value) (rw : PatternRewriter) (st : Value × PatternRewriter) (d : Nat)
    (h : ContractsFrom (IsPeeledChild op (some lhsIndex) (some rhsIndex) 0) rw st.2) :
    ContractsFrom (IsPeeledChild op (some lhsIndex) (some rhsIndex) 0) rw
      (reductionStep op lhsIndex rhsIndex mask
        [adjustMap (op.indexingMaps.getD 0 ⟨0, []⟩) 0,
          adjustMap (op.indexingMaps.getD 1 ⟨0, []⟩) 0,
          adjustMap (op.indexingMaps.getD 2 ⟨0, []⟩) 0]
        (adjustIter op.iteratorTypes 0) st d).2 := by
  unfold reductionStep
  dsimp only
  apply maskOperation_contracts
  apply ContractsFrom.create_contract
  · split
    · apply reshapeLoad_contracts
      apply reshapeLoad_contracts
      apply reshapeLoad_contracts
      exact h
    · apply reshapeLoad_contracts
      apply reshapeLoad_contracts
      exact h
  · exact ⟨d, _, _, _, rfl⟩

theorem createMul_contracts {Q : Value → Prop} {rw rw1 : PatternRewriter}
    (h : ContractsFrom Q rw rw1) (x y : Value) (isInt : Bool) :
    ContractsFrom Q rw (createMul x y isInt rw1).2 := by
  unfold createMul
  split
  · exact h.create_other _ rfl
  · exact h.create_other _ rfl

theorem lowerReduction_contracts (self : ContractionOpLowering) (rw : PatternRewriter)
    (op : ContractionOp) (mask : Value) :
    ContractsFrom (fun v => ∃ lhsIndex rhsIndex,
        getResultIndex (op.indexingMaps.getD 0 ⟨0, []⟩) 0 = some lhsIndex ∧
        getResultIndex (op.indexingMaps.getD 1 ⟨0, []⟩) 0 = some rhsIndex ∧
        op.getLhsType.getRank ≠ 1 ∧
        IsPeeledChild op (some lhsIndex) (some rhsIndex) 0 v) rw
      (self.lowerReduction rw op mask).2 := by
  unfold ContractionOpLowering.lowerReduction
  by_cases hv : op.resultType.isVector = true
  · rw [if_pos hv]
    exact ContractsFrom.same _ _
  · rw [if_neg hv]
    dsimp only
    cases h0 : getResultIndex (op.indexingMaps.getD 0 ⟨0, []⟩) 0 with
    | none => exact ContractsFrom.same _ _
    | some lhsIndex =>
        cases h1 : getResultIndex (op.indexingMaps.getD 1 ⟨0, []⟩) 0 with
        | none => exact ContractsFrom.same _ _
        | some rhsIndex =>
            dsimp only
            by_cases h2 : op.getLhsType.getDimSize lhsIndex ≠ op.getRhsType.getDimSize rhsIndex
            · rw [if_pos h2]
              exact ContractsFrom.same _ _
            · rw [if_neg h2]
              by_cases h3 : op.getLhsType.getRank = 1
              · rw [if_pos h3]
                by_cases h4 : op.getRhsType.getRank ≠ 1
                · rw [if_pos h4]
                  exact ContractsFrom.same _ _
                · rw [if_neg h4]
                  apply maskOperation_contracts
                  apply ContractsFrom.create_other
                  · apply createMul_contracts
                    exact ContractsFrom.same _ _
                  · rfl
              · rw [if_neg h3]
                apply ContractsFrom.mono _
                  (fun v hv => ⟨lhsIndex, rhsIndex, rfl, rfl, h3, hv⟩)
                apply foldl_contracts
                · intro st d hst
                  exact reductionStep_contracts op lhsIndex rhsIndex mask rw st d hst
                · exact ContractsFrom.same _ rw

theorem filterMap_enumFrom_eraseIdx {α : Type} (l : List α) (k index : Nat) :
    (l.enumFrom k).filterMap (fun it => if it.1 = index + k then none else some it.2) =
      l.eraseIdx index := by
  induction l generalizing k index with
  | nil => simp
  | cons a as ih =>
      cases index with
      | zero =>
          simp only [List.enumFrom_cons, List.filterMap_cons, Nat.zero_add, if_true,
            List.eraseIdx_cons_zero]
          have : ∀ (l : List α) (j : Nat), k < j →
              (l.enumFrom j).filterMap (fun it => if it.1 = k then none else some it.2) = l := by
            intro l
            induction l with
            | nil => simp
            | cons b bs ihb =>
                intro j hj
                simp only [List.enumFrom_cons, List.filterMap_cons]
                rw [if_neg (by omega)]
                simp only [List.cons.injEq, true_and]
                exact ihb (j + 1) (by omega)
          exact this as (k + 1) (by omega)
      | succ i =>
          simp only [List.enumFrom_cons, List.filterMap_cons, List.eraseIdx_cons_succ]
          rw [if_neg (by omega)]
          simp only [List.cons.injEq, true_and]
          have := ih (k + 1) i
          rw [← this]
          congr 1
          funext it
          have : i + (k + 1) = i + 1 + k := by omega
          rw [this]

theorem adjustIter_eq_eraseIdx (iteratorTypes : List IteratorType) (index : Nat) :
    adjustIter iteratorTypes index = iteratorTypes.eraseIdx index := by
  unfold adjustIter List.enum
  exact filterMap_enumFrom_eraseIdx iteratorTypes 0 index

theorem adjustIter_length (iteratorTypes : List IteratorType) (index : Nat)
    (h : index < iteratorTypes.length) :
    (adjustIter iteratorTypes index).length = iteratorTypes.length - 1 := by
  rw [adjustIter_eq_eraseIdx, List.length_eraseIdx, if_pos h]

theorem adjustMap_numDims (map : AffineMap) (index n : Nat) (hn : map.numDims = n)
    (h1 : 1 ≤ n) (h32 : n < 2 ^ 32) : (adjustMap map index).numDims = n - 1 := by
  unfold adjustMap wrapUInt32 AffineMap.getNumDims
  simp only [hn]
  rw [Int.emod_eq_of_lt (by omega) (by omega)]
  omega

theorem mem_adjustMap_results (map : AffineMap) (index y : Nat)
    (hy : y ∈ (adjustMap map index).results) :
    ∃ x ∈ map.results, x ≠ index ∧ y = if x < index then x else x - 1 := by
  unfold adjustMap at hy
  simp only [List.mem_filterMap, List.mem_range] at hy
  obtain ⟨i, hi, hv⟩ := hy
  refine ⟨map.getDimPosition i, ?_, ?_⟩
  · unfold AffineMap.getDimPosition
    exact getD_mem _ _ hi
  · by_cases he : map.getDimPosition i = index
    · rw [if_pos he] at hv; simp at hv
    · rw [if_neg he] at hv
      simp only [Option.some.injEq] at hv
      exact ⟨he, hv.symm⟩

theorem adjustMap_results_lt (map : AffineMap) (index n : Nat)
    (hl : ∀ x ∈ map.results, x < n) (hi : index < n) :
    ∀ y ∈ (adjustMap map index).results, y < n - 1 := by
  intro y hy
  obtain ⟨x, hx, hne, rfl⟩ := mem_adjustMap_results map index y hy
  have := hl x hx
  split_ifs with h
  · omega
  · omega

theorem hasDomainSize_of_peeledChild (op : ContractionOp) (lhsIndex rhsIndex : Option Nat)
    (iterIndex n : Nat) (v : Value) (hn : op.iteratorTypes.length = n) (h32 : n < 2 ^ 32)
    (hmaps : ∀ m ∈ [op.indexingMaps.getD 0 ⟨0, []⟩, op.indexingMaps.getD 1 ⟨0, []⟩,
      op.indexingMaps.getD 2 ⟨0, []⟩], m.numDims = n ∧ ∀ x ∈ m.results, x < n)
    (hi : iterIndex < n) (hv : IsPeeledChild op lhsIndex rhsIndex iterIndex v) :
    HasDomainSize (n - 1) v := by
  obtain ⟨d, rwa, rwb, acc, rfl⟩ := hv
  unfold HasDomainSize
  refine ⟨rfl, ?_, by rw [adjustIter_length _ _ (by omega), hn]⟩
  intro m hm
  simp only [List.mem_cons, List.mem_singleton, List.not_mem_nil, or_false] at hm
  rcases hm with rfl | rfl | rfl
  · have := hmaps (op.indexingMaps.getD 0 ⟨0, []⟩) (by simp)
    exact ⟨adjustMap_numDims _ _ n this.1 (by omega) h32,
      adjustMap_results_lt _ _ n this.2 hi⟩
  · have := hmaps (op.indexingMaps.getD 1 ⟨0, []⟩) (by simp)
    exact ⟨adjustMap_numDims _ _ n this.1 (by omega) h32,
      adjustMap_results_lt _ _ n this.2 hi⟩
  · have := hmaps (op.indexingMaps.getD 2 ⟨0, []⟩) (by simp)
    exact ⟨adjustMap_numDims _ _ n this.1 (by omega) h32,
      adjustMap_results_lt _ _ n this.2 hi⟩

theorem peeledAxis_label (op : ContractionOp) (lhsIndex rhsIndex : Option Nat)
    (iterIndex dimSize : Nat) (h : peeledAxis op lhsIndex rhsIndex = some (iterIndex, dimSize)) :
    (∃ l, lhsIndex = some l ∧ iterIndex = (op.indexingMaps.getD 0 ⟨0, []⟩).getDimPosition l ∧
      dimSize = op.getLhsType.getDimSize l ∧
      op.getLhsType.scalableDims.getD l false = false ∧
      ∀ r, rhsIndex = some r →
        iterIndex = (op.indexingMaps.getD 1 ⟨0, []⟩).getDimPosition r) ∨
    (∃ r, lhsIndex = none ∧ rhsIndex = some r ∧
      iterIndex = (op.indexingMaps.getD 1 ⟨0, []⟩).getDimPosition r ∧
      dimSize = op.getRhsType.getDimSize r ∧
      op.getRhsType.scalableDims.getD r false = false) := by
  unfold peeledAxis at h
  cases lhsIndex with
  | some l =>
      left
      dsimp only at h
      split_ifs at h with h1 h2
      simp only [Option.some.injEq, Prod.mk.injEq] at h
      refine ⟨l, rfl, h.1.symm, h.2.symm, by simpa using h2, ?_⟩
      intro r hr
      subst hr
      simp only [Option.any_some, decide_eq_true_eq, not_not] at h1
      rw [← h.1, h1]
  | none =>
      cases rhsIndex with
      | none => simp at h
      | some r =>
          right
          dsimp only at h
          split_ifs at h with h2
          simp only [Option.some.injEq, Prod.mk.injEq] at h
          exact ⟨r, rfl, rfl, h.1.symm, h.2.symm, by simpa using h2⟩

theorem getDimPosition_lt (map : AffineMap) (n i : Nat) (hl : ∀ x ∈ map.results, x < n)
    (hi : i < map.getNumResults) : map.getDimPosition i < n :=
  hl _ (getD_mem map.results i hi)

/-- C16 (shape-reduction invariant). For a parent contraction with `n` iterator kinds
(below `2 ^ 32`) whose three maps have domain size `n` and labels below `n`, every
`vector.contract` created by `lowerParallel` (called on operand axes that exist) and
every one created by `lowerReduction` (which creates some only outside its base case)
has three index maps of domain size `n - 1`, all their labels below `n - 1`, and
`n - 1` iterator kinds. -/
theorem peeled_domain_size (self : ContractionOpLowering) (op : ContractionOp)
    (mask : Value) (rewriter : PatternRewriter) (n : Nat)
    (hn : op.iteratorTypes.length = n) (h32 : n < 2 ^ 32)
    (hmaps : ∀ m ∈ [op.indexingMaps.getD 0 ⟨0, []⟩, op.indexingMaps.getD 1 ⟨0, []⟩,
      op.indexingMaps.getD 2 ⟨0, []⟩], m.numDims = n ∧ ∀ x ∈ m.results, x < n) :
    (∀ lhsIndex rhsIndex : Option Nat,
      (∀ l, lhsIndex = some l → l < (op.indexingMaps.getD 0 ⟨0, []⟩).getNumResults) →
      (∀ r, rhsIndex = some r → r < (op.indexingMaps.getD 1 ⟨0, []⟩).getNumResults) →
      ContractsFrom (HasDomainSize (n - 1)) rewriter
        (self.lowerParallel rewriter op lhsIndex rhsIndex mask).2) ∧
    ContractsFrom (HasDomainSize (n - 1)) rewriter
      (self.lowerReduction rewriter op mask).2 := by
  have h0 := hmaps (op.indexingMaps.getD 0 ⟨0, []⟩) (by simp)
  have h1 := hmaps (op.indexingMaps.getD 1 ⟨0, []⟩) (by simp)
  constructor
  · intro lhsIndex rhsIndex hl hr
    apply (lowerParallel_contracts self rewriter op lhsIndex rhsIndex mask).mono
    rintro v ⟨iterIndex, dimSize, hp, hv⟩
    apply hasDomainSize_of_peeledChild op lhsIndex rhsIndex iterIndex n v hn h32 hmaps _ hv
    rcases peeledAxis_label op lhsIndex rhsIndex iterIndex dimSize hp with
      ⟨l, hl1, hi, -, -, -⟩ | ⟨r, -, hr1, hi, -, -⟩
    · rw [hi]
      exact getDimPosition_lt _ n l h0.2 (hl l hl1)
    · rw [hi]
      exact getDimPosition_lt _ n r h1.2 (hr r hr1)
  · apply (lowerReduction_contracts self rewriter op mask).mono
    rintro v ⟨lhsIndex, rhsIndex, hl, -, -, hv⟩
    apply hasDomainSize_of_peeledChild op _ _ 0 n v hn h32 hmaps _ hv
    obtain ⟨hlt, hpos⟩ := getResultIndex_some _ _ _ hl
    rw [← hpos]
    exact getDimPosition_lt _ n lhsIndex h0.2 hlt

/-- Instance of C16 at `sampleBatch` (three labels): peeling the batch axis creates two
contractions, each on two labels. -/
theorem peeled_domain_size_witness :
    ((samplePeelingPattern.lowerParallel ⟨[]⟩ sampleBatch (some 1) (some 0) .null).2.ops.filter
        Value.isContract).length = 2 ∧
      ContractsFrom (HasDomainSize (3 - 1)) ⟨[]⟩
        (samplePeelingPattern.lowerParallel ⟨[]⟩ sampleBatch (some 1) (some 0) .null).2 :=
  ⟨by decide,
    (peeled_domain_size samplePeelingPattern sampleBatch .null ⟨[]⟩ 3 rfl (by decide)
      (by decide)).1 (some 1) (some 0) (by decide) (by decide)⟩

/-! ### The embedded patterns create no contraction -/

theorem t_contracts {Q : Value → Prop} {rw rw1 : PatternRewriter}
    (h : ContractsFrom Q rw rw1) (v : Value) (perm : List Nat) :
    ContractsFrom Q rw (t v perm rw1).2 := by
  unfold UnrolledOuterProductGenerator.t
  split
  · exact h
  · exact h.create_other _ rfl

theorem promote_contracts {Q : Value → Prop} {rw rw1 : PatternRewriter}
    (h : ContractsFrom Q rw rw1) (v : Value) (e : ElementType) :
    ContractsFrom Q rw (promote v e rw1).2 := by
  unfold UnrolledOuterProductGenerator.promote
  dsimp only
  split_ifs
  · exact h
  · exact h.create_other _ rfl
  · exact h.create_other _ rfl

theorem outerProdStep_contracts {Q : Value → Prop} (g : UnrolledOuterProductGenerator)
    (lhs rhs : Value) (e : ElementType) (maybeMask : Option Value) (rw : PatternRewriter)
    (st : Value × PatternRewriter) (k : Nat) (h : ContractsFrom Q rw st.2) :
    ContractsFrom Q rw (g.outerProdStep lhs rhs e maybeMask st k).2 := by
  unfold UnrolledOuterProductGenerator.outerProdStep
  dsimp only
  apply maskOperation_contracts
  apply ContractsFrom.create_other
  · cases maybeMask with
    | none =>
        dsimp only
        apply promote_contracts
        apply promote_contracts
        apply ContractsFrom.create_other
        · exact h.create_other _ rfl
        · rfl
    | some m =>
        dsimp only
        split
        · apply promote_contracts
          apply promote_contracts
          apply ContractsFrom.create_other
          · exact h.create_other _ rfl
          · rfl
        · apply ContractsFrom.create_other
          · apply promote_contracts
            apply promote_contracts
            apply ContractsFrom.create_other
            · exact h.create_other _ rfl
            · rfl
          · rfl
  · rfl

theorem outerProd_contracts {Q : Value → Prop} {rw rw1 : PatternRewriter}
    (h : ContractsFrom Q rw rw1) (g : UnrolledOuterProductGenerator) (lhs rhs res : Value)
    (lt : VectorType) (R : Int) (maybeMask : Option Value) :
    ContractsFrom Q rw (g.outerProd lhs rhs res lt R maybeMask rw1).2 := by
  unfold UnrolledOuterProductGenerator.outerProd
  split_ifs
  · exact h
  · split
    · apply foldl_contracts
      · intro st d hst
        exact outerProdStep_contracts g lhs rhs _ maybeMask rw st d hst
      · exact h
    · exact h

theorem matmat_contracts {Q : Value → Prop} {rw rw1 : PatternRewriter}
    (h : ContractsFrom Q rw rw1) (g : UnrolledOuterProductGenerator) :
    ContractsFrom Q rw (g.matmat rw1).2 := by
  unfold UnrolledOuterProductGenerator.matmat
  dsimp only
  repeat' split
  all_goals first
    | exact h
    | (apply outerProd_contracts
       repeat (first | exact h | apply t_contracts))

theorem matvec_contracts {Q : Value → Prop} {rw rw1 : PatternRewriter}
    (h : ContractsFrom Q rw rw1) (g : UnrolledOuterProductGenerator) :
    ContractsFrom Q rw (g.matvec rw1).2 := by
  unfold UnrolledOuterProductGenerator.matvec
  dsimp only
  repeat' split
  all_goals first
    | exact h
    | (apply outerProd_contracts
       repeat (first | exact h | apply t_contracts))

theorem tmatvec_contracts {Q : Value → Prop} {rw rw1 : PatternRewriter}
    (h : ContractsFrom Q rw rw1) (g : UnrolledOuterProductGenerator) :
    ContractsFrom Q rw (g.tmatvec rw1).2 := by
  unfold UnrolledOuterProductGenerator.tmatvec
  dsimp only
  repeat' split
  all_goals first
    | exact h
    | (apply outerProd_contracts
       repeat (first | exact h | apply t_contracts))

theorem outerPattern_contracts {Q : Value → Prop} {rw rw1 : PatternRewriter}
    (h : ContractsFrom Q rw rw1) (self : ContractionOpToOuterProductOpLowering)
    (op : ContractionOp) (maskOp : Value) :
    ContractsFrom Q rw (self.matchAndRewriteMaskableOp op maskOp rw1).2 := by
  unfold ContractionOpToOuterProductOpLowering.matchAndRewriteMaskableOp
  dsimp only
  split_ifs
  · exact h
  · exact h
  · exact matmat_contracts h _
  · exact matvec_contracts (matmat_contracts h _) _
  · exact tmatvec_contracts (matvec_contracts (matmat_contracts h _) _) _

theorem normalize_contracts {Q : Value → Prop} {rw rw1 : PatternRewriter}
    (h : ContractsFrom Q rw rw1) (op : ContractionOp) :
    ContractsFrom Q rw (ContractionOpToDotLowering.normalize op rw1).2 := by
  unfold ContractionOpToDotLowering.normalize
  dsimp only
  repeat' split
  all_goals first
    | exact h
    | exact h.create_other _ rfl
    | (apply ContractsFrom.create_other
       · exact h.create_other _ rfl
       · rfl)

theorem columnStep_contracts {Q : Value → Prop} (rw : PatternRewriter) (rhs : Value)
    (rank : Nat) (isInt : Bool) (r : Nat) (rowLhs : Value) (st : DotLoopState) (c : Nat)
    (h : ContractsFrom Q rw st.rewriter) :
    ContractsFrom Q rw (columnStep rhs rank isInt r rowLhs st c).rewriter := by
  unfold ContractionOpToDotLowering.columnStep
  dsimp only
  apply ContractsFrom.create_other
  · apply ContractsFrom.create_other
    · apply createMul_contracts
      split
      · split
        · exact h
        · exact h.create_other _ rfl
      · exact h
    · rfl
  · rfl

theorem foldl_dot_contracts {Q : Value → Prop} (rw : PatternRewriter)
    (step : DotLoopState → Nat → DotLoopState)
    (hstep : ∀ st d, ContractsFrom Q rw st.rewriter → ContractsFrom Q rw (step st d).rewriter)
    (l : List Nat) (st : DotLoopState) (h : ContractsFrom Q rw st.rewriter) :
    ContractsFrom Q rw (l.foldl step st).rewriter := by
  induction l generalizing st with
  | nil => exact h
  | cons d ds ih => exact ih (step st d) (hstep st d h)

theorem rowStep_contracts {Q : Value → Prop} (rw : PatternRewriter) (lhs rhs : Value)
    (rank : Nat) (isInt : Bool) (dstColumns : Nat) (st : DotLoopState) (r : Nat)
    (h : ContractsFrom Q rw st.rewriter) :
    ContractsFrom Q rw (rowStep lhs rhs rank isInt dstColumns st r).rewriter := by
  unfold ContractionOpToDotLowering.rowStep
  dsimp only
  apply foldl_dot_contracts
  · intro st1 c hst
    exact columnStep_contracts rw rhs rank isInt r _ st1 c hst
  · exact h.create_other _ rfl

theorem createAdd_contracts {Q : Value → Prop} {rw rw1 : PatternRewriter}
    (h : ContractsFrom Q rw rw1) (x y : Value) (isInt : Bool) :
    ContractsFrom Q rw (createAdd x y isInt rw1).2 := by
  unfold createAdd
  split
  · exact h.create_other _ rfl
  · exact h.create_other _ rfl

theorem emitGrid_contracts {Q : Value → Prop} {rw rw1 : PatternRewriter}
    (h : ContractsFrom Q rw rw1) (op : ContractionOp) (lhs rhs : Value) :
    ContractsFrom Q rw (emitGrid op lhs rhs rw1).2 := by
  unfold ContractionOpToDotLowering.emitGrid
  split
  · dsimp only
    have hloop : ∀ (dstType : VectorType) (rows cols : Nat), ContractsFrom Q rw
        ((List.range rows).foldl
          (rowStep lhs rhs dstType.getRank dstType.elementType.isInteger cols)
          { res := (rw1.create (.constantZero (.vector dstType))).1, extractedCols := [],
            rewriter := (rw1.create (.constantZero (.vector dstType))).2 }).rewriter := by
      intro dstType rows cols
      apply foldl_dot_contracts
      · intro st r hst
        exact rowStep_contracts rw lhs rhs _ _ cols st r hst
      · exact h.create_other _ rfl
    split
    · apply createAdd_contracts
      exact hloop _ _ _
    · exact hloop _ _ _
  · exact h

theorem dotPattern_contracts {Q : Value → Prop} {rw rw1 : PatternRewriter}
    (h : ContractsFrom Q rw rw1) (self : ContractionOpToDotLowering)
    (op : ContractionOp) (maskOp : Value) :
    ContractsFrom Q rw (self.matchAndRewriteMaskableOp op maskOp rw1).2 := by
  unfold ContractionOpToDotLowering.matchAndRewriteMaskableOp
  split_ifs
  · exact h
  · exact h
  · exact h
  · have hn := normalize_contracts h op
    split
    · rename_i lhs rhs rewriter1 heq
      rw [heq] at hn
      exact emitGrid_contracts hn op lhs rhs
    · rename_i rewriter1 heq
      rw [heq] at hn
      exact hn

theorem selectPassthru_contracts {Q : Value → Prop} {rw rw1 : PatternRewriter}
    (h : ContractsFrom Q rw rw1) (mask nv pt : Value) :
    ContractsFrom Q rw (selectPassthru rw1 mask nv pt).2 := by
  unfold selectPassthru
  split
  · exact h
  · exact h.create_other _ rfl

theorem makeArithReduction_contracts {Q : Value → Prop} {rw rw1 : PatternRewriter}
    (h : ContractsFrom Q rw rw1) (kind : CombiningKind) (v1 acc mask : Value) :
    ContractsFrom Q rw (makeArithReduction rw1 kind v1 acc mask).2 := by
  unfold makeArithReduction
  dsimp only
  repeat' split
  all_goals first
    | exact h
    | (apply selectPassthru_contracts
       exact h.create_other _ rfl)

theorem createContractArithOp_contracts {Q : Value → Prop} {rw rw1 : PatternRewriter}
    (h : ContractsFrom Q rw rw1) (x y acc : Value) (kind : CombiningKind) (isInt : Bool)
    (mask : Value) :
    ContractsFrom Q rw (createContractArithOp x y acc kind rw1 isInt mask).2 := by
  have hc : ∀ v : Value, v.isContract = false →
      ContractsFrom Q rw (createContractArithOp.combine (rw1.create v) acc kind mask).2 := by
    intro v hv
    unfold createContractArithOp.combine
    dsimp only
    split
    · exact h.create_other v hv
    · exact makeArithReduction_contracts (h.create_other v hv) _ _ _ _
  unfold createContractArithOp
  dsimp only
  split_ifs
  · exact h
  · exact hc _ rfl
  · exact h
  · apply selectPassthru_contracts
    exact h.create_other _ rfl
  · exact h.create_other _ rfl
  · exact hc _ rfl

theorem broadcastOperand_contracts {Q : Value → Prop} {rw rw1 : PatternRewriter}
    (h : ContractsFrom Q rw rw1) (v : Value) (dims shape : List Nat) (e : ElementType) :
    ContractsFrom Q rw (broadcastOperand v dims shape e rw1).2 := by
  unfold ContractOpToElementwise.broadcastOperand
  split
  · exact h.create_other _ rfl
  · exact h

theorem elementwisePattern_contracts {Q : Value → Prop} {rw rw1 : PatternRewriter}
    (h : ContractsFrom Q rw rw1) (self : ContractOpToElementwise)
    (op : ContractionOp) (maskOp : Value) :
    ContractsFrom Q rw (self.matchAndRewriteMaskableOp op maskOp rw1).2 := by
  unfold ContractOpToElementwise.matchAndRewriteMaskableOp
  dsimp only
  split_ifs
  · exact h
  · exact h
  · exact h
  · exact h
  · exact h
  · split <;>
    · apply createContractArithOp_contracts
      apply ContractsFrom.create_other
      · apply ContractsFrom.create_other
        · apply ContractsFrom.create_other
          · apply ContractsFrom.create_other
            · apply broadcastOperand_contracts
              apply broadcastOperand_contracts
              exact h
            · rfl
          · rfl
        · rfl
      · rfl

theorem embedded_contracts {Q : Value → Prop} {rw rw1 : PatternRewriter}
    (h : ContractsFrom Q rw rw1) (self : ContractionOpLowering) (op : ContractionOp)
    (maskOp : Value) : ContractsFrom Q rw (self.embedded op maskOp rw1).2 := by
  unfold ContractionOpLowering.embedded
  dsimp only
  have h1 := outerPattern_contracts h
    (ContractionOpToOuterProductOpLowering.new self.vectorContractLoweringOption defaultFilter)
    op maskOp
  have h2 := dotPattern_contracts h1
    (ContractionOpToDotLowering.new self.vectorContractLoweringOption defaultFilter) op maskOp
  have h3 := elementwisePattern_contracts h2
    (ContractOpToElementwise.new self.vectorContractLoweringOption defaultFilter) op maskOp
  split_ifs
  · exact h1
  · exact h2
  · exact h3
  · exact h3

/-! ## Termination of peeling -/

theorem filterMap_rename (l : List Nat) (index : Nat) :
    l.filterMap (fun idx => if idx = index then none else some (renameLabel index idx)) =
      (l.filter (fun y => decide (y ≠ index))).map (renameLabel index) := by
  induction l with
  | nil => rfl
  | cons a as ih =>
      by_cases h : a = index
      · simp [List.filterMap_cons, h, ih]
      · simp [List.filterMap_cons, List.filter_cons, h, ih]

theorem adjustMap_results_eq (map : AffineMap) (index : Nat) :
    (adjustMap map index).results =
      (map.results.filter (fun y => decide (y ≠ index))).map (renameLabel index) := by
  rw [← filterMap_rename]
  unfold adjustMap AffineMap.getNumResults AffineMap.getDimPosition
  dsimp only
  conv_rhs => rw [← map_getD_range map.results, List.filterMap_map]
  rfl

theorem renameLabel_inj (index a b : Nat) (ha : a ≠ index) (hb : b ≠ index)
    (h : renameLabel index a = renameLabel index b) : a = b := by
  unfold renameLabel at h
  split_ifs at h <;> omega

theorem adjustMap_nodup (map : AffineMap) (index : Nat) (h : map.results.Nodup) :
    (adjustMap map index).results.Nodup := by
  rw [adjustMap_results_eq]
  apply List.Nodup.map_on _ (h.filter _)
  intro a ha b hb hab
  simp only [List.mem_filter, decide_eq_true_eq] at ha hb
  exact renameLabel_inj index a b ha.2 hb.2 hab

theorem adjustMap_length_of_mem (map : AffineMap) (index : Nat) (h : map.results.Nodup)
    (hm : index ∈ map.results) :
    (adjustMap map index).results.length + 1 = map.results.length := by
  rw [adjustMap_results_eq, List.length_map]
  have h1 : map.results.filter (fun y => decide (y ≠ index)) = map.results.erase index := by
    rw [List.Nodup.erase_eq_filter h]
    apply List.filter_congr
    intro x _
    by_cases hx : x = index <;> simp [hx]
  rw [h1, List.length_erase_of_mem hm]
  have := List.length_pos_of_mem hm
  omega

theorem adjustMap_length_of_not_mem (map : AffineMap) (index : Nat)
    (hm : index ∉ map.results) :
    (adjustMap map index).results.length = map.results.length := by
  rw [adjustMap_results_eq, List.length_map]
  congr 1
  rw [List.filter_eq_self]
  intro a ha
  simp only [decide_eq_true_eq]
  rintro rfl
  exact hm ha

theorem mem_adjustMap_of_mem (map : AffineMap) (index y : Nat) (hy : y ∈ map.results)
    (hne : y ≠ index) : renameLabel index y ∈ (adjustMap map index).results := by
  rw [adjustMap_results_eq]
  exact List.mem_map_of_mem _ (List.mem_filter.mpr ⟨hy, by simpa using hne⟩)

theorem getD_eraseIdx_rename {α : Type} (l : List α) (index y : Nat) (d : α)
    (hne : y ≠ index) :
    (l.eraseIdx index).getD (renameLabel index y) d = l.getD y d := by
  unfold renameLabel
  rw [List.getD_eq_getElem?_getD, List.getD_eq_getElem?_getD, List.getElem?_eraseIdx]
  by_cases h : y < index
  · rw [if_pos h, if_pos h]
  · rw [if_neg h, if_neg (by omega)]
    have : y - 1 + 1 = y := by omega
    rw [this]

theorem getResultIndex_eq (map : AffineMap) (x : Nat) :
    getResultIndex map x = getDimPosition map x := rfl

theorem getResultIndex_of_nodup (map : AffineMap) (hl : map.results.Nodup) (p : Nat)
    (hp : p < map.results.length) :
    getResultIndex map (map.results.getD p 0) = some p :=
  getDimPosition_of_nodup map hl p hp

theorem getResultIndex_of_mem (map : AffineMap) (hl : map.results.Nodup) (x : Nat)
    (hx : x ∈ map.results) :
    ∃ p, p < map.results.length ∧ map.results.getD p 0 = x ∧
      getResultIndex map x = some p := by
  obtain ⟨p, hp, hpx⟩ := List.mem_iff_getElem.mp hx
  have h1 : map.results.getD p 0 = x := by rw [List.getD_eq_getElem _ _ hp]; exact hpx
  refine ⟨p, hp, h1, ?_⟩
  rw [← h1]
  exact getResultIndex_of_nodup map hl p hp

theorem getResultIndex_isSome_of_mem (map : AffineMap) (x : Nat) (hx : x ∈ map.results) :
    (getResultIndex map x).isSome = true := by
  cases h : getResultIndex map x with
  | some p => rfl
  | none => exact absurd hx (getDimPosition_none map x h)

theorem vectorRank_getLhsType (op : ContractionOp) :
    op.getLhsType.getRank = op.lhs.vectorRank := by
  unfold ContractionOp.getLhsType Value.vectorRank
  cases op.lhs.getType <;> rfl

theorem vectorRank_getRhsType (op : ContractionOp) :
    op.getRhsType.getRank = op.rhs.vectorRank := by
  unfold ContractionOp.getRhsType Value.vectorRank
  cases op.rhs.getType <;> rfl

theorem getLhsType_of_rank_pos (op : ContractionOp) (h : 0 < op.getLhsType.getRank) :
    op.lhs.getType = .vector op.getLhsType := by
  unfold ContractionOp.getLhsType at h ⊢
  cases hv : op.lhs.getType with
  | vector vt => rfl
  | null => rw [hv] at h; simp [VectorType.getRank] at h
  | scalar e => rw [hv] at h; simp [VectorType.getRank] at h

theorem getRhsType_of_rank_pos (op : ContractionOp) (h : 0 < op.getRhsType.getRank) :
    op.rhs.getType = .vector op.getRhsType := by
  unfold ContractionOp.getRhsType at h ⊢
  cases hv : op.rhs.getType with
  | vector vt => rfl
  | null => rw [hv] at h; simp [VectorType.getRank] at h
  | scalar e => rw [hv] at h; simp [VectorType.getRank] at h

theorem foldl_getType (T : MlirType) (step : Value × PatternRewriter → Nat → Value × PatternRewriter)
    (hstep : ∀ st d, st.1.getType = T → (step st d).1.getType = T)
    (l : List Nat) (st : Value × PatternRewriter) (h : st.1.getType = T) :
    (l.foldl step st).1.getType = T := by
  induction l generalizing st with
  | nil => exact h
  | cons d ds ih => exact ih (step st d) (hstep st d h)

theorem reshapeLoadAt_rank (i : Nat) (val : Value) (type : VectorType) (pos : Nat)
    (rw : PatternRewriter) (hv : val.getType = .vector type) (hi : i < type.getRank) :
    (reshapeLoadAt i val type pos rw).1.vectorRank + 1 = type.getRank := by
  cases i with
  | zero =>
      unfold reshapeLoadAt Value.vectorRank
      simp only [PatternRewriter.create, Value.getType, hv, List.length_singleton]
      unfold VectorType.getRank at hi ⊢
      split_ifs with h1 h2
      · simp only [List.length_drop]
        omega
      · show 0 + 1 = type.shape.length
        omega
      · omega
  | succ i =>
      unfold reshapeLoadAt
      dsimp only
      have ht := foldl_getType (.vector (type.dropDim (i + 1)))
        (fun st d =>
          ((reshapeLoadAt i (st.2.create (.extract val [d])).1 (type.dropDim 0) pos
            (st.2.create (.extract val [d])).2).2.create
            (.insert (reshapeLoadAt i (st.2.create (.extract val [d])).1 (type.dropDim 0) pos
              (st.2.create (.extract val [d])).2).1 st.1 [d])))
        (fun st d h => by simpa [PatternRewriter.create, Value.getType] using h)
        (List.range ((type.dropDim (i + 1)).getDimSize 0))
        (rw.create (.constantZero (.vector (type.dropDim (i + 1))))) rfl
      unfold Value.vectorRank
      rw [ht]
      unfold VectorType.getRank VectorType.dropDim at *
      simp only [List.length_eraseIdx, if_pos hi]
      omega

theorem peeled_operand_rank (val : Value) (type : VectorType) (map : AffineMap)
    (index : Option Nat) (x d : Nat) (rw : PatternRewriter)
    (hty : 0 < type.getRank → val.getType = .vector type)
    (hrank0 : val.vectorRank = type.getRank) (hrank : type.getRank = map.results.length)
    (hnd : map.results.Nodup) (hax : AxisOK map index x) :
    (reshapeLoad val type index d rw).1.vectorRank = (adjustMap map x).results.length := by
  cases index with
  | some i =>
      obtain ⟨hi, hx⟩ := hax
      have hmem : x ∈ map.results := by rw [← hx]; exact getD_mem _ _ hi
      have h1 := adjustMap_length_of_mem map x hnd hmem
      have h2 := reshapeLoadAt_rank i val type d rw (hty (by omega)) (by omega)
      unfold reshapeLoad
      dsimp only
      omega
  | none =>
      have h1 := adjustMap_length_of_not_mem map x hax
      unfold reshapeLoad
      dsimp only
      omega

theorem axisOK_label_lt (map : AffineMap) (index : Option Nat) (x n : Nat)
    (hl : ∀ y ∈ map.results, y < n) (hax : AxisOK map index x) (hs : index.isSome = true) :
    x < n := by
  cases index with
  | none => simp at hs
  | some i =>
      obtain ⟨hi, hx⟩ := hax
      rw [← hx]
      exact hl _ (getD_mem _ _ hi)

theorem wellFormed_of_peel (op : ContractionOp) (hwf : op.WellFormed) (v : Value)
    (hv : IsPeelOf op v) (created : List Value) (c : ContractionOp)
    (hc : v.toContractionOp? created = some c) :
    c.WellFormed ∧ c.iteratorTypes.length + 1 = op.iteratorTypes.length := by
  obtain ⟨hlab, hnd0, hnd1, hr0, hr1, hpar⟩ := hwf
  obtain ⟨lhsIndex, rhsIndex, x, hl, hr, hsome, d, rwa, rwb, acc, rfl⟩ := hv
  simp only [Value.toContractionOp?, Option.some.injEq] at hc
  subst hc
  have hl0 := hlab (op.indexingMaps.getD 0 ⟨0, []⟩) (by simp)
  have hl1 := hlab (op.indexingMaps.getD 1 ⟨0, []⟩) (by simp)
  have hl2 := hlab (op.indexingMaps.getD 2 ⟨0, []⟩) (by simp)
  have hx : x < op.iteratorTypes.length := by
    rcases hsome with hs | hs
    · exact axisOK_label_lt _ _ _ _ hl0 hl hs
    · exact axisOK_label_lt _ _ _ _ hl1 hr hs
  have hlen := adjustIter_length op.iteratorTypes x hx
  refine ⟨⟨?_, ?_, ?_, ?_, ?_, ?_⟩, ?_⟩
  · intro m hm
    simp only [List.getD_cons_zero, List.getD_cons_succ, List.mem_cons, List.mem_singleton,
      List.not_mem_nil, or_false] at hm
    dsimp only
    rw [hlen]
    rcases hm with rfl | rfl | rfl
    · exact adjustMap_results_lt _ _ _ hl0 hx
    · exact adjustMap_results_lt _ _ _ hl1 hx
    · exact adjustMap_results_lt _ _ _ hl2 hx
  · exact adjustMap_nodup _ _ hnd0
  · exact adjustMap_nodup _ _ hnd1
  · rw [vectorRank_getLhsType]
    exact peeled_operand_rank op.lhs op.getLhsType _ lhsIndex x d rwa
      (getLhsType_of_rank_pos op) (vectorRank_getLhsType op).symm hr0 hnd0 hl
  · rw [vectorRank_getRhsType]
    exact peeled_operand_rank op.rhs op.getRhsType _ rhsIndex x d rwb
      (getRhsType_of_rank_pos op) (vectorRank_getRhsType op).symm hr1 hnd1 hr
  · intro y' hy' hp
    simp only [List.getD_cons_zero, List.getD_cons_succ] at hy' ⊢
    dsimp only at hp
    have key : ∀ m : AffineMap, (∀ y ∈ m.results, y < op.iteratorTypes.length) →
        (∀ y ∈ m.results, isParallelIterator (op.iteratorTypes.getD y .parallel) = true →
          y ∈ (op.indexingMaps.getD 2 ⟨0, []⟩).results) →
        y' ∈ (adjustMap m x).results →
        y' ∈ (adjustMap (op.indexingMaps.getD 2 ⟨0, []⟩) x).results := by
      intro m _ hm hmem
      rw [adjustMap_results_eq] at hmem
      obtain ⟨y, hy, rfl⟩ := List.mem_map.mp hmem
      simp only [List.mem_filter, decide_eq_true_eq] at hy
      rw [adjustIter_eq_eraseIdx, getD_eraseIdx_rename _ _ _ _ hy.2] at hp
      exact mem_adjustMap_of_mem _ _ _ (hm y hy.1 hp) hy.2
    rcases hy' with h | h
    · exact key _ hl0 (fun y hy => hpar y (Or.inl hy)) h
    · exact key _ hl1 (fun y hy => hpar y (Or.inr hy)) h
  · dsimp only
    rw [hlen]
    omega

theorem mem_getDimMap_of (op : ContractionOp) (keep : Nat → Bool) (label l r : Nat)
    (hlt : label < op.iteratorTypes.length) (hk : keep label = true)
    (h0 : getResultIndex (op.indexingMaps.getD 0 ⟨0, []⟩) label = some l)
    (h1 : getResultIndex (op.indexingMaps.getD 1 ⟨0, []⟩) label = some r) :
    (l, r) ∈ op.getDimMap keep := by
  unfold ContractionOp.getDimMap
  rw [List.mem_filterMap]
  exact ⟨label, List.mem_range.mpr hlt, by simp only [hk, if_true, h0, h1]⟩

theorem head?_eq_none_iff_nil {α : Type} (l : List α) : l.head? = none ↔ l = [] := by
  cases l <;> simp

theorem mem_of_head? {α : Type} (l : List α) (a : α) (h : l.head? = some a) : a ∈ l := by
  cases l with
  | nil => simp at h
  | cons b bs =>
      simp only [List.head?_cons, Option.some.injEq] at h
      rw [h]
      exact List.mem_cons_self _ _

/-- A free lhs axis carries a label the rhs map does not mention, when no batch pair
exists. -/
theorem free_lhs_label_not_in_rhs (op : ContractionOp) (hwf : op.WellFormed)
    (hb : op.getBatchDimMap = []) (i : Nat) (hi : i < op.getLhsType.getRank)
    (hfree : i ∉ op.getContractingDimMap.map Prod.fst) :
    (op.indexingMaps.getD 0 ⟨0, []⟩).results.getD i 0 ∉
      (op.indexingMaps.getD 1 ⟨0, []⟩).results := by
  obtain ⟨hlab, hnd0, hnd1, hr0, hr1, hpar⟩ := hwf
  intro hmem
  have hi0 : i < (op.indexingMaps.getD 0 ⟨0, []⟩).results.length := by
    rw [hr0] at hi; exact hi
  have hx0 := getD_mem _ _ hi0
  have hlt := hlab (op.indexingMaps.getD 0 ⟨0, []⟩) (by simp) _ hx0
  have h0 := getResultIndex_of_nodup _ hnd0 i hi0
  obtain ⟨r, -, -, h1⟩ := getResultIndex_of_mem _ hnd1 _ hmem
  cases hk : isReductionIterator (op.iteratorTypes.getD
      ((op.indexingMaps.getD 0 ⟨0, []⟩).results.getD i 0) .parallel)
  · have hp : isParallelIterator (op.iteratorTypes.getD
        ((op.indexingMaps.getD 0 ⟨0, []⟩).results.getD i 0) .parallel) = true := by
      rw [isReduction_not_parallel] at hk
      simpa using hk
    have h2 := getResultIndex_isSome_of_mem _ _ (hpar _ (Or.inl hx0) hp)
    have := mem_getDimMap_of op
      (fun label => isParallelIterator (op.iteratorTypes.getD label .parallel) &&
        (getResultIndex (op.indexingMaps.getD 2 ⟨0, []⟩) label).isSome) _ i r hlt
      (by simp only [hp, h2, Bool.and_self]) h0 h1
    unfold ContractionOp.getBatchDimMap at hb
    rw [hb] at this
    simp at this
  · have := mem_getDimMap_of op
      (fun label => isReductionIterator (op.iteratorTypes.getD label .parallel)) _ i r hlt
      hk h0 h1
    apply hfree
    exact List.mem_map.mpr ⟨(i, r), this, rfl⟩

/-- A free rhs axis carries a label the lhs map does not mention, when every lhs axis
is contracting. -/
theorem free_rhs_label_not_in_lhs (op : ContractionOp) (hwf : op.WellFormed)
    (hall : ∀ i < op.getLhsType.getRank, i ∈ op.getContractingDimMap.map Prod.fst)
    (j : Nat) (hj : j < op.getRhsType.getRank)
    (hfree : j ∉ op.getContractingDimMap.map Prod.snd) :
    (op.indexingMaps.getD 1 ⟨0, []⟩).results.getD j 0 ∉
      (op.indexingMaps.getD 0 ⟨0, []⟩).results := by
  obtain ⟨hlab, hnd0, hnd1, hr0, hr1, hpar⟩ := hwf
  intro hmem
  have hj1 : j < (op.indexingMaps.getD 1 ⟨0, []⟩).results.length := by
    rw [hr1] at hj; exact hj
  obtain ⟨i, hi, hix, -⟩ := getResultIndex_of_mem _ hnd0 _ hmem
  have hic := hall i (by rw [hr0]; exact hi)
  obtain ⟨⟨i1, r1⟩, hpair, hfst⟩ := List.mem_map.mp hic
  simp only at hfst
  subst hfst
  obtain ⟨y, -, -, hy0, hy1⟩ := mem_getDimMap op _ i1 r1 hpair
  have e0 := (getResultIndex_some _ _ _ hy0).2
  obtain ⟨hr1lt, e1⟩ := getResultIndex_some _ _ _ hy1
  unfold AffineMap.getDimPosition at e0 e1
  have hr1j : r1 = j := by
    apply getD_inj_of_nodup _ hnd1 r1 j hr1lt hj1
    rw [e1, ← e0, hix]
  apply hfree
  rw [← hr1j]
  exact List.mem_map.mpr ⟨(i1, r1), hpair, rfl⟩

theorem peel_contracts (self : ContractionOpLowering) (op : ContractionOp) (maskOp : Value)
    (rw rw1 : PatternRewriter) (hwf : op.WellFormed)
    (h : ContractsFrom (IsPeelOf op) rw rw1) :
    ContractsFrom (IsPeelOf op) rw (self.peel op maskOp rw1).2 := by
  have hwf0 := hwf
  obtain ⟨hlab, hnd0, hnd1, hr0, hr1, hpar⟩ := hwf
  unfold ContractionOpLowering.peel
  dsimp only
  rw [mask_of_maskOp]
  cases hb : op.getBatchDimMap.head? with
  | some p =>
      obtain ⟨l, r⟩ := p
      dsimp only
      obtain ⟨label, -, -, h0, h1⟩ := mem_getDimMap op _ l r (mem_of_head? _ _ hb)
      obtain ⟨hl, el⟩ := getResultIndex_some _ _ _ h0
      obtain ⟨hr, er⟩ := getResultIndex_some _ _ _ h1
      apply h.trans
      apply (lowerParallel_contracts self rw1 op (some l) (some r) maskOp).mono
      rintro v ⟨iterIndex, dimSize, hp, hv⟩
      rcases peeledAxis_label op _ _ iterIndex dimSize hp with
        ⟨l1, hl1, hi, -, -, -⟩ | ⟨r1, hl1, -, -, -, -⟩
      · simp only [Option.some.injEq] at hl1
        subst hl1
        refine ⟨some l, some r, iterIndex, ⟨hl, ?_⟩, ⟨hr, ?_⟩, Or.inl rfl, hv⟩
        · rw [hi]; rfl
        · rw [hi, el, ← er]; rfl
      · simp at hl1
  | none =>
      have hbn := (head?_eq_none_iff_nil _).mp hb
      dsimp only
      cases hfl : (List.range op.getLhsType.getRank).find?
          (fun lhsIndex => !(op.getContractingDimMap.map (fun dimPair => dimPair.1)).contains
            lhsIndex) with
      | some i =>
          dsimp only
          obtain ⟨hi, hfree, -⟩ := find?_range_some _ _ _ hfl
          have hfree1 : i ∉ op.getContractingDimMap.map Prod.fst := by simpa using hfree
          apply h.trans
          apply (lowerParallel_contracts self rw1 op (some i) none maskOp).mono
          rintro v ⟨iterIndex, dimSize, hp, hv⟩
          rcases peeledAxis_label op _ _ iterIndex dimSize hp with
            ⟨l1, hl1, hx, -, -, -⟩ | ⟨r1, hl1, -, -, -, -⟩
          · simp only [Option.some.injEq] at hl1
            subst hl1
            refine ⟨some i, none, iterIndex, ⟨by rw [hr0] at hi; exact hi, ?_⟩, ?_, Or.inl rfl, hv⟩
            · rw [hx]; rfl
            · rw [hx]
              exact free_lhs_label_not_in_rhs op hwf0 hbn i hi hfree1
          · simp at hl1
      | none =>
          dsimp only
          have hall : ∀ i < op.getLhsType.getRank,
              i ∈ op.getContractingDimMap.map Prod.fst := by
            intro i hi
            have := (find?_range_eq_none _ _).mp hfl i hi
            simpa using this
          cases hfr : (List.range op.getRhsType.getRank).find?
              (fun rhsIndex => !(op.getContractingDimMap.map (fun dimPair => dimPair.2)).contains
                rhsIndex) with
          | some j =>
              dsimp only
              obtain ⟨hj, hfree, -⟩ := find?_range_some _ _ _ hfr
              have hfree1 : j ∉ op.getContractingDimMap.map Prod.snd := by simpa using hfree
              apply h.trans
              apply (lowerParallel_contracts self rw1 op none (some j) maskOp).mono
              rintro v ⟨iterIndex, dimSize, hp, hv⟩
              rcases peeledAxis_label op _ _ iterIndex dimSize hp with
                ⟨l1, hl1, -, -, -, -⟩ | ⟨r1, -, hr1e, hx, -, -⟩
              · simp at hl1
              · simp only [Option.some.injEq] at hr1e
                subst hr1e
                refine ⟨none, some j, iterIndex, ?_, ⟨by rw [hr1] at hj; exact hj, ?_⟩,
                  Or.inr rfl, hv⟩
                · rw [hx]
                  exact free_rhs_label_not_in_lhs op hwf0 hall j hj hfree1
                · rw [hx]; rfl
          | none =>
              dsimp only
              split_ifs
              · apply h.trans
                apply (lowerReduction_contracts self rw1 op maskOp).mono
                rintro v ⟨l, r, h0, h1, -, hv⟩
                obtain ⟨hl, el⟩ := getResultIndex_some _ _ _ h0
                obtain ⟨hr, er⟩ := getResultIndex_some _ _ _ h1
                exact ⟨some l, some r, 0, ⟨hl, el⟩, ⟨hr, er⟩, Or.inl rfl, hv⟩
              · exact h

theorem matchAndRewrite_contracts (self : ContractionOpLowering) (op : ContractionOp)
    (maskOp : Value) (rw : PatternRewriter) (hwf : op.WellFormed) :
    ContractsFrom (IsPeelOf op) rw (self.matchAndRewriteMaskableOp op maskOp rw).2 := by
  unfold ContractionOpLowering.matchAndRewriteMaskableOp
  have he := embedded_contracts (ContractsFrom.same (IsPeelOf op) rw) self op maskOp
  dsimp only
  split_ifs
  · exact ContractsFrom.same _ _
  · exact ContractsFrom.same _ _
  · exact ContractsFrom.same _ _
  · exact he
  · exact peel_contracts self op maskOp rw _ hwf he

theorem reoffered_wellFormed (self : ContractionOpLowering) (op : ContractionOp)
    (hwf : op.WellFormed) (c : ContractionOp) (hc : c ∈ self.reoffered op) :
    c.WellFormed ∧ c.iteratorTypes.length + 1 = op.iteratorTypes.length := by
  unfold ContractionOpLowering.reoffered at hc
  dsimp only at hc
  split_ifs at hc with hs
  · rw [List.mem_filterMap] at hc
    obtain ⟨v, hv, hvc⟩ := hc
    obtain ⟨em, hem, hall⟩ := matchAndRewrite_contracts self op op.maskingOp ⟨[]⟩ hwf
    rw [hem, List.nil_append] at hv
    have hcon : v.isContract = true := by
      cases v <;> first | rfl | (simp [Value.toContractionOp?] at hvc)
    exact wellFormed_of_peel op hwf v (hall v hv hcon) _ c hvc
  · simp at hc

theorem foldl_chain (g : ContractionOp → Option Nat) (n : Nat) (cs : List ContractionOp)
    (h : ∀ c ∈ cs, ∃ d, g c = some d ∧ d + 1 ≤ n) (a : Nat) (ha : a ≤ n) :
    ∃ D, cs.foldl (fun longest c =>
        match longest, g c with
        | some a, some d => some (max a (d + 1))
        | _, _ => none) (some a) = some D ∧ D ≤ n := by
  induction cs generalizing a with
  | nil => exact ⟨a, rfl, ha⟩
  | cons c cs ih =>
      obtain ⟨d, hd, hdn⟩ := h c (List.mem_cons_self _ _)
      rw [List.foldl_cons, hd]
      exact ih (fun c1 hc1 => h c1 (List.mem_cons_of_mem _ hc1)) (max a (d + 1))
        (max_le ha hdn)

theorem chainDepth_bound (self : ContractionOpLowering) (n : Nat) :
    ∀ op : ContractionOp, op.WellFormed → op.iteratorTypes.length = n →
      ∃ d, self.chainDepth (n + 1) op = some d ∧ d ≤ n := by
  induction n with
  | zero =>
      intro op hwf hn
      have hnil : self.reoffered op = [] := by
        cases hr : self.reoffered op with
        | nil => rfl
        | cons c cs =>
            have := (reoffered_wellFormed self op hwf c (by rw [hr]; exact List.mem_cons_self _ _)).2
            omega
      unfold ContractionOpLowering.chainDepth
      rw [hnil]
      exact ⟨0, rfl, le_refl _⟩
  | succ n ih =>
      intro op hwf hn
      unfold ContractionOpLowering.chainDepth
      apply foldl_chain (self.chainDepth (n + 1)) (n + 1) (self.reoffered op) _ 0 (by omega)
      intro c hc
      obtain ⟨hcw, hcl⟩ := reoffered_wellFormed self op hwf c hc
      obtain ⟨d, hd, hdn⟩ := ih c hcw (by omega)
      exact ⟨d, hd, by omega⟩

/-- C17 (peeling termination). With the driver modelled as a worklist that offers every
contraction created by a successful `ContractionOpLowering` rewrite to it again, for
every well-formed contraction with `N` iterator labels the process started at it
terminates: run with nesting bound `N + 1` it ends without exhausting the bound, and the
longest chain of nested re-offers below the contraction has length at most `N`. -/
theorem peeling_terminates (self : ContractionOpLowering) (op : ContractionOp)
    (hwf : op.WellFormed) :
    ∃ d, self.chainDepth (op.iteratorTypes.length + 1) op = some d ∧
      d ≤ op.iteratorTypes.length :=
  chainDepth_bound self op.iteratorTypes.length op hwf rfl

theorem sampleBatch_wellFormed : sampleBatch.WellFormed := by
  refine ⟨by decide, by decide, by decide, by decide, by decide, ?_⟩
  intro x hx hp
  have hx3 : x = 0 ∨ x = 1 ∨ x = 2 := by
    simp [sampleBatch] at hx
    omega
  rcases hx3 with rfl | rfl | rfl
  · decide
  · decide
  · exact absurd hp (by decide)

/-- Instance of C17 at `sampleBatch` (three labels) under strategy `ParallelArith`:
the batch peel, the free-axis peel and the final dot product make a chain of two nested
re-offers. -/
theorem peeling_terminates_witness :
    (ContractionOpLowering.new .ParallelArith defaultFilter).chainDepth 4 sampleBatch =
        some 2 ∧
      ∃ d, (ContractionOpLowering.new .ParallelArith defaultFilter).chainDepth
          (sampleBatch.iteratorTypes.length + 1) sampleBatch = some d ∧
        d ≤ sampleBatch.iteratorTypes.length :=
  ⟨by decide,
    peeling_terminates (ContractionOpLowering.new .ParallelArith defaultFilter) sampleBatch
      sampleBatch_wellFormed⟩

/-! ## Scalable axes -/

/-- C18 (the code at the failing inputs). The dot pattern succeeds on
`sampleScalableRows`, whose row axis is scalable, and extracts the rows `0` and `1` of the
static extent; `ContractionOpLowering` succeeds through `lowerReduction` on
`sampleScalableReduction`, whose peeled reduction axis is scalable, and creates one
contraction per index of the static extent; it succeeds through `lowerParallel` on
`sampleScalableLeading`, where `reshapeLoad` walks the scalable leading lhs axis and
extracts its slices `0` and `1`. -/
theorem scalable_axis_unrolled :
    (sampleScalableRows.getLhsType.scalableDims.getD 0 false = true ∧
      (sampleDotPattern.matchAndRewriteMaskableOp sampleScalableRows .null ⟨[]⟩).1.succeeded
        = true ∧
      Value.extract sampleScalableRows.lhs [0] ∈
        (sampleDotPattern.matchAndRewriteMaskableOp sampleScalableRows .null ⟨[]⟩).2.ops ∧
      Value.extract sampleScalableRows.lhs [1] ∈
        (sampleDotPattern.matchAndRewriteMaskableOp sampleScalableRows .null ⟨[]⟩).2.ops) ∧
    (sampleScalableReduction.getLhsType.scalableDims.getD 0 false = true ∧
      samplePeelingPattern.matchAndRewriteMaskableOp sampleScalableReduction .null ⟨[]⟩ =
        samplePeelingPattern.lowerReduction ⟨[]⟩ sampleScalableReduction .null ∧
      (samplePeelingPattern.matchAndRewriteMaskableOp sampleScalableReduction .null
        ⟨[]⟩).1.succeeded = true ∧
      ((samplePeelingPattern.matchAndRewriteMaskableOp sampleScalableReduction .null
        ⟨[]⟩).2.ops.filter Value.isContract).length = 2) ∧
    (sampleScalableLeading.getLhsType.scalableDims.getD 0 false = true ∧
      samplePeelingPattern.matchAndRewriteMaskableOp sampleScalableLeading .null ⟨[]⟩ =
        samplePeelingPattern.lowerParallel ⟨[]⟩ sampleScalableLeading (some 1) (some 0) .null ∧
      (samplePeelingPattern.matchAndRewriteMaskableOp sampleScalableLeading .null
        ⟨[]⟩).1.succeeded = true ∧
      Value.extract sampleScalableLeading.lhs [0] ∈
        (samplePeelingPattern.matchAndRewriteMaskableOp sampleScalableLeading .null ⟨[]⟩).2.ops ∧
      Value.extract sampleScalableLeading.lhs [1] ∈
        (samplePeelingPattern.matchAndRewriteMaskableOp sampleScalableLeading .null
          ⟨[]⟩).2.ops) := by
  decide

/-! ## `OuterProductOpLowering`, general case -/

theorem expanded_succ (op : OuterProductOp) (rt : VectorType) (n : Nat) :
    op.expanded rt (n + 1) = .insert (op.sliceValue rt n) (op.expanded rt n) [n] := by
  simp [OuterProductOp.expanded, List.range_succ, List.foldl_append]

theorem expandedOps_succ (op : OuterProductOp) (rt : VectorType) (n : Nat) :
    op.expandedOps rt (n + 1) =
      op.expandedOps rt n ++ op.sliceOps rt n (op.expanded rt n) := by
  simp [OuterProductOp.expandedOps, List.range_succ, List.flatMap_append]

theorem sliceStep_int_add (op : OuterProductOp) (rt : VectorType) (w d : Nat)
    (result : Value) (rw : PatternRewriter)
    (hkind : op.kind = .ADD) (hre : rt.elementType = .integer w)
    (hacc : op.acc.isNull = false → op.acc.getType = .vector op.resultType)
    (hrese : op.resultType.elementType = .integer w)
    (hrank : 1 ≤ op.resultType.shape.length) :
    OuterProductOpLowering.sliceStep op rt true .null (.success result, rw) d =
      (.success (.insert (op.sliceValue rt d) result [d]),
        ⟨rw.ops ++ op.sliceOps rt d result⟩) := by
  have h0 : Value.null.isNull = true := rfl
  unfold OuterProductOpLowering.sliceStep
  dsimp only
  by_cases hn : op.acc.isNull = true
  · simp [hn, h0, hkind, createContractArithOp, createContractArithOp.combine,
      PatternRewriter.create, OuterProductOp.sliceOps,
      OuterProductOp.sliceValue, OuterProductOp.sliceMul]
  · have hn' : op.acc.isNull = false := by simpa using hn
    have hx : (Value.extract op.acc [d]).isNull = false := rfl
    have hty : (Value.extract op.acc [d]).getType.elementType? = some (.integer w) := by
      simp only [Value.getType, hacc hn']
      split_ifs with h1 h2
      · simp [MlirType.elementType?, hrese]
      · simp [MlirType.elementType?, hrese]
      · simp only [List.length_singleton] at h1 h2
        omega
    have hm : (Value.binary .muli (.broadcast rt (.extract op.lhs [d])) op.rhs).getType.elementType?
        = some (.integer w) := by
      simp [Value.getType, MlirType.elementType?, hre]
    have hred := fun rw0 => makeArithReduction_typed rw0 .ADD
      (.binary .muli (.broadcast rt (.extract op.lhs [d])) op.rhs) (.extract op.acc [d]) .null
      (.integer w) (.integer w) true .addi hm hty (by simp [ElementType.isIntOrIndex]) rfl
    simp [hn', h0, hx, hkind, createContractArithOp, createContractArithOp.combine,
      PatternRewriter.create, OuterProductOp.sliceOps, hred, selectPassthru,
      OuterProductOp.sliceValue, OuterProductOp.sliceMul]

theorem foldl_sliceStep (op : OuterProductOp) (rt : VectorType) (w : Nat)
    (rw : PatternRewriter)
    (hkind : op.kind = .ADD) (hre : rt.elementType = .integer w)
    (hacc : op.acc.isNull = false → op.acc.getType = .vector op.resultType)
    (hrese : op.resultType.elementType = .integer w)
    (hrank : 1 ≤ op.resultType.shape.length) (n : Nat) :
    (List.range n).foldl (OuterProductOpLowering.sliceStep op rt true .null)
        (.success (.constantZero (.vector op.resultType)),
          ⟨rw.ops ++ [.constantZero (.vector op.resultType)]⟩) =
      (.success (op.expanded rt n), ⟨rw.ops ++ op.expandedOps rt n⟩) := by
  induction n with
  | zero => rfl
  | succ n ih =>
      rw [List.range_succ, List.foldl_append, ih, List.foldl_cons, List.foldl_nil,
        sliceStep_int_add op rt w n _ _ hkind hre hacc hrese hrank, expanded_succ,
        expandedOps_succ, List.append_assoc]

theorem extract_rank1_shape (v : Value) (vt : VectorType) (E d : Nat)
    (hv : v.getType = .vector vt) (hs : vt.shape = [E]) :
    (Value.extract v [d]).getType.shape = [] := by
  simp [Value.getType, hv, hs, MlirType.shape]

theorem sliceValue_denote (env : Nat → Elem) (op : OuterProductOp) (lt rt : VectorType)
    (E w d : Nat) (a b c : Elem)
    (hl : op.lhs.getType = .vector lt) (hls : lt.shape = [E])
    (hre : rt.elementType = .integer w)
    (ha : denote env op.lhs = some a) (hb : denote env op.rhs = some b)
    (hc : op.acc.isNull = false → denote env op.acc = some c) :
    denote env (op.sliceValue rt d) =
      some (fun j => (a [d] * b j + (if op.acc.isNull then 0 else c (d :: j))) % 2 ^ w) := by
  have hx : denote env (.broadcast rt (.extract op.lhs [d])) = some (fun _ => a [d]) := by
    simp [denote, ha, broadcastIndex, extract_rank1_shape op.lhs lt E d hl hls]
  have hm := denote_muli env (.broadcast rt (.extract op.lhs [d])) op.rhs w _ _
    (by simp [Value.getType, MlirType.elementType?, hre]) hx hb
  by_cases hn : op.acc.isNull = true
  · simp only [OuterProductOp.sliceValue, hn, if_true, OuterProductOp.sliceMul, hm, add_zero]
  · have hn' : op.acc.isNull = false := by simpa using hn
    have he := denote_extract env op.acc [d] c (hc hn')
    have hadd := denote_addi env _ (.extract op.acc [d]) w _ _
      (by simp [Value.getType, MlirType.elementType?, hre]) hm he
    simp only [OuterProductOp.sliceValue, hn', Bool.false_eq_true, if_false,
      OuterProductOp.sliceMul, hadd, Option.some.injEq]
    funext j
    simp [Int.emod_add_emod]

theorem expanded_denote (env : Nat → Elem) (op : OuterProductOp) (lt rt : VectorType)
    (E w : Nat) (a b c : Elem)
    (hl : op.lhs.getType = .vector lt) (hls : lt.shape = [E])
    (hre : rt.elementType = .integer w)
    (ha : denote env op.lhs = some a) (hb : denote env op.rhs = some b)
    (hc : op.acc.isNull = false → denote env op.acc = some c) (n : Nat) :
    denote env (op.expanded rt n) =
      some (fun idx => match idx with
        | [] => 0
        | d :: j =>
            if d < n then (a [d] * b j + (if op.acc.isNull then 0 else c (d :: j))) % 2 ^ w
            else 0) := by
  induction n with
  | zero =>
      simp only [OuterProductOp.expanded, List.range_zero, List.foldl_nil, denote,
        Option.some.injEq]
      funext idx
      cases idx <;> simp
  | succ n ih =>
      rw [expanded_succ, denote_insert env _ _ [n] _ _
        (sliceValue_denote env op lt rt E w n a b c hl hls hre ha hb hc) ih]
      simp only [Option.some.injEq]
      funext idx
      cases idx with
      | nil => simp
      | cons d j =>
          by_cases hd : d = n
          · subst hd
            simp
          · have h1 : (n == d) = false := by simpa using fun h => hd h.symm
            by_cases h2 : d < n
            · have h3 : d < n + 1 := by omega
              simp [List.isPrefixOf, h1, h2, h3]
            · have h3 : ¬ d < n + 1 := by omega
              simp [List.isPrefixOf, h1, h2, h3]

theorem allDimsScalable_cons_false (shape : List Nat) (sc : List Bool) (e : ElementType) :
    VectorType.allDimsScalable { shape := shape, scalableDims := false :: sc, elementType := e } =
      false := by
  simp [VectorType.allDimsScalable]

/-- C20 (outer-product expander, general case). For an unmasked outer product of kind
`ADD` on `w`-bit integers whose lhs is a rank-1 vector of static extent `E` and whose rhs
is a vector, `OuterProductOpLowering` succeeds and creates, after the zero result, exactly
the operations of the `E` slices `d = 0 .. E-1` in increasing order (extract of `lhs[d]`,
broadcast, extract of `acc[d]` when there is an accumulator, multiply, add when there is
an accumulator, insert at `d`). The produced value holds at `[d][j]`, in `w`-bit
arithmetic, `lhs[d] * rhs[j] + acc[d][j]` when the accumulator is present and
`lhs[d] * rhs[j]` when it is absent. -/
theorem outerProductOp_general_case (env : Nat → Elem) (op : OuterProductOp)
    (rewriter : PatternRewriter) (rt : VectorType) (E w : Nat) (a b c : Elem)
    (hmask : op.isMasked = false) (hkind : op.kind = .ADD)
    (hl : op.lhs.getType =
      .vector { shape := [E], scalableDims := [false], elementType := .integer w })
    (hr : op.rhs.getType = .vector rt) (hre : rt.elementType = .integer w)
    (hres : op.resultType =
      { shape := E :: rt.shape, scalableDims := false :: rt.scalableDims,
        elementType := .integer w })
    (hacc : op.acc.isNull = false → op.acc.getType = .vector op.resultType)
    (ha : denote env op.lhs = some a) (hb : denote env op.rhs = some b)
    (hc : op.acc.isNull = false → denote env op.acc = some c) :
    ∃ (v : Value) (f : Elem),
      OuterProductOpLowering.matchAndRewrite op rewriter =
        (.success v,
          ⟨rewriter.ops ++ .constantZero (.vector op.resultType) ::
            (List.range E).flatMap (fun d => op.sliceOps rt d (op.expanded rt d))⟩) ∧
      denote env v = some f ∧
      ∀ d j, d < E →
        (op.acc.isNull = false → f (d :: j) = (a [d] * b j + c (d :: j)) % 2 ^ w) ∧
        (op.acc.isNull = true → f (d :: j) = (a [d] * b j) % 2 ^ w) := by
  have hrese : op.resultType.elementType = .integer w := by rw [hres]
  have hrank : 1 ≤ op.resultType.shape.length := by rw [hres]; simp
  have hdim : op.resultType.getDimSize 0 = E := by rw [hres]; rfl
  have hsc : op.resultType.allDimsScalable = false := by
    rw [hres]; exact allDimsScalable_cons_false _ _ _
  have hrun : OuterProductOpLowering.matchAndRewrite op rewriter =
      (.success (op.expanded rt E), ⟨rewriter.ops ++ op.expandedOps rt E⟩) := by
    unfold OuterProductOpLowering.matchAndRewrite
    simp only [hsc, Bool.and_false, Bool.false_eq_true, if_false, hr, MlirType.dynCastVector,
      hmask, hrese, ElementType.isIntOrIndex, hdim, PatternRewriter.create]
    exact foldl_sliceStep op rt w rewriter hkind hre hacc hrese hrank E
  refine ⟨op.expanded rt E, _, hrun, expanded_denote env op _ rt E w a b c hl rfl hre ha hb hc E,
    ?_⟩
  intro d j hd
  simp only [hd, if_true]
  constructor
  · intro h
    simp [h]
  · intro h
    simp [h]

/-- Instance of C20 at `sampleOuterProduct` (`vector<3xi8>` by `vector<2xi8>` with a
`vector<3x2xi8>` accumulator). -/
theorem outerProductOp_general_case_witness :
    ∃ (v : Value) (f : Elem),
      OuterProductOpLowering.matchAndRewrite sampleOuterProduct ⟨[]⟩ =
        (.success v,
          ⟨[] ++ .constantZero (.vector sampleOuterProduct.resultType) ::
            (List.range 3).flatMap (fun d =>
              sampleOuterProduct.sliceOps
                { shape := [2], scalableDims := [false], elementType := .integer 8 } d
                (sampleOuterProduct.expanded
                  { shape := [2], scalableDims := [false], elementType := .integer 8 } d))⟩) ∧
      denote sampleEnv v = some f ∧
      ∀ d j, d < 3 →
        (sampleOuterProduct.acc.isNull = false →
          f (d :: j) = (sampleEnv 0 [d] * sampleEnv 1 j + sampleEnv 2 (d :: j)) % 2 ^ 8) ∧
        (sampleOuterProduct.acc.isNull = true →
          f (d :: j) = (sampleEnv 0 [d] * sampleEnv 1 j) % 2 ^ 8) :=
  outerProductOp_general_case sampleEnv sampleOuterProduct ⟨[]⟩
    { shape := [2], scalableDims := [false], elementType := .integer 8 } 3 8
    (sampleEnv 0) (sampleEnv 1) (sampleEnv 2) rfl rfl rfl rfl rfl rfl (fun _ => rfl) rfl rfl
    (fun _ => rfl)

/-! ## Properties of `adjustMap` -/

theorem length_filter_ne (l : List Nat) (x : Nat) :
    (l.filter (fun y => decide (y ≠ x))).length = l.length - l.count x := by
  induction l with
  | nil => rfl
  | cons a as ih =>
      have hc : as.count x ≤ as.length := List.count_le_length x as
      by_cases h : a = x
      · subst h
        simp only [List.filter_cons, ne_eq, not_true_eq_false, decide_False, Bool.false_eq_true,
          if_false, List.count_cons_self, List.length_cons]
        simp only [ne_eq] at ih
        omega
      · have h2 : (a == x) = false := by simpa using h
        simp only [List.filter_cons, ne_eq, h, not_false_eq_true, decide_True, if_true,
          List.length_cons, List.count_cons, h2, Bool.false_eq_true, if_false, add_zero]
        simp only [ne_eq] at ih
        omega

/-- C30. `adjustMap map index` keeps, in their order, the results of `map` whose label is
not `index`, each label `j` below `index` unchanged and each label above it replaced by
`j - 1`; its domain size is that of `map` minus one (for a map with at least one label,
the count being an `unsigned`), and its number of results is that of `map` minus the
number of occurrences of `index`. -/
theorem adjustMap_spec (map : AffineMap) (index : Nat)
    (h1 : 0 < map.getNumDims) (h32 : map.getNumDims < 2 ^ 32) :
    (adjustMap map index).results =
      (map.results.filter (fun j => decide (j ≠ index))).map
        (fun j => if j < index then j else j - 1) ∧
    (adjustMap map index).getNumDims = map.getNumDims - 1 ∧
    (adjustMap map index).getNumResults = map.getNumResults - map.results.count index := by
  refine ⟨adjustMap_results_eq map index, adjustMap_numDims map index _ rfl h1 h32, ?_⟩
  unfold AffineMap.getNumResults
  rw [adjustMap_results_eq, List.length_map, length_filter_ne]

/-- Instance of C30: label 1 removed from the map `(d0, d1, d2, d1) -> ...` on three
labels. -/
theorem adjustMap_spec_witness :
    (adjustMap ⟨3, [0, 1, 2, 1]⟩ 1).results = [0, 1] ∧
    (adjustMap ⟨3, [0, 1, 2, 1]⟩ 1).getNumDims = 2 ∧
    (adjustMap ⟨3, [0, 1, 2, 1]⟩ 1).getNumResults = 2 :=
  adjustMap_spec ⟨3, [0, 1, 2, 1]⟩ 1 (by decide) (by decide)

/-! ## Failure conditions of `lowerReduction` and `lowerParallel` -/

theorem lowerReduction_failed_iff (self : ContractionOpLowering) (rewriter : PatternRewriter)
    (op : ContractionOp) (mask : Value) :
    (self.lowerReduction rewriter op mask).1.failed = true ↔
      op.resultType.isVector = true ∨
      getResultIndex (op.indexingMaps.getD 0 ⟨0, []⟩) 0 = none ∨
      getResultIndex (op.indexingMaps.getD 1 ⟨0, []⟩) 0 = none ∨
      (∃ l r, getResultIndex (op.indexingMaps.getD 0 ⟨0, []⟩) 0 = some l ∧
        getResultIndex (op.indexingMaps.getD 1 ⟨0, []⟩) 0 = some r ∧
        op.getLhsType.getDimSize l ≠ op.getRhsType.getDimSize r) ∨
      (op.getLhsType.getRank = 1 ∧ op.getRhsType.getRank ≠ 1) := by
  unfold ContractionOpLowering.lowerReduction
  dsimp only
  by_cases hv : op.resultType.isVector = true
  · simp [hv, FailureOr.failed]
  rw [if_neg hv]
  cases hl : getResultIndex (op.indexingMaps.getD 0 ⟨0, []⟩) 0 with
  | none => simp [FailureOr.failed]
  | some l =>
      cases hr : getResultIndex (op.indexingMaps.getD 1 ⟨0, []⟩) 0 with
      | none => simp [FailureOr.failed]
      | some r =>
          dsimp only
          by_cases hd : op.getLhsType.getDimSize l ≠ op.getRhsType.getDimSize r
          · rw [if_pos hd]
            simp [FailureOr.failed, hd]
          rw [if_neg hd]
          by_cases h1 : op.getLhsType.getRank = 1
          · rw [if_pos h1]
            by_cases h2 : op.getRhsType.getRank ≠ 1
            · rw [if_pos h2]
              simp [FailureOr.failed, h1, h2]
            · rw [if_neg h2]
              simp only [FailureOr.failed, Bool.false_eq_true, false_iff]
              simp only [ne_eq, not_not] at hd h2
              simp [hv, hd, h2]
          · rw [if_neg h1]
            simp only [FailureOr.failed, Bool.false_eq_true, false_iff]
            simp only [ne_eq, not_not] at hd
            simp [hv, hd, h1]

theorem lowerReduction_failed_same (self : ContractionOpLowering) (rewriter : PatternRewriter)
    (op : ContractionOp) (mask : Value)
    (h : (self.lowerReduction rewriter op mask).1.failed = true) :
    (self.lowerReduction rewriter op mask).2 = rewriter := by
  revert h
  unfold ContractionOpLowering.lowerReduction
  dsimp only
  by_cases hv : op.resultType.isVector = true
  · simp [hv]
  rw [if_neg hv]
  cases hl : getResultIndex (op.indexingMaps.getD 0 ⟨0, []⟩) 0 with
  | none => simp
  | some l =>
      cases hr : getResultIndex (op.indexingMaps.getD 1 ⟨0, []⟩) 0 with
      | none => simp
      | some r =>
          dsimp only
          by_cases hd : op.getLhsType.getDimSize l ≠ op.getRhsType.getDimSize r
          · rw [if_pos hd]; simp
          rw [if_neg hd]
          by_cases h1 : op.getLhsType.getRank = 1
          · rw [if_pos h1]
            by_cases h2 : op.getRhsType.getRank ≠ 1
            · rw [if_pos h2]; simp
            · rw [if_neg h2]; simp [FailureOr.failed]
          · rw [if_neg h1]; simp [FailureOr.failed]

/-- C29. `lowerReduction` returns failure if and only if the result type is a vector,
or label 0 does not occur in the lhs map, or it does not occur in the rhs map, or the
lhs and rhs extents at the axes of label 0 differ, or the lhs has rank 1 while the rhs
does not; and whenever it returns failure it has created no operation. -/
theorem lowerReduction_fails_iff (self : ContractionOpLowering) (rewriter : PatternRewriter)
    (op : ContractionOp) (mask : Value) :
    ((self.lowerReduction rewriter op mask).1.failed = true ↔
      op.resultType.isVector = true ∨
      getResultIndex (op.indexingMaps.getD 0 ⟨0, []⟩) 0 = none ∨
      getResultIndex (op.indexingMaps.getD 1 ⟨0, []⟩) 0 = none ∨
      (∃ l r, getResultIndex (op.indexingMaps.getD 0 ⟨0, []⟩) 0 = some l ∧
        getResultIndex (op.indexingMaps.getD 1 ⟨0, []⟩) 0 = some r ∧
        op.getLhsType.getDimSize l ≠ op.getRhsType.getDimSize r) ∨
      (op.getLhsType.getRank = 1 ∧ op.getRhsType.getRank ≠ 1)) ∧
    ((self.lowerReduction rewriter op mask).1.failed = true →
      (self.lowerReduction rewriter op mask).2 = rewriter) :=
  ⟨lowerReduction_failed_iff self rewriter op mask,
    lowerReduction_failed_same self rewriter op mask⟩

theorem peeledAxis_eq_none_iff (op : ContractionOp) (lhsIndex rhsIndex : Option Nat) :
    ContractionOpLowering.peeledAxis op lhsIndex rhsIndex = none ↔
      (lhsIndex = none ∧ rhsIndex = none) ∨
      (∃ l r, lhsIndex = some l ∧ rhsIndex = some r ∧
        (op.indexingMaps.getD 0 ⟨0, []⟩).getDimPosition l ≠
          (op.indexingMaps.getD 1 ⟨0, []⟩).getDimPosition r) ∨
      ContractionOpLowering.peeledAxisScalable op lhsIndex rhsIndex = true := by
  unfold ContractionOpLowering.peeledAxis ContractionOpLowering.peeledAxisScalable
  cases lhsIndex with
  | none =>
      cases rhsIndex with
      | none => simp
      | some r =>
          dsimp only
          by_cases hs : op.getRhsType.scalableDims.getD r false = true
          · simp [-List.getD_eq_getElem?_getD, hs]
          · simp [-List.getD_eq_getElem?_getD, hs]
  | some l =>
      cases rhsIndex with
      | none =>
          dsimp only
          by_cases hs : op.getLhsType.scalableDims.getD l false = true
          · simp [-List.getD_eq_getElem?_getD, hs]
          · simp [-List.getD_eq_getElem?_getD, hs]
      | some r =>
          dsimp only
          by_cases hm : (op.indexingMaps.getD 0 ⟨0, []⟩).getDimPosition l =
              (op.indexingMaps.getD 1 ⟨0, []⟩).getDimPosition r
          · by_cases hs : op.getLhsType.scalableDims.getD l false = true
            · simp [-List.getD_eq_getElem?_getD, hm, hs]
            · simp [-List.getD_eq_getElem?_getD, hm, hs]
          · simp [-List.getD_eq_getElem?_getD, hm]

theorem peeledAxis_eq_some (op : ContractionOp) (lhsIndex rhsIndex : Option Nat) (p : Nat × Nat)
    (h : ContractionOpLowering.peeledAxis op lhsIndex rhsIndex = some p) :
    p = (ContractionOpLowering.peeledLabel op lhsIndex rhsIndex,
      ContractionOpLowering.peeledExtent op lhsIndex rhsIndex) := by
  revert h
  unfold ContractionOpLowering.peeledAxis ContractionOpLowering.peeledLabel
    ContractionOpLowering.peeledExtent
  cases lhsIndex with
  | none =>
      cases rhsIndex with
      | none => simp
      | some r =>
          dsimp only
          split_ifs
          · simp
          · intro h; exact (Option.some.inj h).symm
  | some l =>
      dsimp only
      split_ifs
      · simp
      · simp
      · intro h; exact (Option.some.inj h).symm

theorem lowerParallel_failed_iff (self : ContractionOpLowering) (rewriter : PatternRewriter)
    (op : ContractionOp) (lhsIndex rhsIndex : Option Nat) (mask : Value)
    (hres : op.resultType.isVector = true) :
    (self.lowerParallel rewriter op lhsIndex rhsIndex mask).1.failed = true ↔
      (lhsIndex = none ∧ rhsIndex = none) ∨
      (∃ l r, lhsIndex = some l ∧ rhsIndex = some r ∧
        (op.indexingMaps.getD 0 ⟨0, []⟩).getDimPosition l ≠
          (op.indexingMaps.getD 1 ⟨0, []⟩).getDimPosition r) ∨
      ContractionOpLowering.peeledAxisScalable op lhsIndex rhsIndex = true ∨
      (getResultIndex (op.indexingMaps.getD 2 ⟨0, []⟩)
          (ContractionOpLowering.peeledLabel op lhsIndex rhsIndex) = none ∧
        ContractionOpLowering.peeledExtent op lhsIndex rhsIndex ≠ 1) := by
  unfold ContractionOpLowering.lowerParallel
  cases hrt : op.resultType with
  | null => rw [hrt] at hres; exact absurd hres (by simp [MlirType.isVector])
  | scalar e => rw [hrt] at hres; exact absurd hres (by simp [MlirType.isVector])
  | vector resType =>
      simp only [MlirType.dynCastVector]
      cases hp : ContractionOpLowering.peeledAxis op lhsIndex rhsIndex with
      | none =>
          have h := (peeledAxis_eq_none_iff op lhsIndex rhsIndex).mp hp
          simp only [FailureOr.failed, true_iff]
          rcases h with h | h | h
          · exact Or.inl h
          · exact Or.inr (Or.inl h)
          · exact Or.inr (Or.inr (Or.inl h))
      | some p =>
          have hpe := peeledAxis_eq_some op lhsIndex rhsIndex p hp
          have hnot : ¬ ((lhsIndex = none ∧ rhsIndex = none) ∨
              (∃ l r, lhsIndex = some l ∧ rhsIndex = some r ∧
                (op.indexingMaps.getD 0 ⟨0, []⟩).getDimPosition l ≠
                  (op.indexingMaps.getD 1 ⟨0, []⟩).getDimPosition r) ∨
              ContractionOpLowering.peeledAxisScalable op lhsIndex rhsIndex = true) := by
            rw [← peeledAxis_eq_none_iff, hp]
            simp
          subst hpe
          dsimp only
          by_cases hc : (getResultIndex (op.indexingMaps.getD 2 ⟨0, []⟩)
              (ContractionOpLowering.peeledLabel op lhsIndex rhsIndex)).isNone = true ∧
              ContractionOpLowering.peeledExtent op lhsIndex rhsIndex ≠ 1
          · have hc2 : ((getResultIndex (op.indexingMaps.getD 2 ⟨0, []⟩)
                (ContractionOpLowering.peeledLabel op lhsIndex rhsIndex)).isNone &&
                decide (ContractionOpLowering.peeledExtent op lhsIndex rhsIndex ≠ 1)) = true := by
              rw [Bool.and_eq_true, decide_eq_true_iff]
              exact hc
            rw [if_pos hc2]
            simp only [FailureOr.failed, true_iff]
            exact Or.inr (Or.inr (Or.inr ⟨Option.isNone_iff_eq_none.mp hc.1, hc.2⟩))
          · have hc2 : ¬ ((getResultIndex (op.indexingMaps.getD 2 ⟨0, []⟩)
                (ContractionOpLowering.peeledLabel op lhsIndex rhsIndex)).isNone &&
                decide (ContractionOpLowering.peeledExtent op lhsIndex rhsIndex ≠ 1)) = true := by
              intro h
              rw [Bool.and_eq_true, decide_eq_true_iff] at h
              exact hc h
            rw [if_neg hc2]
            simp only [FailureOr.failed, Bool.false_eq_true, false_iff]
            intro h
            rcases h with h | h | h | h
            · exact hnot (Or.inl h)
            · exact hnot (Or.inr (Or.inl h))
            · exact hnot (Or.inr (Or.inr h))
            · exact hc ⟨Option.isNone_iff_eq_none.mpr h.1, h.2⟩

theorem lowerParallel_failed_same (self : ContractionOpLowering) (rewriter : PatternRewriter)
    (op : ContractionOp) (lhsIndex rhsIndex : Option Nat) (mask : Value)
    (h : (self.lowerParallel rewriter op lhsIndex rhsIndex mask).1.failed = true) :
    (self.lowerParallel rewriter op lhsIndex rhsIndex mask).2 = rewriter := by
  revert h
  unfold ContractionOpLowering.lowerParallel
  cases op.resultType.dynCastVector with
  | none => simp
  | some resType =>
      dsimp only
      cases ContractionOpLowering.peeledAxis op lhsIndex rhsIndex with
      | none => simp
      | some p =>
          dsimp only
          split_ifs
          · simp
          · simp [FailureOr.failed]

/-- C25. For a contraction with a vector result, `lowerParallel` returns failure if and
only if both `lhsIndex` and `rhsIndex` are absent, or both are present but carry
different domain labels, or the axis that supplies the extent (the lhs axis when
`lhsIndex` is present, else the rhs axis) is scalable, or the peeled label does not occur
in the result map and the peeled extent is not 1; in every other case it succeeds, and
whenever it returns failure it has created no operation. -/
theorem lowerParallel_fails_iff (self : ContractionOpLowering) (rewriter : PatternRewriter)
    (op : ContractionOp) (lhsIndex rhsIndex : Option Nat) (mask : Value)
    (hres : op.resultType.isVector = true) :
    ((self.lowerParallel rewriter op lhsIndex rhsIndex mask).1.failed = true ↔
      (lhsIndex = none ∧ rhsIndex = none) ∨
      (∃ l r, lhsIndex = some l ∧ rhsIndex = some r ∧
        (op.indexingMaps.getD 0 ⟨0, []⟩).getDimPosition l ≠
          (op.indexingMaps.getD 1 ⟨0, []⟩).getDimPosition r) ∨
      ContractionOpLowering.peeledAxisScalable op lhsIndex rhsIndex = true ∨
      (getResultIndex (op.indexingMaps.getD 2 ⟨0, []⟩)
          (ContractionOpLowering.peeledLabel op lhsIndex rhsIndex) = none ∧
        ContractionOpLowering.peeledExtent op lhsIndex rhsIndex ≠ 1)) ∧
    ((self.lowerParallel rewriter op lhsIndex rhsIndex mask).1.failed = false →
      (self.lowerParallel rewriter op lhsIndex rhsIndex mask).1.succeeded = true) ∧
    ((self.lowerParallel rewriter op lhsIndex rhsIndex mask).1.failed = true →
      (self.lowerParallel rewriter op lhsIndex rhsIndex mask).2 = rewriter) :=
  ⟨lowerParallel_failed_iff self rewriter op lhsIndex rhsIndex mask hres,
    fun h => by
      cases hx : (self.lowerParallel rewriter op lhsIndex rhsIndex mask).1 with
      | failure => rw [hx] at h; exact absurd h (by decide)
      | success v => rfl,
    lowerParallel_failed_same self rewriter op lhsIndex rhsIndex mask⟩

/-- Instance of C25 at `sampleBatch`, peeled at its batch label (lhs axis 1, rhs axis
0): none of the four conditions holds and the peeling succeeds. -/
theorem lowerParallel_fails_iff_witness :
    sampleBatch.resultType.isVector = true ∧
    (samplePeelingPattern.lowerParallel ⟨[]⟩ sampleBatch (some 1) (some 0) .null).1.succeeded =
      true :=
  ⟨rfl, (lowerParallel_fails_iff samplePeelingPattern ⟨[]⟩ sampleBatch (some 1) (some 0) .null
    rfl).2.1 (by decide)⟩

/-! ## Base case of `lowerReduction` -/

theorem getResultIndex_singleton (map : AffineMap) (h : map.results = [0]) :
    getResultIndex map 0 = some 0 := by
  simp [getResultIndex, AffineMap.getNumResults, AffineMap.getDimPosition, h,
    List.range_succ]

theorem denote_reduction_add_acc (env : Nat → Elem) (v acc : Value) (vt : VectorType)
    (n w : Nat) (fv fa : Elem) (hv : v.getType = .vector vt) (hs : vt.shape = [n])
    (he : vt.elementType = .integer w) (hfv : denote env v = some fv)
    (hfa : acc.isNull = false → denote env acc = some fa) :
    denote env (.reduction .ADD v acc) =
      some (fun _ => (((List.range n).map (fun k => fv [k])).sum +
        (if acc.isNull then 0 else fa [])) % 2 ^ w) := by
  by_cases hn : acc.isNull = true
  · simp [denote, hv, hs, he, hfv, ElementType.intWidth?, hn]
  · have hn' : acc.isNull = false := by simpa using hn
    simp [denote, hv, hs, he, hfv, ElementType.intWidth?, hn', hfa hn']

theorem lowerReduction_base (self : ContractionOpLowering) (rewriter : PatternRewriter)
    (op : ContractionOp) (mask : Value) (lt rt : VectorType) (n : Nat)
    (hres : op.resultType.isVector = false)
    (hl : op.lhs.getType = .vector lt) (hls : lt.shape = [n])
    (hr : op.rhs.getType = .vector rt) (hrs : rt.shape = [n])
    (hml : (op.indexingMaps.getD 0 ⟨0, []⟩).results = [0])
    (hmr : (op.indexingMaps.getD 1 ⟨0, []⟩).results = [0])
    (mul red : Value)
    (hmul : mul = .binary (if op.resultType.isIntegerType then .muli else .mulf) op.lhs op.rhs)
    (hred : red = .reduction .ADD mul op.acc) :
    self.lowerReduction rewriter op mask =
      (.success (if mask.isNull then red else .mask mask red),
        ⟨rewriter.ops ++ [mul, red] ++ (if mask.isNull then [] else [.mask mask red])⟩) := by
  have hlt : op.getLhsType = lt := by simp [ContractionOp.getLhsType, hl]
  have hrt : op.getRhsType = rt := by simp [ContractionOp.getRhsType, hr]
  unfold ContractionOpLowering.lowerReduction
  rw [if_neg (by simp [hres])]
  dsimp only
  rw [getResultIndex_singleton _ hml, getResultIndex_singleton _ hmr]
  dsimp only
  rw [hlt, hrt, if_neg (by simp [VectorType.getDimSize, hls, hrs]),
    if_pos (by simp [VectorType.getRank, hls]), if_neg (by simp [VectorType.getRank, hrs])]
  subst hred hmul
  cases op.resultType.isIntegerType <;> by_cases hm : mask.isNull = true <;>
    simp [createMul, maskOperation, PatternRewriter.create, hm]

/-- C27 (base case of `lowerReduction`). For a contraction with a scalar result whose lhs
and rhs are rank-1 vectors of the same extent carrying label 0, `lowerReduction` succeeds
and creates exactly one elementwise multiply and one horizontal reduction of kind `ADD`
over it, seeded with the accumulator when there is one, followed by the masking wrapper
when a mask is given, and no contraction; the returned value is the reduction, wrapped by
the mask when one is given. For `w`-bit integer elements the reduction denotes
`acc + sum over i of lhs[i] * rhs[i]` (the bare sum without an accumulator), in `w`-bit
arithmetic. -/
theorem lowerReduction_base_case (env : Nat → Elem) (self : ContractionOpLowering)
    (rewriter : PatternRewriter) (op : ContractionOp) (mask : Value) (lt rt : VectorType)
    (n : Nat) (hres : op.resultType.isVector = false)
    (hl : op.lhs.getType = .vector lt) (hls : lt.shape = [n])
    (hr : op.rhs.getType = .vector rt) (hrs : rt.shape = [n])
    (hml : (op.indexingMaps.getD 0 ⟨0, []⟩).results = [0])
    (hmr : (op.indexingMaps.getD 1 ⟨0, []⟩).results = [0]) :
    ∃ mul red : Value,
      mul = .binary (if op.resultType.isIntegerType then .muli else .mulf) op.lhs op.rhs ∧
      red = .reduction .ADD mul op.acc ∧
      self.lowerReduction rewriter op mask =
        (.success (if mask.isNull then red else .mask mask red),
          ⟨rewriter.ops ++ [mul, red] ++ (if mask.isNull then [] else [.mask mask red])⟩) ∧
      (∀ v ∈ [mul, red] ++ (if mask.isNull then [] else [.mask mask red]),
        v.isContract = false) ∧
      ∀ (w : Nat) (a b c : Elem), op.resultType = .scalar (.integer w) →
        lt.elementType = .integer w →
        denote env op.lhs = some a → denote env op.rhs = some b →
        (op.acc.isNull = false → denote env op.acc = some c) →
        denote env red = some (fun _ =>
          (((List.range n).map (fun i => a [i] * b [i])).sum +
            (if op.acc.isNull then 0 else c [])) % 2 ^ w) := by
  refine ⟨_, _, rfl, rfl,
    lowerReduction_base self rewriter op mask lt rt n hres hl hls hr hrs hml hmr _ _ rfl rfl,
    ?_, ?_⟩
  · intro v hv
    by_cases hm : mask.isNull = true
    · simp only [hm, if_true, List.append_nil, List.mem_cons, List.mem_singleton,
        List.not_mem_nil, or_false] at hv
      rcases hv with h | h <;> rw [h] <;> rfl
    · have hm2 : mask.isNull = false := by simpa using hm
      simp only [hm2, Bool.false_eq_true, if_false, List.cons_append, List.nil_append,
        List.mem_cons, List.mem_singleton, List.not_mem_nil, or_false] at hv
      rcases hv with h | h | h <;> rw [h] <;> rfl
  · intro w a b c hrw hle ha hb hc
    have hint : op.resultType.isIntegerType = true := by rw [hrw]; rfl
    simp only [hint, if_true]
    have hm := denote_muli env op.lhs op.rhs w a b (by rw [hl]; simp [MlirType.elementType?, hle])
      ha hb
    rw [denote_reduction_add_acc env _ op.acc lt n w _ c (by simpa [Value.getType] using hl)
      hls hle hm hc]
    simp only [Option.some.injEq]
    funext _
    rw [Int.add_emod, sum_emod_map (fun i => a [i] * b [i]), ← Int.add_emod]

/-- Instance of C27 at `sampleDotProduct` (two `vector<4xi8>` and a scalar accumulator). -/
theorem lowerReduction_base_case_witness :
    ∃ mul red : Value,
      mul = .binary (if sampleDotProduct.resultType.isIntegerType then .muli else .mulf)
        sampleDotProduct.lhs sampleDotProduct.rhs ∧
      red = .reduction .ADD mul sampleDotProduct.acc ∧
      samplePeelingPattern.lowerReduction ⟨[]⟩ sampleDotProduct .null =
        (.success (if Value.null.isNull then red else .mask .null red),
          ⟨[] ++ [mul, red] ++ (if Value.null.isNull then [] else [.mask .null red])⟩) ∧
      (∀ v ∈ [mul, red] ++ (if Value.null.isNull then [] else [.mask .null red]),
        v.isContract = false) ∧
      ∀ (w : Nat) (a b c : Elem), sampleDotProduct.resultType = .scalar (.integer w) →
        VectorType.elementType ⟨[4], [false], .integer 8⟩ = .integer w →
        denote sampleEnv sampleDotProduct.lhs = some a →
        denote sampleEnv sampleDotProduct.rhs = some b →
        (sampleDotProduct.acc.isNull = false → denote sampleEnv sampleDotProduct.acc = some c) →
        denote sampleEnv red = some (fun _ =>
          (((List.range 4).map (fun i => a [i] * b [i])).sum +
            (if sampleDotProduct.acc.isNull then 0 else c [])) % 2 ^ w) :=
  lowerReduction_base_case sampleEnv samplePeelingPattern ⟨[]⟩ sampleDotProduct .null
    ⟨[4], [false], .integer 8⟩ ⟨[4], [false], .integer 8⟩ 4 rfl rfl rfl rfl rfl rfl rfl

/-! ## The AXPY case of `OuterProductOpLowering` -/

theorem createdFrom_same (P : Value → Prop) (rw : PatternRewriter) : CreatedFrom P rw rw :=
  ⟨[], by simp, by simp⟩

theorem createdFrom_create {P : Value → Prop} {rw rw1 : PatternRewriter}
    (h : CreatedFrom P rw rw1) (v : Value) (hv : P v) : CreatedFrom P rw (rw1.create v).2 := by
  obtain ⟨em, h1, h2⟩ := h
  refine ⟨em ++ [v], by simp [PatternRewriter.create, h1], ?_⟩
  intro x hx
  rcases List.mem_append.mp hx with h | h
  · exact h2 x h
  · rw [List.mem_singleton.mp h]; exact hv

theorem selectPassthru_created {rw rw1 : PatternRewriter}
    (h : CreatedFrom (fun v => v.isArith = true) rw rw1) (mask nv pt : Value) :
    CreatedFrom (fun v => v.isArith = true) rw (selectPassthru rw1 mask nv pt).2 := by
  unfold selectPassthru
  split
  · exact h
  · apply createdFrom_create h
    rfl

theorem makeArithReduction_created {rw rw1 : PatternRewriter}
    (h : CreatedFrom (fun v => v.isArith = true) rw rw1)
    (kind : CombiningKind) (v1 acc mask : Value) :
    CreatedFrom (fun v => v.isArith = true) rw (makeArithReduction rw1 kind v1 acc mask).2 := by
  unfold makeArithReduction
  dsimp only
  repeat' split
  all_goals first
    | exact h
    | (apply selectPassthru_created
       apply createdFrom_create h
       rfl)

theorem combine_created {rw rw1 : PatternRewriter} (mul : Value)
    (h : CreatedFrom (fun v => v.isArith = true) rw rw1) (acc : Value) (kind : CombiningKind)
    (mask : Value) :
    CreatedFrom (fun v => v.isArith = true) rw
      (createContractArithOp.combine (mul, rw1) acc kind mask).2 := by
  unfold createContractArithOp.combine
  dsimp only
  split
  · exact h
  · exact makeArithReduction_created h _ _ _ _

theorem createContractArithOp_created {rw rw1 : PatternRewriter}
    (h : CreatedFrom (fun v => v.isArith = true) rw rw1) (x y acc : Value)
    (kind : CombiningKind) (isInt : Bool) (mask : Value) :
    CreatedFrom (fun v => v.isArith = true) rw
      (createContractArithOp x y acc kind rw1 isInt mask).2 := by
  have hmul : ∀ v : Value, v.isArith = true →
      CreatedFrom (fun v => v.isArith = true) rw
        (createContractArithOp.combine (rw1.create v) acc kind mask).2 := by
    intro v hv
    exact combine_created v (createdFrom_create h v hv) acc kind mask
  unfold createContractArithOp
  dsimp only
  split_ifs
  · exact h
  · exact hmul _ rfl
  · exact h
  · apply selectPassthru_created
    apply createdFrom_create h
    rfl
  · apply createdFrom_create h
    rfl
  · exact hmul _ rfl

theorem isNull_eq_true (v : Value) (h : v.isNull = true) : v = .null := by
  cases v <;> first | rfl | (simp [Value.isNull] at h)

theorem axpy_mask (op : OuterProductOp) :
    (if op.isMasked then op.maskingOp else Value.null) = op.maskingOp := by
  unfold OuterProductOp.isMasked
  by_cases h : op.maskingOp.isNull = true
  · simp [h, isNull_eq_true _ h]
  · simp [h]

theorem axpy_run (op : OuterProductOp) (rewriter : PatternRewriter) (lt : VectorType)
    (hl : op.lhs.getType = .vector lt) (hr : op.rhs.getType.isVector = false)
    (hres : op.resultType = lt) (hrank : lt.shape.length < 2) :
    OuterProductOpLowering.matchAndRewrite op rewriter =
      match createContractArithOp op.lhs (.broadcast lt op.rhs) op.acc op.kind
          ⟨rewriter.ops ++ [.broadcast lt op.rhs]⟩ lt.elementType.isIntOrIndex op.maskingOp with
      | (none, rw1) => (.failure, rw1)
      | (some v, rw1) => (.success v, rw1) := by
  have hlt : op.getOperandVectorTypeLHS = lt := by
    simp [OuterProductOp.getOperandVectorTypeLHS, hl]
  have hdc : op.rhs.getType.dynCastVector = none := by
    cases h : op.rhs.getType with
    | vector v => rw [h] at hr; exact absurd hr (by simp [MlirType.isVector])
    | null => rfl
    | scalar e => rfl
  unfold OuterProductOpLowering.matchAndRewrite
  rw [if_neg (by rw [hres]; simp; omega)]
  simp only [hdc, hlt, axpy_mask, hres, PatternRewriter.create]
  cases createContractArithOp op.lhs (.broadcast lt op.rhs) op.acc op.kind
      ⟨rewriter.ops ++ [.broadcast lt op.rhs]⟩ lt.elementType.isIntOrIndex op.maskingOp with
  | mk v rw1 => cases v <;> rfl

theorem createContractArithOp_int_add (x y acc mask : Value) (rewriter : PatternRewriter)
    (w : Nat) (hx : x.getType.elementType? = some (.integer w))
    (hacc : acc.isNull = false → acc.getType.elementType? = some (.integer w)) :
    (createContractArithOp x y acc .ADD rewriter true mask).1 =
      some (if acc.isNull then .binary .muli x y
        else if mask.isNull then .binary .addi (.binary .muli x y) acc
        else .select mask (.binary .addi (.binary .muli x y) acc) acc) := by
  unfold createContractArithOp createContractArithOp.combine
  simp only [if_true, PatternRewriter.create]
  rw [if_neg (by decide)]
  by_cases hn : acc.isNull = true
  · simp [hn]
  · have hn2 : acc.isNull = false := by simpa using hn
    have hm : (Value.binary .muli x y).getType.elementType? = some (.integer w) := by
      simpa [Value.getType] using hx
    rw [if_neg hn]
    dsimp only
    rw [makeArithReduction_typed _ .ADD (.binary .muli x y) acc mask (.integer w) (.integer w)
      true .addi hm (hacc hn2) (by simp [ElementType.isIntOrIndex]) rfl]
    by_cases hmk : mask.isNull = true
    · simp [selectPassthru, hmk, hn2]
    · simp [selectPassthru, hmk, hn2, PatternRewriter.create]

theorem denote_select (env : Nat → Elem) (cond t f : Value) (fc ft ff : Elem)
    (hc : denote env cond = some fc) (ht : denote env t = some ft)
    (hf : denote env f = some ff) :
    denote env (.select cond t f) = some (fun idx => if fc idx ≠ 0 then ft idx else ff idx) := by
  simp [denote, hc, ht, hf]

theorem denote_broadcast_scalar (env : Nat → Elem) (ty : VectorType) (v : Value) (fv : Elem)
    (hv : v.getType.isVector = false) (hd : denote env v = some fv) :
    denote env (.broadcast ty v) = some (fun _ => fv []) := by
  have hs : v.getType.shape = [] := by
    cases h : v.getType with
    | vector t => rw [h] at hv; exact absurd hv (by simp [MlirType.isVector])
    | null => rfl
    | scalar e => rfl
  simp [denote, hd, hs, broadcastIndex]

/-- Counterexample to C21 as stated: on the masked AXPY outer product `sampleAxpyMasked`
(`i8` elements, kind `ADD`, accumulator present) with the mask false on every lane,
`OuterProductOpLowering` succeeds with the select of the sum against the accumulator;
lane 0 of the result holds `acc[0] = 3`, whereas `lhs[0] * rhs + acc[0]` is `5`. -/
theorem outerProductOp_axpy_counterexample :
    (OuterProductOpLowering.matchAndRewrite sampleAxpyMasked ⟨[]⟩).1 =
      .success (.select sampleAxpyMasked.maskingOp
        (.binary .addi (.binary .muli sampleAxpyMasked.lhs
          (.broadcast ⟨[2], [false], .integer 8⟩ sampleAxpyMasked.rhs)) sampleAxpyMasked.acc)
        sampleAxpyMasked.acc) ∧
    (denote sampleEnvMaskedOff (.select sampleAxpyMasked.maskingOp
        (.binary .addi (.binary .muli sampleAxpyMasked.lhs
          (.broadcast ⟨[2], [false], .integer 8⟩ sampleAxpyMasked.rhs)) sampleAxpyMasked.acc)
        sampleAxpyMasked.acc)).map (fun f => f [0]) = some 3 ∧
    (sampleEnvMaskedOff 0 [0] * sampleEnvMaskedOff 1 [] + sampleEnvMaskedOff 2 [0]) % 2 ^ 8 =
      5 := by
  decide

/-- C21 (amended). For an outer product whose rhs is a bare scalar and whose lhs and
result have the rank-1 type `lt`, `OuterProductOpLowering` creates the broadcast of rhs to
`lt` followed by the operations of exactly one combine step `createContractArithOp`
(arithmetic and select operations only, so no extract or insert of a per-slice loop), and
it fails exactly when the combine step rejects the pair of kind and element type. For
`w`-bit integer elements and kind `ADD` it succeeds; without accumulator the result is
`lhs[i] * rhs` on every lane; with accumulator the result is `lhs[i] * rhs + acc[i]` on
every lane when the operation is unmasked and on every lane whose mask bit is true when
it is masked, and `acc[i]` on every lane whose mask bit is false. -/
theorem outerProductOp_axpy (env : Nat → Elem) (op : OuterProductOp)
    (rewriter : PatternRewriter) (lt : VectorType) (E : Nat)
    (hl : op.lhs.getType = .vector lt) (hls : lt.shape = [E])
    (hr : op.rhs.getType.isVector = false) (hres : op.resultType = lt) :
    (OuterProductOpLowering.matchAndRewrite op rewriter =
      match createContractArithOp op.lhs (.broadcast lt op.rhs) op.acc op.kind
          ⟨rewriter.ops ++ [.broadcast lt op.rhs]⟩ lt.elementType.isIntOrIndex op.maskingOp with
      | (none, rw1) => (.failure, rw1)
      | (some v, rw1) => (.success v, rw1)) ∧
    (∃ em, (OuterProductOpLowering.matchAndRewrite op rewriter).2.ops =
        rewriter.ops ++ .broadcast lt op.rhs :: em ∧
      ∀ v ∈ em, v.isArith = true ∧ v.isExtract = false ∧ v.isInsert = false) ∧
    ((OuterProductOpLowering.matchAndRewrite op rewriter).1.failed = true ↔
      (lt.elementType.isIntOrIndex = true ∧
        op.kind ∈ [.MINNUMF, .MAXNUMF, .MINIMUMF, .MAXIMUMF]) ∨
      (lt.elementType.isIntOrIndex = false ∧
        op.kind ∈ [.AND, .OR, .XOR, .MINSI, .MAXSI, .MINUI, .MAXUI])) ∧
    ∀ (w : Nat) (a b c m : Elem), lt.elementType = .integer w → op.kind = .ADD →
      (op.acc.isNull = false → op.acc.getType = .vector lt) →
      denote env op.lhs = some a → denote env op.rhs = some b →
      (op.acc.isNull = false → denote env op.acc = some c) →
      (op.maskingOp.isNull = false → denote env op.maskingOp = some m) →
      ∃ (v : Value) (f : Elem),
        (OuterProductOpLowering.matchAndRewrite op rewriter).1 = .success v ∧
        denote env v = some f ∧
        ∀ idx,
          (op.acc.isNull = true → f idx = (a idx * b []) % 2 ^ w) ∧
          (op.acc.isNull = false → (op.maskingOp.isNull = true ∨ m idx ≠ 0) →
            f idx = (a idx * b [] + c idx) % 2 ^ w) ∧
          (op.acc.isNull = false → op.maskingOp.isNull = false → m idx = 0 →
            f idx = c idx) := by
  have hrun := axpy_run op rewriter lt hl hr hres (by rw [hls]; simp)
  refine ⟨hrun, ?_, ?_, ?_⟩
  · obtain ⟨em, h1, h2⟩ := createContractArithOp_created
      (createdFrom_same (fun v => v.isArith = true) ⟨rewriter.ops ++ [.broadcast lt op.rhs]⟩)
      op.lhs (.broadcast lt op.rhs) op.acc op.kind lt.elementType.isIntOrIndex op.maskingOp
    refine ⟨em, ?_, fun v hv => ⟨h2 v hv, ?_, ?_⟩⟩
    · rw [hrun]
      rw [List.append_assoc, List.singleton_append] at h1
      rw [← h1]
      cases createContractArithOp op.lhs (.broadcast lt op.rhs) op.acc op.kind
          ⟨rewriter.ops ++ [.broadcast lt op.rhs]⟩ lt.elementType.isIntOrIndex op.maskingOp with
      | mk v rw1 => cases v <;> rfl
    · have := h2 v hv
      cases v <;> first | rfl | (simp [Value.isArith] at this)
    · have := h2 v hv
      cases v <;> first | rfl | (simp [Value.isArith] at this)
  · rw [hrun, ← createContractArithOp_eq_none op.lhs (.broadcast lt op.rhs) op.acc op.kind
      ⟨rewriter.ops ++ [.broadcast lt op.rhs]⟩ lt.elementType.isIntOrIndex op.maskingOp]
    cases createContractArithOp op.lhs (.broadcast lt op.rhs) op.acc op.kind
        ⟨rewriter.ops ++ [.broadcast lt op.rhs]⟩ lt.elementType.isIntOrIndex op.maskingOp with
    | mk v rw1 => cases v <;> simp [FailureOr.failed]
  · intro w a b c m he hk hacc ha hb hc hm
    have hint : lt.elementType.isIntOrIndex = true := by rw [he]; rfl
    have hx : op.lhs.getType.elementType? = some (.integer w) := by
      rw [hl]; simp [MlirType.elementType?, he]
    have hv := createContractArithOp_int_add op.lhs (.broadcast lt op.rhs) op.acc op.maskingOp
      ⟨rewriter.ops ++ [.broadcast lt op.rhs]⟩ w hx
      (fun h => by rw [hacc h]; simp [MlirType.elementType?, he])
    rw [hint, hk] at hrun
    have hmul := denote_muli env op.lhs (.broadcast lt op.rhs) w a _ hx ha
      (denote_broadcast_scalar env lt op.rhs b hr hb)
    have hsucc : ∀ v, (createContractArithOp op.lhs (.broadcast lt op.rhs) op.acc .ADD
        ⟨rewriter.ops ++ [.broadcast lt op.rhs]⟩ true op.maskingOp).1 = some v →
        (OuterProductOpLowering.matchAndRewrite op rewriter).1 = .success v := by
      intro v h
      rw [hrun]
      revert h
      cases createContractArithOp op.lhs (.broadcast lt op.rhs) op.acc .ADD
          ⟨rewriter.ops ++ [.broadcast lt op.rhs]⟩ true op.maskingOp with
      | mk v1 rw1 =>
          intro h
          simp only at h
          subst h
          rfl
    by_cases hn : op.acc.isNull = true
    · simp only [hn, if_true] at hv
      refine ⟨_, _, hsucc _ hv, hmul, fun idx => ⟨fun _ => rfl, ?_, ?_⟩⟩
      · intro h; rw [hn] at h; exact absurd h (by decide)
      · intro h; rw [hn] at h; exact absurd h (by decide)
    · have hn2 : op.acc.isNull = false := by simpa using hn
      have hadd := denote_addi env (.binary .muli op.lhs (.broadcast lt op.rhs)) op.acc w _ c
        (by simpa [Value.getType] using hx) hmul (hc hn2)
      by_cases hmk : op.maskingOp.isNull = true
      · simp only [hn2, hmk, Bool.false_eq_true, if_false, if_true] at hv
        refine ⟨_, _, hsucc _ hv, hadd, fun idx => ⟨?_, ?_, ?_⟩⟩
        · intro h; exact absurd h hn
        · intro _ _
          simp [Int.emod_add_emod]
        · intro _ h; rw [hmk] at h; exact absurd h (by decide)
      · have hmk2 : op.maskingOp.isNull = false := by simpa using hmk
        simp only [hn2, hmk2, Bool.false_eq_true, if_false] at hv
        refine ⟨_, _, hsucc _ hv, denote_select env _ _ _ m _ c (hm hmk2) hadd (hc hn2),
          fun idx => ⟨?_, ?_, ?_⟩⟩
        · intro h; exact absurd h hn
        · intro _ h
          rcases h with h | h
          · exact absurd h hmk
          · simp [h, Int.emod_add_emod]
        · intro _ _ h
          simp [h]

/-- Instance of C21 (amended) at `sampleAxpyMasked` with the contents `sampleEnv`, where
every lane of the mask is true. -/
theorem outerProductOp_axpy_witness :
    ∃ (v : Value) (f : Elem),
      (OuterProductOpLowering.matchAndRewrite sampleAxpyMasked ⟨[]⟩).1 = .success v ∧
      denote sampleEnv v = some f ∧
      ∀ idx,
        (sampleAxpyMasked.acc.isNull = true → f idx = (sampleEnv 0 idx * sampleEnv 1 []) % 2 ^ 8) ∧
        (sampleAxpyMasked.acc.isNull = false →
          (sampleAxpyMasked.maskingOp.isNull = true ∨ sampleEnv 3 idx ≠ 0) →
          f idx = (sampleEnv 0 idx * sampleEnv 1 [] + sampleEnv 2 idx) % 2 ^ 8) ∧
        (sampleAxpyMasked.acc.isNull = false → sampleAxpyMasked.maskingOp.isNull = false →
          sampleEnv 3 idx = 0 → f idx = sampleEnv 2 idx) :=
  (outerProductOp_axpy sampleEnv sampleAxpyMasked ⟨[]⟩ ⟨[2], [false], .integer 8⟩ 2
    rfl rfl rfl rfl).2.2.2 8 (sampleEnv 0) (sampleEnv 1) (sampleEnv 2) (sampleEnv 3)
    rfl rfl (fun _ => rfl) rfl rfl (fun _ => rfl) (fun _ => rfl)

/-! ## Normalisation and loop structure of the dot lowering -/

theorem dotTable_labels :
    ∀ e ∈ dotTable,
      isReductionIterator (e.iters.getD (e.iters.length - 1) .parallel) = true ∧
      (e.iters.length = 3 →
        ∃ a b, ((inferFromExprList e.layout).getD 2 ⟨0, []⟩).results = [a, b] ∧
          e.lhsUse.labels (inferFromExprList e.layout) = [a, e.iters.length - 1] ∧
          e.rhsUse.labels (inferFromExprList e.layout) = [b, e.iters.length - 1]) ∧
      (e.iters.length = 2 →
        ∃ m, ((inferFromExprList e.layout).getD 2 ⟨0, []⟩).results = [m] ∧
          e.lhsUse.labels (inferFromExprList e.layout) = [m, e.iters.length - 1] ∧
          e.rhsUse.labels (inferFromExprList e.layout) = [e.iters.length - 1]) ∧
      (e.lhsUse.labels (inferFromExprList e.layout)).getLast? = some (e.iters.length - 1) ∧
      (e.rhsUse.labels (inferFromExprList e.layout)).getLast? = some (e.iters.length - 1) := by
  intro e he
  simp only [dotTable, List.mem_cons, List.mem_singleton, List.not_mem_nil, or_false] at he
  rcases he with rfl | rfl | rfl | rfl | rfl | rfl | rfl | rfl | rfl | rfl | rfl | rfl <;>
    simp +decide [inferFromExprList, OperandUse.labels, isReductionIterator]

/-- C22 (dot normalisation). For each of the twelve layouts of the dot lowering (rows of
`dotTable`: 8 matmat, 4 matvec), a contraction with the layout is normalised to the
operands the row names, and with `k` the reduction label (the last iterator): for a
matmat layout with result map `(a, b)` the operand used as lhs has axis labels `(a, k)`
and the operand used as rhs has axis labels `(b, k)`; for a matvec layout with result map
`(m)` the lhs has labels `(m, k)` and the rhs has labels `(k)`. Hence the innermost axis
of both normalised operands carries the reduction label. -/
theorem dot_normalisation (op : ContractionOp) (rewriter : PatternRewriter) (e : DotEntry)
    (he : e ∈ dotTable) (hi : op.iteratorTypes = e.iters)
    (hm : op.indexingMaps = inferFromExprList e.layout) :
    (∃ rewriter1, ContractionOpToDotLowering.normalize op rewriter =
      (some (e.lhsUse.dotValue op, e.rhsUse.dotValue op), rewriter1)) ∧
    isReductionIterator
      (op.iteratorTypes.getD (op.iteratorTypes.length - 1) .parallel) = true ∧
    (op.iteratorTypes.length = 3 →
      ∃ a b, (op.indexingMaps.getD 2 ⟨0, []⟩).results = [a, b] ∧
        e.lhsUse.labels op.indexingMaps = [a, op.iteratorTypes.length - 1] ∧
        e.rhsUse.labels op.indexingMaps = [b, op.iteratorTypes.length - 1]) ∧
    (op.iteratorTypes.length = 2 →
      ∃ m, (op.indexingMaps.getD 2 ⟨0, []⟩).results = [m] ∧
        e.lhsUse.labels op.indexingMaps = [m, op.iteratorTypes.length - 1] ∧
        e.rhsUse.labels op.indexingMaps = [op.iteratorTypes.length - 1]) ∧
    (e.lhsUse.labels op.indexingMaps).getLast? = some (op.iteratorTypes.length - 1) ∧
    (e.rhsUse.labels op.indexingMaps).getLast? = some (op.iteratorTypes.length - 1) := by
  refine ⟨⟨_, normalize_entry op rewriter e he hi hm⟩, ?_⟩
  rw [hi, hm]
  exact dotTable_labels e he

/-- Instance of C22 at `sampleMatmat` (row-major matmat, first row of the table). -/
theorem dot_normalisation_witness :
    (∃ rewriter1, ContractionOpToDotLowering.normalize sampleMatmat ⟨[]⟩ =
      (some (sampleMatmat.lhs, .transpose sampleMatmat.rhs [1, 0]), rewriter1)) ∧
    isReductionIterator
      (sampleMatmat.iteratorTypes.getD (sampleMatmat.iteratorTypes.length - 1) .parallel) =
        true ∧
    (sampleMatmat.iteratorTypes.length = 3 →
      ∃ a b, (sampleMatmat.indexingMaps.getD 2 ⟨0, []⟩).results = [a, b] ∧
        OperandUse.lhs.labels sampleMatmat.indexingMaps =
          [a, sampleMatmat.iteratorTypes.length - 1] ∧
        OperandUse.rhsT.labels sampleMatmat.indexingMaps =
          [b, sampleMatmat.iteratorTypes.length - 1]) ∧
    (sampleMatmat.iteratorTypes.length = 2 →
      ∃ m, (sampleMatmat.indexingMaps.getD 2 ⟨0, []⟩).results = [m] ∧
        OperandUse.lhs.labels sampleMatmat.indexingMaps =
          [m, sampleMatmat.iteratorTypes.length - 1] ∧
        OperandUse.rhsT.labels sampleMatmat.indexingMaps =
          [sampleMatmat.iteratorTypes.length - 1]) ∧
    (OperandUse.lhs.labels sampleMatmat.indexingMaps).getLast? =
      some (sampleMatmat.iteratorTypes.length - 1) ∧
    (OperandUse.rhsT.labels sampleMatmat.indexingMaps).getLast? =
      some (sampleMatmat.iteratorTypes.length - 1) :=
  dot_normalisation sampleMatmat ⟨[]⟩
    ⟨[.parallel, .parallel, .reduction], [[0, 2], [2, 1], [0, 1]], .lhs, .rhsT, [.rhsT]⟩
    (by decide) rfl rfl

theorem columnLoop_ops (lhs rhs : Value) (rank : Nat) (isInt : Bool) (r cols : Nat)
    (st : DotLoopState)
    (hcols : st.extractedCols =
      if r = 0 then [] else (List.range cols).map (dotColumn rhs rank))
    (n : Nat) (hn : n ≤ cols) :
    (List.range n).foldl (columnStep rhs rank isInt r (.extract lhs [r])) st =
      { res := ((List.range n).map (fun c => (r, c))).foldl
          (dotInsert lhs rhs rank isInt) st.res,
        extractedCols := (if r = 0 then (List.range n).map (dotColumn rhs rank)
          else (List.range cols).map (dotColumn rhs rank)),
        rewriter := { ops := st.rewriter.ops ++ (List.range n).flatMap (fun c =>
          columnOps lhs rhs rank isInt (((List.range c).map (fun c1 => (r, c1))).foldl
            (dotInsert lhs rhs rank isInt) st.res) r c) } } := by
  induction n with
  | zero =>
      cases st
      simp at hcols
      simp [hcols]
  | succ n ih =>
      have hfold := ih (by omega)
      rw [foldl_range_succ, hfold]
      have hcol : (if r = 0 then
            (if r = 0 then (List.range n).map (dotColumn rhs rank)
              else (List.range cols).map (dotColumn rhs rank)) ++ [dotColumn rhs rank n]
          else (if r = 0 then (List.range n).map (dotColumn rhs rank)
              else (List.range cols).map (dotColumn rhs rank))).getD n .null =
          dotColumn rhs rank n := by
        by_cases hr : r = 0
        · simp only [hr, if_true]
          exact getD_range_map_append _ _ _
        · simp only [hr, if_false]
          exact getD_range_map _ _ _ _ (by omega)
      rw [columnStep_eq lhs rhs rank isInt r n _ hcol]
      by_cases hr : r = 0 <;> simp [hr, List.range_succ, List.flatMap_append]

theorem rowLoop_ops (lhs rhs : Value) (rank : Nat) (isInt : Bool) (cols : Nat)
    (res0 : Value) (rw : PatternRewriter) (n : Nat) :
    (List.range n).foldl (rowStep lhs rhs rank isInt cols)
        { res := res0, extractedCols := [], rewriter := rw } =
      { res := (gridCells n cols).foldl (dotInsert lhs rhs rank isInt) res0,
        extractedCols := (if n = 0 then [] else (List.range cols).map (dotColumn rhs rank)),
        rewriter := { ops := rw.ops ++ dotGridOps lhs rhs rank isInt n cols res0 } } := by
  induction n with
  | zero => simp [gridCells, dotGridOps]
  | succ n ih =>
      rw [foldl_range_succ, ih]
      have hcol := columnLoop_ops lhs rhs rank isInt n cols
        { res := (gridCells n cols).foldl (dotInsert lhs rhs rank isInt) res0,
          extractedCols := (if n = 0 then [] else (List.range cols).map (dotColumn rhs rank)),
          rewriter := { ops := rw.ops ++ dotGridOps lhs rhs rank isInt n cols res0 ++
            [.extract lhs [n]] } } rfl cols (le_refl _)
      simp only [rowStep, PatternRewriter.create, hcol, gridCells_succ, List.foldl_append]
      by_cases hn : n = 0 <;>
        simp [hn, dotGridOps, dotRowOps, List.range_succ, List.flatMap_append,
          List.foldl_append, gridCells]

theorem filter_flatMap_list {α β : Type} (l : List α) (f : α → List β) (p : β → Bool) :
    (l.flatMap f).filter p = l.flatMap (fun x => (f x).filter p) := by
  induction l with
  | nil => rfl
  | cons a as ih => simp [List.flatMap_cons, List.filter_append, ih]

theorem filterMap_flatMap_list {α β γ : Type} (l : List α) (f : α → List β) (g : β → Option γ) :
    (l.flatMap f).filterMap g = l.flatMap (fun x => (f x).filterMap g) := by
  induction l with
  | nil => rfl
  | cons a as ih => simp [List.flatMap_cons, List.filterMap_append, ih]

theorem flatMap_singleton_map {α β : Type} (l : List α) (f : α → β) :
    l.flatMap (fun x => [f x]) = l.map f := by
  induction l with
  | nil => rfl
  | cons a as ih => simp [List.flatMap_cons, ih]

theorem gridCells_map {β : Type} (rows cols : Nat) (f : Nat × Nat → β) :
    (gridCells rows cols).map f =
      (List.range rows).flatMap (fun r => (List.range cols).map (fun c => f (r, c))) := by
  unfold gridCells
  induction (List.range rows) with
  | nil => rfl
  | cons a as ih => simp [List.flatMap_cons, ih]

theorem gridCells_length (rows cols : Nat) : (gridCells rows cols).length = rows * cols := by
  induction rows with
  | zero => simp [gridCells]
  | succ n ih => rw [gridCells_succ, List.length_append, ih, List.length_map, List.length_range,
      Nat.succ_mul]

theorem columnOps_extract (lhs rhs : Value) (rank : Nat) (isInt : Bool) (res : Value)
    (r c : Nat) :
    (columnOps lhs rhs rank isInt res r c).filter Value.isExtract =
      if r = 0 ∧ rank ≠ 1 then [.extract rhs [c]] else [] := by
  unfold columnOps
  cases isInt <;> split_ifs <;> simp [Value.isExtract, dotSum, dotInsert]

theorem columnOps_mul (lhs rhs : Value) (rank : Nat) (isInt : Bool) (res : Value)
    (r c : Nat) :
    (columnOps lhs rhs rank isInt res r c).filter Value.isMul =
      [.binary (if isInt then .muli else .mulf) (.extract lhs [r]) (dotColumn rhs rank c)] := by
  unfold columnOps
  cases isInt <;> split_ifs <;> simp [Value.isMul, dotSum, dotInsert]

theorem columnOps_reduction (lhs rhs : Value) (rank : Nat) (isInt : Bool) (res : Value)
    (r c : Nat) :
    (columnOps lhs rhs rank isInt res r c).filter Value.isReduction =
      [dotSum lhs rhs rank isInt r c] := by
  unfold columnOps
  cases isInt <;> split_ifs <;> simp [Value.isReduction, dotSum, dotInsert]

theorem columnOps_insert (lhs rhs : Value) (rank : Nat) (isInt : Bool) (res : Value)
    (r c : Nat) :
    (columnOps lhs rhs rank isInt res r c).filterMap Value.insertAt? =
      [(dotSum lhs rhs rank isInt r c, dotPos rank r c)] := by
  unfold columnOps
  cases isInt <;> split_ifs <;> simp [Value.insertAt?, dotSum, dotInsert]

theorem columnOps_kinds (lhs rhs : Value) (rank : Nat) (isInt : Bool) (res : Value)
    (r c : Nat) :
    ∀ v ∈ columnOps lhs rhs rank isInt res r c,
      v.isExtract = true ∨ v.isMul = true ∨ v.isReduction = true ∨ v.isInsert = true := by
  unfold columnOps
  cases isInt <;> split_ifs <;>
    simp [Value.isExtract, Value.isMul, Value.isReduction, Value.isInsert, dotSum, dotInsert]

theorem dotGridOps_facts (lhs rhs : Value) (rank : Nat) (isInt : Bool) (rows cols : Nat)
    (res0 : Value) :
    (∀ v ∈ dotGridOps lhs rhs rank isInt rows cols res0,
      v.isExtract = true ∨ v.isMul = true ∨ v.isReduction = true ∨ v.isInsert = true) ∧
    (dotGridOps lhs rhs rank isInt rows cols res0).filter Value.isExtract =
      (List.range rows).flatMap (fun r => .extract lhs [r] ::
        (if r = 0 ∧ rank ≠ 1 then (List.range cols).map (fun c => Value.extract rhs [c])
          else [])) ∧
    (dotGridOps lhs rhs rank isInt rows cols res0).filter Value.isMul =
      (gridCells rows cols).map (fun cell =>
        .binary (if isInt then .muli else .mulf) (.extract lhs [cell.1])
          (dotColumn rhs rank cell.2)) ∧
    (dotGridOps lhs rhs rank isInt rows cols res0).filter Value.isReduction =
      (gridCells rows cols).map (fun cell => dotSum lhs rhs rank isInt cell.1 cell.2) ∧
    (dotGridOps lhs rhs rank isInt rows cols res0).filterMap Value.insertAt? =
      (gridCells rows cols).map (fun cell =>
        (dotSum lhs rhs rank isInt cell.1 cell.2, dotPos rank cell.1 cell.2)) := by
  refine ⟨?_, ?_, ?_, ?_, ?_⟩
  · intro v hv
    simp only [dotGridOps, dotRowOps, List.mem_flatMap, List.mem_cons, List.mem_range] at hv
    obtain ⟨r, _, hv⟩ := hv
    rcases hv with hv | ⟨c, _, hv⟩
    · rw [hv]; exact Or.inl rfl
    · exact columnOps_kinds _ _ _ _ _ _ _ v hv
  · unfold dotGridOps dotRowOps
    rw [filter_flatMap_list]
    congr 1
    funext r
    rw [List.filter_cons, if_pos (by rfl), filter_flatMap_list]
    simp only [columnOps_extract]
    by_cases h : r = 0 ∧ rank ≠ 1
    · simp only [h, and_self, if_true, ne_eq, not_false_eq_true]
      rw [flatMap_singleton_map]
    · simp [h]
  · unfold dotGridOps dotRowOps
    rw [filter_flatMap_list, gridCells_map]
    congr 1
    funext r
    rw [List.filter_cons, if_neg (by simp [Value.isMul]), filter_flatMap_list]
    simp only [columnOps_mul]
    rw [flatMap_singleton_map]
  · unfold dotGridOps dotRowOps
    rw [filter_flatMap_list, gridCells_map]
    congr 1
    funext r
    rw [List.filter_cons, if_neg (by simp [Value.isReduction]), filter_flatMap_list]
    simp only [columnOps_reduction]
    rw [flatMap_singleton_map]
  · unfold dotGridOps dotRowOps
    rw [filterMap_flatMap_list, gridCells_map]
    congr 1
    funext r
    rw [List.filterMap_cons]
    simp only [Value.insertAt?]
    rw [filterMap_flatMap_list]
    simp only [columnOps_insert]
    rw [flatMap_singleton_map]

theorem emitGrid_ops (op : ContractionOp) (lhs rhs : Value) (rw : PatternRewriter)
    (dstType : VectorType) (hres : op.resultType = .vector dstType) :
    (emitGrid op lhs rhs rw).1.succeeded = true ∧
    (emitGrid op lhs rhs rw).2.ops =
      rw.ops ++ [.constantZero (.vector dstType)] ++
        dotGridOps lhs rhs dstType.getRank dstType.elementType.isInteger (dotRows dstType)
          (dotColumns dstType) (.constantZero (.vector dstType)) ++
        (if op.acc.isNull then []
          else [.binary (if dstType.elementType.isInteger then .addi else .addf)
            (gridValue lhs rhs dstType (dotRows dstType) (dotColumns dstType)) op.acc]) := by
  have hloop := rowLoop_ops lhs rhs dstType.getRank dstType.elementType.isInteger
    (dotColumns dstType) (.constantZero (.vector dstType))
    { ops := rw.ops ++ [.constantZero (.vector dstType)] } (dotRows dstType)
  have hloop2 : (List.range (toUInt32 (dstType.shape.getD 0 0))).foldl
      (rowStep lhs rhs dstType.getRank dstType.elementType.isInteger
        (if dstType.getRank = 1 then 1 else toUInt32 (dstType.shape.getD 1 0)))
      { res := .constantZero (.vector dstType), extractedCols := [],
        rewriter := { ops := rw.ops ++ [.constantZero (.vector dstType)] } } = _ := hloop
  simp only [emitGrid, hres, PatternRewriter.create, hloop2, createAdd]
  by_cases hacc : op.acc.isNull = true
  · simp [hacc, FailureOr.succeeded]
  · cases hi : dstType.elementType.isInteger <;>
      simp [hacc, gridValue, PatternRewriter.create, hi, FailureOr.succeeded]

/-- C23 (dot loop structure). For an unmasked contraction with one of the twelve dot
layouts and a vector result type, offered with strategy `Dot`, the dot lowering succeeds
and creates, after the transposes of the layout and the zero result, a block `G` of
extract, multiply, horizontal-reduction and insert operations, followed by the
accumulator add when there is an accumulator. With `rows` and `cols` the unrolled grid
extents (`cols = 1` for a rank-1 result): the extractions of `G` are, row by row, the lhs
row `r`, followed in row 0 of a rank-2 result by the rhs columns `0 .. cols-1` (none for
a rank-1 result, none in later rows); the multiplies, the reductions and the inserts of
`G` are one per cell of the grid in row-major order, the insert of cell `(r, c)` placing
the cell's reduction at position `(r, c)` (or `(r)`); so there are `rows * cols` of
each. -/
theorem dot_loop_structure (vcl : VectorContractLowering) (constraint : FilterConstraintType)
    (op : ContractionOp) (maskOp : Value) (rewriter : PatternRewriter)
    (hmask : maskOp.isNull = true) (hs : vcl = .Dot) (e : DotEntry) (he : e ∈ dotTable)
    (hi : op.iteratorTypes = e.iters) (hmp : op.indexingMaps = inferFromExprList e.layout)
    (dstType : VectorType) (hres : op.resultType = .vector dstType) :
    ∃ G : List Value,
      ((ContractionOpToDotLowering.new vcl constraint).matchAndRewriteMaskableOp op maskOp
        rewriter).1.succeeded = true ∧
      ((ContractionOpToDotLowering.new vcl constraint).matchAndRewriteMaskableOp op maskOp
        rewriter).2.ops =
        rewriter.ops ++ e.created.map (OperandUse.dotValue op) ++
          [.constantZero (.vector dstType)] ++ G ++
          (if op.acc.isNull then []
            else [.binary (if dstType.elementType.isInteger then .addi else .addf)
              (gridValue (e.lhsUse.dotValue op) (e.rhsUse.dotValue op) dstType
                (dotRows dstType) (dotColumns dstType)) op.acc]) ∧
      (∀ v ∈ G, v.isExtract = true ∨ v.isMul = true ∨ v.isReduction = true ∨
        v.isInsert = true) ∧
      G.filter Value.isExtract =
        (List.range (dotRows dstType)).flatMap (fun r =>
          .extract (e.lhsUse.dotValue op) [r] ::
            (if r = 0 ∧ dstType.getRank ≠ 1 then
              (List.range (dotColumns dstType)).map
                (fun c => Value.extract (e.rhsUse.dotValue op) [c])
            else [])) ∧
      G.filter Value.isMul =
        (gridCells (dotRows dstType) (dotColumns dstType)).map (fun cell =>
          .binary (if dstType.elementType.isInteger then .muli else .mulf)
            (.extract (e.lhsUse.dotValue op) [cell.1])
            (dotColumn (e.rhsUse.dotValue op) dstType.getRank cell.2)) ∧
      G.filter Value.isReduction =
        (gridCells (dotRows dstType) (dotColumns dstType)).map (fun cell =>
          dotSum (e.lhsUse.dotValue op) (e.rhsUse.dotValue op) dstType.getRank
            dstType.elementType.isInteger cell.1 cell.2) ∧
      G.filterMap Value.insertAt? =
        (gridCells (dotRows dstType) (dotColumns dstType)).map (fun cell =>
          (dotSum (e.lhsUse.dotValue op) (e.rhsUse.dotValue op) dstType.getRank
            dstType.elementType.isInteger cell.1 cell.2,
            dotPos dstType.getRank cell.1 cell.2)) ∧
      (gridCells (dotRows dstType) (dotColumns dstType)).length =
        dotRows dstType * dotColumns dstType ∧
      (dstType.getRank = 1 → dotColumns dstType = 1) := by
  have hrun := dot_layout_run vcl constraint op maskOp rewriter hmask hs e he hi hmp
  obtain ⟨hsucc, hops⟩ := emitGrid_ops op (e.lhsUse.dotValue op) (e.rhsUse.dotValue op)
    { ops := rewriter.ops ++ e.created.map (OperandUse.dotValue op) } dstType hres
  obtain ⟨h1, h2, h3, h4, h5⟩ := dotGridOps_facts (e.lhsUse.dotValue op) (e.rhsUse.dotValue op)
    dstType.getRank dstType.elementType.isInteger (dotRows dstType) (dotColumns dstType)
    (.constantZero (.vector dstType))
  refine ⟨_, ?_, ?_, h1, h2, h3, h4, h5, gridCells_length _ _, ?_⟩
  · rw [hrun]; exact hsucc
  · rw [hrun]; exact hops
  · intro h
    simp [dotColumns, h]

/-- Instance of C23 at `sampleMatmat` (row-major `2x3` by `3x2` matmat, first row of
the table). -/
theorem dot_loop_structure_witness :
    ∃ G : List Value,
      (sampleDotPattern.matchAndRewriteMaskableOp sampleMatmat .null ⟨[]⟩).1.succeeded = true ∧
      (sampleDotPattern.matchAndRewriteMaskableOp sampleMatmat .null ⟨[]⟩).2.ops =
        [] ++ [OperandUse.rhsT].map (OperandUse.dotValue sampleMatmat) ++
          [.constantZero (i8Matrix 2 2)] ++ G ++
          [.binary .addi (gridValue sampleMatmat.lhs (.transpose sampleMatmat.rhs [1, 0])
            ⟨[2, 2], [false, false], .integer 8⟩ 2 2) sampleMatmat.acc] ∧
      (G.filter Value.isExtract).length = 2 + 2 ∧
      (G.filter Value.isMul).length = 2 * 2 ∧
      (G.filter Value.isReduction).length = 2 * 2 ∧
      (G.filterMap Value.insertAt?).map (fun p => p.2) = [[0, 0], [0, 1], [1, 0], [1, 1]] := by
  obtain ⟨G, h1, h2, _, h4, h5, h6, h7, _, _⟩ := dot_loop_structure .Dot defaultFilter
    sampleMatmat .null ⟨[]⟩ rfl rfl
    ⟨[.parallel, .parallel, .reduction], [[0, 2], [2, 1], [0, 1]], .lhs, .rhsT, [.rhsT]⟩
    (by decide) rfl rfl ⟨[2, 2], [false, false], .integer 8⟩ rfl
  exact ⟨G, h1, h2, by rw [h4]; rfl, by rw [h5]; rfl, by rw [h6]; rfl, by rw [h7]; rfl⟩

/-! ## Position of the reduction axes in the elementwise pattern -/

theorem operandPlan_transpose (map accMap : AffineMap) (iteratorTypes : List IteratorType)
    (rs : List Nat) :
    (operandPlan map accMap iteratorTypes rs).2 =
      (getReductionIndex map iteratorTypes).map (fun dim =>
        numDimToBroadcast map (getReductionIndex map iteratorTypes) accMap.getNumResults + dim) ++
      (List.range accMap.getNumResults).map (planEntry map accMap
        (numDimToBroadcast map (getReductionIndex map iteratorTypes) accMap.getNumResults)) := by
  unfold operandPlan
  dsimp only
  rw [plan_eq]

/-- The `unsigned` sums of the transposition list wrap: for an lhs map `(d0, d1, d2)` with
reduction label 2 and the result map `(d1)` the count of axes to broadcast is
`1 - (3 - 1)` as an `unsigned`, `2 ^ 32 - 1`; the reduction entry `2 ^ 32 - 1 + 2` is a
sum in `int64_t`, the entry of result axis 0 is the `unsigned` sum `2 ^ 32 - 1 + 1 = 0`. -/
theorem operandPlan_unsigned_sample :
    (operandPlan ⟨3, [0, 1, 2]⟩ ⟨3, [1]⟩ [.parallel, .parallel, .reduction] [3]).2 =
      [4294967297, 0] := by
  decide

/-- Counterexample to C24 as stated: on `sampleUnitReduction` (lhs `vector<4x1xi8>` with
map `(m, k)`, `k` the unit reduction axis 1) the elementwise pattern succeeds with the
lhs transposition `[1, 0]`: position 0 of the transposed value, of shape `1x4`, is the
reduction axis, and the trailing position 1 is the parallel axis `m`; the extract at
offset `[0]` removes the leading axis. -/
theorem elementwise_reduction_trailing_counterexample :
    (sampleElementwisePattern.matchAndRewriteMaskableOp sampleUnitReduction .null
      ⟨[]⟩).1.succeeded = true ∧
    getReductionIndex ⟨2, [0, 1]⟩ sampleUnitReduction.iteratorTypes = [1] ∧
    (operandPlan ⟨2, [0, 1]⟩ ⟨2, [0]⟩ sampleUnitReduction.iteratorTypes [4]).2 = [1, 0] ∧
    Value.extract (.transpose sampleUnitReduction.lhs [1, 0]) [0] ∈
      (sampleElementwisePattern.matchAndRewriteMaskableOp sampleUnitReduction .null ⟨[]⟩).2.ops ∧
    (Value.transpose sampleUnitReduction.lhs [1, 0]).getType.shape = [1, 4] ∧
    ([1, 0] : List Nat).getLast? = some 0 ∧
    0 ∉ getReductionIndex ⟨2, [0, 1]⟩ sampleUnitReduction.iteratorTypes := by
  decide

/-- C24 (amended). Whenever `ContractOpToElementwise` succeeds, each operand handed to the
combine step is the zero-offset extract of the transpose of the (possibly broadcast)
operand, and it was created by the pattern. With `r` the number of the operand's
reduction axes, all of extent 1, and `b` the number of broadcast axes, the transposition
list is the reduction axes `b + dim` first, in positions `0 .. r-1`, followed by one entry
per result axis (`planEntry`: the `unsigned` sum of `b` and the operand axis that carries
the label, or the index of the broadcast axis), with `b` the `unsigned` count the code
computes: the reduction axes are moved to the leading positions of the transposed
value, before all result-parallel axes, and the extract, whose position list is `r`
zeros, removes those leading axes. -/
theorem elementwise_reduction_leading (self : ContractOpToElementwise) (op : ContractionOp)
    (maskOp : Value) (rewriter : PatternRewriter)
    (hok : (self.matchAndRewriteMaskableOp op maskOp rewriter).1.succeeded = true) :
    ∀ (v : Value) (vt : VectorType) (map : AffineMap),
      (v = op.lhs ∧ vt = op.getLhsType ∧ map = op.indexingMaps.getD 0 ⟨0, []⟩) ∨
      (v = op.rhs ∧ vt = op.getRhsType ∧ map = op.indexingMaps.getD 1 ⟨0, []⟩) →
      (∀ dim ∈ getReductionIndex map op.iteratorTypes, vt.shape.getD dim 0 = 1) ∧
      operand v vt map (op.indexingMaps.getD 2 ⟨0, []⟩) op.iteratorTypes op.resultType.shape ∈
        (self.matchAndRewriteMaskableOp op maskOp rewriter).2.ops ∧
      operand v vt map (op.indexingMaps.getD 2 ⟨0, []⟩) op.iteratorTypes op.resultType.shape =
        .extract
          (.transpose
            (broadcastOperand v
              (operandPlan map (op.indexingMaps.getD 2 ⟨0, []⟩) op.iteratorTypes
                op.resultType.shape).1 vt.shape vt.elementType ⟨[]⟩).1
            (operandPlan map (op.indexingMaps.getD 2 ⟨0, []⟩) op.iteratorTypes
              op.resultType.shape).2)
          (List.replicate (getReductionIndex map op.iteratorTypes).length 0) ∧
      (operandPlan map (op.indexingMaps.getD 2 ⟨0, []⟩) op.iteratorTypes
          op.resultType.shape).2 =
        (getReductionIndex map op.iteratorTypes).map (fun dim =>
          numDimToBroadcast map (getReductionIndex map op.iteratorTypes)
            (op.indexingMaps.getD 2 ⟨0, []⟩).getNumResults + dim) ++
        (List.range (op.indexingMaps.getD 2 ⟨0, []⟩).getNumResults).map
          (planEntry map (op.indexingMaps.getD 2 ⟨0, []⟩)
            (numDimToBroadcast map (getReductionIndex map op.iteratorTypes)
              (op.indexingMaps.getD 2 ⟨0, []⟩).getNumResults)) := by
  obtain ⟨hl, hr, v0, rw1, rw2, hml, hmr, hc, hrun⟩ :=
    elementwise_run self op maskOp rewriter hok
  have hsub : ∀ x ∈ rw1.ops, x ∈ (self.matchAndRewriteMaskableOp op maskOp rewriter).2.ops := by
    intro x hx
    rw [hrun]
    obtain ⟨em, h1, _⟩ := createContractArithOp_created
      (createdFrom_same (fun v => v.isArith = true) rw1)
      (operand op.lhs op.getLhsType (op.indexingMaps.getD 0 ⟨0, []⟩)
        (op.indexingMaps.getD 2 ⟨0, []⟩) op.iteratorTypes op.resultType.shape)
      (operand op.rhs op.getRhsType (op.indexingMaps.getD 1 ⟨0, []⟩)
        (op.indexingMaps.getD 2 ⟨0, []⟩) op.iteratorTypes op.resultType.shape)
      op.acc op.kind op.getLhsType.elementType.isIntOrIndex .null
    rw [hc] at h1
    show x ∈ rw2.ops
    rw [h1]
    exact List.mem_append_left _ hx
  intro v vt map h
  rcases h with ⟨rfl, rfl, rfl⟩ | ⟨rfl, rfl, rfl⟩
  · exact ⟨hl, hsub _ hml, rfl, operandPlan_transpose _ _ _ _⟩
  · exact ⟨hr, hsub _ hmr, rfl, operandPlan_transpose _ _ _ _⟩

/-- Instance of C24 (amended) at the lhs of `sampleUnitReduction`. -/
theorem elementwise_reduction_leading_witness :
    (sampleElementwisePattern.matchAndRewriteMaskableOp sampleUnitReduction .null
      ⟨[]⟩).1.succeeded = true ∧
    (operandPlan (sampleUnitReduction.indexingMaps.getD 0 ⟨0, []⟩)
        (sampleUnitReduction.indexingMaps.getD 2 ⟨0, []⟩) sampleUnitReduction.iteratorTypes
        sampleUnitReduction.resultType.shape).2 =
      (getReductionIndex (sampleUnitReduction.indexingMaps.getD 0 ⟨0, []⟩)
        sampleUnitReduction.iteratorTypes).map (fun dim =>
          numDimToBroadcast (sampleUnitReduction.indexingMaps.getD 0 ⟨0, []⟩)
            (getReductionIndex (sampleUnitReduction.indexingMaps.getD 0 ⟨0, []⟩)
              sampleUnitReduction.iteratorTypes)
            (sampleUnitReduction.indexingMaps.getD 2 ⟨0, []⟩).getNumResults + dim) ++
      (List.range (sampleUnitReduction.indexingMaps.getD 2 ⟨0, []⟩).getNumResults).map
        (planEntry (sampleUnitReduction.indexingMaps.getD 0 ⟨0, []⟩)
          (sampleUnitReduction.indexingMaps.getD 2 ⟨0, []⟩)
          (numDimToBroadcast (sampleUnitReduction.indexingMaps.getD 0 ⟨0, []⟩)
            (getReductionIndex (sampleUnitReduction.indexingMaps.getD 0 ⟨0, []⟩)
              sampleUnitReduction.iteratorTypes)
            (sampleUnitReduction.indexingMaps.getD 2 ⟨0, []⟩).getNumResults)) :=
  ⟨by decide,
    (elementwise_reduction_leading sampleElementwisePattern sampleUnitReduction .null ⟨[]⟩
      (by decide) sampleUnitReduction.lhs sampleUnitReduction.getLhsType
      (sampleUnitReduction.indexingMaps.getD 0 ⟨0, []⟩) (Or.inl ⟨rfl, rfl, rfl⟩)).2.2.2⟩

/-! ## Slices built by `reshapeLoad` and `reshapeStore` -/

theorem denoteWith_none (env : Nat → Elem) (v : Value) :
    denoteWith (fun _ => none) env v = denote env v := by
  induction v with
  | extract v pos ih => simp [denoteWith, denote, ih]
  | insert src dst pos ih1 ih2 => simp [denoteWith, denote, ih1, ih2]
  | _ => simp [denoteWith, denote]

theorem reshapeLoadAt_fst (i : Nat) (val : Value) (type : VectorType) (pos : Nat)
    (rw : PatternRewriter) :
    (reshapeLoadAt i val type pos rw).1 = reshapeLoadValue i val type pos := by
  induction i generalizing val type rw with
  | zero => rfl
  | succ i ih =>
      unfold reshapeLoadAt reshapeLoadValue
      dsimp only
      generalize (List.range ((type.dropDim (i + 1)).getDimSize 0)) = l
      simp only [PatternRewriter.create]
      generalize (Value.constantZero (.vector (type.dropDim (i + 1)))) = z
      generalize ({ ops := rw.ops ++ [z] } : PatternRewriter) = rw0
      induction l generalizing z rw0 with
      | nil => rfl
      | cons d ds ihl =>
          simp only [List.foldl_cons]
          rw [ih]
          exact ihl _ _

theorem reshapeLoad_fst (val : Value) (type : VectorType) (index : Option Nat) (pos : Nat)
    (rw : PatternRewriter) :
    (reshapeLoad val type index pos rw).1 = reshapeLoadResult val type index pos := by
  cases index with
  | none => rfl
  | some i => exact reshapeLoadAt_fst i val type pos rw

theorem reshapeStoreAt_fst (i : Nat) (val result : Value) (type : VectorType) (pos : Nat)
    (rw : PatternRewriter) :
    (reshapeStoreAt i val result type pos rw).1 = reshapeStoreValue i val result type pos := by
  induction i generalizing val result type rw with
  | zero => rfl
  | succ i ih =>
      unfold reshapeStoreAt reshapeStoreValue
      dsimp only
      generalize (List.range (type.getDimSize 0)) = l
      simp only [PatternRewriter.create]
      induction l generalizing result rw with
      | nil => rfl
      | cons d ds ihl =>
          simp only [List.foldl_cons]
          rw [ih]
          exact ihl _ _

theorem reshapeStore_fst (val result : Value) (type : VectorType) (index : Option Nat)
    (pos : Nat) (rw : PatternRewriter) :
    (reshapeStore val result type index pos rw).1 =
      reshapeStoreResult val result type index pos := by
  cases index with
  | none => rfl
  | some i => exact reshapeStoreAt_fst i val result type pos rw

theorem denoteWith_extract (k : Value → Option Elem) (env : Nat → Elem) (v : Value)
    (pos : List Nat) (f : Elem) (h : denoteWith k env v = some f) :
    denoteWith k env (.extract v pos) = some (fun idx => f (pos ++ idx)) := by
  simp [denoteWith, h]

theorem denoteWith_insert (k : Value → Option Elem) (env : Nat → Elem) (src dst : Value)
    (pos : List Nat) (fs fd : Elem) (hs : denoteWith k env src = some fs)
    (hd : denoteWith k env dst = some fd) :
    denoteWith k env (.insert src dst pos) =
      some (fun idx => if pos.isPrefixOf idx then fs (idx.drop pos.length) else fd idx) := by
  simp [denoteWith, hs, hd]

theorem leadingFold_denote (k : Value → Option Elem) (env : Nat → Elem)
    (F : Value → Nat → Value) (g : Nat → Elem) (z : Value) (fz : Elem)
    (hz : denoteWith k env z = some fz) (n : Nat)
    (hF : ∀ d < n, ∀ res fr, denoteWith k env res = some fr →
      (∀ rest, fr (d :: rest) = fz (d :: rest)) → denoteWith k env (F res d) = some (g d)) :
    denoteWith k env ((List.range n).foldl (fun res d => .insert (F res d) res [d]) z) =
      some (fun idx => match idx with
        | [] => fz []
        | d :: rest => if d < n then g d rest else fz (d :: rest)) := by
  induction n with
  | zero =>
      simp only [List.range_zero, List.foldl_nil, hz, Option.some.injEq]
      funext idx
      cases idx <;> simp
  | succ n ih =>
      have ih1 := ih (fun d hd => hF d (by omega))
      rw [List.range_succ, List.foldl_append, List.foldl_cons, List.foldl_nil]
      have hsrc := hF n (by omega) _ _ ih1 (fun rest => by simp)
      rw [denoteWith_insert k env _ _ [n] _ _ hsrc ih1]
      simp only [Option.some.injEq]
      funext idx
      cases idx with
      | nil => simp
      | cons d rest =>
          by_cases hd : d = n
          · subst hd
            simp
          · have h1 : (n == d) = false := by simpa using fun h => hd h.symm
            by_cases h2 : d < n
            · have h3 : d < n + 1 := by omega
              simp [List.isPrefixOf, h1, h2, h3]
            · have h3 : ¬ d < n + 1 := by omega
              simp [List.isPrefixOf, h1, h2, h3]

theorem dropDim_succ_getDimSize (type : VectorType) (i : Nat) :
    (type.dropDim (i + 1)).getDimSize 0 = type.shape.headD 0 := by
  unfold VectorType.dropDim VectorType.getDimSize
  cases type.shape <;> simp

theorem getDimSize_zero (type : VectorType) : type.getDimSize 0 = type.shape.headD 0 := by
  unfold VectorType.getDimSize
  cases type.shape <;> simp

theorem dropDim_zero_shape (type : VectorType) : (type.dropDim 0).shape = type.shape.tail := by
  unfold VectorType.dropDim
  cases type.shape <;> simp

theorem reshapeLoadValue_denote (k : Value → Option Elem) (env : Nat → Elem) (i : Nat)
    (val : Value) (type : VectorType) (pos : Nat) (f : Elem)
    (h : denoteWith k env val = some f) :
    denoteWith k env (reshapeLoadValue i val type pos) =
      some (loadElem i type.shape pos f) := by
  induction i generalizing val type f with
  | zero =>
      simp only [reshapeLoadValue, denoteWith_extract k env val [pos] f h, loadElem,
        List.singleton_append]
  | succ i ih =>
      unfold reshapeLoadValue
      rw [leadingFold_denote k env
        (fun _ d => reshapeLoadValue i (.extract val [d]) (type.dropDim 0) pos)
        (fun d => loadElem i type.shape.tail pos (fun r => f (d :: r)))
        _ (fun _ => 0) (by simp [denoteWith]) _
        (fun d _ res fr _ _ => by
          rw [ih _ _ _ (denoteWith_extract k env val [d] f h), dropDim_zero_shape]
          rfl)]
      rw [dropDim_succ_getDimSize]
      simp only [Option.some.injEq]
      funext idx
      cases idx <;> simp [loadElem]

theorem reshapeStoreValue_denote (k : Value → Option Elem) (env : Nat → Elem) (i : Nat)
    (val result : Value) (type : VectorType) (pos : Nat) (fv fr : Elem)
    (hv : denoteWith k env val = some fv) (hr : denoteWith k env result = some fr) :
    denoteWith k env (reshapeStoreValue i val result type pos) =
      some (storeElem i type.shape pos fv fr) := by
  induction i generalizing val result type fv fr with
  | zero =>
      simp only [reshapeStoreValue, denoteWith_insert k env val result [pos] fv fr hv hr,
        Option.some.injEq]
      funext idx
      cases idx with
      | nil => simp [storeElem]
      | cons d rest =>
          by_cases hd : d = pos
          · subst hd
            simp [storeElem]
          · have h1 : (pos == d) = false := by simpa using fun h => hd h.symm
            simp [storeElem, List.isPrefixOf, h1, hd]
  | succ i ih =>
      unfold reshapeStoreValue
      rw [leadingFold_denote k env
        (fun res d => reshapeStoreValue i (.extract val [d]) (.extract res [d])
          (type.dropDim 0) pos)
        (fun d => storeElem i type.shape.tail pos (fun r => fv (d :: r)) (fun r => fr (d :: r)))
        result fr hr _
        (fun d _ res fres hres hsame => by
          rw [ih _ _ _ _ _ (denoteWith_extract k env val [d] fv hv)
            (denoteWith_extract k env res [d] fres hres), dropDim_zero_shape]
          show some (storeElem i type.shape.tail pos (fun r => fv (d :: r))
            (fun r => fres (d :: r))) = _
          rw [show (fun r => fres (d :: r)) = (fun r => fr (d :: r)) from funext hsame])]
      rw [getDimSize_zero]
      simp only [Option.some.injEq]
      funext idx
      cases idx <;> simp [storeElem]

theorem headD_eq_getD (shape : List Nat) : shape.headD 0 = shape.getD 0 0 := by
  cases shape <;> rfl

theorem tail_getD (shape : List Nat) (j : Nat) : shape.tail.getD j 0 = shape.getD (j + 1) 0 := by
  cases shape <;> rfl

theorem loadElem_inBounds (i : Nat) (shape : List Nat) (pos : Nat) (f : Elem) (idx : List Nat)
    (hlen : i ≤ idx.length) (hb : ∀ j < i, idx.getD j 0 < shape.getD j 0) :
    loadElem i shape pos f idx = f (idx.take i ++ pos :: idx.drop i) := by
  induction i generalizing shape f idx with
  | zero => simp [loadElem]
  | succ i ih =>
      cases idx with
      | nil => simp at hlen
      | cons d rest =>
          have hd : d < shape.headD 0 := by
            rw [headD_eq_getD]
            exact hb 0 (by omega)
          simp only [loadElem, hd, if_true]
          rw [ih shape.tail (fun r => f (d :: r)) rest (by simpa using hlen)
            (fun j hj => by
              rw [tail_getD]
              exact hb (j + 1) (by omega))]
          simp

theorem storeElem_inSlot (i : Nat) (shape : List Nat) (pos : Nat) (fv fr : Elem)
    (idx : List Nat) (h : InSlot i shape pos idx) :
    storeElem i shape pos fv fr idx = fv (idx.eraseIdx i) := by
  induction i generalizing shape fv fr idx with
  | zero =>
      obtain ⟨h1, _, h3⟩ := h
      cases idx with
      | nil => simp at h1
      | cons d rest =>
          have : d = pos := by simpa using h3
          simp [storeElem, this]
  | succ i ih =>
      obtain ⟨h1, h2, h3⟩ := h
      cases idx with
      | nil => simp at h1
      | cons d rest =>
          have hd : d < shape.headD 0 := by
            rw [headD_eq_getD]
            exact h2 0 (by omega)
          simp only [storeElem, hd, if_true, List.eraseIdx_cons_succ]
          exact ih shape.tail _ _ rest ⟨by simpa using h1,
            fun j hj => by
              rw [tail_getD]
              exact h2 (j + 1) (by omega),
            by simpa using h3⟩

theorem storeElem_not_inSlot (i : Nat) (shape : List Nat) (pos : Nat) (fv fr : Elem)
    (idx : List Nat) (h : ¬ InSlot i shape pos idx) :
    storeElem i shape pos fv fr idx = fr idx := by
  induction i generalizing shape fv fr idx with
  | zero =>
      cases idx with
      | nil => simp [storeElem]
      | cons d rest =>
          have : d ≠ pos := by
            intro hd
            exact h ⟨by simp, fun j hj => by omega, by simpa using hd⟩
          simp [storeElem, this]
  | succ i ih =>
      cases idx with
      | nil => simp [storeElem]
      | cons d rest =>
          by_cases hd : d < shape.headD 0
          · simp only [storeElem, hd, if_true]
            apply ih
            intro hin
            obtain ⟨h1, h2, h3⟩ := hin
            apply h
            refine ⟨by simpa using h1, fun j hj => ?_, by simpa using h3⟩
            cases j with
            | zero =>
                rw [headD_eq_getD] at hd
                exact hd
            | succ j =>
                have := h2 j (by omega)
                rw [tail_getD] at this
                exact this
          · simp only [storeElem, hd, if_false]

/-! ## The structure of `lowerParallel` -/

theorem contractSeq_nil (rw : PatternRewriter) : ContractSeq [] rw rw :=
  ⟨[], by simp, rfl⟩

theorem contractSeq_of_none {rw rw1 : PatternRewriter}
    (h : ContractsFrom (fun _ => False) rw rw1) : ContractSeq [] rw rw1 := by
  obtain ⟨em, h1, h2⟩ := h
  refine ⟨em, h1, ?_⟩
  rw [List.filter_eq_nil_iff]
  intro v hv hc
  exact h2 v hv hc

theorem contractSeq_trans {l1 l2 : List Value} {rw rw1 rw2 : PatternRewriter}
    (h1 : ContractSeq l1 rw rw1) (h2 : ContractSeq l2 rw1 rw2) :
    ContractSeq (l1 ++ l2) rw rw2 := by
  obtain ⟨em1, e1, f1⟩ := h1
  obtain ⟨em2, e2, f2⟩ := h2
  exact ⟨em1 ++ em2, by rw [e2, e1, List.append_assoc], by rw [List.filter_append, f1, f2]⟩

theorem contractSeq_create_contract (rw : PatternRewriter) (v : Value)
    (hv : v.isContract = true) : ContractSeq [v] rw (rw.create v).2 :=
  ⟨[v], rfl, by simp [hv]⟩

theorem contractSeq_create_other {l : List Value} {rw rw1 : PatternRewriter}
    (h : ContractSeq l rw rw1) (v : Value) (hv : v.isContract = false) :
    ContractSeq l rw (rw1.create v).2 := by
  have := contractSeq_trans h (⟨[v], rfl, by simp [hv]⟩ : ContractSeq [] rw1 (rw1.create v).2)
  simpa using this

theorem contractSeq_create {l : List Value} {rw rw1 : PatternRewriter}
    (h : ContractSeq l rw rw1) (v : Value) (hv : v.isContract = true) :
    ContractSeq (l ++ [v]) rw (rw1.create v).2 :=
  contractSeq_trans h (contractSeq_create_contract rw1 v hv)

theorem contractSeq_load {l : List Value} {rw rw1 : PatternRewriter}
    (h : ContractSeq l rw rw1) (val : Value) (type : VectorType) (index : Option Nat)
    (pos : Nat) : ContractSeq l rw (reshapeLoad val type index pos rw1).2 := by
  have := contractSeq_trans h (contractSeq_of_none
    (reshapeLoad_contracts (ContractsFrom.same _ rw1) val type index pos))
  simpa using this

theorem contractSeq_store {l : List Value} {rw rw1 : PatternRewriter}
    (h : ContractSeq l rw rw1) (val result : Value) (type : VectorType) (index : Option Nat)
    (pos : Nat) : ContractSeq l rw (reshapeStore val result type index pos rw1).2 := by
  have := contractSeq_trans h (contractSeq_of_none
    (reshapeStore_contracts (ContractsFrom.same _ rw1) val result type index pos))
  simpa using this

theorem contractSeq_mask {l : List Value} {rw rw1 : PatternRewriter}
    (h : ContractSeq l rw rw1) (v mask : Value) :
    ContractSeq l rw (maskOperation rw1 v mask).2 := by
  have := contractSeq_trans h (contractSeq_of_none
    (maskOperation_contracts (ContractsFrom.same _ rw1) v mask))
  simpa using this

theorem maskOperation_fst (rw : PatternRewriter) (v mask : Value) :
    (maskOperation rw v mask).1 = maskWrap mask v := by
  unfold maskOperation maskWrap
  split <;> rfl

theorem parallelStep_fst (op : ContractionOp) (resType : VectorType)
    (lhsIndex rhsIndex resIndex : Option Nat) (iterIndex : Nat) (mask : Value)
    (st : Value × PatternRewriter) (d : Nat) :
    (parallelStep op resType lhsIndex rhsIndex resIndex iterIndex mask
      (lowAffine op iterIndex) (adjustIter op.iteratorTypes iterIndex) st d).1 =
      reshapeStoreResult (lowResult op resType lhsIndex rhsIndex resIndex iterIndex mask d)
        st.1 resType resIndex d := by
  unfold parallelStep
  dsimp only
  rw [reshapeStore_fst, maskOperation_fst]
  simp only [PatternRewriter.create, reshapeLoad_fst, lowResult, lowContract]
  by_cases hm : mask.isNull = true
  · simp [hm]
  · simp [hm, reshapeLoad_fst]

theorem parallelStep_seq (op : ContractionOp) (resType : VectorType)
    (lhsIndex rhsIndex resIndex : Option Nat) (iterIndex : Nat) (mask : Value)
    (rw : PatternRewriter) (l : List Value) (st : Value × PatternRewriter) (d : Nat)
    (h : ContractSeq l rw st.2) :
    ContractSeq (l ++ [lowContract op resType lhsIndex rhsIndex resIndex iterIndex d]) rw
      (parallelStep op resType lhsIndex rhsIndex resIndex iterIndex mask
        (lowAffine op iterIndex) (adjustIter op.iteratorTypes iterIndex) st d).2 := by
  unfold parallelStep lowContract
  dsimp only
  apply contractSeq_store
  apply contractSeq_mask
  simp only [reshapeLoad_fst]
  apply contractSeq_create
  · split
    · apply contractSeq_load
      apply contractSeq_load
      apply contractSeq_load
      apply contractSeq_load
      exact h
    · apply contractSeq_load
      apply contractSeq_load
      apply contractSeq_load
      exact h
  · rfl

theorem parallelLoop (op : ContractionOp) (resType : VectorType)
    (lhsIndex rhsIndex resIndex : Option Nat) (iterIndex : Nat) (mask : Value)
    (rw : PatternRewriter) (st0 : Value × PatternRewriter) (h0 : ContractSeq [] rw st0.2)
    (n : Nat) :
    ((List.range n).foldl (parallelStep op resType lhsIndex rhsIndex resIndex iterIndex mask
      (lowAffine op iterIndex) (adjustIter op.iteratorTypes iterIndex)) st0).1 =
      (List.range n).foldl
        (fun res d =>
          reshapeStoreResult
            (lowResult op resType lhsIndex rhsIndex resIndex iterIndex mask d)
            res resType resIndex d) st0.1 ∧
    ContractSeq
      ((List.range n).map (lowContract op resType lhsIndex rhsIndex resIndex iterIndex)) rw
      ((List.range n).foldl (parallelStep op resType lhsIndex rhsIndex resIndex iterIndex mask
        (lowAffine op iterIndex) (adjustIter op.iteratorTypes iterIndex)) st0).2 := by
  induction n with
  | zero => exact ⟨rfl, h0⟩
  | succ n ih =>
      obtain ⟨ih1, ih2⟩ := ih
      rw [foldl_range_succ, foldl_range_succ, List.range_succ, List.map_append]
      refine ⟨?_, parallelStep_seq op resType lhsIndex rhsIndex resIndex iterIndex mask rw _ _ n
        ih2⟩
      rw [parallelStep_fst, ih1]

theorem lowerParallel_run (self : ContractionOpLowering) (rewriter : PatternRewriter)
    (op : ContractionOp) (lhsIndex rhsIndex : Option Nat) (mask : Value)
    (resType : VectorType) (hres : op.resultType = .vector resType)
    (hok : (self.lowerParallel rewriter op lhsIndex rhsIndex mask).1.succeeded = true) :
    (self.lowerParallel rewriter op lhsIndex rhsIndex mask).1 =
      .success (parallelResult op resType lhsIndex rhsIndex
        (getResultIndex (op.indexingMaps.getD 2 ⟨0, []⟩) (peeledLabel op lhsIndex rhsIndex))
        (peeledLabel op lhsIndex rhsIndex) mask (peeledExtent op lhsIndex rhsIndex)) ∧
    ContractSeq
      ((List.range (peeledExtent op lhsIndex rhsIndex)).map
        (lowContract op resType lhsIndex rhsIndex
          (getResultIndex (op.indexingMaps.getD 2 ⟨0, []⟩) (peeledLabel op lhsIndex rhsIndex))
          (peeledLabel op lhsIndex rhsIndex)))
      rewriter (self.lowerParallel rewriter op lhsIndex rhsIndex mask).2 ∧
    (getResultIndex (op.indexingMaps.getD 2 ⟨0, []⟩) (peeledLabel op lhsIndex rhsIndex) = none →
      peeledExtent op lhsIndex rhsIndex = 1) := by
  revert hok
  unfold ContractionOpLowering.lowerParallel
  simp only [hres, MlirType.dynCastVector]
  cases hp : peeledAxis op lhsIndex rhsIndex with
  | none => simp [FailureOr.succeeded]
  | some p =>
      have hpe := peeledAxis_eq_some op lhsIndex rhsIndex p hp
      subst hpe
      dsimp only
      split_ifs with hc
      · simp [FailureOr.succeeded]
      · intro _
        obtain ⟨h1, h2⟩ := parallelLoop op resType lhsIndex rhsIndex
          (getResultIndex (op.indexingMaps.getD 2 ⟨0, []⟩) (peeledLabel op lhsIndex rhsIndex))
          (peeledLabel op lhsIndex rhsIndex) mask rewriter
          (rewriter.create (.constantZero (.vector resType)))
          (contractSeq_create_other (contractSeq_nil rewriter) _ rfl)
          (peeledExtent op lhsIndex rhsIndex)
        simp only [lowAffine] at h1 h2
        refine ⟨?_, h2, ?_⟩
        · show FailureOr.success _ = _
          rw [h1]
          rfl
        · intro hn
          by_contra hne
          apply hc
          rw [Bool.and_eq_true, decide_eq_true_iff]
          exact ⟨Option.isNone_iff_eq_none.mpr hn, hne⟩

theorem parallelResult_succ (op : ContractionOp) (resType : VectorType)
    (lhsIndex rhsIndex resIndex : Option Nat) (iterIndex : Nat) (mask : Value) (n : Nat) :
    parallelResult op resType lhsIndex rhsIndex resIndex iterIndex mask (n + 1) =
      reshapeStoreResult (lowResult op resType lhsIndex rhsIndex resIndex iterIndex mask n)
        (parallelResult op resType lhsIndex rhsIndex resIndex iterIndex mask n)
        resType resIndex n := by
  unfold parallelResult
  rw [foldl_range_succ]

theorem parallelResult_denote (k : Value → Option Elem) (env : Nat → Elem)
    (op : ContractionOp) (resType : VectorType) (lhsIndex rhsIndex : Option Nat) (ri : Nat)
    (iterIndex : Nat) (mask : Value) (g : Nat → Elem) (n : Nat)
    (hg : ∀ d < n, denoteWith k env
      (lowResult op resType lhsIndex rhsIndex (some ri) iterIndex mask d) = some (g d)) :
    ∃ f, denoteWith k env
        (parallelResult op resType lhsIndex rhsIndex (some ri) iterIndex mask n) = some f ∧
      (∀ idx d, d < n → InSlot ri resType.shape d idx → f idx = g d (idx.eraseIdx ri)) ∧
      (∀ idx, (∀ d < n, ¬ InSlot ri resType.shape d idx) → f idx = 0) := by
  induction n with
  | zero =>
      refine ⟨fun _ => 0, by simp [parallelResult, denoteWith], ?_, fun _ _ => rfl⟩
      intro idx d hd
      omega
  | succ n ih =>
      obtain ⟨f, hf, h1, h2⟩ := ih (fun d hd => hg d (by omega))
      rw [parallelResult_succ]
      refine ⟨_, reshapeStoreValue_denote k env ri _ _ resType n _ _ (hg n (by omega)) hf,
        ?_, ?_⟩
      · intro idx d hd hs
        by_cases hdn : d = n
        · subst hdn
          exact storeElem_inSlot ri resType.shape d _ _ idx hs
        · rw [storeElem_not_inSlot ri resType.shape n _ _ idx
            (fun hn => hdn (hs.2.2.symm.trans hn.2.2))]
          exact h1 idx d (by omega) hs
      · intro idx hno
        rw [storeElem_not_inSlot ri resType.shape n _ _ idx (hno n (by omega))]
        exact h2 idx (fun d hd => hno d (by omega))

theorem reshapeLoadResult_denote (k : Value → Option Elem) (env : Nat → Elem) (val : Value)
    (type : VectorType) (index : Option Nat) (pos : Nat) (f : Elem)
    (h : denoteWith k env val = some f) :
    ∃ s, denoteWith k env (reshapeLoadResult val type index pos) = some s ∧
      match index with
      | none => s = f
      | some i => ∀ idx, i ≤ idx.length → (∀ j < i, idx.getD j 0 < type.shape.getD j 0) →
          s idx = f (idx.take i ++ pos :: idx.drop i) := by
  cases index with
  | none => exact ⟨f, h, rfl⟩
  | some i =>
      exact ⟨_, reshapeLoadValue_denote k env i val type pos f h,
        fun idx hl hb => loadElem_inBounds i type.shape pos f idx hl hb⟩

theorem foldl_insert_isNull (F : Value → Nat → Value) (l : List Nat) (z : Value)
    (hz : z.isNull = false) :
    (l.foldl (fun res d => Value.insert (F res d) res [d]) z).isNull = false := by
  induction l generalizing z with
  | nil => exact hz
  | cons d ds ih => exact ih _ rfl

theorem reshapeLoadValue_isNull (i : Nat) (val : Value) (type : VectorType) (pos : Nat) :
    (reshapeLoadValue i val type pos).isNull = false := by
  cases i with
  | zero => rfl
  | succ i =>
      unfold reshapeLoadValue
      exact foldl_insert_isNull
        (fun _ d => reshapeLoadValue i (.extract val [d]) (type.dropDim 0) pos) _ _ rfl

theorem lowResult_eq (op : ContractionOp) (resType : VectorType)
    (lhsIndex rhsIndex resIndex : Option Nat) (iterIndex : Nat) (mask : Value) (d : Nat) :
    lowResult op resType lhsIndex rhsIndex resIndex iterIndex mask d =
      if mask.isNull then lowContract op resType lhsIndex rhsIndex resIndex iterIndex d
      else .mask (reshapeLoadResult mask (maskVectorType mask) (some iterIndex) d)
        (lowContract op resType lhsIndex rhsIndex resIndex iterIndex d) := by
  unfold lowResult maskWrap
  by_cases hm : mask.isNull = true
  · simp only [hm, if_true, isNull_null]
  · have hm2 : mask.isNull = false := by simpa using hm
    have hl : (reshapeLoadResult mask (maskVectorType mask) (some iterIndex) d).isNull = false :=
      reshapeLoadValue_isNull _ _ _ _
    simp only [hm2, Bool.false_eq_true, if_false, hl]

/-- C26 (structure of `lowerParallel`). When `lowerParallel` succeeds on a contraction with
vector result type `resType`, peeling label `iterIndex` of extent `D` with result axis
`resIndex`: it creates exactly `D` contractions, in ascending `d = 0 .. D-1`; the `d`-th
takes `reshapeLoad` of lhs along `lhsIndex`, of rhs along `rhsIndex` and of acc along
`resIndex` at position `d` (an operand whose index is absent is passed whole, otherwise
the slice holds the operand's elements with coordinate `d` at that axis), has the adjusted
maps and iterators, and is wrapped by the slice `d` of the mask along axis `iterIndex`
when a mask is given. The returned value starts as the zero tensor of the result type and
iteration `d` stores the `d`-th result into it by `reshapeStore` at slot `d` of
`resIndex`. When the label is absent from the result, `D = 1` and the returned value is
the single lower contraction's result. When it is present at axis `ri`, then for any
meaning of the lower contractions' results the element of the returned value at an index
in slot `d` of axis `ri` is the element of the `d`-th result at the index with that
coordinate removed, so no element of a slot `d < D` keeps the initial zero. -/
theorem lowerParallel_structure (k : Value → Option Elem) (env : Nat → Elem)
    (self : ContractionOpLowering) (rewriter : PatternRewriter) (op : ContractionOp)
    (lhsIndex rhsIndex : Option Nat) (mask : Value) (resType : VectorType)
    (iterIndex D : Nat) (resIndex : Option Nat)
    (hres : op.resultType = .vector resType)
    (hok : (self.lowerParallel rewriter op lhsIndex rhsIndex mask).1.succeeded = true)
    (hi : iterIndex = peeledLabel op lhsIndex rhsIndex)
    (hD : D = peeledExtent op lhsIndex rhsIndex)
    (hr : resIndex = getResultIndex (op.indexingMaps.getD 2 ⟨0, []⟩) iterIndex) :
    (self.lowerParallel rewriter op lhsIndex rhsIndex mask).1 =
      .success (parallelResult op resType lhsIndex rhsIndex resIndex iterIndex mask D) ∧
    ContractSeq
      ((List.range D).map (lowContract op resType lhsIndex rhsIndex resIndex iterIndex))
      rewriter (self.lowerParallel rewriter op lhsIndex rhsIndex mask).2 ∧
    (∀ d, lowContract op resType lhsIndex rhsIndex resIndex iterIndex d =
      .contract (reshapeLoadResult op.lhs op.getLhsType lhsIndex d)
        (reshapeLoadResult op.rhs op.getRhsType rhsIndex d)
        (reshapeLoadResult op.acc resType resIndex d)
        [adjustMap (op.indexingMaps.getD 0 ⟨0, []⟩) iterIndex,
          adjustMap (op.indexingMaps.getD 1 ⟨0, []⟩) iterIndex,
          adjustMap (op.indexingMaps.getD 2 ⟨0, []⟩) iterIndex]
        (adjustIter op.iteratorTypes iterIndex) .ADD) ∧
    (∀ d, lowResult op resType lhsIndex rhsIndex resIndex iterIndex mask d =
      if mask.isNull then lowContract op resType lhsIndex rhsIndex resIndex iterIndex d
      else .mask (reshapeLoadResult mask (maskVectorType mask) (some iterIndex) d)
        (lowContract op resType lhsIndex rhsIndex resIndex iterIndex d)) ∧
    (∀ (val : Value) (type : VectorType) (index : Option Nat) (pos : Nat)
        (rw : PatternRewriter),
      (reshapeLoad val type index pos rw).1 = reshapeLoadResult val type index pos ∧
      reshapeLoadResult val type none pos = val) ∧
    (∀ (val : Value) (type : VectorType) (index : Option Nat) (pos : Nat) (f : Elem),
      denoteWith k env val = some f →
      ∃ s, denoteWith k env (reshapeLoadResult val type index pos) = some s ∧
        match index with
        | none => s = f
        | some i => ∀ idx, i ≤ idx.length → (∀ j < i, idx.getD j 0 < type.shape.getD j 0) →
            s idx = f (idx.take i ++ pos :: idx.drop i)) ∧
    parallelResult op resType lhsIndex rhsIndex resIndex iterIndex mask 0 =
      .constantZero (.vector resType) ∧
    (∀ n (rw : PatternRewriter),
      parallelResult op resType lhsIndex rhsIndex resIndex iterIndex mask (n + 1) =
        (reshapeStore (lowResult op resType lhsIndex rhsIndex resIndex iterIndex mask n)
          (parallelResult op resType lhsIndex rhsIndex resIndex iterIndex mask n)
          resType resIndex n rw).1) ∧
    (resIndex = none → D = 1 ∧
      parallelResult op resType lhsIndex rhsIndex resIndex iterIndex mask D =
        lowResult op resType lhsIndex rhsIndex resIndex iterIndex mask 0) ∧
    (∀ (ri : Nat) (g : Nat → Elem), resIndex = some ri →
      (∀ d < D, denoteWith k env
        (lowResult op resType lhsIndex rhsIndex resIndex iterIndex mask d) = some (g d)) →
      ∃ f, denoteWith k env
          (parallelResult op resType lhsIndex rhsIndex resIndex iterIndex mask D) = some f ∧
        ∀ idx d, d < D → InSlot ri resType.shape d idx → f idx = g d (idx.eraseIdx ri)) := by
  subst hi hD hr
  obtain ⟨h1, h2, h3⟩ := lowerParallel_run self rewriter op lhsIndex rhsIndex mask resType hres
    hok
  refine ⟨h1, h2, fun _ => rfl, lowResult_eq op resType lhsIndex rhsIndex _ _ mask,
    fun val type index pos rw => ⟨reshapeLoad_fst val type index pos rw, rfl⟩,
    reshapeLoadResult_denote k env, rfl, ?_, ?_, ?_⟩
  · intro n rw
    rw [parallelResult_succ, reshapeStore_fst]
  · intro hn
    have hD1 := h3 hn
    refine ⟨hD1, ?_⟩
    rw [hD1, parallelResult_succ, hn]
    rfl
  · intro ri g hri hg
    rw [hri] at hg ⊢
    obtain ⟨f, hf, hf1, _⟩ := parallelResult_denote k env op resType lhsIndex rhsIndex ri
      (peeledLabel op lhsIndex rhsIndex) mask g _ hg
    exact ⟨f, hf, hf1⟩

/-- Instance of C26 at `sampleBatch`, peeled at its batch label (lhs axis 1, rhs axis 0,
result axis 0, extent 2): two lower contractions are created, in order. -/
theorem lowerParallel_structure_witness :
    (samplePeelingPattern.lowerParallel ⟨[]⟩ sampleBatch (some 1) (some 0) .null).1 =
      .success (parallelResult sampleBatch ⟨[2, 2], [false, false], .integer 8⟩ (some 1)
        (some 0) (some 0) 0 .null 2) ∧
    ContractSeq
      ((List.range 2).map (lowContract sampleBatch ⟨[2, 2], [false, false], .integer 8⟩
        (some 1) (some 0) (some 0) 0))
      ⟨[]⟩ (samplePeelingPattern.lowerParallel ⟨[]⟩ sampleBatch (some 1) (some 0) .null).2 :=
  ⟨(lowerParallel_structure (fun _ => none) sampleEnv samplePeelingPattern ⟨[]⟩ sampleBatch
      (some 1) (some 0) .null ⟨[2, 2], [false, false], .integer 8⟩ 0 2 (some 0) rfl
      (by decide) (by decide) (by decide) (by decide)).1,
    (lowerParallel_structure (fun _ => none) sampleEnv samplePeelingPattern ⟨[]⟩ sampleBatch
      (some 1) (some 0) .null ⟨[2, 2], [false, false], .integer 8⟩ 0 2 (some 0) rfl
      (by decide) (by decide) (by decide) (by decide)).2.1⟩

/-! ## The fold of `lowerReduction` -/

theorem mem_points (ext p : List Nat) (h : p ∈ points ext) :
    p.length = ext.length ∧ ∀ x, x < ext.length → p.getD x 0 < ext.getD x 0 := by
  induction ext generalizing p with
  | nil =>
      simp only [points, List.mem_singleton] at h
      subst h
      exact ⟨rfl, fun x hx => by simp at hx⟩
  | cons n rest ih =>
      simp only [points, List.mem_flatMap, List.mem_range, List.mem_map] at h
      obtain ⟨i, hi, q, hq, rfl⟩ := h
      obtain ⟨h1, h2⟩ := ih q hq
      refine ⟨by simp [h1], fun x hx => ?_⟩
      cases x with
      | zero => simpa using hi
      | succ x =>
          have := h2 x (by simpa using hx)
          simpa using this

theorem sum_flatMap_map (l : List Nat) (F : Nat → List Int) :
    (l.flatMap F).sum = (l.map (fun d => (F d).sum)).sum := by
  induction l with
  | nil => rfl
  | cons a as ih => simp [List.flatMap_cons, List.sum_append, ih]

theorem sum_points_cons (n : Nat) (rest : List Nat) (F : List Nat → Int) :
    ((points (n :: rest)).map F).sum =
      ((List.range n).map (fun d => ((points rest).map (fun p => F (d :: p))).sum)).sum := by
  simp only [points, List.map_flatMap]
  rw [sum_flatMap_map]
  simp [List.map_map, Function.comp_def]

theorem filter_ne_of_nodup (rs : List Nat) (li : Nat) (x : Nat) (hnd : rs.Nodup)
    (hli : li < rs.length) (hx : rs.getD li 0 = x) :
    rs.filter (fun y => decide (y ≠ x)) = rs.take li ++ rs.drop (li + 1) := by
  induction rs generalizing li with
  | nil => simp at hli
  | cons a as ih =>
      rw [List.nodup_cons] at hnd
      cases li with
      | zero =>
          simp only [List.getD_cons_zero] at hx
          subst hx
          simp only [List.filter_cons, ne_eq, not_true_eq_false, decide_False,
            Bool.false_eq_true, if_false, List.take_zero, List.nil_append, zero_add,
            List.drop_succ_cons, List.drop_zero]
          rw [List.filter_eq_self]
          intro y hy
          simp only [decide_eq_true_eq]
          intro h
          exact hnd.1 (h ▸ hy)
      | succ li =>
          simp only [List.getD_cons_succ] at hx
          have hne : a ≠ x := by
            intro h
            apply hnd.1
            rw [h, ← hx]
            rw [List.getD_eq_getElem _ _ (by simpa using hli)]
            exact List.getElem_mem _
          simp only [List.filter_cons, ne_eq, hne, not_false_eq_true, decide_True, if_true,
            List.take_succ_cons, List.cons_append, List.drop_succ_cons]
          rw [ih li hnd.2 (by simpa using hli) hx]

theorem apply_cons_slice (rs : List Nat) (li d : Nat) (p : List Nat) (hnd : rs.Nodup)
    (hli : li < rs.length) (h0 : rs.getD li 0 = 0) :
    rs.map (fun x => (d :: p).getD x 0) =
      ((((rs.filter (fun y => decide (y ≠ 0))).map (renameLabel 0)).map
        (fun y => p.getD y 0)).take li) ++ d ::
      ((((rs.filter (fun y => decide (y ≠ 0))).map (renameLabel 0)).map
        (fun y => p.getD y 0)).drop li) := by
  have hne : ∀ y ∈ rs.take li ++ rs.drop (li + 1), y ≠ 0 := by
    intro y hy
    rw [← filter_ne_of_nodup rs li 0 hnd hli h0, List.mem_filter] at hy
    simpa using hy.2
  have hmap : ∀ l : List Nat, (∀ y ∈ l, y ≠ 0) →
      (l.map (renameLabel 0)).map (fun y => p.getD y 0) = l.map (fun x => (d :: p).getD x 0) := by
    intro l hl
    rw [List.map_map]
    apply List.map_congr_left
    intro y hy
    have := hl y hy
    obtain ⟨z, rfl⟩ : ∃ z, y = z + 1 := ⟨y - 1, by omega⟩
    simp [renameLabel]
  rw [filter_ne_of_nodup rs li 0 hnd hli h0, hmap _ hne, List.map_append]
  have hlen : ((rs.take li).map (fun x => (d :: p).getD x 0)).length = li := by
    simp [List.length_take]; omega
  rw [List.take_left' hlen, List.drop_left' hlen]
  conv_lhs => rw [← List.take_append_drop li rs]
  rw [List.map_append]
  congr 1
  rw [List.drop_eq_getElem_cons hli, List.map_cons]
  have : rs[li] = 0 := by rw [← h0, List.getD_eq_getElem _ _ hli]
  simp [this]

theorem slice_inBounds (rs ext p : List Nat) (li j : Nat) (hnd : rs.Nodup)
    (hli : li < rs.length) (h0 : rs.getD li 0 = 0) (hj : j < li)
    (hlab : ∀ x ∈ rs, x < ext.length)
    (hp : ∀ x, x < ext.tail.length → p.getD x 0 < ext.tail.getD x 0) :
    (((rs.filter (fun y => decide (y ≠ 0))).map (renameLabel 0)).map
        (fun y => p.getD y 0)).getD j 0 <
      (rs.map (fun x => ext.getD x 0)).getD j 0 := by
  rw [filter_ne_of_nodup rs li 0 hnd hli h0]
  have hjl : j < rs.length := by omega
  have hmem : rs[j] ∈ rs := List.getElem_mem _
  have hne : rs[j] ≠ 0 := by
    intro h
    have h0' : rs[li] = 0 := by rw [← h0, List.getD_eq_getElem _ _ hli]
    have := (@List.Nodup.getElem_inj_iff _ rs hnd j hjl li hli).mp (h.trans h0'.symm)
    omega
  have hlt := hlab _ hmem
  obtain ⟨z, hz⟩ : ∃ z, rs[j] = z + 1 := ⟨rs[j] - 1, by omega⟩
  have e1 : (((rs.take li ++ rs.drop (li + 1)).map (renameLabel 0)).map
      (fun y => p.getD y 0)).getD j 0 = p.getD z 0 := by
    rw [List.getD_eq_getElem _ _ (by simp [List.length_take]; omega)]
    simp only [List.getElem_map]
    rw [List.getElem_append_left (by simp [List.length_take]; omega)]
    simp [hz, renameLabel]
  have e2 : (rs.map (fun x => ext.getD x 0)).getD j 0 = ext.tail.getD z 0 := by
    rw [List.getD_eq_getElem _ _ (by simpa using hjl)]
    simp only [List.getElem_map, hz]
    cases ext <;> simp
  rw [e1, e2]
  apply hp
  cases ext with
  | nil => simp at hlt
  | cons e es =>
      simp only [List.tail_cons]
      simp only [List.length_cons] at hlt
      omega

theorem reductionStep_fst (op : ContractionOp) (lhsIndex rhsIndex : Nat) (mask : Value)
    (st : Value × PatternRewriter) (d : Nat) :
    (reductionStep op lhsIndex rhsIndex mask (lowAffine op 0) (adjustIter op.iteratorTypes 0)
      st d).1 =
      maskWrap
        (if mask.isNull then .null
          else reshapeLoadResult mask (maskVectorType mask) (some 0) d)
        (.contract (reshapeLoadResult op.lhs op.getLhsType (some lhsIndex) d)
          (reshapeLoadResult op.rhs op.getRhsType (some rhsIndex) d) st.1
          (lowAffine op 0) (adjustIter op.iteratorTypes 0) .ADD) := by
  unfold reductionStep
  dsimp only
  rw [maskOperation_fst]
  simp only [PatternRewriter.create, reshapeLoad_fst]
  by_cases hm : mask.isNull = true
  · simp [hm]
  · simp [hm, reshapeLoad_fst]

theorem reductionStep_seq (op : ContractionOp) (lhsIndex rhsIndex : Nat) (mask : Value)
    (rw : PatternRewriter) (l : List Value) (st : Value × PatternRewriter) (d : Nat)
    (h : ContractSeq l rw st.2) :
    ContractSeq (l ++ [.contract (reshapeLoadResult op.lhs op.getLhsType (some lhsIndex) d)
        (reshapeLoadResult op.rhs op.getRhsType (some rhsIndex) d) st.1
        (lowAffine op 0) (adjustIter op.iteratorTypes 0) .ADD]) rw
      (reductionStep op lhsIndex rhsIndex mask (lowAffine op 0)
        (adjustIter op.iteratorTypes 0) st d).2 := by
  unfold reductionStep
  dsimp only
  apply contractSeq_mask
  simp only [reshapeLoad_fst]
  apply contractSeq_create
  · split
    · apply contractSeq_load
      apply contractSeq_load
      apply contractSeq_load
      exact h
    · apply contractSeq_load
      apply contractSeq_load
      exact h
  · rfl

theorem reductionLoop (op : ContractionOp) (lhsIndex rhsIndex : Nat) (mask : Value)
    (rw : PatternRewriter) (n : Nat) :
    ((List.range n).foldl (reductionStep op lhsIndex rhsIndex mask (lowAffine op 0)
      (adjustIter op.iteratorTypes 0)) (op.acc, rw)).1 =
      reductionResult op lhsIndex rhsIndex mask n ∧
    ContractSeq ((List.range n).map (reductionContract op lhsIndex rhsIndex mask)) rw
      ((List.range n).foldl (reductionStep op lhsIndex rhsIndex mask (lowAffine op 0)
        (adjustIter op.iteratorTypes 0)) (op.acc, rw)).2 := by
  induction n with
  | zero => exact ⟨rfl, contractSeq_nil rw⟩
  | succ n ih =>
      obtain ⟨ih1, ih2⟩ := ih
      rw [foldl_range_succ, List.range_succ, List.map_append]
      have hs := reductionStep_seq op lhsIndex rhsIndex mask rw _ _ n ih2
      rw [ih1] at hs
      refine ⟨?_, hs⟩
      rw [reductionStep_fst, ih1]
      rfl

theorem lowerReduction_run (self : ContractionOpLowering) (rewriter : PatternRewriter)
    (op : ContractionOp) (mask : Value)
    (hok : (self.lowerReduction rewriter op mask).1.succeeded = true)
    (hrank : op.getLhsType.getRank ≠ 1) :
    ∃ li ri, getResultIndex (op.indexingMaps.getD 0 ⟨0, []⟩) 0 = some li ∧
      getResultIndex (op.indexingMaps.getD 1 ⟨0, []⟩) 0 = some ri ∧
      op.getLhsType.getDimSize li = op.getRhsType.getDimSize ri ∧
      (self.lowerReduction rewriter op mask).1 =
        .success (reductionResult op li ri mask (op.getLhsType.getDimSize li)) ∧
      ContractSeq
        ((List.range (op.getLhsType.getDimSize li)).map (reductionContract op li ri mask))
        rewriter (self.lowerReduction rewriter op mask).2 := by
  revert hok
  unfold ContractionOpLowering.lowerReduction
  dsimp only
  by_cases hv : op.resultType.isVector = true
  · simp [hv, FailureOr.succeeded]
  rw [if_neg hv]
  cases hl : getResultIndex (op.indexingMaps.getD 0 ⟨0, []⟩) 0 with
  | none => simp [FailureOr.succeeded]
  | some l =>
      cases hr : getResultIndex (op.indexingMaps.getD 1 ⟨0, []⟩) 0 with
      | none => simp [FailureOr.succeeded]
      | some r =>
          dsimp only
          by_cases hd : op.getLhsType.getDimSize l ≠ op.getRhsType.getDimSize r
          · rw [if_pos hd]; simp [FailureOr.succeeded]
          rw [if_neg hd, if_neg hrank]
          intro _
          obtain ⟨h1, h2⟩ := reductionLoop op l r mask rewriter (op.getLhsType.getDimSize l)
          simp only [lowAffine] at h1 h2
          refine ⟨l, r, rfl, rfl, by simpa using hd, ?_, h2⟩
          show FailureOr.success _ = _
          rw [h1]

theorem reduction_slice_elem (m : AffineMap) (ext p : List Nat) (li d : Nat)
    (shape : List Nat) (f : Elem) (hnd : m.results.Nodup)
    (hidx : getResultIndex m 0 = some li) (hlab : ∀ x ∈ m.results, x < ext.length)
    (hshape : shape = m.apply ext) (hp : p ∈ points ext.tail) :
    loadElem li shape d f ((adjustMap m 0).apply p) = f (m.apply (d :: p)) := by
  obtain ⟨hli, h0⟩ := getResultIndex_some m 0 li hidx
  unfold AffineMap.getDimPosition at h0
  have hpp := (mem_points ext.tail p hp).2
  have happ : (adjustMap m 0).apply p =
      ((m.results.filter (fun y => decide (y ≠ 0))).map (renameLabel 0)).map
        (fun y => p.getD y 0) := by
    unfold AffineMap.apply
    rw [adjustMap_results_eq]
  rw [loadElem_inBounds li shape d f _ ?_ ?_]
  · congr 1
    rw [happ]
    exact (apply_cons_slice m.results li d p hnd hli h0).symm
  · rw [happ, filter_ne_of_nodup m.results li 0 hnd hli h0]
    simp only [List.length_map, List.length_append, List.length_take, List.length_drop]
    omega
  · intro j hj
    rw [happ, hshape]
    exact slice_inBounds m.results ext p li j hnd hli h0 hj hlab hpp

theorem foldl_insert_getType (F : Value → Nat → Value) (l : List Nat) (z : Value) :
    (l.foldl (fun res d => Value.insert (F res d) res [d]) z).getType = z.getType := by
  induction l generalizing z with
  | nil => rfl
  | cons d ds ih =>
      rw [List.foldl_cons, ih]
      rfl

theorem reshapeLoadValue_elementType (i : Nat) (val : Value) (type : VectorType) (pos : Nat)
    (hv : val.getType = .vector type) (hi : i < type.getRank) :
    (reshapeLoadValue i val type pos).getType.elementType? = some type.elementType := by
  cases i with
  | zero =>
      unfold VectorType.getRank at hi
      simp only [reshapeLoadValue, Value.getType, hv, List.length_singleton]
      split_ifs with h1 h2
      · rfl
      · rfl
      · omega
  | succ i =>
      unfold reshapeLoadValue
      rw [foldl_insert_getType
        (fun _ d => reshapeLoadValue i (.extract val [d]) (type.dropDim 0) pos)]
      rfl

theorem evalLower_of_denote (env : Nat → Elem) (ext : List Nat) (v : Value) (f : Elem)
    (h : denote env v = some f) : evalLower env ext v = some (f []) := by
  cases v with
  | contract lhs rhs acc maps iters kind => simp [denote] at h
  | _ => simp [evalLower, h]

theorem maskWrap_null (v : Value) : maskWrap .null v = v := rfl

theorem reductionResult_eval (env : Nat → Elem) (op : ContractionOp) (li ri : Nat)
    (mask : Value) (ext : List Nat) (lt rt : VectorType) (w : Nat) (a b c : Elem)
    (hmask : mask.isNull = true)
    (hl : op.lhs.getType = .vector lt) (hr : op.rhs.getType = .vector rt)
    (hle : lt.elementType = .integer w)
    (hidxl : getResultIndex (op.indexingMaps.getD 0 ⟨0, []⟩) 0 = some li)
    (hidxr : getResultIndex (op.indexingMaps.getD 1 ⟨0, []⟩) 0 = some ri)
    (hndl : (op.indexingMaps.getD 0 ⟨0, []⟩).results.Nodup)
    (hndr : (op.indexingMaps.getD 1 ⟨0, []⟩).results.Nodup)
    (hlabl : ∀ x ∈ (op.indexingMaps.getD 0 ⟨0, []⟩).results, x < ext.length)
    (hlabr : ∀ x ∈ (op.indexingMaps.getD 1 ⟨0, []⟩).results, x < ext.length)
    (hls : lt.shape = (op.indexingMaps.getD 0 ⟨0, []⟩).apply ext)
    (hrs : rt.shape = (op.indexingMaps.getD 1 ⟨0, []⟩).apply ext)
    (ha : denote env op.lhs = some a) (hb : denote env op.rhs = some b)
    (hc : denote env op.acc = some c) (n : Nat) :
    ∃ x, evalLower env ext.tail (reductionResult op li ri mask n) = some x ∧
      (0 < n → x = x % 2 ^ w) ∧
      x % 2 ^ w = (c [] + ((List.range n).map (fun d => ((points ext.tail).map (fun p =>
        a ((op.indexingMaps.getD 0 ⟨0, []⟩).apply (d :: p)) *
          b ((op.indexingMaps.getD 1 ⟨0, []⟩).apply (d :: p)))).sum)).sum) % 2 ^ w := by
  have hlt : op.getLhsType = lt := by simp [ContractionOp.getLhsType, hl]
  have hrt : op.getRhsType = rt := by simp [ContractionOp.getRhsType, hr]
  induction n with
  | zero =>
      refine ⟨c [], evalLower_of_denote env _ _ c hc, fun h => absurd h (by decide), ?_⟩
      simp
  | succ n ih =>
      obtain ⟨x, hx, _, hxm⟩ := ih
      have hli := (getResultIndex_some _ 0 li hidxl).1
      have hda : denote env (reshapeLoadResult op.lhs lt (some li) n) =
          some (loadElem li lt.shape n a) := by
        rw [← denoteWith_none]
        exact reshapeLoadValue_denote _ env li op.lhs lt n a (by rw [denoteWith_none]; exact ha)
      have hdb : denote env (reshapeLoadResult op.rhs rt (some ri) n) =
          some (loadElem ri rt.shape n b) := by
        rw [← denoteWith_none]
        exact reshapeLoadValue_denote _ env ri op.rhs rt n b (by rw [denoteWith_none]; exact hb)
      have hw : (reshapeLoadResult op.lhs lt (some li) n).getType.elementType?.bind
          ElementType.intWidth? = some w := by
        have := reshapeLoadValue_elementType li op.lhs lt n hl (by
          unfold VectorType.getRank
          rw [hls]
          simpa [AffineMap.apply] using hli)
        show (reshapeLoadValue li op.lhs lt n).getType.elementType?.bind _ = _
        rw [this, hle]
        rfl
      have heval : evalLower env ext.tail (reductionResult op li ri mask (n + 1)) =
          some (referenceReduction (lowAffine op 0) ext.tail w (loadElem li lt.shape n a)
            (loadElem ri rt.shape n b) x) := by
        simp only [reductionResult, hmask, if_true, maskWrap_null, evalLower, hlt, hrt, hda, hdb,
          hx, hw]
      refine ⟨_, heval, fun _ => ?_, ?_⟩
      · unfold referenceReduction
        rw [Int.emod_emod_of_dvd _ (dvd_refl _)]
      · unfold referenceReduction
        rw [Int.emod_emod_of_dvd _ (dvd_refl _), sum_range_succ_map, ← add_assoc,
          Int.add_emod, hxm, ← Int.add_emod]
        congr 2
        apply congrArg
        apply List.map_congr_left
        intro p hp
        simp only [lowAffine, List.getD_cons_zero, List.getD_cons_succ]
        rw [reduction_slice_elem _ ext p li n lt.shape a hndl hidxl hlabl hls hp,
          reduction_slice_elem _ ext p ri n rt.shape b hndr hidxr hlabr hrs hp]

/-- C28 (fold of `lowerReduction`). When `lowerReduction` succeeds on a contraction whose
lhs does not have rank 1, it peels label 0, at the lhs axis `li` and the rhs axis `ri` that
carry it, of extent `D`, and creates exactly `D` contractions in ascending `d`: the `d`-th
takes the slices `d` of lhs and rhs at those axes (the slice holds the operand's elements
with coordinate `d` at that axis) and the adjusted maps and iterators, it is wrapped by
slice `d` of the mask along axis 0 when a mask is given, its accumulator is the original
acc for `d = 0` and the result of the previous one otherwise, and the returned value is
the result of the last one. For an unmasked contraction on `w`-bit integers with injective
operand maps and operand shapes given by the label extents `ext`, evaluating the lower
contractions by the reference semantics gives the accumulator plus the sum over all
iteration points of the products, in `w`-bit arithmetic. -/
theorem lowerReduction_fold (env : Nat → Elem) (self : ContractionOpLowering)
    (rewriter : PatternRewriter) (op : ContractionOp) (mask : Value)
    (hok : (self.lowerReduction rewriter op mask).1.succeeded = true)
    (hrank : op.getLhsType.getRank ≠ 1) :
    ∃ li ri D, getResultIndex (op.indexingMaps.getD 0 ⟨0, []⟩) 0 = some li ∧
      getResultIndex (op.indexingMaps.getD 1 ⟨0, []⟩) 0 = some ri ∧
      D = op.getLhsType.getDimSize li ∧ D = op.getRhsType.getDimSize ri ∧
      (self.lowerReduction rewriter op mask).1 = .success (reductionResult op li ri mask D) ∧
      ContractSeq ((List.range D).map (reductionContract op li ri mask)) rewriter
        (self.lowerReduction rewriter op mask).2 ∧
      (∀ d, reductionContract op li ri mask d =
        .contract (reshapeLoadResult op.lhs op.getLhsType (some li) d)
          (reshapeLoadResult op.rhs op.getRhsType (some ri) d)
          (reductionResult op li ri mask d)
          [adjustMap (op.indexingMaps.getD 0 ⟨0, []⟩) 0,
            adjustMap (op.indexingMaps.getD 1 ⟨0, []⟩) 0,
            adjustMap (op.indexingMaps.getD 2 ⟨0, []⟩) 0]
          (adjustIter op.iteratorTypes 0) .ADD) ∧
      reductionResult op li ri mask 0 = op.acc ∧
      (∀ d, reductionResult op li ri mask (d + 1) =
        if mask.isNull then reductionContract op li ri mask d
        else .mask (.extract mask [d]) (reductionContract op li ri mask d)) ∧
      (∀ (val : Value) (type : VectorType) (i pos : Nat) (rw : PatternRewriter) (f : Elem),
        (reshapeLoad val type (some i) pos rw).1 = reshapeLoadResult val type (some i) pos ∧
        (denote env val = some f →
          ∃ s, denote env (reshapeLoadResult val type (some i) pos) = some s ∧
            ∀ idx, i ≤ idx.length → (∀ j < i, idx.getD j 0 < type.shape.getD j 0) →
              s idx = f (idx.take i ++ pos :: idx.drop i))) ∧
      ∀ (ext : List Nat) (lt rt : VectorType) (w : Nat) (a b c : Elem),
        mask.isNull = true → 0 < D →
        op.lhs.getType = .vector lt → op.rhs.getType = .vector rt →
        lt.elementType = .integer w →
        (op.indexingMaps.getD 0 ⟨0, []⟩).results.Nodup →
        (op.indexingMaps.getD 1 ⟨0, []⟩).results.Nodup →
        (∀ x ∈ (op.indexingMaps.getD 0 ⟨0, []⟩).results, x < ext.length) →
        (∀ x ∈ (op.indexingMaps.getD 1 ⟨0, []⟩).results, x < ext.length) →
        lt.shape = (op.indexingMaps.getD 0 ⟨0, []⟩).apply ext →
        rt.shape = (op.indexingMaps.getD 1 ⟨0, []⟩).apply ext →
        denote env op.lhs = some a → denote env op.rhs = some b →
        denote env op.acc = some c →
        evalLower env ext.tail (reductionResult op li ri mask D) =
          some (referenceReduction op.indexingMaps ext w a b (c [])) := by
  obtain ⟨li, ri, hl, hr, hd, hrun, hseq⟩ := lowerReduction_run self rewriter op mask hok hrank
  refine ⟨li, ri, op.getLhsType.getDimSize li, hl, hr, rfl, hd, hrun, hseq, fun _ => rfl, rfl,
    ?_, ?_, ?_⟩
  · intro d
    by_cases hm : mask.isNull = true
    · simp only [reductionResult, hm, if_true, maskWrap_null]
      rfl
    · have hm2 : mask.isNull = false := by simpa using hm
      simp only [reductionResult, hm2, Bool.false_eq_true, if_false]
      rfl
  · intro val type i pos rw f
    refine ⟨reshapeLoad_fst val type (some i) pos rw, fun hf => ?_⟩
    obtain ⟨s, hs, hs2⟩ := reshapeLoadResult_denote (fun _ => none) env val type (some i) pos f
      (by rw [denoteWith_none]; exact hf)
    rw [denoteWith_none] at hs
    exact ⟨s, hs, hs2⟩
  · intro ext lt rt w a b c hmask hpos hlt hrt hle hndl hndr hlabl hlabr hls hrs ha hb hc
    obtain ⟨x, hx, hx1, hx2⟩ := reductionResult_eval env op li ri mask ext lt rt w a b c hmask
      hlt hrt hle hl hr hndl hndr hlabl hlabr hls hrs ha hb hc (op.getLhsType.getDimSize li)
    rw [hx, hx1 hpos, hx2]
    unfold referenceReduction
    obtain ⟨hli, h0⟩ := getResultIndex_some _ 0 li hl
    have hext : ext = op.getLhsType.getDimSize li :: ext.tail := by
      have hlt2 : op.getLhsType = lt := by simp [ContractionOp.getLhsType, hlt]
      have h0len : 0 < ext.length := by
        have := hlabl _ (getD_mem _ _ hli)
        omega
      have : op.getLhsType.getDimSize li = ext.getD 0 0 := by
        unfold AffineMap.getDimPosition at h0
        rw [hlt2]
        unfold VectorType.getDimSize
        rw [hls]
        unfold AffineMap.apply
        rw [List.getD_eq_getElem _ _ (by simpa using hli), List.getElem_map,
          ← List.getD_eq_getElem _ 0 hli, h0]
      rw [this]
      cases ext with
      | nil => simp at h0len
      | cons e es => rfl
    conv_rhs => rw [hext, sum_points_cons]

/-- Instance of C28 at `sampleDoubleReduction` (lhs `vector<2x3xi8>`, rhs
`vector<3x2xi8>`, two reduction labels of extents 2 and 3): label 0 of extent 2 is peeled
at lhs axis 0 and rhs axis 1, and the two lower contractions evaluate to the reference
value of the contraction. -/
theorem lowerReduction_fold_witness :
    ∃ li ri D, getResultIndex (sampleDoubleReduction.indexingMaps.getD 0 ⟨0, []⟩) 0 = some li ∧
      getResultIndex (sampleDoubleReduction.indexingMaps.getD 1 ⟨0, []⟩) 0 = some ri ∧
      D = sampleDoubleReduction.getLhsType.getDimSize li ∧
      D = sampleDoubleReduction.getRhsType.getDimSize ri ∧
      (samplePeelingPattern.lowerReduction ⟨[]⟩ sampleDoubleReduction .null).1 =
        .success (reductionResult sampleDoubleReduction li ri .null D) ∧
      ContractSeq ((List.range D).map (reductionContract sampleDoubleReduction li ri .null))
        ⟨[]⟩ (samplePeelingPattern.lowerReduction ⟨[]⟩ sampleDoubleReduction .null).2 ∧
      evalLower sampleEnv [3] (reductionResult sampleDoubleReduction li ri .null D) =
        some (referenceReduction sampleDoubleReduction.indexingMaps [2, 3] 8 (sampleEnv 0)
          (sampleEnv 1) (sampleEnv 2 [])) := by
  obtain ⟨li, ri, D, h1, h2, h3, h4, h5, h6, _, _, _, _, hsem⟩ :=
    lowerReduction_fold sampleEnv samplePeelingPattern ⟨[]⟩ sampleDoubleReduction .null
      (by decide) (by decide)
  have h0 : getResultIndex (sampleDoubleReduction.indexingMaps.getD 0 ⟨0, []⟩) 0 = some 0 := by
    decide
  have hli : li = 0 := (Option.some.inj (h0.symm.trans h1)).symm
  have hD : 0 < D := by rw [h3, hli]; decide
  exact ⟨li, ri, D, h1, h2, h3, h4, h5, h6,
    hsem [2, 3] ⟨[2, 3], [false, false], .integer 8⟩ ⟨[3, 2], [false, false], .integer 8⟩ 8
      (sampleEnv 0) (sampleEnv 1) (sampleEnv 2) rfl hD rfl rfl rfl (by decide) (by decide)
      (by decide) (by decide) rfl rfl rfl rfl rfl⟩

/-! ## Slices as the claims state them: `reshapeLoad` and `reshapeStore` -/

theorem eraseIdx_getD_lt (shape : List Nat) (i j : Nat) (h : j < i) :
    (shape.eraseIdx i).getD j 0 = shape.getD j 0 := by
  rw [List.getD_eq_getElem?_getD, List.getD_eq_getElem?_getD, List.getElem?_eraseIdx,
    if_pos h]

theorem reshapeLoadValue_shape (i : Nat) (val : Value) (type : VectorType) (pos : Nat)
    (hv : val.getType = .vector type) (hi : i < type.getRank) :
    (reshapeLoadValue i val type pos).getType.shape = type.shape.eraseIdx i := by
  cases i with
  | zero =>
      unfold VectorType.getRank at hi
      rw [reshapeLoadValue, extract_shape val type [pos] hv (by simpa using hi)]
      simp
  | succ i =>
      unfold reshapeLoadValue
      rw [foldl_insert_getType
        (fun _ d => reshapeLoadValue i (.extract val [d]) (type.dropDim 0) pos)]
      rfl

theorem slice_index_inSlot (i : Nat) (shape : List Nat) (pos : Nat) (idx : List Nat)
    (hlen : i ≤ idx.length) (hb : ∀ j < i, idx.getD j 0 < shape.getD j 0) :
    InSlot i shape pos (idx.take i ++ pos :: idx.drop i) ∧
      (idx.take i ++ pos :: idx.drop i).eraseIdx i = idx := by
  have hl : (idx.take i).length = i := by simp [hlen]
  refine ⟨⟨?_, fun j hj => ?_, ?_⟩, ?_⟩
  · simp only [List.length_append, List.length_cons, hl]
    omega
  · have h1 : (idx.take i ++ pos :: idx.drop i).getD j 0 = idx.getD j 0 := by
      rw [List.getD_eq_getElem?_getD, List.getD_eq_getElem?_getD,
        List.getElem?_append_left (by omega), List.getElem?_take_of_lt hj]
    rw [h1]
    exact hb j hj
  · rw [List.getD_eq_getElem?_getD, List.getElem?_append_right (by omega), hl]
    simp
  · rw [List.eraseIdx_append_of_length_le (by omega), hl]
    simp

theorem loadElem_storeElem_other (i : Nat) (shape : List Nat) (pos q : Nat) (fv fr : Elem)
    (hq : q ≠ pos) :
    loadElem i shape q (storeElem i shape pos fv fr) = loadElem i shape q fr := by
  induction i generalizing shape fv fr with
  | zero =>
      funext idx
      simp [loadElem, storeElem, hq]
  | succ i ih =>
      funext idx
      cases idx with
      | nil => simp [loadElem]
      | cons d rest =>
          by_cases hd : d < shape.headD 0
          · simp only [loadElem, hd, if_true]
            have h1 : (fun r => storeElem (i + 1) shape pos fv fr (d :: r)) =
                storeElem i shape.tail pos (fun r => fv (d :: r)) (fun r => fr (d :: r)) := by
              funext r
              simp only [storeElem, hd, if_true]
            rw [h1, ih]
          · simp only [loadElem, hd, if_false]

/-- C31. For a vector-typed value `val` with meaning `f`, `reshapeLoad` with index `-1`
returns `val` itself and creates nothing; with an axis `index` below the rank and a
position `pos` inside that axis it returns a value whose shape is that of `val` with
axis `index` left out and whose element at `(i0, ..., i_{index-1}, i_{index+1}, ...)` is
the element of `val` at `(i0, ..., i_{index-1}, pos, i_{index+1}, ...)`. -/
theorem reshapeLoad_axis_slice (k : Value → Option Elem) (env : Nat → Elem) (val : Value)
    (type : VectorType) (pos : Nat) (rw : PatternRewriter) (f : Elem)
    (hv : val.getType = .vector type) (hf : denoteWith k env val = some f) :
    reshapeLoad val type none pos rw = (val, rw) ∧
    ∀ index, index < type.getRank → pos < type.getDimSize index →
      ∃ s, denoteWith k env (reshapeLoad val type (some index) pos rw).1 = some s ∧
        (reshapeLoad val type (some index) pos rw).1.getType.shape =
          type.shape.eraseIdx index ∧
        ∀ idx : List Nat, idx.length + 1 = type.getRank →
          (∀ j < idx.length, idx.getD j 0 < (type.shape.eraseIdx index).getD j 0) →
          s idx = f (idx.take index ++ pos :: idx.drop index) := by
  refine ⟨rfl, fun index hi _ => ?_⟩
  rw [reshapeLoad_fst]
  refine ⟨_, reshapeLoadValue_denote k env index val type pos f hf,
    reshapeLoadValue_shape index val type pos hv hi, fun idx hlen hb => ?_⟩
  apply loadElem_inBounds
  · omega
  · intro j hj
    rw [← eraseIdx_getD_lt type.shape index j hj]
    exact hb j (by omega)

/-- Instance of C31: the middle axis of a `2x2x2` value at position 1. -/
theorem reshapeLoad_axis_slice_witness :
    reshapeLoad (.arg 0 (i8Cube 2 2 2)) ⟨[2, 2, 2], [false, false, false], .integer 8⟩ none 1
        ⟨[]⟩ = (.arg 0 (i8Cube 2 2 2), ⟨[]⟩) ∧
    ∀ index, index < 3 → 1 < VectorType.getDimSize
        ⟨[2, 2, 2], [false, false, false], .integer 8⟩ index →
      ∃ s, denoteWith (fun _ => none) sampleEnv
          (reshapeLoad (.arg 0 (i8Cube 2 2 2)) ⟨[2, 2, 2], [false, false, false], .integer 8⟩
            (some index) 1 ⟨[]⟩).1 = some s ∧
        (reshapeLoad (.arg 0 (i8Cube 2 2 2)) ⟨[2, 2, 2], [false, false, false], .integer 8⟩
            (some index) 1 ⟨[]⟩).1.getType.shape = [2, 2, 2].eraseIdx index ∧
        ∀ idx : List Nat, idx.length + 1 = 3 →
          (∀ j < idx.length, idx.getD j 0 < ([2, 2, 2].eraseIdx index).getD j 0) →
          s idx = sampleEnv 0 (idx.take index ++ 1 :: idx.drop index) :=
  reshapeLoad_axis_slice (fun _ => none) sampleEnv (.arg 0 (i8Cube 2 2 2))
    ⟨[2, 2, 2], [false, false, false], .integer 8⟩ 1 ⟨[]⟩ (sampleEnv 0) rfl rfl

/-- C32. Round trip: for a result tensor of type `type`, an axis `index` below the rank,
a position `pos` inside that axis and a value `val`, loading slot `pos` of axis `index`
from `reshapeStore val result type index pos` gives a value of the shape of `type` with
axis `index` left out whose elements are those of `val`. -/
theorem reshapeStore_reshapeLoad_roundtrip (k : Value → Option Elem) (env : Nat → Elem)
    (val result : Value) (type : VectorType) (index pos : Nat) (rw rw1 : PatternRewriter)
    (fv fr : Elem) (hr : result.getType = .vector type)
    (hfv : denoteWith k env val = some fv) (hfr : denoteWith k env result = some fr)
    (hi : index < type.getRank) (_hp : pos < type.getDimSize index) :
    ∃ s, denoteWith k env
        (reshapeLoad (reshapeStore val result type (some index) pos rw).1 type (some index)
          pos rw1).1 = some s ∧
      (reshapeLoad (reshapeStore val result type (some index) pos rw).1 type (some index)
          pos rw1).1.getType.shape = type.shape.eraseIdx index ∧
      ∀ idx : List Nat, idx.length + 1 = type.getRank →
        (∀ j < idx.length, idx.getD j 0 < (type.shape.eraseIdx index).getD j 0) →
        s idx = fv idx := by
  rw [reshapeLoad_fst, reshapeStore_fst]
  have hst : (reshapeStoreValue index val result type pos).getType = .vector type := by
    cases index with
    | zero => exact hr
    | succ i =>
        unfold reshapeStoreValue
        rw [foldl_insert_getType
          (fun res d => reshapeStoreValue i (.extract val [d]) (.extract res [d])
            (type.dropDim 0) pos)]
        exact hr
  refine ⟨_, reshapeLoadValue_denote k env index _ type pos _
      (reshapeStoreValue_denote k env index val result type pos fv fr hfv hfr),
    reshapeLoadValue_shape index _ type pos hst hi, fun idx hlen hb => ?_⟩
  have hb1 : ∀ j < index, idx.getD j 0 < type.shape.getD j 0 := by
    intro j hj
    rw [← eraseIdx_getD_lt type.shape index j hj]
    exact hb j (by omega)
  have hle : index ≤ idx.length := by omega
  rw [loadElem_inBounds index type.shape pos _ idx hle hb1,
    storeElem_inSlot index type.shape pos fv fr _
      (slice_index_inSlot index type.shape pos idx hle hb1).1,
    (slice_index_inSlot index type.shape pos idx hle hb1).2]

/-- Instance of C32: a `2x2` value stored into slot 1 of the middle axis of a `2x2x2`
tensor and loaded back. -/
theorem reshapeStore_reshapeLoad_roundtrip_witness :
    ∃ s, denoteWith (fun _ => none) sampleEnv
        (reshapeLoad (reshapeStore (.arg 1 (i8Matrix 2 2)) (.arg 0 (i8Cube 2 2 2))
          ⟨[2, 2, 2], [false, false, false], .integer 8⟩ (some 1) 1 ⟨[]⟩).1
          ⟨[2, 2, 2], [false, false, false], .integer 8⟩ (some 1) 1 ⟨[]⟩).1 = some s ∧
      (reshapeLoad (reshapeStore (.arg 1 (i8Matrix 2 2)) (.arg 0 (i8Cube 2 2 2))
          ⟨[2, 2, 2], [false, false, false], .integer 8⟩ (some 1) 1 ⟨[]⟩).1
          ⟨[2, 2, 2], [false, false, false], .integer 8⟩ (some 1) 1 ⟨[]⟩).1.getType.shape =
        [2, 2, 2].eraseIdx 1 ∧
      ∀ idx : List Nat, idx.length + 1 = 3 →
        (∀ j < idx.length, idx.getD j 0 < ([2, 2, 2].eraseIdx 1).getD j 0) →
        s idx = sampleEnv 1 idx :=
  reshapeStore_reshapeLoad_roundtrip (fun _ => none) sampleEnv (.arg 1 (i8Matrix 2 2))
    (.arg 0 (i8Cube 2 2 2)) ⟨[2, 2, 2], [false, false, false], .integer 8⟩ 1 1 ⟨[]⟩ ⟨[]⟩
    (sampleEnv 1) (sampleEnv 0) rfl rfl rfl (by decide) (by decide)

/-- C33. `reshapeStore` along an axis `index >= 0` changes only the addressed slot: an
element of the stored tensor whose coordinate along axis `index` is not `pos` is the
element of `result` at the same index, and loading any slot `q` other than `pos` of
axis `index` from the stored tensor gives what loading slot `q` from `result` gives. -/
theorem reshapeStore_frame (k : Value → Option Elem) (env : Nat → Elem)
    (val result : Value) (type : VectorType) (index pos : Nat) (rw rw1 rw2 : PatternRewriter)
    (fv fr : Elem)
    (hfv : denoteWith k env val = some fv) (hfr : denoteWith k env result = some fr) :
    (∃ s, denoteWith k env (reshapeStore val result type (some index) pos rw).1 = some s ∧
      ∀ idx : List Nat, idx.getD index 0 ≠ pos → s idx = fr idx) ∧
    ∀ q, q ≠ pos →
      ∃ s, denoteWith k env
          (reshapeLoad (reshapeStore val result type (some index) pos rw).1 type
            (some index) q rw1).1 = some s ∧
        denoteWith k env (reshapeLoad result type (some index) q rw2).1 = some s := by
  rw [reshapeStore_fst]
  have hs := reshapeStoreValue_denote k env index val result type pos fv fr hfv hfr
  refine ⟨⟨_, hs, fun idx hne => ?_⟩, fun q hq => ?_⟩
  · exact storeElem_not_inSlot index type.shape pos fv fr idx (fun h => hne h.2.2)
  · rw [reshapeLoad_fst, reshapeLoad_fst]
    refine ⟨_, reshapeLoadValue_denote k env index _ type q _ hs, ?_⟩
    show denoteWith k env (reshapeLoadValue index result type q) = _
    rw [reshapeLoadValue_denote k env index result type q fr hfr,
      loadElem_storeElem_other index type.shape pos q fv fr hq]

/-- Instance of C33: a store into slot 1 of the middle axis of a `2x2x2` tensor. -/
theorem reshapeStore_frame_witness :
    (∃ s, denoteWith (fun _ => none) sampleEnv
        (reshapeStore (.arg 1 (i8Matrix 2 2)) (.arg 0 (i8Cube 2 2 2))
          ⟨[2, 2, 2], [false, false, false], .integer 8⟩ (some 1) 1 ⟨[]⟩).1 = some s ∧
      ∀ idx : List Nat, idx.getD 1 0 ≠ 1 → s idx = sampleEnv 0 idx) ∧
    ∀ q, q ≠ 1 →
      ∃ s, denoteWith (fun _ => none) sampleEnv
          (reshapeLoad (reshapeStore (.arg 1 (i8Matrix 2 2)) (.arg 0 (i8Cube 2 2 2))
            ⟨[2, 2, 2], [false, false, false], .integer 8⟩ (some 1) 1 ⟨[]⟩).1
            ⟨[2, 2, 2], [false, false, false], .integer 8⟩ (some 1) q ⟨[]⟩).1 = some s ∧
        denoteWith (fun _ => none) sampleEnv
          (reshapeLoad (.arg 0 (i8Cube 2 2 2))
            ⟨[2, 2, 2], [false, false, false], .integer 8⟩ (some 1) q ⟨[]⟩).1 = some s :=
  reshapeStore_frame (fun _ => none) sampleEnv (.arg 1 (i8Matrix 2 2))
    (.arg 0 (i8Cube 2 2 2)) ⟨[2, 2, 2], [false, false, false], .integer 8⟩ 1 1 ⟨[]⟩ ⟨[]⟩ ⟨[]⟩
    (sampleEnv 1) (sampleEnv 0) rfl rfl

/-! ## Renumbering of maps and iterator kinds -/

theorem range_filter_succ (P : Nat → Bool) (n : Nat) :
    (List.range (n + 1)).filter P =
      (if P 0 then [0] else []) ++
        ((List.range n).filter (fun i => P (i + 1))).map (fun i => i + 1) := by
  rw [List.range_succ_eq_map, List.filter_cons, List.filter_map]
  by_cases h : P 0 <;> simp [h, Function.comp_def]

theorem positions_filter_map (P P1 Q : Nat → Bool) (g : Nat → Nat) (l : List Nat)
    (h : ∀ x, Q x = true → P1 (g x) = P x) :
    (List.range ((l.filter Q).map g).length).filter
        (fun i => P1 (((l.filter Q).map g).getD i 0)) =
      (((List.range l.length).filter (fun i => P (l.getD i 0))).filter
        (fun i => Q (l.getD i 0))).map (fun i => ((l.take i).filter Q).length) := by
  induction l with
  | nil => simp
  | cons x l ih =>
      rw [List.length_cons, range_filter_succ (fun i => P ((x :: l).getD i 0))]
      simp only [List.getD_cons_zero, List.getD_cons_succ, List.filter_append, List.map_append,
        List.filter_map, List.map_map]
      by_cases hq : Q x = true
      · rw [List.filter_cons_of_pos hq, List.map_cons, List.length_cons,
          range_filter_succ (fun i => P1 ((g x :: List.map g (List.filter Q l)).getD i 0))]
        simp only [List.getD_cons_zero, List.getD_cons_succ, h x hq]
        rw [ih]
        congr 1
        · by_cases hp : P x = true <;> simp [hp, hq]
        · simp only [List.map_map]
          congr 1
          · funext i
            simp [hq]
      · rw [List.filter_cons_of_neg hq, ih]
        have h0 : List.filter (fun i => Q ((x :: l).getD i 0)) (if P x = true then [0] else []) = [] := by
          by_cases hp : P x = true <;> simp [hp, hq]
        simp only [h0, List.map_nil, List.nil_append]
        congr 1
        · funext i
          simp [hq]

theorem filter_position (Q : Nat → Bool) (l : List Nat) (p1 : Nat)
    (h : p1 < (l.filter Q).length) :
    ∃ p, p < l.length ∧ Q (l.getD p 0) = true ∧ (l.filter Q).getD p1 0 = l.getD p 0 ∧
      ((l.take p).filter Q).length = p1 := by
  induction l generalizing p1 with
  | nil => simp at h
  | cons x l ih =>
      by_cases hq : Q x = true
      · rw [List.filter_cons_of_pos hq] at h ⊢
        cases p1 with
        | zero => exact ⟨0, by simp, by simpa using hq, by simp, by simp⟩
        | succ p1 =>
            obtain ⟨p, h1, h2, h3, h4⟩ := ih p1 (by simpa using h)
            exact ⟨p + 1, by simpa using h1, by simpa using h2, by simpa using h3,
              by simp [hq, h4]⟩
      · rw [List.filter_cons_of_neg hq] at h ⊢
        obtain ⟨p, h1, h2, h3, h4⟩ := ih p1 h
        exact ⟨p + 1, by simpa using h1, by simpa using h2, by simpa using h3,
          by simp [hq, h4]⟩

theorem getElem?_eraseIdx_rename {α : Type} (l : List α) (index y : Nat) (hne : y ≠ index) :
    (l.eraseIdx index)[renameLabel index y]? = l[y]? := by
  unfold renameLabel
  rw [List.getElem?_eraseIdx]
  by_cases h : y < index
  · rw [if_pos h, if_pos h]
  · rw [if_neg h, if_neg (by omega)]
    have : y - 1 + 1 = y := by omega
    rw [this]

theorem getReductionIndex_adjust (map : AffineMap) (iteratorTypes : List IteratorType)
    (r : Nat) :
    getReductionIndex (adjustMap map r) (adjustIter iteratorTypes r) =
      ((getReductionIndex map iteratorTypes).filter
        (fun p => decide (map.getDimPosition p ≠ r))).map
        (fun p => ((map.results.take p).filter (fun j => decide (j ≠ r))).length) := by
  unfold getReductionIndex AffineMap.getNumResults AffineMap.getDimPosition
  rw [adjustMap_results_eq, adjustIter_eq_eraseIdx]
  exact positions_filter_map
    (fun j => isReductionIterator (iteratorTypes.getD j .parallel))
    (fun j => isReductionIterator ((iteratorTypes.eraseIdx r).getD j .parallel))
    (fun j => decide (j ≠ r)) (renameLabel r) map.results
    (fun x hx => by
      show isReductionIterator ((iteratorTypes.eraseIdx r).getD (renameLabel r x) .parallel) = _
      rw [getD_eraseIdx_rename iteratorTypes r x .parallel (by simpa using hx)])

theorem adjustMap_origin (map : AffineMap) (iteratorTypes : List IteratorType) (r p1 : Nat)
    (h : p1 < (adjustMap map r).getNumResults) :
    ∃ p, p < map.getNumResults ∧ map.getDimPosition p ≠ r ∧
      (adjustMap map r).getDimPosition p1 =
        (if map.getDimPosition p < r then map.getDimPosition p
          else map.getDimPosition p - 1) ∧
      ((map.results.take p).filter (fun j => decide (j ≠ r))).length = p1 ∧
      (adjustIter iteratorTypes r)[(adjustMap map r).getDimPosition p1]? =
        iteratorTypes[map.getDimPosition p]? := by
  unfold AffineMap.getNumResults AffineMap.getDimPosition at *
  rw [adjustMap_results_eq, List.length_map] at h
  obtain ⟨p, h1, h2, h3, h4⟩ := filter_position (fun j => decide (j ≠ r)) map.results p1 h
  have hne : map.results.getD p 0 ≠ r := by simpa using h2
  have hlab : (adjustMap map r).results.getD p1 0 = renameLabel r (map.results.getD p 0) := by
    rw [adjustMap_results_eq, List.getD_eq_getElem?_getD, List.getElem?_map,
      List.getElem?_eq_getElem h]
    simp only [Option.map_some', Option.getD_some]
    rw [← h3, List.getD_eq_getElem?_getD, List.getElem?_eq_getElem h]
    rfl
  refine ⟨p, h1, hne, hlab, h4, ?_⟩
  rw [hlab, adjustIter_eq_eraseIdx]
  exact getElem?_eraseIdx_rename iteratorTypes r _ hne

/-- C39. For a map, a list of iterator kinds and a removed label `r`: every result
position `p1` of `adjustMap map r` comes from a result position `p` of `map` (the one
with `p1` kept positions before it) whose label `j` is not `r`; its new label is `j`
below `r` and `j - 1` above, and `adjustIter` has at the new label the kind the old list
has at `j`. Hence `getReductionIndex` on the adjusted map and kinds returns the images
of the original reduction positions whose label is not `r`. -/
theorem renumbering_consistent (map : AffineMap) (iteratorTypes : List IteratorType)
    (r : Nat) :
    (∀ p1, p1 < (adjustMap map r).getNumResults →
      ∃ p, p < map.getNumResults ∧ map.getDimPosition p ≠ r ∧
        (adjustMap map r).getDimPosition p1 =
          (if map.getDimPosition p < r then map.getDimPosition p
            else map.getDimPosition p - 1) ∧
        ((map.results.take p).filter (fun j => decide (j ≠ r))).length = p1 ∧
        (adjustIter iteratorTypes r)[(adjustMap map r).getDimPosition p1]? =
          iteratorTypes[map.getDimPosition p]?) ∧
    getReductionIndex (adjustMap map r) (adjustIter iteratorTypes r) =
      ((getReductionIndex map iteratorTypes).filter
        (fun p => decide (map.getDimPosition p ≠ r))).map
        (fun p => ((map.results.take p).filter (fun j => decide (j ≠ r))).length) :=
  ⟨fun p1 h => adjustMap_origin map iteratorTypes r p1 h,
    getReductionIndex_adjust map iteratorTypes r⟩

/-! ## Index safety of the dot classifier -/

theorem dot_reads_in_range (iteratorTypes : List IteratorType)
    (h : IteratorType.reduction ∈ iteratorTypes) :
    (dotIsMatmat iteratorTypes).isSome = true ∧ (dotIsMatvec iteratorTypes).isSome = true := by
  unfold dotIsMatmat dotIsMatvec iteratorAt
  match iteratorTypes, h with
  | [], h => simp at h
  | [a], h =>
      have : a = .reduction := (List.mem_singleton.mp h).symm
      subst this
      simp [andThen, isParallelIterator]
  | [a, b], h =>
      cases a <;> cases b <;> simp [andThen, isParallelIterator, isReductionIterator] at h ⊢
  | a :: b :: c :: rest, _ =>
      cases a <;> cases b <;> cases c <;>
        simp [andThen, isParallelIterator, isReductionIterator]

/-- C37. For every list of iterator kinds that contains a reduction entry, the two
short-circuit tests of the dot lowering on positions 0, 1 and 2 (the matmat test, and
the matvec test taken when the first is false) read no position at or beyond the end of
the list: each test evaluates to a boolean. -/
theorem dot_classifier_index_safe (iteratorTypes : List IteratorType)
    (h : IteratorType.reduction ∈ iteratorTypes) :
    (∃ b, dotIsMatmat iteratorTypes = some b) ∧ (∃ b, dotIsMatvec iteratorTypes = some b) :=
  ⟨Option.isSome_iff_exists.mp (dot_reads_in_range iteratorTypes h).1,
    Option.isSome_iff_exists.mp (dot_reads_in_range iteratorTypes h).2⟩

/-- Instance of C37: a single reduction iterator, where position 0 stops both tests. -/
theorem dot_classifier_index_safe_witness :
    (∃ b, dotIsMatmat [.reduction] = some b) ∧ (∃ b, dotIsMatvec [.reduction] = some b) :=
  dot_classifier_index_safe [.reduction] (by decide)

/-! ## Atomic decline of `ContractionOpLowering` -/

theorem outerProductTable_accMap :
    ∀ e ∈ outerProductTable,
      ((inferFromExprList e.layout).getD 2 ⟨0, []⟩).getNumResults ≠ 0 := by
  decide

theorem outerProductLayout_accMap (op : ContractionOp) (h : op.HasOuterProductLayout) :
    (op.indexingMaps.getD 2 ⟨0, []⟩).getNumResults ≠ 0 := by
  obtain ⟨e, he, _, hm⟩ := h
  rw [hm]
  exact outerProductTable_accMap e he

theorem outerProduct_failed_same (self : ContractionOpToOuterProductOpLowering)
    (op : ContractionOp) (maskOp : Value) (rw : PatternRewriter)
    (hacc : op.HasOuterProductLayout → op.acc.getType.isVector = true)
    (h : (self.matchAndRewriteMaskableOp op maskOp rw).1.failed = true) :
    (self.matchAndRewriteMaskableOp op maskOp rw).2 = rw := by
  by_cases hg : self.vectorContractLowering = .OuterProduct ∧ self.filter op = .success
  · by_cases hpat : op.HasOuterProductLayout
    · by_cases hsc : op.reductionAxisScalable = true
      · rw [matchAndRewrite_scalable self op maskOp rw hpat hsc]
      · have hs := ((matchAndRewrite_succeeds_iff self op maskOp rw hacc).1).mpr
          ⟨hg.1, hg.2, hpat, by simpa using hsc⟩
        cases hr : (self.matchAndRewriteMaskableOp op maskOp rw).1 with
        | failure =>
            rw [hr] at hs
            simp [FailureOr.succeeded] at hs
        | success v =>
            rw [hr] at h
            simp [FailureOr.failed] at h
    · rw [matchAndRewrite_no_entry self op maskOp rw hpat]
  · rw [matchAndRewrite_guard self op maskOp rw hg]

theorem normalize_facts (op : ContractionOp) (rw : PatternRewriter) :
    ((normalize op rw).1 = none → (normalize op rw).2 = rw) ∧
    ((normalize op rw).1 ≠ none → (op.indexingMaps.getD 2 ⟨0, []⟩).getNumResults ≠ 0) := by
  unfold ContractionOpToDotLowering.normalize
  dsimp only
  split
  · exact ⟨fun _ => rfl, fun h => absurd rfl h⟩
  · split_ifs with h1 h2 h3 h4 h5 h6 h7 h8
    all_goals first
      | exact ⟨fun _ => rfl, fun h => absurd rfl h⟩
      | (refine ⟨fun h => by simp at h, fun _ => ?_⟩
         first
          | (rw [h1]; decide) | (rw [h2]; decide) | (rw [h3]; decide) | (rw [h4]; decide)
          | (rw [h5]; decide) | (rw [h6]; decide) | (rw [h7]; decide) | (rw [h8]; decide))
  · split
    · exact ⟨fun _ => rfl, fun h => absurd rfl h⟩
    · split_ifs with h1 h2 h3 h4
      all_goals first
        | exact ⟨fun _ => rfl, fun h => absurd rfl h⟩
        | (refine ⟨fun h => by simp at h, fun _ => ?_⟩
           first
            | (rw [h1]; decide) | (rw [h2]; decide) | (rw [h3]; decide) | (rw [h4]; decide))
    · exact ⟨fun _ => rfl, fun h => absurd rfl h⟩

theorem emitGrid_vector (op : ContractionOp) (lhs rhs : Value) (rw : PatternRewriter)
    (h : op.resultType.isVector = true) : (emitGrid op lhs rhs rw).1.failed = false := by
  unfold ContractionOpToDotLowering.emitGrid
  cases hr : op.resultType with
  | vector dstType =>
      dsimp only
      split_ifs <;> rfl
  | scalar e => simp [hr, MlirType.isVector] at h
  | null => simp [hr, MlirType.isVector] at h

theorem dot_failed_same (self : ContractionOpToDotLowering) (op : ContractionOp)
    (maskOp : Value) (rw : PatternRewriter)
    (hres : (op.indexingMaps.getD 2 ⟨0, []⟩).getNumResults ≠ 0 →
      op.resultType.isVector = true)
    (h : (self.matchAndRewriteMaskableOp op maskOp rw).1.failed = true) :
    (self.matchAndRewriteMaskableOp op maskOp rw).2 = rw := by
  revert h
  unfold ContractionOpToDotLowering.matchAndRewriteMaskableOp
  split_ifs with h1 h2 h3
  · exact fun _ => rfl
  · exact fun _ => rfl
  · exact fun _ => rfl
  · have hf := normalize_facts op rw
    rcases hn : normalize op rw with ⟨_ | ⟨lhs, rhs⟩, rw1⟩
    · intro _
      have := hf.1 (by rw [hn])
      rw [hn] at this
      exact this
    · intro h
      have hv := hres (hf.2 (by rw [hn]; simp))
      have := emitGrid_vector op lhs rhs rw1 hv
      simp only at h
      rw [this] at h
      exact absurd h (by simp)

theorem elementwise_failed_same (self : ContractOpToElementwise) (op : ContractionOp)
    (maskOp : Value) (rw : PatternRewriter) (hk : op.kind = .ADD)
    (h : (self.matchAndRewriteMaskableOp op maskOp rw).1.failed = true) :
    (self.matchAndRewriteMaskableOp op maskOp rw).2 = rw := by
  revert h
  unfold ContractOpToElementwise.matchAndRewriteMaskableOp
  dsimp only
  split_ifs with h1 h2 h3 h4 h5
  · exact fun _ => rfl
  · exact fun _ => rfl
  · exact fun _ => rfl
  · exact fun _ => rfl
  · exact fun _ => rfl
  · split
    · intro h
      simp [FailureOr.failed] at h
    · rename_i hnone
      have := (createContractArithOp_eq_none _ _ _ _ _ _ _).mp hnone
      rw [hk] at this
      simp at this

theorem peel_failed_same (self : ContractionOpLowering) (op : ContractionOp)
    (maskOp : Value) (rw : PatternRewriter)
    (h : (self.peel op maskOp rw).1.failed = true) : (self.peel op maskOp rw).2 = rw := by
  revert h
  unfold ContractionOpLowering.peel
  dsimp only
  split
  · exact lowerParallel_failed_same self rw op _ _ _
  · split
    · exact lowerParallel_failed_same self rw op _ _ _
    · split
      · exact lowerParallel_failed_same self rw op _ _ _
      · split_ifs <;>
          first
            | exact lowerReduction_failed_same self rw op _
            | exact fun _ => rfl

theorem embedded_failed_same (self : ContractionOpLowering) (op : ContractionOp)
    (maskOp : Value) (rw : PatternRewriter) (hk : op.kind = .ADD)
    (hty : (op.indexingMaps.getD 2 ⟨0, []⟩).getNumResults ≠ 0 →
      op.acc.getType.isVector = true ∧ op.resultType.isVector = true)
    (h : (self.embedded op maskOp rw).1.failed = true) :
    (ContractionOpToOuterProductOpLowering.new self.vectorContractLoweringOption
        defaultFilter).matchAndRewriteMaskableOp op maskOp rw = (.failure, rw) ∧
    (ContractionOpToDotLowering.new self.vectorContractLoweringOption
        defaultFilter).matchAndRewriteMaskableOp op maskOp rw = (.failure, rw) ∧
    (ContractOpToElementwise.new self.vectorContractLoweringOption
        defaultFilter).matchAndRewriteMaskableOp op maskOp rw = (.failure, rw) ∧
    self.embedded op maskOp rw = (.failure, rw) := by
  have key : ∀ (r : FailureOr Value × PatternRewriter), r.1.failed = true → r.2 = rw →
      r = (.failure, rw) := by
    rintro ⟨a, b⟩ h1 h2
    simp only at h1 h2
    rw [(failed_of_failure a).mp h1, h2]
  have notfailed : ∀ (r : FailureOr Value), ¬ r.failed = true → (!r.failed) = true := by
    intro r hr
    simpa using hr
  have ff : (FailureOr.failure : FailureOr Value).failed = true := rfl
  unfold ContractionOpLowering.embedded at h ⊢
  dsimp only at h ⊢
  by_cases h1 : ((ContractionOpToOuterProductOpLowering.new self.vectorContractLoweringOption
      defaultFilter).matchAndRewriteMaskableOp op maskOp rw).1.failed = true
  · have e1 := key _ h1 (outerProduct_failed_same _ op maskOp rw
      (fun hp => (hty (outerProductLayout_accMap op hp)).1) h1)
    rw [e1] at h ⊢
    simp only [ff, Bool.not_true, Bool.false_eq_true, if_false] at h ⊢
    by_cases h2 : ((ContractionOpToDotLowering.new self.vectorContractLoweringOption
        defaultFilter).matchAndRewriteMaskableOp op maskOp rw).1.failed = true
    · have e2 := key _ h2 (dot_failed_same _ op maskOp rw (fun hn => (hty hn).2) h2)
      rw [e2] at h ⊢
      simp only [ff, Bool.not_true, Bool.false_eq_true, if_false] at h ⊢
      by_cases h3 : ((ContractOpToElementwise.new self.vectorContractLoweringOption
          defaultFilter).matchAndRewriteMaskableOp op maskOp rw).1.failed = true
      · have e3 := key _ h3 (elementwise_failed_same _ op maskOp rw hk h3)
        rw [e3]
        simp [ff]
      · rw [if_pos (notfailed _ h3)] at h
        exact absurd h h3
    · rw [if_pos (notfailed _ h2)] at h
      exact absurd h h2
  · rw [if_pos (notfailed _ h1)] at h
    exact absurd h h1

theorem matchAndRewrite_failed_same (self : ContractionOpLowering) (op : ContractionOp)
    (maskOp : Value) (rw : PatternRewriter)
    (hty : (op.indexingMaps.getD 2 ⟨0, []⟩).getNumResults ≠ 0 →
      op.acc.getType.isVector = true ∧ op.resultType.isVector = true)
    (h : (self.matchAndRewriteMaskableOp op maskOp rw).1.failed = true) :
    (self.matchAndRewriteMaskableOp op maskOp rw).2 = rw := by
  revert h
  unfold ContractionOpLowering.matchAndRewriteMaskableOp
  split_ifs with h1 h2 h3
  · exact fun _ => rfl
  · exact fun _ => rfl
  · exact fun _ => rfl
  · have hk : op.kind = .ADD := not_not.mp h3
    dsimp only
    by_cases he : (self.embedded op maskOp rw).1.failed = true
    · have e := (embedded_failed_same self op maskOp rw hk hty he).2.2.2
      rw [e]
      have ff : (FailureOr.failure : FailureOr Value).failed = true := rfl
      simp only [ff, Bool.not_true, Bool.false_eq_true, if_false]
      exact peel_failed_same self op maskOp rw
    · have : (!(self.embedded op maskOp rw).1.failed) = true := by simpa using he
      rw [if_pos this]
      intro h
      exact absurd h he

theorem matchAndRewrite_failed_attempts (self : ContractionOpLowering) (op : ContractionOp)
    (maskOp : Value) (rw : PatternRewriter)
    (hf : self.filter op = .success)
    (hl : some op.getLhsType.elementType = op.getAccType.elementType?)
    (hr : some op.getRhsType.elementType = op.getAccType.elementType?)
    (hk : op.kind = .ADD)
    (h : (self.matchAndRewriteMaskableOp op maskOp rw).1.failed = true) :
    (self.embedded op maskOp rw).1.failed = true := by
  by_contra he
  cases hv : self.embedded op maskOp rw with
  | mk a rw1 =>
      cases a with
      | failure =>
          rw [hv] at he
          exact he rfl
      | success v =>
          rw [matchAndRewrite_of_embedded self op maskOp rw v rw1 hf hl hr hk hv] at h
          simp [FailureOr.failed] at h

/-- C34. For a contraction whose accumulator and result are vector-typed when the result
map has a result (as the verifier of `vector.contract` ensures): whenever
`ContractionOpLowering::matchAndRewriteMaskableOp` returns failure, the rewriter holds
the operations it held before, and when the three guards had passed each embedded
attempt (outer-product, dot, elementwise) and the peeling returned failure leaving the
rewriter as it was; `lowerParallel` and `lowerReduction` create nothing when they fail;
a contraction with one of the sixteen layouts and a non-scalable reduction axis is
rewritten by the outer-product attempt whether or not it is masked, so the failure
branch of `outerProd` is never taken; and with kind `ADD` the elementwise attempt
creates nothing when it fails. -/
theorem contractionOpLowering_atomic_decline (self : ContractionOpLowering)
    (op : ContractionOp) (maskOp : Value) (rw : PatternRewriter)
    (hty : (op.indexingMaps.getD 2 ⟨0, []⟩).getNumResults ≠ 0 →
      op.acc.getType.isVector = true ∧ op.resultType.isVector = true) :
    ((self.matchAndRewriteMaskableOp op maskOp rw).1.failed = true →
      (self.matchAndRewriteMaskableOp op maskOp rw).2 = rw ∧
      (self.filter op = .success →
        some op.getLhsType.elementType = op.getAccType.elementType? →
        some op.getRhsType.elementType = op.getAccType.elementType? →
        op.kind = .ADD →
        (ContractionOpToOuterProductOpLowering.new self.vectorContractLoweringOption
          defaultFilter).matchAndRewriteMaskableOp op maskOp rw = (.failure, rw) ∧
        (ContractionOpToDotLowering.new self.vectorContractLoweringOption
          defaultFilter).matchAndRewriteMaskableOp op maskOp rw = (.failure, rw) ∧
        (ContractOpToElementwise.new self.vectorContractLoweringOption
          defaultFilter).matchAndRewriteMaskableOp op maskOp rw = (.failure, rw) ∧
        self.peel op maskOp rw = (.failure, rw))) ∧
    (∀ (lhsIndex rhsIndex : Option Nat) (mask : Value) (rw1 : PatternRewriter),
      (self.lowerParallel rw1 op lhsIndex rhsIndex mask).1.failed = true →
      (self.lowerParallel rw1 op lhsIndex rhsIndex mask).2 = rw1) ∧
    (∀ (mask : Value) (rw1 : PatternRewriter),
      (self.lowerReduction rw1 op mask).1.failed = true →
      (self.lowerReduction rw1 op mask).2 = rw1) ∧
    (∀ (pat : ContractionOpToOuterProductOpLowering) (rw1 : PatternRewriter),
      pat.vectorContractLowering = .OuterProduct → pat.filter op = .success →
      op.HasOuterProductLayout → op.reductionAxisScalable = false →
      (pat.matchAndRewriteMaskableOp op maskOp rw1).1.succeeded = true) ∧
    (op.kind = .ADD → ∀ (pat : ContractOpToElementwise) (rw1 : PatternRewriter),
      (pat.matchAndRewriteMaskableOp op maskOp rw1).1.failed = true →
      (pat.matchAndRewriteMaskableOp op maskOp rw1).2 = rw1) := by
  refine ⟨fun h => ⟨matchAndRewrite_failed_same self op maskOp rw hty h,
      fun hf hl hr hk => ?_⟩,
    fun l r mask rw1 h => lowerParallel_failed_same self rw1 op l r mask h,
    fun mask rw1 h => lowerReduction_failed_same self rw1 op mask h,
    fun pat rw1 hs hf hpat hsc =>
      ((matchAndRewrite_succeeds_iff pat op maskOp rw1
        (fun hp => (hty (outerProductLayout_accMap op hp)).1)).1).mpr ⟨hs, hf, hpat, hsc⟩,
    fun hk pat rw1 h => elementwise_failed_same pat op maskOp rw1 hk h⟩
  have he := matchAndRewrite_failed_attempts self op maskOp rw hf hl hr hk h
  obtain ⟨e1, e2, e3, e4⟩ := embedded_failed_same self op maskOp rw hk hty he
  refine ⟨e1, e2, e3, ?_⟩
  have hp := matchAndRewrite_peel self op maskOp rw hf hl hr hk he
  rw [e4] at hp
  have hfl : (self.peel op maskOp rw).1.failed = true := by
    rw [← hp]
    exact h
  have hsame := peel_failed_same self op maskOp rw hfl
  cases hv : self.peel op maskOp rw with
  | mk a rw1 =>
      rw [hv] at hfl hsame
      simp only at hfl hsame
      rw [(failed_of_failure a).mp hfl, hsame]

/-- Instance of C34: under strategy `ParallelArith` the matrix-vector product with a
scalable row axis passes the guards, is declined by every attempt and by the peeling,
and the rewriter stays empty. -/
theorem contractionOpLowering_atomic_decline_witness :
    ((ContractionOpLowering.new .ParallelArith defaultFilter).matchAndRewriteMaskableOp
        sampleScalableRows .null ⟨[]⟩).1.failed = true ∧
    ((ContractionOpLowering.new .ParallelArith defaultFilter).matchAndRewriteMaskableOp
        sampleScalableRows .null ⟨[]⟩).2 = ⟨[]⟩ ∧
    (ContractionOpLowering.new .ParallelArith defaultFilter).peel sampleScalableRows .null
        ⟨[]⟩ = (.failure, ⟨[]⟩) :=
  ⟨by decide,
    ((contractionOpLowering_atomic_decline (ContractionOpLowering.new .ParallelArith
      defaultFilter) sampleScalableRows .null ⟨[]⟩ (fun _ => ⟨rfl, rfl⟩)).1 (by decide)).1,
    (((contractionOpLowering_atomic_decline (ContractionOpLowering.new .ParallelArith
      defaultFilter) sampleScalableRows .null ⟨[]⟩ (fun _ => ⟨rfl, rfl⟩)).1 (by decide)).2
      rfl rfl rfl rfl).2.2.2⟩

/-! ## Decline of `OuterProductOpLowering` -/

theorem outerProductOp_scalable_decline (op : OuterProductOp) (rw : PatternRewriter)
    (h : 2 ≤ op.resultType.shape.length ∧ op.resultType.allDimsScalable = true) :
    OuterProductOpLowering.matchAndRewrite op rw = (.failure, rw) := by
  unfold OuterProductOpLowering.matchAndRewrite
  dsimp only
  rw [if_pos]
  rw [Bool.and_eq_true, decide_eq_true_iff]
  exact h

theorem outerProductOp_scalable_decline_sample :
    OuterProductOpLowering.matchAndRewrite sampleOuterProductScalable ⟨[]⟩ =
      (.failure, ⟨[]⟩) :=
  outerProductOp_scalable_decline sampleOuterProductScalable ⟨[]⟩ (by decide)

/-- C35. Evaluation of `OuterProductOpLowering::matchAndRewrite` where it declines for
the combining kind: on the `i8` outer product of kind `MAXNUMF` it returns failure
after it has created the zero constant, the extract of `lhs[0]`, its broadcast and the
extract of `acc[0]`; on the AXPY form it returns failure after it has created the
broadcast of the scalar. The rewriter is not the one it was given. -/
theorem outerProductOp_decline_leaves_ops :
    (OuterProductOpLowering.matchAndRewrite sampleOuterProductFloatKind ⟨[]⟩).1 = .failure ∧
    (OuterProductOpLowering.matchAndRewrite sampleOuterProductFloatKind ⟨[]⟩).2.ops =
      [.constantZero (i8Matrix 3 2),
       .extract (.arg 0 (i8Vector 3)) [0],
       .broadcast ⟨[2], [false], .integer 8⟩ (.extract (.arg 0 (i8Vector 3)) [0]),
       .extract (.arg 2 (i8Matrix 3 2)) [0]] ∧
    (OuterProductOpLowering.matchAndRewrite sampleAxpyFloatKind ⟨[]⟩).1 = .failure ∧
    (OuterProductOpLowering.matchAndRewrite sampleAxpyFloatKind ⟨[]⟩).2.ops =
      [.broadcast ⟨[2], [false], .integer 8⟩ (.arg 1 (.scalar (.integer 8)))] := by
  decide

/-! ## Mask orientation in the outer-product pattern -/

theorem maskSlice_labels_table :
    ∀ e ∈ outerProductTable,
      (e.resultLabels ≠ [1, 0] → e.maskSliceLabels = e.resultLabels) ∧
      (e.resultLabels = [1, 0] → e.maskSliceLabels = [0, 1]) := by
  decide

theorem maskSlice_shape_matmat :
    ((sampleOuterProductPattern.matchAndRewriteMaskableOp sampleMaskedMatmat
        (.arg 3 (maskCube 2 3 4)) ⟨[]⟩).2.ops.filterMap Value.maskShapes?) =
      List.replicate 4 ([2, 3], [2, 3]) := by
  decide

/-- C36. Evaluation of the outer-product pattern on a masked `2x4` by `4x3` multiply with
transposed result `(n, m)` of type `vector<3x2xi8>` and a mask `vector<2x3x4xi1>` in
iteration order `(m, n, k)`: the pattern succeeds and each of its four masking wrappers
pairs a mask slice of shape `[2, 3]`, axes `(m, n)`, with an outer product of shape
`[3, 2]`, axes `(n, m)`. -/
theorem maskSlice_shape_transposed :
    (sampleOuterProductPattern.matchAndRewriteMaskableOp sampleMaskedSwappedMatmat
        (.arg 3 (maskCube 2 3 4)) ⟨[]⟩).1.succeeded = true ∧
    ((sampleOuterProductPattern.matchAndRewriteMaskableOp sampleMaskedSwappedMatmat
        (.arg 3 (maskCube 2 3 4)) ⟨[]⟩).2.ops.filterMap Value.maskShapes?) =
      List.replicate 4 ([2, 3], [3, 2]) := by
  decide

/-! ## Integer or floating arithmetic per element type -/

theorem integer_element_selection :
    createdArith (sampleDotPattern.matchAndRewriteMaskableOp (matvecOf (.integer 8)) .null
      ⟨[]⟩).2 = [.muli, .muli, .addi] ∧
    createdArith (samplePeelingPattern.lowerReduction ⟨[]⟩ (dotProductOf (.integer 8))
      .null).2 = [.muli] ∧
    createdArith (sampleElementwisePattern.matchAndRewriteMaskableOp
      (unitReductionOf (.integer 8)) .null ⟨[]⟩).2 = [.muli, .addi] ∧
    createdArith (OuterProductOpLowering.matchAndRewrite (outerProductOf (.integer 8))
      ⟨[]⟩).2 = [.muli, .addi, .muli, .addi, .muli, .addi] := by
  decide

theorem float_element_selection :
    createdArith (sampleDotPattern.matchAndRewriteMaskableOp (matvecOf (.float 32)) .null
      ⟨[]⟩).2 = [.mulf, .mulf, .addf] ∧
    createdArith (samplePeelingPattern.lowerReduction ⟨[]⟩ (dotProductOf (.float 32))
      .null).2 = [.mulf] ∧
    createdArith (sampleElementwisePattern.matchAndRewriteMaskableOp
      (unitReductionOf (.float 32)) .null ⟨[]⟩).2 = [] ∧
    createdFma (sampleElementwisePattern.matchAndRewriteMaskableOp
      (unitReductionOf (.float 32)) .null ⟨[]⟩).2 = 1 ∧
    createdArith (OuterProductOpLowering.matchAndRewrite (outerProductOf (.float 32))
      ⟨[]⟩).2 = [] ∧
    createdFma (OuterProductOpLowering.matchAndRewrite (outerProductOf (.float 32))
      ⟨[]⟩).2 = 3 := by
  decide

/-- C40. Evaluation at element type `index`: the dot lowering creates `arith.mulf` and
`arith.addf` for the matrix-vector product, the generic pattern under strategy `Dot`
reaches the rank-1 case of `lowerReduction`, which creates `arith.mulf` for the dot
product, while the elementwise pattern and `OuterProductOpLowering` create `arith.muli`
and `arith.addi`. -/
theorem index_element_selection :
    createdArith (sampleDotPattern.matchAndRewriteMaskableOp (matvecOf .index) .null
      ⟨[]⟩).2 = [.mulf, .mulf, .addf] ∧
    createdArith (samplePeelingPattern.matchAndRewriteMaskableOp (dotProductOf .index) .null
      ⟨[]⟩).2 = [.mulf] ∧
    createdArith (samplePeelingPattern.lowerReduction ⟨[]⟩ (dotProductOf .index)
      .null).2 = [.mulf] ∧
    createdArith (sampleElementwisePattern.matchAndRewriteMaskableOp
      (unitReductionOf .index) .null ⟨[]⟩).2 = [.muli, .addi] ∧
    createdArith (OuterProductOpLowering.matchAndRewrite (outerProductOf .index)
      ⟨[]⟩).2 = [.muli, .addi, .muli, .addi, .muli, .addi] := by
  decide

/-! ## The dot classifier and the outer-product classifier -/

/-- Why the comparison of the classifiers is stated for maps with as many domain labels
as there are iterator kinds: on the maps of the row-major matrix multiply paired with
four iterator kinds (parallel, parallel, reduction, parallel), which no contraction
has, the layout chain of the dot lowering matches (it reads positions 0, 1 and 2 only),
while no branch of `matmat` or `matvec` matches and both return failure. -/
theorem dot_prefix_test_sample :
    (normalize sampleFourIterators ⟨[]⟩).1.isSome = true ∧
    (¬ ∃ e ∈ outerProductTable.take 12,
      (UnrolledOuterProductGenerator.new sampleFourIterators).iters e.iters = true ∧
      (UnrolledOuterProductGenerator.new sampleFourIterators).layout e.layout = true) ∧
    (UnrolledOuterProductGenerator.new sampleFourIterators).matmat ⟨[]⟩ = (.failure, ⟨[]⟩) ∧
    (UnrolledOuterProductGenerator.new sampleFourIterators).matvec ⟨[]⟩ = (.failure, ⟨[]⟩) := by
  decide

end LowerVectorContract
